import Mathlib

/-!
The adbus message codec: `adbus_parse_size` and `adbus_parse` (src/adbus/parse.c)

A shallow embedding of the message framing code of `src/adbus/parse.c`.

* A buffer is a `List Nat`; every read takes the stored value modulo 256, so
  each cell behaves as a `uint8_t`.
* A pointer into the message buffer is the offset from `data`; a pointer
  that may be `NULL` is an `Option Nat`.
* `size_t` is taken to be 64 bits wide, sums of `size_t` values are reduced
  modulo `2 ^ 64`.
* A C function that returns `0` or `-1` and may loop is a function into
  `Res`: `Res.ok` is the return value `0`, `Res.fail` the return value `-1`,
  and `Res.diverge` says that the fuel of the model ran out before the
  function returned.
-/

namespace Adbus

/-! ## Buffers and machine words -/

/-- The byte stored at offset `off` of the buffer (a `uint8_t`). -/
def byteAt (data : List Nat) (off : Nat) : Nat :=
  data.getD off 0 % 256

/-- The width of `size_t`: sums of sizes are taken modulo this number. -/
def SIZE_MOD : Nat := 2 ^ 64

/-- Modelled from the spec: the struct `adbusI_Header` is declared in `misc.h`, which is
not among the sources. The spec gives the fixed header as `endianness:u8`,
`type:u8`, `flags:u8`, `protocol:u8`, `body_length:u32`, `serial:u32`, which is
12 bytes; `adbus_parse` starts the `a(yv)` iterator at this offset. -/
def sizeof_adbusI_Header : Nat := 12

/-- Modelled from the spec: the struct `adbusI_ExtendedHeader` is declared in `misc.h`,
which is not among the sources. It is the fixed header followed by the
32-bit `headerFieldLength`; the spec has `size_of` require at least 16 bytes. -/
def sizeof_adbusI_ExtendedHeader : Nat := 16

/-- Modelled from the spec: the header structs are not among the sources. Offset of the field `length` (the body length) in the header structs. -/
def offsetof_length : Nat := 4

/-- Modelled from the spec: the header structs are not among the sources. Offset of the field `serial` in the header structs. -/
def offsetof_serial : Nat := 8

/-- Modelled from the spec: the header structs are not among the sources. Offset of the field `headerFieldLength` in `adbusI_ExtendedHeader`. -/
def offsetof_headerFieldLength : Nat := 12

/-- Modelled from the spec: the macro `ADBUSI_ALIGN` is defined in `misc.h`, which is not
among the sources. It rounds `x` up to the next multiple of `b` (the spec
writes `align8` and "padded to 8 bytes"). -/
def ADBUSI_ALIGN (x b : Nat) : Nat :=
  (x + (b - 1)) / b * b

/-- The function `Get32` of parse.c, lines 187-201: the 32-bit word stored at `off`, read
byte by byte in the byte order named by `endianness` (`'l'` is 108). -/
def Get32 (endianness : Nat) (data : List Nat) (off : Nat) : Nat :=
  if endianness = 108 then
    byteAt data off
      ||| (byteAt data (off + 1) <<< 8)
      ||| (byteAt data (off + 2) <<< 16)
      ||| (byteAt data (off + 3) <<< 24)
  else
    byteAt data (off + 3)
      ||| (byteAt data (off + 2) <<< 8)
      ||| (byteAt data (off + 1) <<< 16)
      ||| (byteAt data off <<< 24)

/-- The function `adbus_parse_size` of parse.c, lines 213-221. `size` is the number of
bytes at hand; the result `0` says that the size cannot be told yet. -/
def adbus_parse_size (data : List Nat) (size : Nat) : Nat :=
  if size < sizeof_adbusI_ExtendedHeader then 0
  else
    let hsize := (sizeof_adbusI_Header
      + Get32 (byteAt data 0) data offsetof_headerFieldLength) % SIZE_MOD
    (ADBUSI_ALIGN hsize 8 + Get32 (byteAt data 0) data offsetof_length) % SIZE_MOD

/-! ## Outcomes -/

/-- Outcome of a C function that returns `0` or `-1` and may loop. -/
inductive Res (α : Type) where
  | ok : α → Res α
  | fail : Res α
  | diverge : Res α
deriving DecidableEq, Repr

/-- A helper without loops, which returns `none` for `-1`, seen as a `Res`. -/
def Res.ofOption {α : Type} : Option α → Res α
  | some a => Res.ok a
  | none => Res.fail

/-- The `int` the C function returned, when it returned. -/
def Res.ret {α : Type} : Res α → Option Int
  | Res.ok _ => some 0
  | Res.fail => some (-1)
  | Res.diverge => none

/-! ## The message structure -/

/-- The struct `adbus_Argument`, one entry of the argument vector of a message
(parse.c, lines 416-424): the string it points to, if it is a string, and
its length. -/
structure adbus_Argument where
  value : Option Nat
  size : Nat
deriving DecidableEq, Repr

/-- The struct `adbus_Message`, as documented in parse.c, lines 30-182. Pointers into the
message buffer are offsets from `data`; `none` is `NULL`. -/
structure adbus_Message where
  data : Option Nat
  size : Nat
  argdata : Option Nat
  argsize : Nat
  type : Nat
  flags : Nat
  serial : Nat
  signature : Option Nat
  signatureSize : Nat
  replySerial : Option Nat
  path : Option Nat
  pathSize : Nat
  interface : Option Nat
  interfaceSize : Nat
  member : Option Nat
  memberSize : Nat
  error : Option Nat
  errorSize : Nat
  destination : Option Nat
  destinationSize : Nat
  sender : Option Nat
  senderSize : Nat
  arguments : Option (List adbus_Argument)
  argumentsSize : Nat
deriving DecidableEq, Repr

/-- The message after `memset(m, 0, sizeof(adbus_Message))`. -/
def adbus_Message.zero : adbus_Message :=
  { data := none, size := 0, argdata := none, argsize := 0, type := 0,
    flags := 0, serial := 0, signature := none, signatureSize := 0,
    replySerial := none, path := none, pathSize := 0, interface := none,
    interfaceSize := 0, member := none, memberSize := 0, error := none,
    errorSize := 0, destination := none, destinationSize := 0,
    sender := none, senderSize := 0, arguments := none, argumentsSize := 0 }

/-! Message types and header field codes. The enums are declared in headers
that are not among the sources; the values are those of the spec (data model
and wire format). -/

/-- Modelled from the spec: the enum is not among the sources. Message type `Invalid`. -/
def ADBUS_MSG_INVALID : Nat := 0
/-- Modelled from the spec: the enum is not among the sources. Message type `MethodCall`. -/
def ADBUS_MSG_METHOD : Nat := 1
/-- Modelled from the spec: the enum is not among the sources. Message type `MethodReturn`. -/
def ADBUS_MSG_RETURN : Nat := 2
/-- Modelled from the spec: the enum is not among the sources. Message type `Error`. -/
def ADBUS_MSG_ERROR : Nat := 3
/-- Modelled from the spec: the enum is not among the sources. Message type `Signal`. -/
def ADBUS_MSG_SIGNAL : Nat := 4

/-- Modelled from the spec: the enum is not among the sources. Header field code 0. -/
def HEADER_INVALID : Nat := 0
/-- Modelled from the spec: the enum is not among the sources. Header field code 1, the object path (`o`). -/
def HEADER_OBJECT_PATH : Nat := 1
/-- Modelled from the spec: the enum is not among the sources. Header field code 2, the interface (`s`). -/
def HEADER_INTERFACE : Nat := 2
/-- Modelled from the spec: the enum is not among the sources. Header field code 3, the member (`s`). -/
def HEADER_MEMBER : Nat := 3
/-- Modelled from the spec: the enum is not among the sources. Header field code 4, the error name (`s`). -/
def HEADER_ERROR_NAME : Nat := 4
/-- Modelled from the spec: the enum is not among the sources. Header field code 5, the reply serial (`u`). -/
def HEADER_REPLY_SERIAL : Nat := 5
/-- Modelled from the spec: the enum is not among the sources. Header field code 6, the destination (`s`). -/
def HEADER_DESTINATION : Nat := 6
/-- Modelled from the spec: the enum is not among the sources. Header field code 7, the sender (`s`). -/
def HEADER_SENDER : Nat := 7
/-- Modelled from the spec: the enum is not among the sources. Header field code 8, the signature (`g`). -/
def HEADER_SIGNATURE : Nat := 8

/-! ## The iterator

The iterator functions (`adbus_iter_*`) are declared in `adbus.h`, which is
not among the sources. They are modelled from section 4.1 and section 6 of
the spec. A signature is the list of its characters, without the
terminating nul: `y`=121 `b`=98 `n`=110 `q`=113 `i`=105 `u`=117 `x`=120
`t`=116 `d`=100 `s`=115 `o`=111 `g`=103 `a`=97 `(`=40 `)`=41 `v`=118
`{`=123 `}`=125 `h`=104. -/

/-- The struct `adbus_Iterator`, as `adbus_parse` sets it up in lines 269-273:
byte cursor (an offset into the buffer), number of bytes left, and the
signature that is left. -/
structure adbus_Iterator where
  data : Nat
  size : Nat
  sig : List Nat
deriving DecidableEq, Repr

/-- Modelled from the spec: the struct `adbus_IterArray` is declared in `adbus.h`, which
is not among the sources. It keeps the element signature, the begin and the
byte length of the array the iterator is in. -/
structure adbus_IterArray where
  sig : List Nat
  data : Nat
  size : Nat
deriving DecidableEq, Repr

/-- Modelled from the spec: the struct `adbus_IterVariant` is declared in `adbus.h`, which
is not among the sources. It keeps the signature to come back to after the
variant. -/
structure adbus_IterVariant where
  origsig : List Nat
deriving DecidableEq, Repr

/-- Modelled from the spec: the alignment table is not among the sources. "Alignment
requirements per type (1, 2, 4, or 8 bytes relative to blob start)". -/
def adbusI_alignment (c : Nat) : Nat :=
  if c = 110 ∨ c = 113 then 2
  else if c = 98 ∨ c = 105 ∨ c = 117 ∨ c = 115 ∨ c = 111 ∨ c = 97 ∨ c = 104 then 4
  else if c = 120 ∨ c = 116 ∨ c = 100 ∨ c = 40 ∨ c = 123 then 8
  else 1

/-- Modelled from the spec: the alignment step of the iterator is not among the sources.
"Aligning the cursor to the natural alignment of the next type"; the padding
has to lie inside the blob ("unexpected end-of-blob"). -/
def adbusI_iter_align (i : adbus_Iterator) (al : Nat) : Option adbus_Iterator :=
  let pad := ADBUSI_ALIGN i.data al - i.data
  if i.size < pad then none
  else some { i with data := i.data + pad, size := i.size - pad }

/-- Modelled from the spec: the fixed-width readers are not among the sources. The next
type has to be `c`; the cursor is aligned to `width` and `width` bytes are
read in place: the result is the pointer to them. -/
def adbusI_iter_fixed (c width : Nat) (i : adbus_Iterator) :
    Option (Nat × adbus_Iterator) :=
  match i.sig with
  | [] => none
  | h :: rest =>
    if h ≠ c then none
    else
      match adbusI_iter_align i width with
      | none => none
      | some j =>
        if j.size < width then none
        else some (j.data, { data := j.data + width, size := j.size - width, sig := rest })

/-- Modelled from the spec: `adbus_iter_u8` is not among the sources. An 8-bit value. -/
def adbus_iter_u8 (i : adbus_Iterator) : Option (Nat × adbus_Iterator) :=
  adbusI_iter_fixed 121 1 i

/-- Modelled from the spec: `adbus_iter_u32` is not among the sources. A 32-bit value at
a 4-byte boundary. -/
def adbus_iter_u32 (i : adbus_Iterator) : Option (Nat × adbus_Iterator) :=
  adbusI_iter_fixed 117 4 i

/-- Modelled from the spec: the string decoder is not among the sources. "Decoding
strings as (len:u32, bytes, nul)", the length read in native order; the
failures are "unexpected end-of-blob", "length overflow" and "non-nul
terminator". The result is the pointer to the bytes and their number. -/
def adbusI_iter_lenstring (c native : Nat) (data : List Nat) (i : adbus_Iterator) :
    Option (Nat × Nat × adbus_Iterator) :=
  match i.sig with
  | [] => none
  | h :: rest =>
    if h ≠ c then none
    else
      match adbusI_iter_align i 4 with
      | none => none
      | some j =>
        if j.size < 4 then none
        else
          let len := Get32 native data j.data
          if j.size - 4 < len + 1 then none
          else if byteAt data (j.data + 4 + len) ≠ 0 then none
          else some (j.data + 4, len,
            { data := j.data + 4 + len + 1, size := j.size - 4 - (len + 1), sig := rest })

/-- Modelled from the spec: `adbus_iter_string` is not among the sources. A string (`s`). -/
def adbus_iter_string (native : Nat) (data : List Nat) (i : adbus_Iterator) :
    Option (Nat × Nat × adbus_Iterator) :=
  adbusI_iter_lenstring 115 native data i

/-- The bytes of the buffer from `off` on, `len` of them. -/
def bytesAt (data : List Nat) (off len : Nat) : List Nat :=
  ((data.drop off).take len).map (fun b => b % 256)

/-- Modelled from the spec: the object-path check is not among the sources. This is its
scan over the segments: `first` says that a segment has
just begun (the previous character was `/`). -/
def adbusI_pathSegments : Bool → List Nat → Bool
  | first, [] => !first
  | first, c :: rest =>
    if c = 47 then (!first) && adbusI_pathSegments true rest
    else if (48 ≤ c ∧ c ≤ 57) ∨ (65 ≤ c ∧ c ≤ 90) ∨ (97 ≤ c ∧ c ≤ 122) ∨ c = 95 then
      adbusI_pathSegments false rest
    else false

/-- Modelled from the spec: the object-path check is not among the sources ("object-path
shape violation"). The shape is that of the D-Bus protocol: `/` alone, or
one or more segments of letters, digits and `_`, each led by a `/`. -/
def adbusI_isValidObjectPath (p : List Nat) : Bool :=
  match p with
  | [] => false
  | c :: rest => c = 47 && (rest = [] || adbusI_pathSegments true rest)

/-- Modelled from the spec: `adbus_iter_objectpath` is not among the sources. An object
path (`o`) is a string whose bytes have the shape of an object path. -/
def adbus_iter_objectpath (native : Nat) (data : List Nat) (i : adbus_Iterator) :
    Option (Nat × Nat × adbus_Iterator) :=
  match adbusI_iter_lenstring 111 native data i with
  | none => none
  | some (p, n, j) => if adbusI_isValidObjectPath (bytesAt data p n) then some (p, n, j) else none

/-- Modelled from the spec: the signature decoder is not among the sources. "Signature
encoding: 8-bit length, ASCII, 0x00 terminator". The result is the pointer
to the characters, their number, and the cursor behind the terminator. -/
def adbusI_iter_sigstring (data : List Nat) (i : adbus_Iterator) :
    Option (Nat × Nat × adbus_Iterator) :=
  if i.size < 1 then none
  else
    let len := byteAt data i.data
    if i.size - 1 < len + 1 then none
    else if byteAt data (i.data + 1 + len) ≠ 0 then none
    else some (i.data + 1, len,
      { i with data := i.data + 1 + len + 1, size := i.size - 1 - (len + 1) })

/-- Modelled from the spec: `adbus_iter_signature` is not among the sources. A signature
value (`g`). -/
def adbus_iter_signature (data : List Nat) (i : adbus_Iterator) :
    Option (Nat × Nat × adbus_Iterator) :=
  match i.sig with
  | [] => none
  | h :: rest =>
    if h ≠ 103 then none
    else
      match adbusI_iter_sigstring data i with
      | none => none
      | some (p, n, j) => some (p, n, { j with sig := rest })

/-- The C string that begins at `off`: the bytes up to the first nul, looking
at `len` bytes at most. -/
def cstringAt (data : List Nat) (off len : Nat) : List Nat :=
  (bytesAt data off len).takeWhile (fun b => b ≠ 0)

/-- Modelled from the spec: the signature cursor is not among the sources. The signature
behind one complete type ("array element type is a single complete type",
"balanced parentheses/braces"); `depth` counts the open structs and dict
entries. -/
def adbusI_nextarg : Nat → List Nat → Option (List Nat)
  | _, [] => none
  | depth, c :: rest =>
    if c = 97 then adbusI_nextarg depth rest
    else if c = 40 ∨ c = 123 then adbusI_nextarg (depth + 1) rest
    else if c = 41 ∨ c = 125 then
      (match depth with
       | 0 => none
       | 1 => some rest
       | d + 2 => adbusI_nextarg (d + 1) rest)
    else if depth = 0 then some rest
    else adbusI_nextarg depth rest

/-- Modelled from the spec: the limit is not among the sources. The largest array the
iterator takes, 64 MiB ("oversized (> 64 MiB) body"). -/
def ADBUSI_MAXIMUM_ARRAY_LENGTH : Nat := 67108864

/-- Modelled from the spec: `adbus_iter_beginarray` is not among the sources. "Decoding
arrays as (len:u32, aligned payload of length len)"; more than 64 MiB is
"oversized", and the payload has to lie inside the blob. -/
def adbus_iter_beginarray (native : Nat) (data : List Nat) (i : adbus_Iterator) :
    Option (adbus_IterArray × adbus_Iterator) :=
  match i.sig with
  | [] => none
  | h :: rest =>
    if h ≠ 97 then none
    else
      match adbusI_iter_align i 4 with
      | none => none
      | some j =>
        if j.size < 4 then none
        else
          let len := Get32 native data j.data
          if len > ADBUSI_MAXIMUM_ARRAY_LENGTH then none
          else
            match rest with
            | [] => none
            | e :: _ =>
              match adbusI_iter_align { data := j.data + 4, size := j.size - 4, sig := rest }
                  (adbusI_alignment e) with
              | none => none
              | some k =>
                if k.size < len then none
                else some ({ sig := rest, data := k.data, size := len }, k)

/-- Modelled from the spec: `adbus_iter_inarray` is not among the sources. It tells
whether the cursor is still inside the payload of the array, and if so puts
the signature back to the element type. -/
def adbus_iter_inarray (i : adbus_Iterator) (a : adbus_IterArray) : Bool × adbus_Iterator :=
  if i.data < a.data + a.size then (true, { i with sig := a.sig })
  else (false, i)

/-- Modelled from the spec: `adbus_iter_endarray` is not among the sources. The elements
have to fill the payload exactly; the signature goes on behind the element
type. -/
def adbus_iter_endarray (i : adbus_Iterator) (a : adbus_IterArray) : Option adbus_Iterator :=
  if i.data ≠ a.data + a.size then none
  else
    match adbusI_nextarg 0 a.sig with
    | none => none
    | some rest => some { i with sig := rest }

/-- Modelled from the spec: `adbus_iter_beginstruct` is not among the sources. A struct
begins at an 8-byte boundary. -/
def adbus_iter_beginstruct (i : adbus_Iterator) : Option adbus_Iterator :=
  match i.sig with
  | [] => none
  | h :: rest =>
    if h ≠ 40 then none
    else
      match adbusI_iter_align i 8 with
      | none => none
      | some j => some { j with sig := rest }

/-- Modelled from the spec: `adbus_iter_endstruct` is not among the sources. The
signature has to stand at the closing parenthesis. -/
def adbus_iter_endstruct (i : adbus_Iterator) : Option adbus_Iterator :=
  match i.sig with
  | [] => none
  | h :: rest => if h ≠ 41 then none else some { i with sig := rest }

/-- Modelled from the spec: `adbus_iter_beginvariant` is not among the sources. A variant
carries its own signature (8-bit length, characters, nul), which becomes
the signature of the iterator until the variant ends. -/
def adbus_iter_beginvariant (data : List Nat) (i : adbus_Iterator) :
    Option (adbus_IterVariant × adbus_Iterator) :=
  match i.sig with
  | [] => none
  | h :: _ =>
    if h ≠ 118 then none
    else
      match adbusI_iter_sigstring data i with
      | none => none
      | some (p, n, j) => some ({ origsig := i.sig }, { j with sig := cstringAt data p n })

/-- Modelled from the spec: `adbus_iter_endvariant` is not among the sources. The inner
signature has to be used up (a variant holds one complete type); the
signature goes on behind the `v`. -/
def adbus_iter_endvariant (i : adbus_Iterator) (v : adbus_IterVariant) : Option adbus_Iterator :=
  match i.sig with
  | [] => some { i with sig := v.origsig.tail }
  | _ :: _ => none

mutual
/-- Modelled from the spec: `adbus_iter_value` is not among the sources. It steps over
one complete value of the type the signature stands at ("advancing an
element is signature-driven"): fixed-width values by width, strings, object
paths and signatures by their length, an array by the length of its
payload, a struct field by field, a variant by the signature it carries. -/
def adbus_iter_value : Nat → Nat → List Nat → adbus_Iterator → Res adbus_Iterator
  | 0, _, _, _ => Res.diverge
  | fuel + 1, native, data, i =>
    let c := i.sig.headD 0
    if c = 121 then Res.ofOption ((adbusI_iter_fixed 121 1 i).map Prod.snd)
    else if c = 98 then Res.ofOption ((adbusI_iter_fixed 98 4 i).map Prod.snd)
    else if c = 110 then Res.ofOption ((adbusI_iter_fixed 110 2 i).map Prod.snd)
    else if c = 113 then Res.ofOption ((adbusI_iter_fixed 113 2 i).map Prod.snd)
    else if c = 105 then Res.ofOption ((adbusI_iter_fixed 105 4 i).map Prod.snd)
    else if c = 117 then Res.ofOption ((adbusI_iter_fixed 117 4 i).map Prod.snd)
    else if c = 104 then Res.ofOption ((adbusI_iter_fixed 104 4 i).map Prod.snd)
    else if c = 120 then Res.ofOption ((adbusI_iter_fixed 120 8 i).map Prod.snd)
    else if c = 116 then Res.ofOption ((adbusI_iter_fixed 116 8 i).map Prod.snd)
    else if c = 100 then Res.ofOption ((adbusI_iter_fixed 100 8 i).map Prod.snd)
    else if c = 115 then
      Res.ofOption ((adbus_iter_string native data i).map (fun r => r.2.2))
    else if c = 111 then
      Res.ofOption ((adbus_iter_objectpath native data i).map (fun r => r.2.2))
    else if c = 103 then
      Res.ofOption ((adbus_iter_signature data i).map (fun r => r.2.2))
    else if c = 97 then
      match adbus_iter_beginarray native data i with
      | none => Res.fail
      | some (a, j) =>
        Res.ofOption
          (adbus_iter_endarray { j with data := j.data + a.size, size := j.size - a.size } a)
    else if c = 40 then
      match adbus_iter_beginstruct i with
      | none => Res.fail
      | some j => adbusI_iter_fields fuel native data j
    else if c = 118 then
      match adbus_iter_beginvariant data i with
      | none => Res.fail
      | some (v, j) =>
        match adbus_iter_value fuel native data j with
        | Res.ok k => Res.ofOption (adbus_iter_endvariant k v)
        | Res.fail => Res.fail
        | Res.diverge => Res.diverge
    else Res.fail
/-- Modelled from the spec: the struct walk of `adbus_iter_value` is not among the
sources: the fields of a struct, one value after the other, up to and with
the closing parenthesis. -/
def adbusI_iter_fields : Nat → Nat → List Nat → adbus_Iterator → Res adbus_Iterator
  | 0, _, _, _ => Res.diverge
  | fuel + 1, native, data, i =>
    if i.sig.headD 0 = 41 then Res.ofOption (adbus_iter_endstruct i)
    else
      match adbus_iter_value fuel native data i with
      | Res.ok j => adbusI_iter_fields fuel native data j
      | Res.fail => Res.fail
      | Res.diverge => Res.diverge
end

/-- Fuel with which `adbus_iter_value` returns on every input (see
`adbus_iter_value_returns`). -/
def valueFuel (i : adbus_Iterator) : Nat :=
  2 * (256 * i.size + i.sig.length) + 1

/-! ## `adbus_parse` -/

/-- The `string:` label of the switch in `adbus_parse`, lines 318-325: the
variant has to hold exactly one string, which is read in place. `store`
stands for the two pointers `pstr` and `psize` into the message: it is the
message with the pointer and the length of the string written through them. -/
def parseStringField (native : Nat) (data : List Nat) (i : adbus_Iterator)
    (store : Nat → Nat → adbus_Message) : Res (adbus_Iterator × adbus_Message) :=
  if i.sig.getD 0 0 ≠ 115 ∨ i.sig.getD 1 0 ≠ 0 then Res.fail
  else
    match adbus_iter_string native data i with
    | none => Res.fail
    | some (p, n, j) => Res.ok (j, store p n)

/-- The switch on the field code in the loop of `adbus_parse`, lines 289-359.
`code` is the value of the code byte, `i` the iterator inside the variant. -/
def parseFieldValue (native : Nat) (data : List Nat) (code : Nat) (i : adbus_Iterator)
    (m : adbus_Message) : Res (adbus_Iterator × adbus_Message) :=
  if code = HEADER_INVALID then Res.fail
  else if code = HEADER_INTERFACE then
    parseStringField native data i (fun p n => { m with interface := some p, interfaceSize := n })
  else if code = HEADER_MEMBER then
    parseStringField native data i (fun p n => { m with member := some p, memberSize := n })
  else if code = HEADER_ERROR_NAME then
    parseStringField native data i (fun p n => { m with error := some p, errorSize := n })
  else if code = HEADER_DESTINATION then
    parseStringField native data i
      (fun p n => { m with destination := some p, destinationSize := n })
  else if code = HEADER_SENDER then
    parseStringField native data i (fun p n => { m with sender := some p, senderSize := n })
  else if code = HEADER_OBJECT_PATH then
    if i.sig.getD 0 0 ≠ 111 ∨ i.sig.getD 1 0 ≠ 0 then Res.fail
    else
      match adbus_iter_objectpath native data i with
      | none => Res.fail
      | some (p, n, j) => Res.ok (j, { m with path := some p, pathSize := n })
  else if code = HEADER_SIGNATURE then
    if i.sig.getD 0 0 ≠ 103 ∨ i.sig.getD 1 0 ≠ 0 then Res.fail
    else
      match adbus_iter_signature data i with
      | none => Res.fail
      | some (p, _, j) => Res.ok (j, { m with signature := some p })
  else if code = HEADER_REPLY_SERIAL then
    if i.sig.getD 0 0 ≠ 117 ∨ i.sig.getD 1 0 ≠ 0 then Res.fail
    else
      match adbus_iter_u32 i with
      | none => Res.fail
      | some (p, j) => Res.ok (j, { m with replySerial := some p })
  else
    match adbus_iter_value (valueFuel i) native data i with
    | Res.ok j => Res.ok (j, m)
    | Res.fail => Res.fail
    | Res.diverge => Res.diverge

/-- One turn of the loop of `adbus_parse`, lines 279-362: a struct of a code
byte and a variant. -/
def parseField (native : Nat) (data : List Nat) (i : adbus_Iterator) (m : adbus_Message) :
    Res (adbus_Iterator × adbus_Message) :=
  match adbus_iter_beginstruct i with
  | none => Res.fail
  | some i1 =>
    match adbus_iter_u8 i1 with
    | none => Res.fail
    | some (code, i2) =>
      match adbus_iter_beginvariant data i2 with
      | none => Res.fail
      | some (v, i3) =>
        match parseFieldValue native data (byteAt data code) i3 m with
        | Res.ok (i4, m1) =>
          (match adbus_iter_endvariant i4 v with
           | none => Res.fail
           | some i5 =>
             match adbus_iter_endstruct i5 with
             | none => Res.fail
             | some i6 => Res.ok (i6, m1))
        | Res.fail => Res.fail
        | Res.diverge => Res.diverge

/-- The loop `while (adbus_iter_inarray(&i, &a))` of `adbus_parse`, lines
278-364. The first argument is the fuel of the model, one unit for every turn
of the loop; every turn moves the cursor forward by a byte or more, so that
the `size + 1` units that `adbus_parse` gives it are never used up (see
`readFields_returns` and `adbus_parse_returns`). -/
def parseFields : Nat → Nat → List Nat → adbus_IterArray → adbus_Iterator → adbus_Message →
    Res (adbus_Iterator × adbus_Message)
  | 0, _, _, _, _, _ => Res.diverge
  | fuel + 1, native, data, a, i, m =>
    match adbus_iter_inarray i a with
    | (false, i0) => Res.ok (i0, m)
    | (true, i0) =>
      match parseField native data i0 m with
      | Res.ok (i1, m1) => parseFields fuel native data a i1 m1
      | Res.fail => Res.fail
      | Res.diverge => Res.diverge

/-- The check of the required fields in `adbus_parse`, lines 369-380: `true`
when the function returns `-1` there. -/
def missingRequiredFields (m : adbus_Message) : Bool :=
  if m.type = ADBUS_MSG_METHOD ∧ (m.path = none ∨ m.member = none) then true
  else if m.type = ADBUS_MSG_RETURN ∧ m.replySerial = none then true
  else if m.type = ADBUS_MSG_ERROR ∧ m.error = none then true
  else if m.type = ADBUS_MSG_SIGNAL ∧ (m.interface = none ∨ m.member = none) then true
  else if m.argsize > 0 ∧ m.signature = none then true
  else false

/-- The message as `adbus_parse` fills it out from the fixed header, lines
260-267. The fields of the header are read in native order. -/
def headerMessage (native : Nat) (data : List Nat) : adbus_Message :=
  let size := (ADBUSI_ALIGN
      ((Get32 native data offsetof_headerFieldLength + sizeof_adbusI_ExtendedHeader) % SIZE_MOD) 8
    + Get32 native data offsetof_length) % SIZE_MOD
  { adbus_Message.zero with
    data := some 0
    size := size
    argsize := Get32 native data offsetof_length
    argdata := some (size - Get32 native data offsetof_length)
    type := byteAt data 1
    flags := byteAt data 2
    serial := Get32 native data offsetof_serial }

/-- The signature `yyyyuua(yv)` of the header. -/
def headerSignature : List Nat := [121, 121, 121, 121, 117, 117, 97, 40, 121, 118, 41]

/-- The signature `a(yv)` of the header fields. -/
def fieldsSignature : List Nat := [97, 40, 121, 118, 41]

/-- The last step of `adbus_parse`, lines 382-385: the body is turned to
native order along the signature of the message. -/
def flipBody (flip : List Nat → Nat → Nat → List Nat → Option (List Nat)) (native : Nat)
    (data d : List Nat) (m : adbus_Message) : Res (List Nat × adbus_Message) :=
  if byteAt data 0 = native then Res.ok (d, m)
  else
    match m.signature with
    | none => Res.ok (d, m)
    | some s =>
      match flip d (m.size - m.argsize) m.argsize (cstringAt d s 255) with
      | none => Res.fail
      | some d1 => Res.ok (d1, m)

/-- The function `adbus_parse` of parse.c, lines 242-386. The result `Res.ok (data, m)` is
the return value `0` with the buffer and the message as they are left;
`Res.fail` is the return value `-1`, after which the buffer and the message
are not looked at.

`flip` stands for `adbus_flip_data`, which is not among the sources:
`flip buf off size sig` is the buffer after the `size` bytes at `off` have
been turned to native order along `sig`, or `none` when it returns an error.
`native` is the value of `adbusI_nativeEndianness()`. The two assertions of
lines 244-245 are preconditions: `data` is 8-byte aligned (offsets are
counted from it), and `size > 16`. -/
def adbus_parse (flip : List Nat → Nat → Nat → List Nat → Option (List Nat)) (native : Nat)
    (m : adbus_Message) (data : List Nat) (size : Nat) : Res (List Nat × adbus_Message) :=
  if byteAt data 1 = ADBUS_MSG_INVALID then Res.fail
  else if byteAt data 1 > ADBUS_MSG_SIGNAL then Res.ok (data, m)
  else
    match (if byteAt data 0 = native then some data else flip data 0 size headerSignature) with
    | none => Res.fail
    | some flipped =>
      let d := flipped.set 0 native
      let m0 := headerMessage native d
      match adbus_iter_beginarray native d
          { data := sizeof_adbusI_Header, size := size - sizeof_adbusI_Header,
            sig := fieldsSignature } with
      | none => Res.fail
      | some (a, i) =>
        match parseFields (size + 1) native d a i m0 with
        | Res.diverge => Res.diverge
        | Res.fail => Res.fail
        | Res.ok (i1, m1) =>
          match adbus_iter_endarray i1 a with
          | none => Res.fail
          | some _ =>
            if missingRequiredFields m1 then Res.fail
            else flipBody flip native data d m1

/-! ## The header fields as the wire format lays them out

The header fields are read here a second time, along section 6 of the spec
and without the switch of `adbus_parse`: every field is a struct of a code
byte and a variant, and the value of the variant is stepped over along the
signature the variant carries. The theorems below compare `adbus_parse` with
this reading. -/

/-- One header field on the wire: its code, the signature of its variant,
and the place (`value`, an offset into the buffer) and the length (`size`)
of its value. -/
structure HeaderField where
  code : Nat
  sig : List Nat
  value : Nat
  size : Nat
deriving DecidableEq, Repr

/-- Place and length of a value of signature `sig` that is laid out from
offset `pos` on: the bytes of a string or an object path lie behind their
32-bit length, at a 4-byte boundary; the characters of a signature lie
behind their 8-bit length; a 32-bit number lies at a 4-byte boundary. -/
def fieldValue (native : Nat) (data : List Nat) (sig : List Nat) (pos : Nat) : Nat × Nat :=
  if sig = [115] ∨ sig = [111] then
    (ADBUSI_ALIGN pos 4 + 4, Get32 native data (ADBUSI_ALIGN pos 4))
  else if sig = [103] then (pos + 1, byteAt data pos)
  else if sig = [117] then (ADBUSI_ALIGN pos 4, 4)
  else (pos, 0)

/-- The header field with code `code` whose value is laid out at the cursor
`i`, which stands behind the signature of the variant. -/
def fieldAt (native : Nat) (data : List Nat) (code : Nat) (i : adbus_Iterator) : HeaderField :=
  { code := code, sig := i.sig,
    value := (fieldValue native data i.sig i.data).1,
    size := (fieldValue native data i.sig i.data).2 }

/-- The header field at the cursor, a struct `(yv)`, and the cursor behind
it. -/
def readField (native : Nat) (data : List Nat) (i : adbus_Iterator) :
    Res (HeaderField × adbus_Iterator) :=
  match adbus_iter_beginstruct i with
  | none => Res.fail
  | some i1 =>
    match adbus_iter_u8 i1 with
    | none => Res.fail
    | some (code, i2) =>
      match adbus_iter_beginvariant data i2 with
      | none => Res.fail
      | some (v, i3) =>
        match adbus_iter_value (valueFuel i3) native data i3 with
        | Res.ok i4 =>
          (match adbus_iter_endvariant i4 v with
           | none => Res.fail
           | some i5 =>
             match adbus_iter_endstruct i5 with
             | none => Res.fail
             | some i6 => Res.ok (fieldAt native data (byteAt data code) i3, i6))
        | Res.fail => Res.fail
        | Res.diverge => Res.diverge

/-- The header fields from the cursor up to the end of the array `a`. -/
def readFields : Nat → Nat → List Nat → adbus_IterArray → adbus_Iterator →
    Res (List HeaderField × adbus_Iterator)
  | 0, _, _, _, _ => Res.diverge
  | fuel + 1, native, data, a, i =>
    match adbus_iter_inarray i a with
    | (false, i0) => Res.ok ([], i0)
    | (true, i0) =>
      match readField native data i0 with
      | Res.ok (f, i1) =>
        (match readFields fuel native data a i1 with
         | Res.ok (fs, i2) => Res.ok (f :: fs, i2)
         | Res.fail => Res.fail
         | Res.diverge => Res.diverge)
      | Res.fail => Res.fail
      | Res.diverge => Res.diverge

/-- The header fields of a message of `size` bytes whose header is in native
order: the array `a(yv)` at offset 12, which its fields have to fill
exactly. `none` when the array cannot be read. -/
def headerFields (native : Nat) (data : List Nat) (size : Nat) : Option (List HeaderField) :=
  match adbus_iter_beginarray native data
      { data := sizeof_adbusI_Header, size := size - sizeof_adbusI_Header,
        sig := fieldsSignature } with
  | none => none
  | some (a, i) =>
    match readFields (size + 1) native data a i with
    | Res.ok (fs, j) => if (adbus_iter_endarray j a).isSome then some fs else none
    | Res.fail => none
    | Res.diverge => none

/-- The buffer with its header in native order: the header is turned by
`flip` when the endianness byte is not the native one, and the endianness
byte is set to the native one. `none` when `flip` returns an error. -/
def nativeHeader (flip : List Nat → Nat → Nat → List Nat → Option (List Nat)) (native : Nat)
    (data : List Nat) (size : Nat) : Option (List Nat) :=
  (if byteAt data 0 = native then some data else flip data 0 size headerSignature).map
    (fun d => d.set 0 native)

/-- The header fields of a message in any byte order; the empty list when
the header cannot be read. -/
def messageFields (flip : List Nat → Nat → Nat → List Nat → Option (List Nat)) (native : Nat)
    (data : List Nat) (size : Nat) : List HeaderField :=
  match nativeHeader flip native data size with
  | none => []
  | some d => (headerFields native d size).getD []

/-- The header of the message can be read, field by field. -/
def headerReadable (flip : List Nat → Nat → Nat → List Nat → Option (List Nat)) (native : Nat)
    (data : List Nat) (size : Nat) : Bool :=
  match nativeHeader flip native data size with
  | none => false
  | some d => (headerFields native d size).isSome

/-- The signature the wire format assigns to a header field code: 1 `o`,
2, 3, 4, 6 and 7 `s`, 5 `u`, 8 `g`. -/
def expectedSignature (code : Nat) : Option (List Nat) :=
  if code = 1 then some [111]
  else if code = 2 ∨ code = 3 ∨ code = 4 ∨ code = 6 ∨ code = 7 then some [115]
  else if code = 5 then some [117]
  else if code = 8 then some [103]
  else none

/-- A field that `adbus_parse` takes: its code is not 0, and when its code is
one of 1 to 8 its variant has the signature assigned to the code. -/
def fieldAccepted (f : HeaderField) : Bool :=
  decide (f.code ≠ 0) &&
    (match expectedSignature f.code with
     | none => true
     | some s => decide (f.sig = s))

/-- The message attribute that belongs to the code of the field, set to the
value of the field; a field with another code leaves the message as it is. -/
def storeField (m : adbus_Message) (f : HeaderField) : adbus_Message :=
  if f.code = 1 then { m with path := some f.value, pathSize := f.size }
  else if f.code = 2 then { m with interface := some f.value, interfaceSize := f.size }
  else if f.code = 3 then { m with member := some f.value, memberSize := f.size }
  else if f.code = 4 then { m with error := some f.value, errorSize := f.size }
  else if f.code = 5 then { m with replySerial := some f.value }
  else if f.code = 6 then { m with destination := some f.value, destinationSize := f.size }
  else if f.code = 7 then { m with sender := some f.value, senderSize := f.size }
  else if f.code = 8 then { m with signature := some f.value }
  else m

/-- What a header field does to the message: it is stored when it is taken,
and it is an error otherwise. -/
def storeAccepted (m : adbus_Message) (f : HeaderField) : Option adbus_Message :=
  if fieldAccepted f then some (storeField m f) else none

/-- What the header fields do to the message, one after the other. -/
def storeFields : adbus_Message → List HeaderField → Option adbus_Message
  | m, [] => some m
  | m, f :: fs =>
    match storeAccepted m f with
    | none => none
    | some m1 => storeFields m1 fs

/-- The outcome of parsing a message of known type, told from the header
fields on the wire: the header is brought to native order, its fields are
read and stored one after the other, the required fields are checked, and
the body is brought to native order. -/
def parseOutcome (flip : List Nat → Nat → Nat → List Nat → Option (List Nat)) (native : Nat)
    (data : List Nat) (size : Nat) : Res (List Nat × adbus_Message) :=
  match nativeHeader flip native data size with
  | none => Res.fail
  | some d =>
    match headerFields native d size with
    | none => Res.fail
    | some fs =>
      match storeFields (headerMessage native d) fs with
      | none => Res.fail
      | some m1 =>
        if missingRequiredFields m1 then Res.fail
        else flipBody flip native data d m1

/-- The message attribute that belongs to a header field code: 1 path,
2 interface, 3 member, 4 error, 5 replySerial, 6 destination, 7 sender,
8 signature. -/
def messageAttr (m : adbus_Message) (c : Nat) : Option Nat :=
  if c = 1 then m.path
  else if c = 2 then m.interface
  else if c = 3 then m.member
  else if c = 4 then m.error
  else if c = 5 then m.replySerial
  else if c = 6 then m.destination
  else if c = 7 then m.sender
  else if c = 8 then m.signature
  else none

/-- The length that the message keeps with the attribute of a header field
code: `pathSize`, `interfaceSize`, `memberSize`, `errorSize`,
`destinationSize` and `senderSize`. -/
def messageAttrSize (m : adbus_Message) (c : Nat) : Nat :=
  if c = 1 then m.pathSize
  else if c = 2 then m.interfaceSize
  else if c = 3 then m.memberSize
  else if c = 4 then m.errorSize
  else if c = 6 then m.destinationSize
  else if c = 7 then m.senderSize
  else 0

/-- The last field with the code `c` in a list of header fields. -/
def lastField : List HeaderField → Nat → Option HeaderField
  | [], _ => none
  | f :: fs, c =>
    match lastField fs c with
    | some g => some g
    | none => if f.code = c then some f else none

/-- The message has no header field with the code `c`. -/
def lacksField (flip : List Nat → Nat → Nat → List Nat → Option (List Nat)) (native : Nat)
    (data : List Nat) (size : Nat) (c : Nat) : Prop :=
  ∀ f ∈ messageFields flip native data size, f.code ≠ c

/-- The body length of the message, read from its header in native order
(0 when the header cannot be brought to native order). -/
def bodyLength (flip : List Nat → Nat → Nat → List Nat → Option (List Nat)) (native : Nat)
    (data : List Nat) (size : Nat) : Nat :=
  match nativeHeader flip native data size with
  | none => 0
  | some d => Get32 native d offsetof_length

/-! ## Sample messages -/

/-- A method return of 49 bytes in little-endian order: serial 1, reply
serial 7, signature `uuy`, and a body of 9 bytes. Its header fields take 17
bytes (offsets 16 to 32) and are padded up to offset 40. -/
def sampleReturn : List Nat :=
  [108, 2, 0, 1,  9, 0, 0, 0,  1, 0, 0, 0,  17, 0, 0, 0,
   5, 1, 117, 0,  7, 0, 0, 0,
   8, 1, 103, 0,  3, 117, 117, 121, 0,  0, 0, 0, 0, 0, 0, 0,
   1, 0, 0, 0,  2, 0, 0, 0,  3]


/-- An error message of 32 bytes in little-endian order with an error name,
`a.bc`, and no reply serial; it has no body. -/
def sampleError : List Nat :=
  [108, 3, 0, 1,  0, 0, 0, 0,  2, 0, 0, 0,  13, 0, 0, 0,
   4, 1, 115, 0,  4, 0, 0, 0,  97, 46, 98, 99, 0,  0, 0, 0]

/-- A signal of 48 bytes in little-endian order with the interface `a.b`
and the member `Xy12`, and no path; it has no body. -/
def sampleSignal : List Nat :=
  [108, 4, 0, 1,  0, 0, 0, 0,  3, 0, 0, 0,  29, 0, 0, 0,
   2, 1, 115, 0,  3, 0, 0, 0,  97, 46, 98, 0,  0, 0, 0, 0,
   3, 1, 115, 0,  4, 0, 0, 0,  88, 121, 49, 50, 0,  0, 0, 0]

/-- A method call of 48 bytes in little-endian order with the path `/a` and
the member `Ping`; it has no body. -/
def sampleCall : List Nat :=
  [108, 1, 0, 1,  0, 0, 0, 0,  4, 0, 0, 0,  29, 0, 0, 0,
   1, 1, 111, 0,  2, 0, 0, 0,  47, 97, 0,  0, 0, 0, 0, 0,
   3, 1, 115, 0,  4, 0, 0, 0,  80, 105, 110, 103, 0,  0, 0, 0]

/-- The method call `sampleCall` without its path field. -/
def sampleCallNoPath : List Nat :=
  [108, 1, 0, 1,  0, 0, 0, 0,  4, 0, 0, 0,  13, 0, 0, 0,
   3, 1, 115, 0,  4, 0, 0, 0,  80, 105, 110, 103, 0,  0, 0, 0]

/-- The method call `sampleCall` with a body of one byte and no signature
field. -/
def sampleCallBody : List Nat :=
  [108, 1, 0, 1,  1, 0, 0, 0,  4, 0, 0, 0,  29, 0, 0, 0,
   1, 1, 111, 0,  2, 0, 0, 0,  47, 97, 0,  0, 0, 0, 0, 0,
   3, 1, 115, 0,  4, 0, 0, 0,  80, 105, 110, 103, 0,  0, 0, 0,
   7]

/-- A method call of 64 bytes in little-endian order with the path `/a` and
two member fields, `A` and then `Bcde`. -/
def sampleTwoMembers : List Nat :=
  [108, 1, 0, 1,  0, 0, 0, 0,  5, 0, 0, 0,  45, 0, 0, 0,
   1, 1, 111, 0,  2, 0, 0, 0,  47, 97, 0,  0, 0, 0, 0, 0,
   3, 1, 115, 0,  1, 0, 0, 0,  65, 0,  0, 0, 0, 0, 0, 0,
   3, 1, 115, 0,  4, 0, 0, 0,  66, 99, 100, 101, 0,  0, 0, 0]

/-- The method call `sampleCall` with a third header field, of code 0, which
holds the byte 7. -/
def sampleCallCode0 : List Nat :=
  [108, 1, 0, 1,  0, 0, 0, 0,  4, 0, 0, 0,  37, 0, 0, 0,
   1, 1, 111, 0,  2, 0, 0, 0,  47, 97, 0,  0, 0, 0, 0, 0,
   3, 1, 115, 0,  4, 0, 0, 0,  80, 105, 110, 103, 0,  0, 0, 0,
   0, 1, 121, 0,  7,  0, 0, 0]

/-- The method call `sampleCall` with a third header field, of code 9, which
holds the byte 7. -/
def sampleCallCode9 : List Nat :=
  [108, 1, 0, 1,  0, 0, 0, 0,  4, 0, 0, 0,  37, 0, 0, 0,
   1, 1, 111, 0,  2, 0, 0, 0,  47, 97, 0,  0, 0, 0, 0, 0,
   3, 1, 115, 0,  4, 0, 0, 0,  80, 105, 110, 103, 0,  0, 0, 0,
   9, 1, 121, 0,  7,  0, 0, 0]

/-- An `adbus_flip_data` that always returns an error; it stands in where a
message in native order is parsed and nothing is turned. -/
def flipNone : List Nat → Nat → Nat → List Nat → Option (List Nat) :=
  fun _ _ _ _ => none

/-- A message of type 5, above `Signal`, of 32 bytes in little-endian order,
whose only header field has the code 1 (the path) and a variant of signature
`s`, holding `/a`. -/
def sampleUnknownType : List Nat :=
  [108, 5, 0, 1,  0, 0, 0, 0,  1, 0, 0, 0,  11, 0, 0, 0,
   1, 1, 115, 0,  2, 0, 0, 0,  47, 97, 0,  0, 0, 0, 0, 0]

/-- The method call `sampleCall` with the signature `s` in the variant of its
path field. -/
def sampleCallPathString : List Nat :=
  [108, 1, 0, 1,  0, 0, 0, 0,  4, 0, 0, 0,  29, 0, 0, 0,
   1, 1, 115, 0,  2, 0, 0, 0,  47, 97, 0,  0, 0, 0, 0, 0,
   3, 1, 115, 0,  4, 0, 0, 0,  80, 105, 110, 103, 0,  0, 0, 0]

/-! ## The C++ binding: `Connection` (src/DBusCpp/Connection.cpp)

The headers of the binding (`Connection.h`, `Common.h`) are not among the
sources; the types they declare are modelled from the use that
`Connection.cpp` makes of them. A `std::string` is a `String`; a `std::map`
is the list of its entries in the order of their keys; a pointer that may be
null is an `Option`. A function that may throw or loop returns a `Run`. -/

/-- The errors that `Connection.cpp` throws. -/
inductive Thrown where
  | InvalidPathError
  | InvalidMethodError
deriving DecidableEq, Repr

/-- Outcome of a C++ function that may throw or loop: `Run.ret` is a normal
return, `Run.throw` an exception that leaves the function, and `Run.diverge`
says that the fuel of the model ran out before the function returned. -/
inductive Run (α : Type) where
  | ret : α → Run α
  | throw : Thrown → Run α
  | diverge : Run α
deriving DecidableEq, Repr

/-- Modelled from the spec: the enum `DBusMessageType` is declared in `Common.h`, which is
not among the sources. The method call. -/
def DBusMethodCallMessage : Nat := 1
/-- Modelled from the spec: the enum `DBusMessageType` is declared in `Common.h`, which is
not among the sources. The method return. -/
def DBusMethodReturnMessage : Nat := 2
/-- Modelled from the spec: the enum `DBusMessageType` is declared in `Common.h`, which is
not among the sources. The error. -/
def DBusErrorMessage : Nat := 3
/-- Modelled from the spec: the enum `DBusMessageType` is declared in `Common.h`, which is
not among the sources. The signal. -/
def DBusSignalMessage : Nat := 4

/-- Modelled from the spec: the slot classes are declared in `Connection.h`, which is not
among the sources. A slot is a callback object: `triggered(message)` calls
the handler it is bound to, and `clone()` makes a new slot bound to the same
handler. The handler is named by a number. -/
structure Slot where
  handler : Nat
deriving DecidableEq, Repr

/-- The copy that `clone()` makes of a slot: a slot for the same handler. -/
def Slot.clone (s : Slot) : Slot :=
  { handler := s.handler }

/-- The struct `MessageRegistration`, as `Connection.cpp` uses it: the message
type, the four filter fields (an empty string is a field that is not given),
and the slots for the reply and for the error. -/
structure MessageRegistration where
  type : Nat
  service : String
  path : String
  interface : String
  member : String
  slot : Option Slot
  errorSlot : Option Slot
deriving DecidableEq, Repr

/-- A received message (`DBusMessage`), as `Connection.cpp` sees it through
the accessors `DBusGetMessageType`, `DBusGetSerial`, `DBusGetReplySerial`,
`DBusGetSender`, `DBusGetPath`, `DBusGetInterface` and `DBusGetMember`; the
last four return a null pointer for a header that the message lacks. -/
structure DBusMessage where
  type : Nat
  serial : Nat
  replySerial : Nat
  sender : Option String
  path : Option String
  interface : Option String
  member : Option String
deriving DecidableEq, Repr

/-- The entry of a `std::map` with the key `k`, as `find` gives it. -/
def mapFind {κ α : Type} [DecidableEq κ] : List (κ × α) → κ → Option α
  | [], _ => none
  | (k1, v1) :: rest, k => if k1 = k then some v1 else mapFind rest k

/-- The `std::map` after `map[k] = v`: the entry is put at the place of its
key; `lt` is the order of the keys. -/
def mapSet {κ α : Type} [DecidableEq κ] (lt : κ → κ → Bool) :
    List (κ × α) → κ → α → List (κ × α)
  | [], k, v => [(k, v)]
  | (k1, v1) :: rest, k, v =>
    if k1 = k then (k, v) :: rest
    else if lt k k1 then (k, v) :: (k1, v1) :: rest
    else (k1, v1) :: mapSet lt rest k v

/-- The table after the entry with the key `k` has been taken out (`erase` of a
`std::map`, `dh_del` of a hash table): no entry with the key is left. -/
def mapErase {κ α : Type} [DecidableEq κ] : List (κ × α) → κ → List (κ × α)
  | [], _ => []
  | (k1, v1) :: rest, k => if k1 = k then mapErase rest k else (k1, v1) :: mapErase rest k

/-- The order of `std::string`: the first character that differs decides, and
a proper prefix comes first. -/
def charsLt : List Char → List Char → Bool
  | _, [] => false
  | [], _ :: _ => true
  | a :: s, b :: t => if a.toNat < b.toNat then true else if a = b then charsLt s t else false

/-- The order of the keys of a `std::map<std::string, T>`. -/
def stringLt (a b : String) : Bool :=
  charsLt a.data b.data

/-- The order of the keys of a `std::map<uint32_t, T>`. -/
def serialLt (a b : Nat) : Bool :=
  decide (a < b)

/-- The base class `InterfaceComponent` of methods, signals and properties:
the name, the arguments in the order in which they were added, and the
annotations, a `std::map`. -/
structure InterfaceComponent where
  name : String
  inArguments : List (String × String)
  outArguments : List (String × String)
  annotations : List (String × String)
deriving DecidableEq, Repr

/-- A method of an interface (`MethodBase`): an interface component and the
handler that `triggered(message)` calls. -/
structure MethodBase where
  component : InterfaceComponent
  handler : Nat
deriving DecidableEq, Repr

/-- A property of an interface (`PropertyBase`): an interface component and
the type string that the subclass hands to `introspectProperty`. -/
structure PropertyBase where
  component : InterfaceComponent
  typeString : String
deriving DecidableEq, Repr

/-- The class `ObjectInterface`: the name and the maps of the methods, the
properties and the signals. -/
structure ObjectInterface where
  name : String
  m_Methods : List (String × MethodBase)
  m_Properties : List (String × PropertyBase)
  m_Signals : List (String × InterfaceComponent)
deriving DecidableEq, Repr

/-- The class `Object`: the name and the interfaces. The type `Interfaces` of
`m_Interfaces` is declared in `Connection.h`, which is not among the sources;
the container is the list of its entries in the order in which
`m_Interfaces.begin()` to `m_Interfaces.end()` walks them (see
`Object.addInterface`). -/
structure Object where
  m_Name : String
  m_Interfaces : List (String × ObjectInterface)
deriving DecidableEq, Repr

/-- The class `Connection`, as far as `Connection.cpp` shows it: the map of
the bound objects, the maps of the registrations for returns and for
signals, both with the serial as key, and the serial counter, a `uint32_t`. -/
structure Connection where
  m_Objects : List (String × Option Object)
  m_Returns : List (Nat × MessageRegistration)
  m_Signals : List (Nat × MessageRegistration)
  m_NextSerial : Nat
deriving DecidableEq, Repr

/-- The connection that the constructor `Connection::Connection` leaves
(lines 49-65): no objects, no registrations, and the serial counter at 1. -/
def Connection.new : Connection :=
  { m_Objects := [], m_Returns := [], m_Signals := [], m_NextSerial := 1 }

/-- The test `field && !spec.empty() && spec != field` of
`Connection::dispatchSignal`, lines 181-188: the message has the header, the
registration gives the field, and the two differ. -/
def fieldDiffers (spec : String) (field : Option String) : Bool :=
  match field with
  | none => false
  | some s => !spec.isEmpty && spec != s

/-- The filter of the loop of `Connection::dispatchSignal`, lines 179-189:
`false` when one of the branches goes on to the next registration with
`continue`, `true` when the slot is triggered. -/
def Connection.signalAccepts (r : MessageRegistration) (message : DBusMessage) : Bool :=
  if r.type ≠ message.type then false
  else if fieldDiffers r.service message.sender then false
  else if fieldDiffers r.path message.path then false
  else if fieldDiffers r.interface message.interface then false
  else if fieldDiffers r.member message.member then false
  else true

/-- The loop of `Connection::dispatchSignal`, lines 177-193, over the entries
of `m_Signals`: the slots that are triggered, in the order in which they are
triggered. `none` when the slot pointer of a registration that is to be
triggered is null. -/
def dispatchSignalLoop : List (Nat × MessageRegistration) → DBusMessage → Option (List Slot)
  | [], _ => some []
  | (_, r) :: rest, message =>
    if Connection.signalAccepts r message then
      match r.slot with
      | none => none
      | some s =>
        match dispatchSignalLoop rest message with
        | none => none
        | some l => some (s :: l)
    else dispatchSignalLoop rest message

/-- The function `Connection::dispatchSignal`, lines 168-194: the slots that it
triggers with the message, in order. -/
def Connection.dispatchSignal (c : Connection) (message : DBusMessage) : Option (List Slot) :=
  dispatchSignalLoop c.m_Signals message

/-- The copy of a registration that `Connection::addRegistration` keeps, lines
315-319: the slot is cloned, and where there is an error slot its clone is
written to `copy.slot` as well. -/
def storedCopy (registration : MessageRegistration) : MessageRegistration :=
  let copy := registration
  let copy1 := if copy.slot.isSome then { copy with slot := copy.slot.map Slot.clone } else copy
  if copy1.errorSlot.isSome then { copy1 with slot := copy1.errorSlot.map Slot.clone }
  else copy1

/-- The function `Connection::addRegistration`, lines 313-328: the connection
after the call and the serial that is returned. The serial counter is a
`uint32_t`. A registration of another type than return or signal fails the
assertion of line 326; without assertions nothing is stored for it. -/
def Connection.addRegistration (c : Connection) (registration : MessageRegistration) :
    Connection × Nat :=
  let copy := storedCopy registration
  let serial := c.m_NextSerial
  let c1 := { c with m_NextSerial := (c.m_NextSerial + 1) % 2 ^ 32 }
  if copy.type = DBusMethodReturnMessage then
    ({ c1 with m_Returns := mapSet serialLt c1.m_Returns serial copy }, serial)
  else if copy.type = DBusSignalMessage then
    ({ c1 with m_Signals := mapSet serialLt c1.m_Signals serial copy }, serial)
  else (c1, serial)

/-- The function `Connection::dispatchMethodReturn`, lines 231-255: the
connection after the call and the slots that were triggered. -/
def Connection.dispatchMethodReturn (c : Connection) (message : DBusMessage) :
    Connection × List Slot :=
  let serial := message.replySerial
  match mapFind c.m_Returns serial with
  | none => (c, [])
  | some r =>
    if r.type ≠ DBusMethodReturnMessage then (c, [])
    else
      let triggered :=
        match (if message.type = DBusMethodReturnMessage then r.slot else none) with
        | some s => [s]
        | none =>
          match (if message.type = DBusErrorMessage then r.errorSlot else none) with
          | some e => [e]
          | none => []
      ({ c with m_Returns := mapErase c.m_Returns serial }, triggered)

/-- The function `InterfaceComponent::introspectAnnotations`, lines 573-584. -/
def InterfaceComponent.introspectAnnotations (c : InterfaceComponent) (out : String) : String :=
  c.annotations.foldl
    (fun o kv => o ++ ("   <annotation name=\"" ++ kv.1 ++ "\" value=\"" ++ kv.2 ++ "\"/>\n")) out

/-- The function `InterfaceComponent::introspectArguments`, lines 588-607. -/
def InterfaceComponent.introspectArguments (c : InterfaceComponent) (out : String) : String :=
  let out1 := c.inArguments.foldl
    (fun o kv =>
      o ++ ("   <arg name=\"" ++ kv.1 ++ "\" type=\"" ++ kv.2 ++ "\" direction=\"in\"/>\n")) out
  c.outArguments.foldl
    (fun o kv =>
      o ++ ("   <arg name=\"" ++ kv.1 ++ "\" type=\"" ++ kv.2 ++ "\" direction=\"out\"/>\n")) out1

/-- The function `MethodBase::introspect`, lines 648-658. -/
def MethodBase.introspect (m : MethodBase) (out : String) : String :=
  let out1 := out ++ ("  <method name=\"" ++ m.component.name ++ "\">\n")
  let out2 := m.component.introspectArguments out1
  let out3 := m.component.introspectAnnotations out2
  out3 ++ "  </method>\n"

/-- The function `SignalBase::introspect`, lines 676-686. -/
def SignalBase.introspect (s : InterfaceComponent) (out : String) : String :=
  let out1 := out ++ ("  <signal name=\"" ++ s.name ++ "\">\n")
  let out2 := s.introspectArguments out1
  let out3 := s.introspectAnnotations out2
  out3 ++ "  </signal>\n"

/-- The function `PropertyBase::introspectProperty`, lines 692-703, with the
type string of the property. -/
def PropertyBase.introspectProperty (p : PropertyBase) (out : String) : String :=
  let out1 := out ++ ("  <property name\"" ++ p.component.name ++ "\" type=\""
    ++ p.typeString ++ "\">\n")
  let out2 := p.component.introspectAnnotations out1
  out2 ++ "  </property>\n"

/-- The function `ObjectInterface::introspect`, lines 505-524. -/
def ObjectInterface.introspect (i : ObjectInterface) (out : String) : String :=
  let out1 := out ++ (" <interface name=\"" ++ i.name ++ "\">\n")
  let out2 := i.m_Methods.foldl (fun o kv => kv.2.introspect o) out1
  let out3 := i.m_Properties.foldl (fun o kv => kv.2.introspectProperty o) out2
  let out4 := i.m_Signals.foldl (fun o kv => SignalBase.introspect kv.2 o) out3
  out4 ++ " </interface>\n"

/-- The function `Object::introspectInterfaces`, lines 391-396. -/
def Object.introspectInterfaces (o : Object) (out : String) : String :=
  o.m_Interfaces.foldl (fun s kv => kv.2.introspect s) out

/-- The bytes that `c_str()` points to: the characters of the string, one
byte each, the terminating zero, and then the bytes `behind` that happen to
lie behind the buffer of the string. -/
def c_str (s : List Char) (behind : List Nat) : List Nat :=
  s.map (fun ch => ch.toNat % 256) ++ 0 :: behind

/-- The library function `memchr(s, c, n)`: the place of the first of the `n`
bytes at `s` that is equal to `c` as an unsigned char; `none` is the null
pointer. -/
def memchr (s : List Nat) (c n : Nat) : Option Nat :=
  (s.take n).findIdx? (fun b => b == c % 256)

/-- The iterator that `m_Objects.find(objectName)` returns: the entry with the
key and the entries that follow it in the map; `none` is `end()`. -/
def mapFindFrom {α : Type} : List (String × α) → String → Option (α × List (String × α))
  | [], _ => none
  | (k1, v1) :: rest, k => if k1 = k then some (v1, rest) else mapFindFrom rest k

/-- The loop of `Connection::introspectObject`, lines 130-145, with the map
entries from the iterator `ii` on. The two `break`s leave the loop; the
`continue` of line 139 and the end of the body go back to the test of the
loop with the same `ii`, as the body has no `++ii`. The call of line 138
is `memchr(name.c_str() + path.size(), name.size() - path.size(), 47)`, with
the arguments in the order of the source. -/
def introspectChildren (behind : List Nat) (path : String) :
    Nat → List (String × Option Object) → String → Run String
  | _, [], out => Run.ret out
  | 0, _ :: _, _ => Run.diverge
  | fuel + 1, (name, o) :: rest, out =>
    if name.length < path.length then Run.ret out
    else if name.data.take path.length ≠ path.data then Run.ret out
    else if (memchr (c_str (name.data.drop path.length) behind)
        (name.length - path.length) 47).isSome then
      introspectChildren behind path fuel ((name, o) :: rest) out
    else
      introspectChildren behind path fuel ((name, o) :: rest)
        (out ++ (" <node name=\"" ++ String.mk (name.data.drop path.length) ++ "\"/>\n"))

/-- The function `Connection::introspectObject`, lines 112-149. `behind` are the
bytes behind the buffers of the names, which `memchr` may read, and `fuel`
bounds the number of times that the test of the loop is made. -/
def Connection.introspectObject (c : Connection) (behind : List Nat) (fuel : Nat)
    (objectName : String) : Run String :=
  let out := "<!DOCTYPE node PUBLIC \"-//freedesktop/DTD D-BUS Object Introspection 1.0//EN\"\n"
    ++ "\"http://www.freedesktop.org/standards/dbus/1.0/introspect.dtd\">\n"
    ++ "<node>\n"
  match mapFindFrom c.m_Objects objectName with
  | none => Run.throw Thrown.InvalidPathError
  | some (none, _) => Run.throw Thrown.InvalidPathError
  | some (some o, after) =>
    if objectName.isEmpty then Run.throw Thrown.InvalidPathError
    else
      let out1 := o.introspectInterfaces out
      let path := if objectName.data.getLast? ≠ some '/' then objectName ++ "/" else objectName
      match introspectChildren behind path fuel after out1 with
      | Run.ret out2 => Run.ret (out2 ++ "</node>\n")
      | r => r

/-- The interface that `Connection::addObject` gives to every object, lines
89-92: `org.freedesktop.DBus.Introspectable` with the method `Introspect`,
which returns the string `data`. -/
def introspectableInterface : ObjectInterface :=
  { name := "org.freedesktop.DBus.Introspectable",
    m_Methods := [("Introspect",
      { component := { name := "Introspect", inArguments := [],
                       outArguments := [("data", "s")], annotations := [] },
        handler := 0 })],
    m_Properties := [],
    m_Signals := [] }

/-- The object that `Connection::addObject` makes, lines 86-92: it has the name
and the introspection interface. -/
def newObject (name : String) : Object :=
  { m_Name := name,
    m_Interfaces := [("org.freedesktop.DBus.Introspectable", introspectableInterface)] }

/-- The function `Connection::addObject`, lines 80-95: an object that is bound
already is kept; a new object is put into the map under its name. -/
def Connection.addObject (c : Connection) (name : String) : Connection :=
  match mapFind c.m_Objects name with
  | some _ => c
  | none => { c with m_Objects := mapSet stringLt c.m_Objects name (some (newObject name)) }

/-- The connection of the scenario: `/a`, `/a/b`, `/a/b/c` and `/a/d` are bound,
in this order. -/
def sampleTree : Connection :=
  (((Connection.new.addObject "/a").addObject "/a/b").addObject "/a/b/c").addObject "/a/d"

/-- A registration for returns with the slot of the handler 10 for the reply
and the slot of the handler 20 for the error. -/
def sampleReturnRegistration : MessageRegistration :=
  { type := DBusMethodReturnMessage, service := "", path := "", interface := "", member := "",
    slot := some { handler := 10 }, errorSlot := some { handler := 20 } }

/-- A method return from `:1.5` with the serial 7 and the reply serial
`replySerial`. -/
def sampleReturnMessage (replySerial : Nat) : DBusMessage :=
  { type := DBusMethodReturnMessage, serial := 7, replySerial := replySerial,
    sender := some ":1.5", path := none, interface := none, member := none }

/-- A signal registration with the given filter fields and the slot of the
handler `handler`. -/
def signalRegistration (service path interface member : String) (handler : Nat) :
    MessageRegistration :=
  { type := DBusSignalMessage, service := service, path := path, interface := interface,
    member := member, slot := some { handler := handler }, errorSlot := none }

/-- A signal with the given headers. -/
def signalMessage (sender path interface member : Option String) : DBusMessage :=
  { type := DBusSignalMessage, serial := 9, replySerial := 0, sender := sender, path := path,
    interface := interface, member := member }

/-- The registrations of a list, added one after the other with
`Connection::addRegistration`. -/
def addRegistrations (c : Connection) : List MessageRegistration → Connection
  | [] => c
  | r :: rest => addRegistrations (c.addRegistration r).1 rest

/-- The filter of a signal registration in the words of the specification:
the types are equal and every field that the registration gives is equal to
the field of the message. -/
def specMatches (r : MessageRegistration) (message : DBusMessage) : Prop :=
  r.type = message.type
  ∧ (r.service ≠ "" → message.sender = some r.service)
  ∧ (r.path ≠ "" → message.path = some r.path)
  ∧ (r.interface ≠ "" → message.interface = some r.interface)
  ∧ (r.member ≠ "" → message.member = some r.member)

/-- A filter field of a registration and the header of a message agree: the
registration does not give the field, or the message lacks the header, or
the two are equal. -/
def fieldAgrees (spec : String) (field : Option String) : Prop :=
  spec = "" ∨ field = none ∨ field = some spec

/-! ## Reply registrations (src/adbus/reply.c)

The structs of the connection are declared in `connection.h`, which is not
among the sources; their fields are taken from the use that `reply.c` makes
of them. Objects made with `NEW` live in a heap, a list of pairs of an
address and an object; a pointer is an address, and `none` is `NULL`. A
function pointer is a number that names the function. A function returns
`none` when it reads or frees an object that is not in the heap. -/

/-- The struct `adbus_Reply`, documented in reply.c, lines 30-166: the request
for a registration. `remote` are the bytes at the pointer `remote`. -/
structure adbus_Reply where
  serial : Nat
  remote : List Nat
  remoteSize : Int
  callback : Option Nat
  cuser : Nat
  error : Option Nat
  euser : Nat
  proxy : Option Nat
  puser : Nat
  release : Option Nat × Option Nat
  ruser : Nat × Nat
  relproxy : Option Nat
  relpuser : Nat
deriving DecidableEq, Repr

/-- The function `adbus_reply_init`, lines 175-179. -/
def adbus_reply_init : adbus_Reply :=
  { serial := 0, remote := [], remoteSize := -1, callback := none, cuser := 0, error := none,
    euser := 0, proxy := none, puser := 0, release := (none, none), ruser := (0, 0),
    relproxy := none, relpuser := 0 }

/-- The struct `adbus_ConnReply`, as `adbus_conn_addreply` fills it, lines
243-256: `remote` is the address of the remote of the reply. -/
structure adbus_ConnReply where
  remote : Option Nat
  serial : Nat
  callback : Option Nat
  cuser : Nat
  error : Option Nat
  euser : Nat
  proxy : Option Nat
  puser : Nat
  release : Option Nat × Option Nat
  ruser : Nat × Nat
  relproxy : Option Nat
  relpuser : Nat
deriving DecidableEq, Repr

/-- The struct `Remote`, as `adbus_conn_addreply` fills it, lines 220-224:
`connection` says that the pointer to the connection is not null, and
`replies` is the hash table from serials to the addresses of the replies. -/
structure Remote where
  connection : Bool
  name : List Nat
  replies : List (Nat × Nat)
deriving DecidableEq, Repr

/-- A call that the library makes to a function of the user. -/
inductive Call where
  | callback (cb : Nat) (user1 : Nat)
  | proxy (fn : Nat) (puser : Nat) (cb : Option Nat) (user1 : Nat)
  | release (fn : Nat) (ruser : Nat)
  | relproxy (fn : Nat) (relpuser : Nat) (release : Nat) (ruser : Nat)
deriving DecidableEq, Repr

/-- The part of the struct `adbus_Connection` that `reply.c` uses: the hash
table `remotes` from names to the addresses of the remotes, the list `replies`
of the addresses of the replies with its iterator, and the name tracker
`services`, which gives for a name the unique name of its owner, if it knows
one. The two heaps hold the objects made with `NEW`, and `nextAlloc` is the
next address. `calls` is not a field of the struct: it records the calls to
functions of the user, the first call first. -/
structure adbus_Connection where
  remotes : List (List Nat × Nat)
  replies : List Nat
  repliesIter : Option Nat
  services : List (List Nat × Option (List Nat))
  replyHeap : List (Nat × adbus_ConnReply)
  remoteHeap : List (Nat × Remote)
  nextAlloc : Nat
  calls : List Call
deriving DecidableEq, Repr

/-- A connection without replies and remotes, with the name tracker
`services`. -/
def adbus_Connection.empty (services : List (List Nat × Option (List Nat))) :
    adbus_Connection :=
  { remotes := [], replies := [], repliesIter := none, services := services, replyHeap := [],
    remoteHeap := [], nextAlloc := 1, calls := [] }

/-- The fields of `adbus_CbData` and of its message that `reply.c` reads:
the type of the message, the word at `replySerial` and the `senderSize` bytes
at `sender`, both `none` for a null pointer, and `user1`. -/
structure adbus_CbData where
  type : Nat
  replySerial : Option Nat
  sender : Option (List Nat)
  user1 : Nat
deriving DecidableEq, Repr

/-- The hash table or heap with the entry of the key `k` set to `v` (`dh_put`
and the assignment of the value, or `NEW` at the address `k`). -/
def mapPut {κ α : Type} [DecidableEq κ] (l : List (κ × α)) (k : κ) (v : α) : List (κ × α) :=
  mapErase l k ++ [(k, v)]

/-- Modelled from the spec: the function `adbusI_lookupService` is not among the sources.
It asks the name tracker for the service of a name; the result is `none`
when the tracker has no service for the name, and the field `unique` of the
service otherwise. -/
def adbusI_lookupService (c : adbus_Connection) (name : List Nat) : Option (Option (List Nat)) :=
  mapFind c.services name

/-- Modelled from the spec: the list macros `dil_insert_after`, `dil_remove`, `dil_setiter`
and `dil_getiter` are not among the sources. This is `dil_insert_after`: the
element is put into the list. -/
def dil_insert_after (c : adbus_Connection) (reply : Nat) : adbus_Connection :=
  { c with replies := reply :: c.replies }

/-- Modelled from the spec: the list macros are not among the sources. This is
`dil_remove`: the element leaves the list, and an iterator that stands at the
element is erased, so that `dil_getiter` does not return the element again. -/
def dil_remove (c : adbus_Connection) (reply : Nat) : adbus_Connection :=
  { c with replies := c.replies.erase reply,
           repliesIter := if c.repliesIter = some reply then none else c.repliesIter }

/-- Modelled from the spec: the list macros are not among the sources. This is
`dil_setiter`. -/
def dil_setiter (c : adbus_Connection) (reply : Option Nat) : adbus_Connection :=
  { c with repliesIter := reply }

/-- Modelled from the spec: the list macros are not among the sources. This is
`dil_getiter`. -/
def dil_getiter (c : adbus_Connection) : Option Nat :=
  c.repliesIter

/-- The behaviour of the functions of the user: the connection after the
call and the value that is returned; `none` when the call never returns or
does what C leaves undefined. -/
abbrev UserCode : Type := Call → adbus_Connection → Option (adbus_Connection × Int)

/-- A call to a function of the user: the call is recorded, then the function
runs. -/
def callUser (user : UserCode) (call : Call) (c : adbus_Connection) :
    Option (adbus_Connection × Int) :=
  user call { c with calls := c.calls ++ [call] }

/-- Modelled from the spec: the function `adbus_dispatch` is not among the sources. It
calls the callback with the data and returns its value; with a null callback
it calls nothing and returns 0. -/
def adbus_dispatch (user : UserCode) (cb : Option Nat) (c : adbus_Connection) (user1 : Nat) :
    Option (adbus_Connection × Int) :=
  match cb with
  | none => some (c, 0)
  | some f => callUser user (Call.callback f user1) c

/-- The loop of `adbusI_freeRemote`, lines 319-326: `reply->remote = NULL` for
every reply of the hash table. -/
def clearRemote : List (Nat × Nat) → List (Nat × adbus_ConnReply)
    → Option (List (Nat × adbus_ConnReply))
  | [], heap => some heap
  | (_, p) :: rest, heap =>
    match mapFind heap p with
    | none => none
    | some reply => clearRemote rest (mapPut heap p { reply with remote := none })

/-- The function `adbusI_freeRemote`, lines 305-331, for the remote at the
address `r`. -/
def adbusI_freeRemote (c : adbus_Connection) (r : Nat) : Option adbus_Connection :=
  match mapFind c.remoteHeap r with
  | none => none
  | some remote =>
    let c1 := if remote.connection then { c with remotes := mapErase c.remotes remote.name }
      else c
    match clearRemote remote.replies c1.replyHeap with
    | none => none
    | some heap => some { c1 with replyHeap := heap, remoteHeap := mapErase c1.remoteHeap r }

/-- The name of lines 198-201 of `adbus_conn_addreply`: `remoteSize` bytes at
`remote`, or the bytes up to the first nul when `remoteSize` is negative. -/
def replyRemoteName (reg : adbus_Reply) : List Nat :=
  if 0 ≤ reg.remoteSize then bytesAt reg.remote 0 reg.remoteSize.toNat
  else cstringAt reg.remote 0 reg.remote.length

/-- The name under which `adbus_conn_addreply` stores a reply, lines 198-213:
the unique name that the name tracker has for the name, or the name
itself. -/
def registeredName (c : adbus_Connection) (reg : adbus_Reply) : List Nat :=
  match adbusI_lookupService c (replyRemoteName reg) with
  | some (some unique) => unique
  | _ => replyRemoteName reg

/-- The reply that `adbus_conn_addreply` makes, lines 242-256, for the remote
at the address `remote`. -/
def newConnReply (reg : adbus_Reply) (remote : Nat) : adbus_ConnReply :=
  { remote := some remote, serial := reg.serial % 2 ^ 32, callback := reg.callback,
    cuser := reg.cuser, error := reg.error, euser := reg.euser, proxy := reg.proxy,
    puser := reg.puser, release := reg.release, ruser := reg.ruser, relproxy := reg.relproxy,
    relpuser := reg.relpuser }

/-- The lookup of the remote in `adbus_conn_addreply`, lines 215-230: the
connection, in which a remote that was not there has been made, and the
address of the remote. -/
def addRemote (c : adbus_Connection) (name : List Nat) : adbus_Connection × Nat :=
  match mapFind c.remotes name with
  | some r => (c, r)
  | none =>
    ({ c with remotes := mapPut c.remotes name c.nextAlloc,
              remoteHeap := mapPut c.remoteHeap c.nextAlloc
                { connection := true, name := name, replies := [] },
              nextAlloc := c.nextAlloc + 1 },
     c.nextAlloc)

/-- The function `adbus_conn_addreply`, lines 189-263: the connection after the
call and the address of the reply, `none` for `NULL`. The assertions are
those of a build without assertions: they do nothing. -/
def adbus_conn_addreply (c : adbus_Connection) (reg : adbus_Reply) :
    Option (adbus_Connection × Option Nat) :=
  if (replyRemoteName reg).length = 0 then some (c, none)
  else
    let name := registeredName c reg
    let (c1, r) := addRemote c name
    match mapFind c1.remoteHeap r with
    | none => none
    | some remote =>
      let serial := reg.serial % 2 ^ 32
      match mapFind remote.replies serial with
      | some _ => some (c1, none)
      | none =>
        let reply := c1.nextAlloc
        let c2 : adbus_Connection :=
          { c1 with replyHeap := mapPut c1.replyHeap reply (newConnReply reg r),
                    remoteHeap := mapPut c1.remoteHeap r
                      { remote with replies := mapPut remote.replies serial reply },
                    nextAlloc := c1.nextAlloc + 1 }
        some (dil_insert_after c2 reply, some reply)

/-- One release hook of `adbusI_freeReply`, lines 283-289 for `release[0]` and
lines 291-297 for `release[1]`, which `second` chooses: the hook of the reply
at the address `r` is called if it is not null, through the release proxy
when there is one. -/
def releaseHook (user : UserCode) (r : Nat) (second : Bool) (c : adbus_Connection) :
    Option adbus_Connection :=
  match mapFind c.replyHeap r with
  | none => none
  | some reply =>
    match (if second then reply.release.2 else reply.release.1) with
    | none => some c
    | some f =>
      let ruser := if second then reply.ruser.2 else reply.ruser.1
      match reply.relproxy with
      | some p => (callUser user (Call.relproxy p reply.relpuser f ruser) c).map Prod.fst
      | none => (callUser user (Call.release f ruser) c).map Prod.fst

/-- The first part of `adbusI_freeReply`, lines 269-281: the reply leaves the
hash table of its remote, and a remote without replies is freed. -/
def disconnectReply (c : adbus_Connection) (reply : adbus_ConnReply) : Option adbus_Connection :=
  match reply.remote with
  | none => some c
  | some rh =>
    match mapFind c.remoteHeap rh with
    | none => none
    | some remote =>
      let replies := mapErase remote.replies reply.serial
      let c1 := { c with remoteHeap := mapPut c.remoteHeap rh { remote with replies := replies } }
      if replies.length = 0 then adbusI_freeRemote c1 rh else some c1

/-- The function `adbusI_freeReply`, lines 267-301, for the reply at the
address `r`. -/
def adbusI_freeReply (user : UserCode) (c : adbus_Connection) (r : Nat) :
    Option adbus_Connection :=
  match mapFind c.replyHeap r with
  | none => none
  | some reply =>
    match disconnectReply c reply with
    | none => none
    | some c1 =>
      match releaseHook user r false c1 with
      | none => none
      | some c2 =>
        match releaseHook user r true c2 with
        | none => none
        | some c3 =>
          match mapFind c3.replyHeap r with
          | none => none
          | some _ =>
            let c4 := dil_remove c3 r
            some { c4 with replyHeap := mapErase c4.replyHeap r }

/-- The function `adbus_conn_removereply`, lines 347-353. -/
def adbus_conn_removereply (user : UserCode) (c : adbus_Connection) (reply : Nat) :
    Option adbus_Connection :=
  adbusI_freeReply user c reply

/-- Lines 386-398 of `adbusI_dispatchReply`: the iterator of the list is set to
the reply, the reply is taken out of the hash table of the remote at the
address `rh`, which was found under the name `sender`, and a remote without
replies is taken out of the connection and freed. -/
def unlinkReply (c : adbus_Connection) (sender : List Nat) (rh : Nat) (remote : Remote)
    (serial reply : Nat) (r : adbus_ConnReply) : Option adbus_Connection :=
  let c1 := dil_setiter c (some reply)
  let c2 := { c1 with replyHeap := mapPut c1.replyHeap reply { r with remote := none } }
  let replies := mapErase remote.replies serial
  let c3 := { c2 with remoteHeap := mapPut c2.remoteHeap rh { remote with replies := replies } }
  if replies.length = 0 then
    adbusI_freeRemote
      { c3 with remoteHeap := mapPut c3.remoteHeap rh
                  { remote with replies := replies, connection := false },
                remotes := mapErase c3.remotes sender } rh
  else some c3

/-- Lines 401-408 of `adbusI_dispatchReply`: the callback that is chosen, `none`
for `NULL`, and the value of `d->user1`. -/
def replyCallback (r : adbus_ConnReply) (d : adbus_CbData) : Option Nat × Nat :=
  if d.type = ADBUS_MSG_RETURN ∧ r.callback ≠ none then (r.callback, r.cuser)
  else if d.type = ADBUS_MSG_ERROR ∧ r.error ≠ none then (r.error, r.euser)
  else (none, d.user1)

/-- Lines 410-415 of `adbusI_dispatchReply`: the callback is called through the
proxy of the reply or with `adbus_dispatch`. -/
def deliverReply (user : UserCode) (r : adbus_ConnReply) (d : adbus_CbData)
    (c : adbus_Connection) : Option (adbus_Connection × Int) :=
  match r.proxy with
  | some p =>
    callUser user (Call.proxy p r.puser (replyCallback r d).1 (replyCallback r d).2) c
  | none => adbus_dispatch user (replyCallback r d).1 c (replyCallback r d).2

/-- Lines 417-426 of `adbusI_dispatchReply`: the iterator is read and cleared,
and the reply is freed when the iterator still stands at it. -/
def finishReply (user : UserCode) (reply : Nat) (c : adbus_Connection) (ret : Int) :
    Option (adbus_Connection × Int) :=
  let reply2 := dil_getiter c
  let c1 := dil_setiter c none
  if reply2 = some reply then
    match adbusI_freeReply user c1 reply with
    | none => none
    | some c2 => some (c2, ret)
  else some (c1, ret)

/-- The function `adbusI_dispatchReply`, lines 357-427: the connection after the
call and the value that is returned. -/
def adbusI_dispatchReply (user : UserCode) (c : adbus_Connection) (d : adbus_CbData) :
    Option (adbus_Connection × Int) :=
  if (d.type ≠ ADBUS_MSG_RETURN ∧ d.type ≠ ADBUS_MSG_ERROR) ∨ d.replySerial = none
      ∨ d.sender = none then some (c, 0)
  else
    match d.sender, d.replySerial with
    | some sender, some serial =>
      match mapFind c.remotes sender with
      | none => some (c, 0)
      | some rh =>
        match mapFind c.remoteHeap rh with
        | none => none
        | some remote =>
          match mapFind remote.replies serial with
          | none => some (c, 0)
          | some reply =>
            match mapFind c.replyHeap reply with
            | none => none
            | some r =>
              match unlinkReply c sender rh remote serial reply r with
              | none => none
              | some c1 =>
                match deliverReply user r d c1 with
                | none => none
                | some (c2, ret) => finishReply user reply c2 ret
    | _, _ => some (c, 0)

/-- The reply that is pending for a name and a serial: the address that the
two hash tables give, `none` when there is no remote for the name or no
reply for the serial. -/
def findReply (c : adbus_Connection) (name : List Nat) (serial : Nat) : Option Nat :=
  match mapFind c.remotes name with
  | none => none
  | some rh =>
    match mapFind c.remoteHeap rh with
    | none => none
    | some remote => mapFind remote.replies serial

/-- Functions of the user that leave the connection alone: a call returns the
value `ret call`. -/
def inertUser (ret : Call → Int) : UserCode :=
  fun call c => some (c, ret call)

/-- The calls that the delivery of a reply makes, lines 401-415: the proxy with
the callback that was chosen, or the callback itself. -/
def deliveryCalls (r : adbus_ConnReply) (d : adbus_CbData) : List Call :=
  match r.proxy with
  | some p => [Call.proxy p r.puser (replyCallback r d).1 (replyCallback r d).2]
  | none =>
    match (replyCallback r d).1 with
    | none => []
    | some f => [Call.callback f (replyCallback r d).2]

/-- The call that a release hook makes, if the hook is not null. -/
def releaseCall (r : adbus_ConnReply) (second : Bool) : List Call :=
  match (if second then r.release.2 else r.release.1) with
  | none => []
  | some f =>
    match r.relproxy with
    | some p => [Call.relproxy p r.relpuser f (if second then r.ruser.2 else r.ruser.1)]
    | none => [Call.release f (if second then r.ruser.2 else r.ruser.1)]

/-- A registration for the serial 100 from the remote `:1.5`, with the callback
1 for the reply, the callback 2 for the error and the release hooks 3 and
4. -/
def sampleReply : adbus_Reply :=
  { adbus_reply_init with
    serial := 100, remote := [58, 49, 46, 53, 0], callback := some 1, cuser := 11,
    error := some 2, euser := 12, release := (some 3, some 4), ruser := (13, 14) }

/-- A method return from `sender` with the reply serial `serial`. -/
def sampleReplyData (sender : List Nat) (serial : Nat) : adbus_CbData :=
  { type := ADBUS_MSG_RETURN, replySerial := some serial, sender := some sender, user1 := 0 }

/-- No reply is pending for the name and the serial: the connection has no
remote for the name, or the remote has no reply for the serial. -/
def replyMissing (c : adbus_Connection) (name : List Nat) (serial : Nat) : Prop :=
  mapFind c.remotes name = none
  ∨ ∃ rh remote, mapFind c.remotes name = some rh ∧ mapFind c.remoteHeap rh = some remote
      ∧ mapFind remote.replies serial = none

/-- The reply at the address `h` is pending for the name and the serial, with
the content `r`: the two hash tables lead to the address, and the heap has
`r` there. -/
def replyPending (c : adbus_Connection) (name : List Nat) (serial h : Nat)
    (r : adbus_ConnReply) : Prop :=
  ∃ rh remote, mapFind c.remotes name = some rh ∧ mapFind c.remoteHeap rh = some remote
    ∧ mapFind remote.replies serial = some h ∧ mapFind c.replyHeap h = some r
    ∧ r.remote = some rh ∧ r.serial = serial

/-- Functions of the user of which the callback of a reply, called by itself
or through a proxy, removes the reply at the address `h` with
`adbus_conn_removereply`; the release hooks leave the connection alone. -/
def removingUser (ret : Call → Int) (h : Nat) : UserCode :=
  fun call c =>
    match call with
    | Call.callback _ _ =>
      (adbus_conn_removereply (inertUser ret) c h).map (fun c1 => (c1, ret call))
    | Call.proxy _ _ _ _ =>
      (adbus_conn_removereply (inertUser ret) c h).map (fun c1 => (c1, ret call))
    | _ => some (c, ret call)

/-- Functions of the user of which the callback of a reply, called by itself
or through a proxy, registers `reg` with `adbus_conn_addreply` and
returns 1 when it got a reply and 0 when it got `NULL`; the release hooks leave
the connection alone. -/
def registeringUser (reg : adbus_Reply) : UserCode :=
  fun call c =>
    match call with
    | Call.callback _ _ =>
      (adbus_conn_addreply c reg).map (fun x => (x.1, if x.2 = none then 0 else 1))
    | Call.proxy _ _ _ _ =>
      (adbus_conn_addreply c reg).map (fun x => (x.1, if x.2 = none then 0 else 1))
    | _ => some (c, 0)

/-- The release hooks and release proxies of the user leave the connection
alone. -/
def releaseInert (user : UserCode) : Prop :=
  (∀ f ruser c, ∃ v, user (Call.release f ruser) c = some (c, v))
  ∧ (∀ p relpuser f ruser c, ∃ v, user (Call.relproxy p relpuser f ruser) c = some (c, v))

/-- The connection after `adbus_conn_addreply` of `sampleReply` on a connection
without replies: the reply for `:1.5` and the serial 100 is pending at the
address 2. -/
def samplePending : adbus_Connection :=
  match adbus_conn_addreply (adbus_Connection.empty []) sampleReply with
  | some (c, _) => c
  | none => adbus_Connection.empty []

/-- Two buffers of the same length hold the same bytes below the offset
`E`. -/
def agreeBelow (E : Nat) (d1 d2 : List Nat) : Prop :=
  d1.length = d2.length ∧ ∀ p, p < E → byteAt d1 p = byteAt d2 p

/-- Modelled from the spec: `adbus_flip_data` is not among the sources. This is its step
for one value of fixed width: the `w` bytes at `p` in the opposite order. -/
def adbusI_flip_bytes (buf : List Nat) (p w : Nat) : List Nat :=
  buf.take p ++ ((buf.drop p).take w).reverse ++ buf.drop (p + w)

/-- Modelled from the spec: `adbus_flip_data` is not among the sources. A value of fixed
width `w` between `pos` and `fin` is aligned and turned. -/
def adbusI_flip_fixed (buf : List Nat) (pos fin w : Nat) (rest : List Nat) :
    Option (List Nat × Nat × List Nat) :=
  if ADBUSI_ALIGN pos w + w > fin then none
  else some (adbusI_flip_bytes buf (ADBUSI_ALIGN pos w) w, ADBUSI_ALIGN pos w + w, rest)

mutual
/-- Modelled from the spec: `adbus_flip_data` is not among the sources ("signature-driven
endian flipping"). One complete value of the type at the head of `sig`,
between `pos` and `fin`, is turned to native order: numbers byte by byte,
the lengths of strings and arrays before they are read, arrays element by
element, structs field by field, a variant along the signature it carries.
The result is the buffer, the offset behind the value and the signature
behind the type; `none` is an error. -/
def adbusI_flip_value : Nat → Nat → List Nat → Nat → Nat → List Nat →
    Option (List Nat × Nat × List Nat)
  | 0, _, _, _, _, _ => none
  | fuel + 1, native, buf, pos, fin, sig =>
    match sig with
    | [] => none
    | c :: rest =>
      if c = 121 then (if pos + 1 > fin then none else some (buf, pos + 1, rest))
      else if c = 110 ∨ c = 113 then adbusI_flip_fixed buf pos fin 2 rest
      else if c = 98 ∨ c = 105 ∨ c = 117 ∨ c = 104 then adbusI_flip_fixed buf pos fin 4 rest
      else if c = 120 ∨ c = 116 ∨ c = 100 then adbusI_flip_fixed buf pos fin 8 rest
      else if c = 115 ∨ c = 111 then
        match adbusI_flip_fixed buf pos fin 4 rest with
        | none => none
        | some (buf1, p, _) =>
          if p + Get32 native buf1 (p - 4) + 1 > fin then none
          else some (buf1, p + Get32 native buf1 (p - 4) + 1, rest)
      else if c = 103 then
        if pos + 1 + byteAt buf pos + 1 > fin then none
        else some (buf, pos + 1 + byteAt buf pos + 1, rest)
      else if c = 97 then
        match adbusI_flip_fixed buf pos fin 4 rest with
        | none => none
        | some (buf1, p, _) =>
          let q := ADBUSI_ALIGN p (adbusI_alignment (rest.headD 0))
          if q + Get32 native buf1 (p - 4) > fin then none
          else
            match adbusI_nextarg 0 rest with
            | none => none
            | some after =>
              match adbusI_flip_elements fuel native buf1 q (q + Get32 native buf1 (p - 4))
                  rest with
              | none => none
              | some buf2 => some (buf2, q + Get32 native buf1 (p - 4), after)
      else if c = 40 ∨ c = 123 then
        if ADBUSI_ALIGN pos 8 > fin then none
        else adbusI_flip_fields fuel native buf (ADBUSI_ALIGN pos 8) fin rest
      else if c = 118 then
        if pos + 1 + byteAt buf pos + 1 > fin then none
        else
          match adbusI_flip_value fuel native buf (pos + 1 + byteAt buf pos + 1) fin
              (cstringAt buf (pos + 1) (byteAt buf pos)) with
          | none => none
          | some (buf1, p1, _) => some (buf1, p1, rest)
      else none
termination_by structural fuel => fuel
/-- Modelled from the spec: `adbus_flip_data` is not among the sources. The fields of a
struct or dict entry up to and with the closing bracket. -/
def adbusI_flip_fields : Nat → Nat → List Nat → Nat → Nat → List Nat →
    Option (List Nat × Nat × List Nat)
  | 0, _, _, _, _, _ => none
  | fuel + 1, native, buf, pos, fin, sig =>
    match sig with
    | [] => none
    | c :: rest =>
      if c = 41 ∨ c = 125 then some (buf, pos, rest)
      else
        match adbusI_flip_value fuel native buf pos fin sig with
        | none => none
        | some (buf1, p1, sig1) => adbusI_flip_fields fuel native buf1 p1 fin sig1
termination_by structural fuel => fuel
/-- Modelled from the spec: `adbus_flip_data` is not among the sources. The elements of
an array, of the type at the head of `sig`, which fill the bytes up to
`fin`. -/
def adbusI_flip_elements : Nat → Nat → List Nat → Nat → Nat → List Nat → Option (List Nat)
  | 0, _, _, _, _, _ => none
  | fuel + 1, native, buf, pos, fin, sig =>
    if pos = fin then some buf
    else if pos > fin then none
    else
      match adbusI_flip_value fuel native buf pos fin sig with
      | none => none
      | some (buf1, p1, _) => adbusI_flip_elements fuel native buf1 p1 fin sig
termination_by structural fuel => fuel
end

/-- Modelled from the spec: `adbus_flip_data` is not among the sources. The values of
the types of `sig`, one after the other. -/
def adbusI_flip_all : Nat → Nat → List Nat → Nat → Nat → List Nat → Option (List Nat)
  | 0, _, _, _, _, _ => none
  | fuel + 1, native, buf, pos, fin, sig =>
    match sig with
    | [] => some buf
    | _ :: _ =>
      match adbusI_flip_value fuel native buf pos fin sig with
      | none => none
      | some (buf1, p1, sig1) => adbusI_flip_all fuel native buf1 p1 fin sig1

/-- Modelled from the spec: `adbus_flip_data` is not among the sources. The `size` bytes
at `off` are turned to the native order `native` along the signature `sig`;
`none` is the return of an error. The fuel is more than the number of steps
that `size` bytes and the signature allow. -/
def adbus_flip_data (native : Nat) (buf : List Nat) (off size : Nat) (sig : List Nat) :
    Option (List Nat) :=
  adbusI_flip_all (2 * (256 * size + sig.length) + 2) native buf off (off + size) sig

/-- The method return `sampleReturn` in big-endian order: the marker `B`, the
body length 9, the serial 1, the header field length 17, the reply serial 7,
the signature `uuy` and the body 1, 2, 3. -/
def sampleReturnBig : List Nat :=
  [66, 2, 0, 1,  0, 0, 0, 9,  0, 0, 0, 1,  0, 0, 0, 17,
   5, 1, 117, 0,  0, 0, 0, 7,  8, 1, 103, 0,  3, 117, 117, 121, 0,
   0, 0, 0, 0, 0, 0, 0,  0, 0, 0, 1,  0, 0, 0, 2,  3]

/-- The bytes of `sampleReturnBig` after its header has been turned to
little-endian order: the body is in big-endian order still. -/
def sampleReturnHeaderFlipped : List Nat :=
  [66, 2, 0, 1,  9, 0, 0, 0,  1, 0, 0, 0,  17, 0, 0, 0,
   5, 1, 117, 0,  7, 0, 0, 0,  8, 1, 103, 0,  3, 117, 117, 121, 0,
   0, 0, 0, 0, 0, 0, 0,  0, 0, 0, 1,  0, 0, 0, 2,  3]

/-- The message `sampleUnknownType`, of type 5, in big-endian order. -/
def sampleUnknownTypeBig : List Nat :=
  [66, 5, 0, 1,  0, 0, 0, 0,  0, 0, 0, 1,  0, 0, 0, 11,
   1, 1, 115, 0,  0, 0, 0, 2,  47, 97, 0,  0, 0, 0, 0, 0]

/-! ## `adbus_clonedata` (src/adbus/parse.c)

For `adbus_clonedata` the pointers of a message are addresses of the machine,
as the function moves a message from one block of memory to another: `none`
is the null pointer, the address 0, and `some a` is the address `a`.
Addresses and differences of addresses are 64-bit words. -/

/-- The address that a pointer holds. -/
def ptrAddr (p : Option Nat) : Nat :=
  match p with
  | none => 0
  | some a => a

/-- The pointer that holds the address `a`, taken modulo `2 ^ 64`. -/
def ptrOf (a : Nat) : Option Nat :=
  if a % SIZE_MOD = 0 then none else some (a % SIZE_MOD)

/-- The difference `p - q` of two pointers to bytes, a `ptrdiff_t`, as a
64-bit word in two's complement. -/
def ptrDiff (p q : Option Nat) : Nat :=
  (ptrAddr p + SIZE_MOD - ptrAddr q % SIZE_MOD) % SIZE_MOD

/-- The pointer after `p += off`, for a pointer to objects of `w` bytes: the
address moves by `off * w`. -/
def ptrAdd (p : Option Nat) (off w : Nat) : Option Nat :=
  ptrOf (ptrAddr p + off * w)

/-- The function `adbus_clonedata` of parse.c, lines 458-489: the message `to` and
the bytes of the block that `malloc` has returned at the address `fresh`.
`blob` are the bytes at `from->data`; `junk` is what the block that `malloc`
returns for the arguments holds, as line 480 does not fill it. The field
`replySerial` points to a 32-bit word, all other pointers to bytes. -/
def adbus_clonedata (from_ : adbus_Message) (blob : List Nat) (fresh : Nat)
    (junk : List adbus_Argument) : adbus_Message × List Nat :=
  let data := blob.take from_.size
  let to0 := { from_ with data := ptrOf fresh }
  let off := ptrDiff from_.data to0.data
  let to1 :=
    { to0 with
      argdata := ptrAdd to0.argdata off 1
      signature := ptrAdd to0.signature off 1
      replySerial := ptrAdd to0.replySerial off 4
      path := ptrAdd to0.path off 1
      interface := ptrAdd to0.interface off 1
      member := ptrAdd to0.member off 1
      error := ptrAdd to0.error off 1
      destination := ptrAdd to0.destination off 1
      sender := ptrAdd to0.sender off 1 }
  let to2 :=
    match from_.arguments with
    | none => to1
    | some _ =>
      { to1 with
        arguments := some ((junk.take to1.argumentsSize).map (fun a =>
          if a.value ≠ none then { a with value := ptrAdd a.value off 1 } else a)) }
  (to2, data)

/-- The offset of a pointer of a message from the data of the message, as a
64-bit word. -/
def fieldOffset (m : adbus_Message) (p : Option Nat) : Nat :=
  ptrDiff p m.data

/-- The message that `adbus_parse` fills out for `sampleCall` when the buffer
lies at the address 1000: the path at the offset 24, the member at the
offset 40, no arguments. -/
def sampleCallAt1000 : adbus_Message :=
  { adbus_Message.zero with
    data := some 1000, size := 48, argdata := some 1048, argsize := 0, type := 1, serial := 4,
    path := some 1024, pathSize := 2, member := some 1040, memberSize := 4 }

/-! ## Method calls in the C++ binding (src/DBusCpp/Connection.cpp)

The marshaller of the C library and the class `DBus::Error` are declared in
headers that are not among the sources; they are modelled from the calls that
`Connection.cpp` makes. The handler of a method is a function of the user:
`user h message` is `none` when the handler `h` returns, and the error that
it throws otherwise. -/

/-- An exception of the class `DBus::Error`, as the `catch` of
`Connection::dispatchMethodCall` reads it: `errorName()` and
`errorMessage()`, which may be a null pointer. -/
structure DBusError where
  errorName : String
  errorMessage : Option String
deriving DecidableEq, Repr

/-- The class `InvalidPathError`, lines 38-45. -/
def InvalidPathError : DBusError :=
  { errorName := "nz.co.foobar.DBus.InvalidPath", errorMessage := some "Path not found" }

/-- The class `InvalidMethodError`, lines 411-418. -/
def InvalidMethodError : DBusError :=
  { errorName := "nz.co.foobar.DBus.InvalidMethod", errorMessage := some "No method found" }

/-- Modelled from the spec: the marshaller (`DBusMarshaller`) belongs to the C library,
which is not among the sources. It is the message that is being built: the
type, the serial, the flags, the header fields that have been set, and the
string arguments that have been appended. -/
structure DBusMarshaller where
  type : Nat
  serial : Nat
  flags : Nat
  errorName : Option String
  replySerial : Option Nat
  destination : Option String
  path : Option String
  interface : Option String
  member : Option String
  arguments : List String
deriving DecidableEq, Repr

/-- Modelled from the spec: `DBusClearMarshaller` is not among the sources. The
marshaller without any content. -/
def DBusClearMarshaller : DBusMarshaller :=
  { type := 0, serial := 0, flags := 0, errorName := none, replySerial := none,
    destination := none, path := none, interface := none, member := none, arguments := [] }

/-- The function `Connection::setupMarshaller`, lines 301-309: the marshaller is
cleared, and it gets the serial that is given, or the next serial of the
connection when 0 is given, and the flags. The send callback is not
modelled. -/
def Connection.setupMarshaller (c : Connection) (serial flags : Nat) :
    Connection × DBusMarshaller :=
  if serial = 0 then
    ({ c with m_NextSerial := (c.m_NextSerial + 1) % 2 ^ 32 },
     { DBusClearMarshaller with serial := c.m_NextSerial, flags := flags })
  else (c, { DBusClearMarshaller with serial := serial, flags := flags })

/-- Modelled from the spec: `FindUsingKey` is defined in `Connection.inl`, which is not
among the sources. It finds the entry of a map whose key is the string of
`size` bytes at the pointer; the result is `none` for `end()`. For a null
pointer, which is no string, it is taken to find nothing. -/
def FindUsingKey {α : Type} (m : List (String × α)) (key : Option String) : Option α :=
  match key with
  | none => none
  | some k => mapFind m k

/-- The function `ObjectInterface::callMethod`, lines 538-549: the handlers that
were called, and the value that is returned or the error that the handler
has thrown. -/
def ObjectInterface.callMethod (user : Nat → DBusMessage → Option DBusError)
    (i : ObjectInterface) (message : DBusMessage) : List Nat × Except DBusError Bool :=
  match FindUsingKey i.m_Methods message.member with
  | none => ([], Except.ok false)
  | some method =>
    match user method.handler message with
    | some e => ([method.handler], Except.error e)
    | none => ([method.handler], Except.ok true)

/-- The loop of `Object::callMethod`, lines 436-441, over the entries of
`m_Interfaces` from the iterator on, and the `throw` of line 442 behind
it. -/
def callMethodLoop (user : Nat → DBusMessage → Option DBusError) (message : DBusMessage) :
    List (String × ObjectInterface) → List Nat × Except DBusError Unit
  | [] => ([], Except.error InvalidMethodError)
  | (_, i) :: rest =>
    match i.callMethod user message with
    | (t, Except.error e) => (t, Except.error e)
    | (t, Except.ok true) => (t, Except.ok ())
    | (t, Except.ok false) =>
      ((t ++ (callMethodLoop user message rest).1), (callMethodLoop user message rest).2)

/-- The function `Object::callMethod`, lines 420-444: the handlers that were
called, and the error with which the function is left, if it throws. -/
def Object.callMethod (user : Nat → DBusMessage → Option DBusError) (o : Object)
    (message : DBusMessage) : List Nat × Except DBusError Unit :=
  match message.interface with
  | some interface =>
    match FindUsingKey o.m_Interfaces (some interface) with
    | none => ([], Except.error InvalidMethodError)
    | some i =>
      match i.callMethod user message with
      | (t, Except.error e) => (t, Except.error e)
      | (t, Except.ok false) => (t, Except.error InvalidMethodError)
      | (t, Except.ok true) => (t, Except.ok ())
  | none => callMethodLoop user message o.m_Interfaces

/-- The `catch` block of `Connection::dispatchMethodCall`, lines 216-226: the
error message that is sent for the error `e`. The call `setupMarshaller(m)`
of line 219 has the default arguments of the declaration, which is not among
the sources; they are taken to be the serial 0, which asks for the next
serial, and no flags. The setters of the C library are modelled from the spec:
each writes its field, `DBusAppendString` appends an argument. -/
def Connection.sendError (c : Connection) (e : DBusError) (message : DBusMessage) :
    Connection × DBusMarshaller :=
  let m1 := (c.setupMarshaller 0 0).2
  let m2 := { m1 with type := DBusErrorMessage }
  let m3 := { m2 with errorName := some e.errorName }
  let m4 := { m3 with replySerial := some message.serial }
  let m5 :=
    match e.errorMessage with
    | none => m4
    | some msg => if msg ≠ "" then { m4 with arguments := m4.arguments ++ [msg] } else m4
  ((c.setupMarshaller 0 0).1, m5)

/-- The `try` block of `Connection::dispatchMethodCall`, lines 200-214. -/
def Connection.findAndCall (user : Nat → DBusMessage → Option DBusError) (c : Connection)
    (message : DBusMessage) : List Nat × Except DBusError Unit :=
  match message.path with
  | none => ([], Except.error InvalidPathError)
  | some path =>
    match FindUsingKey c.m_Objects (some path) with
    | none => ([], Except.error InvalidPathError)
    | some none => ([], Except.error InvalidPathError)
    | some (some o) => o.callMethod user message

/-- The function `Connection::dispatchMethodCall`, lines 198-227: the connection
after the call, the messages that were sent with `DBusSendMessage`, and the
handlers that were called. -/
def Connection.dispatchMethodCall (user : Nat → DBusMessage → Option DBusError)
    (c : Connection) (message : DBusMessage) :
    Connection × List DBusMarshaller × List Nat :=
  match c.findAndCall user message with
  | (t, Except.ok _) => (c, [], t)
  | (t, Except.error e) => ((c.sendError e message).1, [(c.sendError e message).2], t)

/-- The container after the value of the entry with the key `k` has been
changed in place, as through the pointer that `Object::addInterface`
returns: the entries keep their places, and a container without the key
stays as it is. -/
def mapReplace {κ α : Type} [DecidableEq κ] : List (κ × α) → κ → α → List (κ × α)
  | [], _, _ => []
  | (k1, v1) :: rest, k, v =>
    if k1 = k then (k, v) :: rest else (k1, v1) :: mapReplace rest k v

/-- Modelled from the spec: the type `Interfaces` of `m_Interfaces` is declared in
`Connection.h`, which is not among the sources, so that the source does not
tell in which order `m_Interfaces.begin()` to `m_Interfaces.end()` walks the
entries. The spec has the interfaces of an object iterated "in insertion
order", and the container is modelled so: `m_Interfaces[i->name()] = i` puts
a new entry behind the entries that are there. The rest is the function
`Object::addInterface`, lines 360-371: an interface that the object has
already is kept, and a new interface, without methods, is put into the
container under its name. -/
def Object.addInterface (o : Object) (name : String) : Object :=
  match mapFind o.m_Interfaces name with
  | some _ => o
  | none =>
    let i : ObjectInterface := { name := name, m_Methods := [], m_Properties := [], m_Signals := [] }
    { o with m_Interfaces := o.m_Interfaces ++ [(name, i)] }

/-- Modelled from the spec: `ObjectInterface::addMethod` is declared in `Connection.h`,
which is not among the sources. Like `ObjectInterface::addSignal`, lines
470-476, it puts the method into the map of the interface under its name;
the method has the handler `handler`. -/
def ObjectInterface.addMethod (i : ObjectInterface) (name : String) (handler : Nat) :
    ObjectInterface :=
  let method : MethodBase :=
    { component := { name := name, inArguments := [], outArguments := [], annotations := [] },
      handler := handler }
  { i with m_Methods := mapSet stringLt i.m_Methods name method }

/-- The calls `o->addInterface(interface)->addMethod(name, ...)`, as in lines
89-90: the interface is added to the object if it is new, and the method is
added to the interface, which keeps its place among the interfaces. -/
def Object.addInterfaceMethod (o : Object) (interface name : String) (handler : Nat) : Object :=
  let o1 := o.addInterface interface
  match mapFind o1.m_Interfaces interface with
  | none => o1
  | some i =>
    { o1 with m_Interfaces := mapReplace o1.m_Interfaces interface (i.addMethod name handler) }

/-- An object without interfaces to which the interface `b.I` with the method
`M` of the handler 1 is added first, and then the interface `a.I` with the
method `M` of the handler 2. -/
def sampleTwoInterfaces : Object :=
  (({ m_Name := "/o", m_Interfaces := [] } : Object).addInterfaceMethod "b.I" "M" 1).addInterfaceMethod
    "a.I" "M" 2

/-- A method call with the serial 7 from `:1.5`. -/
def methodCall (path interface member : Option String) : DBusMessage :=
  { type := DBusMethodCallMessage, serial := 7, replySerial := 0, sender := some ":1.5",
    path := path, interface := interface, member := member }

/-- Handlers that return and throw nothing. -/
def quietHandlers : Nat → DBusMessage → Option DBusError :=
  fun _ _ => none

/-- An error message with the serial `serial`, the error name `name`, the
reply serial `replySerial` and the one string argument `text`. -/
def errorReply (serial : Nat) (name text : String) (replySerial : Nat) : DBusMarshaller :=
  { DBusClearMarshaller with
    type := DBusErrorMessage, serial := serial, errorName := some name,
    replySerial := some replySerial, arguments := [text] }

/-- The connection after one serial has been taken from its counter. -/
def Connection.serialTaken (c : Connection) : Connection :=
  { c with m_NextSerial := (c.m_NextSerial + 1) % 2 ^ 32 }

/-- What the call of a handler leaves: the handler in the record of the
calls, and the error that it has thrown, if it has. -/
def handlerCalled (user : Nat → DBusMessage → Option DBusError) (method : MethodBase)
    (message : DBusMessage) : List Nat × Except DBusError Unit :=
  ([method.handler],
    match user method.handler message with
    | some e => Except.error e
    | none => Except.ok ())

/-- A connection in which the object with the interfaces `b.I` and `a.I` is
bound to `/o`. -/
def sampleBound : Connection :=
  { Connection.new with m_Objects := [("/o", some sampleTwoInterfaces)] }

/-- The entries of a map with strings as keys stand in the strict order of
their keys. -/
def keysSorted {α : Type} (l : List (String × α)) : Prop :=
  (l.map Prod.fst).Pairwise (fun a b => stringLt a b = true)

/-- The tables of the replies of a connection fit together: a name of the
table of the remotes leads to a remote in the heap that has this name, points
to the connection and has a reply; a remote in the heap stands in the table
under its name; an entry of a remote leads to a reply in the heap that
points back to the remote and has the serial of the entry; a reply in the
heap stands in the table of its remote under its serial; and the addresses
from `nextAlloc` on are free. -/
def adbus_Connection.consistent (c : adbus_Connection) : Prop :=
  (∀ n rh, mapFind c.remotes n = some rh →
      ∃ remote, mapFind c.remoteHeap rh = some remote ∧ remote.name = n
        ∧ remote.connection = true ∧ remote.replies ≠ [])
  ∧ (∀ rh remote, mapFind c.remoteHeap rh = some remote →
      mapFind c.remotes remote.name = some rh)
  ∧ (∀ rh remote s h, mapFind c.remoteHeap rh = some remote →
      mapFind remote.replies s = some h →
      ∃ r, mapFind c.replyHeap h = some r ∧ r.remote = some rh ∧ r.serial = s)
  ∧ (∀ h r, mapFind c.replyHeap h = some r →
      ∃ rh remote, r.remote = some rh ∧ mapFind c.remoteHeap rh = some remote
        ∧ mapFind remote.replies r.serial = some h)
  ∧ (∀ q, c.nextAlloc ≤ q → mapFind c.replyHeap q = none ∧ mapFind c.remoteHeap q = none)

/-- The states of a connection that are reached from a connection without
replies by calls of `adbus_conn_addreply`, `adbus_conn_removereply` and
`adbusI_dispatchReply` that return, with functions of the user that leave
the connection alone. -/
inductive replyReachable : adbus_Connection → Prop where
  | empty (services : List (List Nat × Option (List Nat))) :
      replyReachable (adbus_Connection.empty services)
  | addreply (c c1 : adbus_Connection) (reg : adbus_Reply) (r : Option Nat) :
      replyReachable c → adbus_conn_addreply c reg = some (c1, r) → replyReachable c1
  | removereply (ret : Call → Int) (c c1 : adbus_Connection) (h : Nat) :
      replyReachable c → adbus_conn_removereply (inertUser ret) c h = some c1 →
      replyReachable c1
  | dispatchReply (ret : Call → Int) (c c1 : adbus_Connection) (d : adbus_CbData) (v : Int) :
      replyReachable c → adbusI_dispatchReply (inertUser ret) c d = some (c1, v) →
      replyReachable c1

/-- The value that the delivery of a reply returns when the functions of the
user return `ret`: the value of the call that is made, and 0 when no call is
made. -/
def deliveryValue (ret : Call → Int) (r : adbus_ConnReply) (d : adbus_CbData) : Int :=
  match deliveryCalls r d with
  | [] => 0
  | call :: _ => ret call

/-- A second registration for the remote `:1.5`, for the serial 101, with the
callback 5 for the reply and the callback 6 for the error. -/
def sampleSecondReply : adbus_Reply :=
  { adbus_reply_init with
    serial := 101, remote := [58, 49, 46, 53, 0], callback := some 5, cuser := 15,
    error := some 6, euser := 16 }

/-- The connection after `adbus_conn_addreply` of `sampleSecondReply` on
`samplePending`: the replies for the serials 100 and 101 from `:1.5` are
pending at the addresses 2 and 3. -/
def sampleTwoPending : adbus_Connection :=
  match adbus_conn_addreply samplePending sampleSecondReply with
  | some (c, _) => c
  | none => samplePending

/-- An error from `sender` with the reply serial `serial`. -/
def sampleErrorData (sender : List Nat) (serial : Nat) : adbus_CbData :=
  { type := ADBUS_MSG_ERROR, replySerial := some serial, sender := some sender, user1 := 0 }

/-- A name tracker that knows the unique name `:1.5` for the name `org.a`. -/
def sampleTracker : List (List Nat × Option (List Nat)) :=
  [([111, 114, 103, 46, 97], some [58, 49, 46, 53])]

/-- A registration for the serial 100 from the remote `org.a`, with the callback
1 for the reply. -/
def sampleNamedReply : adbus_Reply :=
  { adbus_reply_init with
    serial := 100, remote := [111, 114, 103, 46, 97, 0], callback := some 1, cuser := 11 }

/-- A call that uses a serial of a connection: `Connection::setupMarshaller`
with the serial and the flags that the caller gives, or
`Connection::addRegistration`. -/
inductive SerialOp where
  | setupMarshaller (serial flags : Nat)
  | addRegistration (registration : MessageRegistration)
deriving DecidableEq, Repr

/-- The call asks the connection for a fresh serial: `setupMarshaller` with
the serial 0, and every `addRegistration`. -/
def SerialOp.fresh : SerialOp → Bool
  | SerialOp.setupMarshaller serial _ => decide (serial = 0)
  | SerialOp.addRegistration _ => true

/-- The connection after the call and the serial that the call has used: the
serial of the marshaller after `setupMarshaller`, and the serial that
`addRegistration` returns. -/
def SerialOp.run (c : Connection) : SerialOp → Connection × Nat
  | SerialOp.setupMarshaller serial flags =>
    ((c.setupMarshaller serial flags).1, (c.setupMarshaller serial flags).2.serial)
  | SerialOp.addRegistration registration => c.addRegistration registration

/-- The fresh serials that a sequence of calls hands out, the first call
first. -/
def freshSerials : Connection → List SerialOp → List Nat
  | _, [] => []
  | c, op :: rest =>
    if op.fresh then (op.run c).2 :: freshSerials (op.run c).1 rest
    else freshSerials (op.run c).1 rest

/-- Calls of the scenario: two registrations, a marshaller with the serial 77
of the caller, and a marshaller with a fresh serial. -/
def sampleSerialOps : List SerialOp :=
  [SerialOp.addRegistration sampleReturnRegistration,
   SerialOp.addRegistration (signalRegistration "" "" "" "" 5),
   SerialOp.setupMarshaller 77 0,
   SerialOp.setupMarshaller 0 0]

/-- The function `MethodBase::addReturn`, lines 632-641: the argument is put
behind the out arguments. The assertions are those of a build without
assertions. -/
def MethodBase.addReturn (m : MethodBase) (name type : String) : MethodBase :=
  { m with component :=
      { m.component with outArguments := m.component.outArguments ++ [(name, type)] } }

/-- The pointer that `Connection::addObject` returns, lines 84-94: the entry
of the map when the path is bound, and the new object otherwise. -/
def Connection.addObjectReturned (c : Connection) (name : String) : Option Object :=
  match mapFind c.m_Objects name with
  | some o => o
  | none => some (newObject name)

/-- The function `Connection::removeObject`, lines 99-108: a path that is not
bound is left alone; the entry of a bound path is erased. -/
def Connection.removeObject (c : Connection) (name : String) : Connection :=
  match FindUsingKey c.m_Objects (some name) with
  | none => c
  | some _ => { c with m_Objects := mapErase c.m_Objects name }

/-- The function `Object::marshaller`, lines 401-407, for an object of the
connection `c`: the marshaller of the object after
`connection()->setupMarshaller(m_Marshaller)`. The call has the default
arguments of the declaration, which is not among the sources; they are taken
to be the serial 0, which asks for the next serial, and no flags. -/
def Object.marshaller (c : Connection) : Connection × DBusMarshaller :=
  c.setupMarshaller 0 0

/-- The function `ObjectInterface::returnMessage`, lines 491-501, for an
interface of an object of the connection `c`: the connection after the call
and the marshaller that is returned. The setters of the C library are
modelled from the spec: each writes its field. -/
def ObjectInterface.returnMessage (c : Connection) (request : DBusMessage) :
    Connection × DBusMarshaller :=
  let m := (Object.marshaller c).2
  let m1 := { m with type := DBusMethodReturnMessage }
  let m2 :=
    match request.sender with
    | some remote => { m1 with destination := some remote }
    | none => m1
  ((Object.marshaller c).1, { m2 with replySerial := some request.serial })

/-- The opening tag of the element of a property in the words of the
specification: the name of the property as `name="..."`. -/
def specPropertyTag (name : String) : String :=
  "  <property name=\"" ++ name ++ "\""

/-- An interface with the property `Volume` of the type `u`, which has the
annotation `a.b` with the value `c`. -/
def samplePropertyInterface : ObjectInterface :=
  { name := "x.Y",
    m_Methods := [],
    m_Properties := [("Volume",
      { component := { name := "Volume", inArguments := [], outArguments := [],
                       annotations := [("a.b", "c")] },
        typeString := "u" })],
    m_Signals := [] }

/-- The path that the loop of `Connection::introspectObject` compares the names
with, lines 126-128: the name of the object, with a `/` at its end. -/
def childPath (objectName : String) : String :=
  if objectName.data.getLast? ≠ some '/' then objectName ++ "/" else objectName

/-- Modelled from the spec: the vector macros `dv_push`, `dv_size`, `dv_release` and
`dv_free` are not among the sources. A vector is the list of its entries, and
`dv_release` hands out the block of the entries: the null pointer for a vector
to which nothing was pushed, as a vector that was set to zero has no block. -/
def dv_release (args : List adbus_Argument) : Option (List adbus_Argument) :=
  if args = [] then none else some args

/-- The loop of `adbus_parseargs`, lines 415-431, with the entries that were
pushed so far. The first argument is the fuel of the model, one unit for
every test of the loop; every turn takes a character or more off the
signature, so that the fuel that `adbus_parseargs` gives is never used up
(see `parseargsLoop_returns`). `Res.fail` is the jump to `err`. -/
def parseargsLoop : Nat → Nat → List Nat → adbus_Iterator → List adbus_Argument →
    Res (List adbus_Argument)
  | 0, _, _, _, _ => Res.diverge
  | fuel + 1, native, data, i, args =>
    match i.sig with
    | [] => Res.ok args
    | c :: _ =>
      if c = 115 then
        match adbus_iter_string native data i with
        | none => Res.fail
        | some (p, n, j) =>
          parseargsLoop fuel native data j (args ++ [{ value := some p, size := n }])
      else
        match adbus_iter_value (valueFuel i) native data i with
        | Res.ok j => parseargsLoop fuel native data j (args ++ [{ value := none, size := 0 }])
        | Res.fail => Res.fail
        | Res.diverge => Res.diverge

/-- The message after lines 433-434 of `adbus_parseargs`: `argumentsSize` is the
number of the entries, and `arguments` the block of the vector. -/
def withArguments (m : adbus_Message) (args : List adbus_Argument) : adbus_Message :=
  { m with argumentsSize := args.length, arguments := dv_release args }

/-- The function `adbus_parseargs`, lines 403-440: the message after the call
and the value that is returned. `native` is the byte order of the machine
and `data` the buffer of the message. The signature is the C string at
`m->signature`; a null `signature` fails the assertion of line 413 and is
read by the test of the loop, and a null `argdata` with bytes to read is no
buffer: the model gives no result for them, nor when the fuel runs out. -/
def adbus_parseargs (native : Nat) (data : List Nat) (m : adbus_Message) :
    Option (adbus_Message × Int) :=
  match m.arguments with
  | some _ => some (m, 0)
  | none =>
    match m.signature with
    | none => none
    | some s =>
      if m.argdata = none ∧ m.argsize ≠ 0 then none
      else
        let i : adbus_Iterator :=
          { data := m.argdata.getD 0, size := m.argsize, sig := cstringAt data s 255 }
        match parseargsLoop (i.sig.length + 1) native data i [] with
        | Res.ok args => some (withArguments m args, 0)
        | Res.fail => some (m, -1)
        | Res.diverge => none

/-- The function `adbus_freeargs`, lines 445-451, for the pointer `m`, `none` for
the null pointer: `free(m->arguments)` gives the block of the entries back,
and `argumentsSize` is set to 0. The field `arguments` is not assigned: it
keeps the address of the block. -/
def adbus_freeargs (m : Option adbus_Message) : Option adbus_Message :=
  m.map (fun m1 => { m1 with argumentsSize := 0 })

/-- The complete types of a signature in the words of the specification: the
signature is cut behind every complete type, from the left to the right;
`none` when a part of the signature is no complete type. The first argument
bounds the number of types. -/
def completeTypes : Nat → List Nat → Option (List (List Nat))
  | 0, _ => none
  | fuel + 1, sig =>
    match sig with
    | [] => some []
    | _ :: _ =>
      match adbusI_nextarg 0 sig with
      | none => none
      | some rest =>
        (completeTypes fuel rest).map (fun l => sig.take (sig.length - rest.length) :: l)

/-- A buffer with the signature `su` at the offset 0 and, at the offset 8, a
body of 12 bytes in little-endian order: the string `hi` and the number 5. -/
def sampleArgsData : List Nat :=
  [115, 117, 0, 0,  0, 0, 0, 0,
   2, 0, 0, 0,  104, 105, 0, 0,  5, 0, 0, 0]

/-- The message that a caller fills out for `sampleArgsData`: the signature,
the body, and no arguments. -/
def sampleArgsMessage : adbus_Message :=
  { adbus_Message.zero with
    data := some 0, size := 20, signature := some 0, argdata := some 8, argsize := 12 }

/-- The message `sampleArgsMessage` with an argument vector of one entry, as a
caller may have left it from an earlier body. -/
def sampleArgsStale : adbus_Message :=
  { sampleArgsMessage with arguments := some [{ value := none, size := 0 }], argumentsSize := 1 }

/-- The message `sampleArgsMessage` after `adbus_parseargs` on a little-endian
machine. -/
def sampleArgsParsed : adbus_Message :=
  match adbus_parseargs 108 sampleArgsData sampleArgsMessage with
  | some (m, _) => m
  | none => sampleArgsMessage

/-- A key of a Lua table, as `lua_type` and `lua_tolstring` show it: a number,
a string with its bytes, or a value of another type. -/
inductive LuaKey where
  | number (n : Int)
  | string (bytes : List Nat)
  | other (type : Nat)
deriving DecidableEq, Repr

/-- The library function `strncmp(a, b, n)` on two C strings: the bytes of the
lists, behind which the terminating nul stands. At most `n` characters are
compared, and the comparison ends behind a nul; the result is 0 when no
difference was found. -/
def strncmp : List Nat → List Nat → Nat → Int
  | _, _, 0 => 0
  | a, b, n + 1 =>
    if a.headD 0 % 256 ≠ b.headD 0 % 256 then
      ((a.headD 0 % 256 : Nat) : Int) - ((b.headD 0 % 256 : Nat) : Int)
    else if a.headD 0 % 256 = 0 then 0
    else strncmp a.tail b.tail n

/-- The inner loop of `CheckFields`, lines 97-106: `true` when the loop is left
with the `break`, at a name of which the first `keySize` characters compare
equal to the key, and `false` when it ends at the null pointer that closes
the array `valid`. -/
def findValid (key : List Nat) (keySize : Nat) : List (List Nat) → Bool
  | [] => false
  | v :: rest => if strncmp key v keySize = 0 then true else findValid key keySize rest

/-- The function `CheckFields` of LADBus.c, lines 64-112. The functions of the
Lua library are not among the sources: the table is the list of its keys in
the order in which `lua_next` gives them, and the key of a string has the
bytes and the length that `lua_tolstring` gives. -/
def CheckFields : List LuaKey → Nat → List (List Nat) → Int
  | [], _, _ => 0
  | k :: rest, allowNumbers, valid =>
    match k with
    | LuaKey.number _ => if allowNumbers ≠ 0 then CheckFields rest allowNumbers valid else -1
    | LuaKey.other _ => -1
    | LuaKey.string key =>
      if findValid key key.length valid = false then -1
      else CheckFields rest allowNumbers valid

/-- The function `LADBusCheckFields`, lines 114-120. -/
def LADBusCheckFields (table : List LuaKey) (valid : List (List Nat)) : Int :=
  CheckFields table 0 valid

/-- The function `LADBusCheckFieldsAllowNumbers`, lines 122-128. -/
def LADBusCheckFieldsAllowNumbers (table : List LuaKey) (valid : List (List Nat)) : Int :=
  CheckFields table 1 valid

/-- The bytes of a C string: no byte is 0, and every byte is below 256. -/
def cBytes (l : List Nat) : Prop :=
  ∀ b ∈ l, 0 < b ∧ b < 256

/-- The key is accepted in the words of the specification: with numbers
allowed a number, and otherwise a string that is equal to one of the valid
names. -/
def specKeyValid (allowNumbers : Nat) (valid : List (List Nat)) (k : LuaKey) : Prop :=
  (allowNumbers ≠ 0 ∧ ∃ n, k = LuaKey.number n) ∨ ∃ key, k = LuaKey.string key ∧ key ∈ valid

/-- A signal registration with the given filter fields, the slot of the
handler `handler` and the error slot of the handler `errorHandler`. -/
def signalRegistrationBoth (service path interface member : String)
    (handler errorHandler : Nat) : MessageRegistration :=
  { type := DBusSignalMessage, service := service, path := path, interface := interface,
    member := member, slot := some { handler := handler },
    errorSlot := some { handler := errorHandler } }

/-- A connection without objects and registrations whose serial counter
stands at its last value, `2^32 - 1`. -/
def sampleLastSerial : Connection :=
  { m_Objects := [], m_Returns := [], m_Signals := [], m_NextSerial := 2 ^ 32 - 1 }

/-- The argument vector in the words of the specification, for arguments of
the types `types` that lie one behind the other in the body from the offset
`pos` up to the offset `fin`, the end of the body. A string (`s`) lies at the
next 4-byte boundary `q`: the 32-bit number `n` of its bytes, the bytes and a
nul, all of them before the end of the body; its entry points to the bytes,
at `q + 4`, and has `n` as size, and the next argument lies behind the nul.
An argument of another type is stepped over along its type, the first
complete type of the signature that is left (the types from `t` on, one
behind the other), and its entry has a null value and the size 0. `none` when
an argument cannot be read. -/
def specArguments (native : Nat) (data : List Nat) (fin : Nat) :
    Nat → List (List Nat) → Option (List adbus_Argument)
  | _, [] => some []
  | pos, t :: ts =>
    if t = [115] then
      let q := ADBUSI_ALIGN pos 4
      let n := Get32 native data q
      if fin < q + 4 + n + 1 ∨ byteAt data (q + 4 + n) ≠ 0 then none
      else
        (specArguments native data fin (q + 4 + n + 1) ts).map
          (fun l => { value := some (q + 4), size := n } :: l)
    else
      match adbus_iter_value
          (valueFuel { data := pos, size := fin - pos, sig := (t :: ts).flatten }) native data
          { data := pos, size := fin - pos, sig := (t :: ts).flatten } with
      | Res.ok j =>
        (specArguments native data fin j.data ts).map
          (fun l => { value := none, size := 0 } :: l)
      | Res.fail => none
      | Res.diverge => none

/-- A buffer with the signature `ss` at the offset 0 and, at the offset 8, a
body of 15 bytes in little-endian order: the strings `hi` and `yo`. -/
def sampleTwoStrings : List Nat :=
  [115, 115, 0, 0,  0, 0, 0, 0,
   2, 0, 0, 0,  104, 105, 0, 0,  2, 0, 0, 0,  121, 111, 0]

/-- The message that a caller fills out for `sampleTwoStrings`: the
signature, the body, and no arguments. -/
def sampleTwoStringsMessage : adbus_Message :=
  { adbus_Message.zero with
    data := some 0, size := 23, signature := some 0, argdata := some 8, argsize := 15 }

/-- The head of the header field at the cursor: its code and the signature
that its variant carries. The value of the field is not looked at; `none`
when the struct, the code byte or the signature of the variant cannot be
read. -/
def readHead (data : List Nat) (i : adbus_Iterator) : Option (Nat × List Nat) :=
  match adbus_iter_beginstruct i with
  | none => none
  | some i1 =>
    match adbus_iter_u8 i1 with
    | none => none
    | some (code, i2) =>
      match adbus_iter_beginvariant data i2 with
      | none => none
      | some (_, i3) => some (byteAt data code, i3.sig)

/-- The heads of the header fields from the cursor up to the end of the array
`a`, in the order of the wire: the code and the variant signature of every
field up to and with the first field that cannot be read as a whole. What
lies behind such a field has no place that the wire format tells. -/
def fieldHeads : Nat → Nat → List Nat → adbus_IterArray → adbus_Iterator →
    List (Nat × List Nat)
  | 0, _, _, _, _ => []
  | fuel + 1, native, data, a, i =>
    match adbus_iter_inarray i a with
    | (false, _) => []
    | (true, i0) =>
      match readHead data i0 with
      | none => []
      | some h =>
        h :: (match readField native data i0 with
              | Res.ok (_, i1) => fieldHeads fuel native data a i1
              | Res.fail => []
              | Res.diverge => [])

/-- The heads of the header fields of a message of `size` bytes whose header
is in native order: those of the array `a(yv)` at offset 12. -/
def headerHeads (native : Nat) (data : List Nat) (size : Nat) : List (Nat × List Nat) :=
  match adbus_iter_beginarray native data
      { data := sizeof_adbusI_Header, size := size - sizeof_adbusI_Header,
        sig := fieldsSignature } with
  | none => []
  | some (a, i) => fieldHeads (size + 1) native data a i

/-- The heads of the header fields of a message in any byte order: the code
and the variant signature of every header field that the message carries,
whether the value of the field can be read or not. -/
def messageHeads (flip : List Nat → Nat → Nat → List Nat → Option (List Nat)) (native : Nat)
    (data : List Nat) (size : Nat) : List (Nat × List Nat) :=
  match nativeHeader flip native data size with
  | none => []
  | some d => headerHeads native d size

/-- The method call `sampleCall` with an interface field, of the code 2, whose
variant has the signature `ss` and holds the strings `x` and `y`; 72 bytes in
little-endian order. -/
def sampleCallInterfaceTwoStrings : List Nat :=
  [108, 1, 0, 1,  0, 0, 0, 0,  4, 0, 0, 0,  53, 0, 0, 0,
   1, 1, 111, 0,  2, 0, 0, 0,  47, 97, 0,  0, 0, 0, 0, 0,
   2, 2, 115, 115, 0,  0, 0, 0,  1, 0, 0, 0,  120, 0,  0, 0,
   1, 0, 0, 0,  121, 0,  0, 0,
   3, 1, 115, 0,  4, 0, 0, 0,  80, 105, 110, 103, 0,  0, 0, 0]

/-- The method call `sampleCall` with a member field, of the code 3, whose
variant has the empty signature and no value, in the place of the member;
40 bytes in little-endian order. -/
def sampleCallEmptySignature : List Nat :=
  [108, 1, 0, 1,  0, 0, 0, 0,  4, 0, 0, 0,  19, 0, 0, 0,
   1, 1, 111, 0,  2, 0, 0, 0,  47, 97, 0,  0, 0, 0, 0, 0,
   3, 0, 0,  0, 0, 0, 0, 0]

/-! ## Machine words -/

theorem byteAt_lt (data : List Nat) (off : Nat) : byteAt data off < 256 := by
  unfold byteAt
  omega

theorem Get32_lt (e : Nat) (data : List Nat) (off : Nat) : Get32 e data off < 2 ^ 32 := by
  have h0 := byteAt_lt data off
  have h1 := byteAt_lt data (off + 1)
  have h2 := byteAt_lt data (off + 2)
  have h3 := byteAt_lt data (off + 3)
  unfold Get32
  split
  · refine Nat.or_lt_two_pow (Nat.or_lt_two_pow (Nat.or_lt_two_pow ?_ ?_) ?_) ?_
    · omega
    · rw [Nat.shiftLeft_eq]; omega
    · rw [Nat.shiftLeft_eq]; omega
    · rw [Nat.shiftLeft_eq]; omega
  · refine Nat.or_lt_two_pow (Nat.or_lt_two_pow (Nat.or_lt_two_pow ?_ ?_) ?_) ?_
    · omega
    · rw [Nat.shiftLeft_eq]; omega
    · rw [Nat.shiftLeft_eq]; omega
    · rw [Nat.shiftLeft_eq]; omega

theorem byteAt_take (data : List Nat) (k off : Nat) (h : off < k) :
    byteAt (data.take k) off = byteAt data off := by
  unfold byteAt
  simp [List.getD_eq_getElem?_getD, List.getElem?_take, h]

theorem Get32_take (e : Nat) (data : List Nat) (k off : Nat) (h : off + 3 < k) :
    Get32 e (data.take k) off = Get32 e data off := by
  unfold Get32
  rw [byteAt_take data k off (by omega), byteAt_take data k (off + 1) (by omega),
    byteAt_take data k (off + 2) (by omega), byteAt_take data k (off + 3) (by omega)]

/-- What `adbus_parse_size` computes from 16 bytes on: the fixed header of 12
bytes and the header fields, rounded up to 8, and the body. -/
theorem adbus_parse_size_eq (data : List Nat) (size : Nat) (h : 16 ≤ size) :
    adbus_parse_size data size
      = ADBUSI_ALIGN (12 + Get32 (byteAt data 0) data 12) 8 + Get32 (byteAt data 0) data 4 := by
  have h1 := Get32_lt (byteAt data 0) data 12
  have h2 := Get32_lt (byteAt data 0) data 4
  unfold adbus_parse_size sizeof_adbusI_ExtendedHeader sizeof_adbusI_Header
    offsetof_headerFieldLength offsetof_length SIZE_MOD ADBUSI_ALIGN
  rw [if_neg (by omega)]
  simp only []
  omega

theorem adbus_parse_size_take (data : List Nat) (k : Nat) (hk : k < data.length) :
    (adbus_parse_size (data.take k) k = 0 ↔ k < 16)
    ∧ (16 ≤ k → adbus_parse_size (data.take k) k = adbus_parse_size data data.length) := by
  constructor
  · constructor
    · intro h0
      by_contra hge
      rw [adbus_parse_size_eq _ _ (by omega)] at h0
      unfold ADBUSI_ALIGN at h0
      omega
    · intro hlt
      unfold adbus_parse_size sizeof_adbusI_ExtendedHeader
      rw [if_pos hlt]
  · intro hge
    rw [adbus_parse_size_eq _ _ hge, adbus_parse_size_eq _ _ (by omega),
      byteAt_take data k 0 (by omega), Get32_take _ data k 12 (by omega),
      Get32_take _ data k 4 (by omega)]


/-! ## The size of a message -/

/-- C1: `adbus_parse_size` on a whole message of `n = align8(16 + hfl) + body`
bytes. It rounds `12 + hfl` instead of `16 + hfl`: the result is `n` when
`hfl mod 8` is 0, 5, 6 or 7, and it is `n - 8` when `hfl mod 8` is 1, 2, 3 or
4, so that the claim fails for these messages. -/
theorem adbus_parse_size_whole (data : List Nat)
    (hlen : data.length = ADBUSI_ALIGN (16 + Get32 (byteAt data 0) data 12) 8
      + Get32 (byteAt data 0) data 4) :
    ((Get32 (byteAt data 0) data 12 % 8 = 0 ∨ 5 ≤ Get32 (byteAt data 0) data 12 % 8) →
      adbus_parse_size data data.length = data.length)
    ∧ ((1 ≤ Get32 (byteAt data 0) data 12 % 8 ∧ Get32 (byteAt data 0) data 12 % 8 ≤ 4) →
      adbus_parse_size data data.length + 8 = data.length) := by
  have h16 : 16 ≤ data.length := by
    rw [hlen]
    unfold ADBUSI_ALIGN
    omega
  rw [adbus_parse_size_eq data _ h16]
  unfold ADBUSI_ALIGN at hlen ⊢
  constructor
  · intro h
    omega
  · intro h
    omega

/-- C1, at the sample method return: it is laid out as the claim says, 49
bytes long, and `adbus_parse_size` returns 41 for it. -/
theorem adbus_parse_size_whole_witness :
    sampleReturn.length = ADBUSI_ALIGN (16 + Get32 (byteAt sampleReturn 0) sampleReturn 12) 8
      + Get32 (byteAt sampleReturn 0) sampleReturn 4
    ∧ (1 ≤ Get32 (byteAt sampleReturn 0) sampleReturn 12 % 8
      ∧ Get32 (byteAt sampleReturn 0) sampleReturn 12 % 8 ≤ 4)
    ∧ sampleReturn.length = 49
    ∧ adbus_parse_size sampleReturn sampleReturn.length + 8 = sampleReturn.length :=
  ⟨by decide, by decide, by decide,
    (adbus_parse_size_whole sampleReturn (by decide)).2 (by decide)⟩

/-- C2: `adbus_parse` called on the sample method return with the size that
`adbus_parse_size` returned for it, 41, succeeds in native order and records
the size 49 in the message: the recorded size is not the size it was given. -/
theorem adbus_parse_recorded_size_sample :
    ∀ (flip : List Nat → Nat → Nat → List Nat → Option (List Nat)) (m : adbus_Message),
      adbus_parse_size sampleReturn sampleReturn.length = 41
      ∧ ∃ r, adbus_parse flip 108 m sampleReturn
            (adbus_parse_size sampleReturn sampleReturn.length) = Res.ok (sampleReturn, r)
          ∧ r.type = ADBUS_MSG_RETURN ∧ r.size = 49 ∧ r.argdata = some 40 ∧ r.argsize = 9 :=
  fun _ _ => ⟨by decide, _, rfl, rfl, rfl, rfl, rfl⟩

/-- C3: `adbus_parse_size` on the first 20 bytes of the sample method return,
a message of 49 bytes, returns 41: a size that is neither unknown nor the
size of the message. -/
theorem adbus_parse_size_truncated_sample :
    sampleReturn.length = 49
    ∧ adbus_parse_size (sampleReturn.take 20) 20 = 41
    ∧ adbus_parse_size (sampleReturn.take 20) 20 = adbus_parse_size sampleReturn 49 := by
  decide

/-! ## Message types -/

/-- C4: `adbus_parse` returns `-1` when the type byte is `Invalid` (0); when
the type byte is above `Signal` (4) it returns `0` and hands back the buffer
and the message of the caller as they were. -/
theorem adbus_parse_type (flip : List Nat → Nat → Nat → List Nat → Option (List Nat))
    (native : Nat) (m : adbus_Message) (data : List Nat) (size : Nat) :
    (byteAt data 1 = 0 → adbus_parse flip native m data size = Res.fail)
    ∧ (4 < byteAt data 1 → adbus_parse flip native m data size = Res.ok (data, m)) := by
  constructor
  · intro h
    unfold adbus_parse ADBUS_MSG_INVALID
    rw [if_pos h]
  · intro h
    unfold adbus_parse ADBUS_MSG_INVALID ADBUS_MSG_SIGNAL
    rw [if_neg (by omega), if_pos h]

/-- C4, at two buffers in big-endian order on a little-endian machine: type
0 is an error, type 5 is passed over with nothing changed. -/
theorem adbus_parse_type_witness :
    byteAt [66, 0, 0, 1] 1 = 0
    ∧ adbus_parse (fun _ _ _ _ => none) 108 adbus_Message.zero [66, 0, 0, 1] 17 = Res.fail
    ∧ 4 < byteAt [66, 5, 0, 1] 1
    ∧ adbus_parse (fun _ _ _ _ => none) 108 adbus_Message.zero [66, 5, 0, 1] 17
        = Res.ok ([66, 5, 0, 1], adbus_Message.zero) :=
  ⟨by decide, (adbus_parse_type _ 108 adbus_Message.zero [66, 0, 0, 1] 17).1 (by decide),
    by decide, (adbus_parse_type _ 108 adbus_Message.zero [66, 5, 0, 1] 17).2 (by decide)⟩

/-! ## The iterator moves forward and returns -/

theorem adbusI_iter_align_adv {i j : adbus_Iterator} {al : Nat}
    (h : adbusI_iter_align i al = some j) :
    i.data ≤ j.data ∧ j.size ≤ i.size ∧ j.sig = i.sig := by
  unfold adbusI_iter_align at h
  simp only [] at h
  split at h
  · cases h
  · cases h
    exact ⟨Nat.le_add_right _ _, Nat.sub_le _ _, rfl⟩

theorem adbusI_iter_fixed_adv {c w p : Nat} {i j : adbus_Iterator}
    (h : adbusI_iter_fixed c w i = some (p, j)) (hw : 1 ≤ w) :
    i.data + 1 ≤ j.data ∧ j.size ≤ i.size ∧ j.sig.length + 1 = i.sig.length := by
  unfold adbusI_iter_fixed at h
  split at h
  · cases h
  · rename_i hd rest hsig
    split at h
    · cases h
    · split at h
      · cases h
      · rename_i k hk
        have ha := adbusI_iter_align_adv hk
        split at h
        · cases h
        · cases h
          simp only [hsig, List.length_cons]
          refine ⟨by omega, by omega, trivial⟩

theorem adbusI_iter_lenstring_adv {c native p n : Nat} {data : List Nat} {i j : adbus_Iterator}
    (h : adbusI_iter_lenstring c native data i = some (p, n, j)) :
    i.data + 1 ≤ j.data ∧ j.size ≤ i.size ∧ j.sig.length + 1 = i.sig.length := by
  unfold adbusI_iter_lenstring at h
  split at h
  · cases h
  · rename_i hd rest hsig
    split at h
    · cases h
    · split at h
      · cases h
      · rename_i k hk
        have ha := adbusI_iter_align_adv hk
        split at h
        · cases h
        · simp only [] at h
          split at h
          · cases h
          · split at h
            · cases h
            · cases h
              simp only [hsig, List.length_cons]
              refine ⟨by omega, by omega, trivial⟩

theorem adbus_iter_objectpath_adv {native p n : Nat} {data : List Nat} {i j : adbus_Iterator}
    (h : adbus_iter_objectpath native data i = some (p, n, j)) :
    i.data + 1 ≤ j.data ∧ j.size ≤ i.size ∧ j.sig.length + 1 = i.sig.length := by
  unfold adbus_iter_objectpath at h
  split at h
  · cases h
  · rename_i p1 n1 j1 hs
    split at h
    · cases h
      exact adbusI_iter_lenstring_adv hs
    · cases h

theorem adbusI_iter_sigstring_adv {p n : Nat} {data : List Nat} {i j : adbus_Iterator}
    (h : adbusI_iter_sigstring data i = some (p, n, j)) :
    i.data + 2 ≤ j.data ∧ j.size + 2 + n ≤ i.size ∧ j.sig = i.sig ∧ n ≤ 255 := by
  unfold adbusI_iter_sigstring at h
  split at h
  · cases h
  · simp only [] at h
    split at h
    · cases h
    · split at h
      · cases h
      · cases h
        have := byteAt_lt data i.data
        refine ⟨by simp only []; omega, by simp only []; omega, rfl, by omega⟩

theorem adbus_iter_signature_adv {p n : Nat} {data : List Nat} {i j : adbus_Iterator}
    (h : adbus_iter_signature data i = some (p, n, j)) :
    i.data + 1 ≤ j.data ∧ j.size ≤ i.size ∧ j.sig.length + 1 = i.sig.length := by
  unfold adbus_iter_signature at h
  split at h
  · cases h
  · rename_i hd rest hsig
    split at h
    · cases h
    · split at h
      · cases h
      · rename_i p1 n1 j1 hs
        have ha := adbusI_iter_sigstring_adv hs
        cases h
        simp only [hsig, List.length_cons]
        refine ⟨by omega, by omega, trivial⟩

theorem adbusI_nextarg_length : ∀ (l : List Nat) (depth : Nat) (r : List Nat),
    adbusI_nextarg depth l = some r → r.length < l.length := by
  intro l
  induction l with
  | nil => intro depth r h; simp [adbusI_nextarg] at h
  | cons c rest ih =>
    intro depth r h
    unfold adbusI_nextarg at h
    simp only [List.length_cons]
    split at h
    · have := ih _ _ h; omega
    · split at h
      · have := ih _ _ h; omega
      · split at h
        · split at h
          · cases h
          · cases h; omega
          · have := ih _ _ h; omega
        · split at h
          · cases h; omega
          · have := ih _ _ h; omega

theorem adbus_iter_beginarray_adv {native : Nat} {data : List Nat} {i j : adbus_Iterator}
    {a : adbus_IterArray} (h : adbus_iter_beginarray native data i = some (a, j)) :
    i.data + 4 ≤ j.data ∧ j.size + 4 ≤ i.size ∧ j.sig.length + 1 = i.sig.length
    ∧ a.sig = j.sig ∧ a.data = j.data ∧ a.size ≤ j.size := by
  unfold adbus_iter_beginarray at h
  split at h
  · cases h
  · rename_i hd rest hsig
    split at h
    · cases h
    · split at h
      · cases h
      · rename_i k hk
        have ha := adbusI_iter_align_adv hk
        split at h
        · cases h
        · simp only [] at h
          split at h
          · cases h
          · split at h
            · cases h
            · rename_i e tl
              split at h
              · cases h
              · rename_i k2 hk2
                have hb := adbusI_iter_align_adv hk2
                simp only [] at hb
                split at h
                · cases h
                · cases h
                  refine ⟨by omega, by omega, ?_, hb.2.2.symm, rfl, ?_⟩
                  · rw [hb.2.2, hsig]
                    rfl
                  · show Get32 native data k.data ≤ j.size
                    omega

theorem adbus_iter_endarray_adv {i j : adbus_Iterator} {a : adbus_IterArray}
    (h : adbus_iter_endarray i a = some j) :
    j.data = i.data ∧ j.size = i.size ∧ j.sig.length < a.sig.length := by
  unfold adbus_iter_endarray at h
  split at h
  · cases h
  · split at h
    · cases h
    · rename_i r hr
      cases h
      exact ⟨rfl, rfl, adbusI_nextarg_length _ _ _ hr⟩

theorem adbus_iter_beginstruct_adv {i j : adbus_Iterator}
    (h : adbus_iter_beginstruct i = some j) :
    i.data ≤ j.data ∧ j.size ≤ i.size ∧ j.sig.length + 1 = i.sig.length := by
  unfold adbus_iter_beginstruct at h
  split at h
  · cases h
  · rename_i hd rest hsig
    split at h
    · cases h
    · split at h
      · cases h
      · rename_i k hk
        have ha := adbusI_iter_align_adv hk
        cases h
        simp only [hsig, List.length_cons]
        refine ⟨by omega, by omega, trivial⟩

theorem adbus_iter_endstruct_adv {i j : adbus_Iterator}
    (h : adbus_iter_endstruct i = some j) :
    j.data = i.data ∧ j.size = i.size ∧ j.sig.length + 1 = i.sig.length := by
  unfold adbus_iter_endstruct at h
  split at h
  · cases h
  · rename_i hd rest hsig
    split at h
    · cases h
    · cases h
      refine ⟨rfl, rfl, ?_⟩
      rw [hsig]
      rfl

theorem cstringAt_length (data : List Nat) (off len : Nat) :
    (cstringAt data off len).length ≤ len := by
  unfold cstringAt bytesAt
  refine le_trans (List.takeWhile_sublist _).length_le ?_
  simp [List.length_take]

theorem adbus_iter_beginvariant_adv {data : List Nat} {i j : adbus_Iterator}
    {v : adbus_IterVariant} (h : adbus_iter_beginvariant data i = some (v, j)) :
    i.data + 2 ≤ j.data ∧ j.size + 2 + j.sig.length ≤ i.size ∧ j.sig.length ≤ 255
    ∧ v.origsig = i.sig ∧ 1 ≤ i.sig.length := by
  unfold adbus_iter_beginvariant at h
  split at h
  · cases h
  · rename_i hd rest hsig
    split at h
    · cases h
    · split at h
      · cases h
      · rename_i p n j1 hs
        have ha := adbusI_iter_sigstring_adv hs
        cases h
        have hc := cstringAt_length data p n
        simp only [hsig, List.length_cons]
        refine ⟨by omega, by omega, by omega, trivial, by omega⟩

theorem adbus_iter_endvariant_adv {i j : adbus_Iterator} {v : adbus_IterVariant}
    (h : adbus_iter_endvariant i v = some j) :
    j.data = i.data ∧ j.size = i.size ∧ j.sig = v.origsig.tail ∧ i.sig = [] := by
  unfold adbus_iter_endvariant at h
  split at h
  · rename_i hsig
    cases h
    exact ⟨rfl, rfl, rfl, hsig⟩
  · cases h

theorem Res.ofOption_eq_ok {α : Type} {o : Option α} {a : α} :
    Res.ofOption o = Res.ok a ↔ o = some a := by
  cases o <;> simp [Res.ofOption]

theorem Res.ofOption_ne_diverge {α : Type} (o : Option α) :
    Res.ofOption o ≠ Res.diverge := by
  cases o <;> simp [Res.ofOption]

theorem adbusI_iter_fixed_value {c w : Nat} {i j : adbus_Iterator}
    (h : Res.ofOption ((adbusI_iter_fixed c w i).map Prod.snd) = Res.ok j) (hw : 1 ≤ w) :
    i.data ≤ j.data ∧ j.size ≤ i.size ∧ j.sig.length < i.sig.length := by
  rw [Res.ofOption_eq_ok, Option.map_eq_some'] at h
  obtain ⟨⟨p, k⟩, hk, rfl⟩ := h
  have := adbusI_iter_fixed_adv hk hw
  simp only []
  omega

theorem adbus_iter_value_adv (native : Nat) (data : List Nat) : ∀ (fuel : Nat),
    (∀ i j, adbus_iter_value fuel native data i = Res.ok j →
        i.data ≤ j.data ∧ j.size ≤ i.size ∧ j.sig.length < i.sig.length)
    ∧ (∀ i j, adbusI_iter_fields fuel native data i = Res.ok j →
        i.data ≤ j.data ∧ j.size ≤ i.size ∧ j.sig.length < i.sig.length) := by
  intro fuel
  induction fuel with
  | zero =>
    constructor
    · intro i j h
      simp [adbus_iter_value] at h
    · intro i j h
      simp [adbusI_iter_fields] at h
  | succ n ih =>
    obtain ⟨ihv, ihf⟩ := ih
    constructor
    · intro i j h
      rw [adbus_iter_value] at h
      by_cases hc : i.sig.headD 0 = 121
      · rw [if_pos hc] at h
        exact adbusI_iter_fixed_value h (by omega)
      rw [if_neg hc] at h
      clear hc
      by_cases hc : i.sig.headD 0 = 98
      · rw [if_pos hc] at h
        exact adbusI_iter_fixed_value h (by omega)
      rw [if_neg hc] at h
      clear hc
      by_cases hc : i.sig.headD 0 = 110
      · rw [if_pos hc] at h
        exact adbusI_iter_fixed_value h (by omega)
      rw [if_neg hc] at h
      clear hc
      by_cases hc : i.sig.headD 0 = 113
      · rw [if_pos hc] at h
        exact adbusI_iter_fixed_value h (by omega)
      rw [if_neg hc] at h
      clear hc
      by_cases hc : i.sig.headD 0 = 105
      · rw [if_pos hc] at h
        exact adbusI_iter_fixed_value h (by omega)
      rw [if_neg hc] at h
      clear hc
      by_cases hc : i.sig.headD 0 = 117
      · rw [if_pos hc] at h
        exact adbusI_iter_fixed_value h (by omega)
      rw [if_neg hc] at h
      clear hc
      by_cases hc : i.sig.headD 0 = 104
      · rw [if_pos hc] at h
        exact adbusI_iter_fixed_value h (by omega)
      rw [if_neg hc] at h
      clear hc
      by_cases hc : i.sig.headD 0 = 120
      · rw [if_pos hc] at h
        exact adbusI_iter_fixed_value h (by omega)
      rw [if_neg hc] at h
      clear hc
      by_cases hc : i.sig.headD 0 = 116
      · rw [if_pos hc] at h
        exact adbusI_iter_fixed_value h (by omega)
      rw [if_neg hc] at h
      clear hc
      by_cases hc : i.sig.headD 0 = 100
      · rw [if_pos hc] at h
        exact adbusI_iter_fixed_value h (by omega)
      rw [if_neg hc] at h
      clear hc
      by_cases hc : i.sig.headD 0 = 115
      · rw [if_pos hc] at h
        rw [Res.ofOption_eq_ok, Option.map_eq_some'] at h
        obtain ⟨⟨p, k, l⟩, hk, rfl⟩ := h
        have := adbusI_iter_lenstring_adv hk
        simp only []
        omega
      rw [if_neg hc] at h
      clear hc
      by_cases hc : i.sig.headD 0 = 111
      · rw [if_pos hc] at h
        rw [Res.ofOption_eq_ok, Option.map_eq_some'] at h
        obtain ⟨⟨p, k, l⟩, hk, rfl⟩ := h
        have := adbus_iter_objectpath_adv hk
        simp only []
        omega
      rw [if_neg hc] at h
      clear hc
      by_cases hc : i.sig.headD 0 = 103
      · rw [if_pos hc] at h
        rw [Res.ofOption_eq_ok, Option.map_eq_some'] at h
        obtain ⟨⟨p, k, l⟩, hk, rfl⟩ := h
        have := adbus_iter_signature_adv hk
        simp only []
        omega
      rw [if_neg hc] at h
      clear hc
      by_cases hc : i.sig.headD 0 = 97
      · rw [if_pos hc] at h
        split at h
        · cases h
        · rename_i a k hk
          have ha := adbus_iter_beginarray_adv hk
          rw [Res.ofOption_eq_ok] at h
          have he := adbus_iter_endarray_adv h
          simp only [] at he
          have hs : a.sig.length = k.sig.length := by rw [ha.2.2.2.1]
          omega
      rw [if_neg hc] at h
      clear hc
      by_cases hc : i.sig.headD 0 = 40
      · rw [if_pos hc] at h
        split at h
        · cases h
        · rename_i k hk
          have ha := adbus_iter_beginstruct_adv hk
          have hf := ihf _ _ h
          omega
      rw [if_neg hc] at h
      clear hc
      by_cases hc : i.sig.headD 0 = 118
      · rw [if_pos hc] at h
        split at h
        · cases h
        · rename_i v k hk
          have ha := adbus_iter_beginvariant_adv hk
          split at h
          · rename_i l hl
            have hv := ihv _ _ hl
            rw [Res.ofOption_eq_ok] at h
            have he := adbus_iter_endvariant_adv h
            rw [ha.2.2.2.1] at he
            have ht : i.sig.tail.length + 1 = i.sig.length := by
              cases hs : i.sig with
              | nil => rw [hs] at ha; simp at ha
              | cons c r => simp
            rw [he.2.2.1]
            omega
          · cases h
          · cases h
      rw [if_neg hc] at h
      clear hc
      cases h
    · intro i j h
      rw [adbusI_iter_fields] at h
      by_cases hc : i.sig.headD 0 = 41
      · rw [if_pos hc] at h
        rw [Res.ofOption_eq_ok] at h
        have := adbus_iter_endstruct_adv h
        omega
      · rw [if_neg hc] at h
        split at h
        · rename_i k hk
          have hv := ihv _ _ hk
          have hf := ihf _ _ h
          omega
        · cases h
        · cases h

/-- The function `adbus_iter_value` returns: with the fuel `valueFuel i` or more the model
does not run out of fuel. -/
theorem adbus_iter_value_returns_aux (native : Nat) (data : List Nat) : ∀ (fuel : Nat),
    (∀ i : adbus_Iterator, 2 * (256 * i.size + i.sig.length) + 1 ≤ fuel →
        adbus_iter_value fuel native data i ≠ Res.diverge)
    ∧ (∀ i : adbus_Iterator, 2 * (256 * i.size + i.sig.length) + 2 ≤ fuel →
        adbusI_iter_fields fuel native data i ≠ Res.diverge) := by
  intro fuel
  induction fuel with
  | zero =>
    constructor
    · intro i h
      omega
    · intro i h
      omega
  | succ n ih =>
    obtain ⟨ihv, ihf⟩ := ih
    constructor
    · intro i hb
      rw [adbus_iter_value]
      by_cases hc : i.sig.headD 0 = 121
      · rw [if_pos hc]
        exact Res.ofOption_ne_diverge _
      rw [if_neg hc]
      clear hc
      by_cases hc : i.sig.headD 0 = 98
      · rw [if_pos hc]
        exact Res.ofOption_ne_diverge _
      rw [if_neg hc]
      clear hc
      by_cases hc : i.sig.headD 0 = 110
      · rw [if_pos hc]
        exact Res.ofOption_ne_diverge _
      rw [if_neg hc]
      clear hc
      by_cases hc : i.sig.headD 0 = 113
      · rw [if_pos hc]
        exact Res.ofOption_ne_diverge _
      rw [if_neg hc]
      clear hc
      by_cases hc : i.sig.headD 0 = 105
      · rw [if_pos hc]
        exact Res.ofOption_ne_diverge _
      rw [if_neg hc]
      clear hc
      by_cases hc : i.sig.headD 0 = 117
      · rw [if_pos hc]
        exact Res.ofOption_ne_diverge _
      rw [if_neg hc]
      clear hc
      by_cases hc : i.sig.headD 0 = 104
      · rw [if_pos hc]
        exact Res.ofOption_ne_diverge _
      rw [if_neg hc]
      clear hc
      by_cases hc : i.sig.headD 0 = 120
      · rw [if_pos hc]
        exact Res.ofOption_ne_diverge _
      rw [if_neg hc]
      clear hc
      by_cases hc : i.sig.headD 0 = 116
      · rw [if_pos hc]
        exact Res.ofOption_ne_diverge _
      rw [if_neg hc]
      clear hc
      by_cases hc : i.sig.headD 0 = 100
      · rw [if_pos hc]
        exact Res.ofOption_ne_diverge _
      rw [if_neg hc]
      clear hc
      by_cases hc : i.sig.headD 0 = 115
      · rw [if_pos hc]
        exact Res.ofOption_ne_diverge _
      rw [if_neg hc]
      clear hc
      by_cases hc : i.sig.headD 0 = 111
      · rw [if_pos hc]
        exact Res.ofOption_ne_diverge _
      rw [if_neg hc]
      clear hc
      by_cases hc : i.sig.headD 0 = 103
      · rw [if_pos hc]
        exact Res.ofOption_ne_diverge _
      rw [if_neg hc]
      clear hc
      by_cases hc : i.sig.headD 0 = 97
      · rw [if_pos hc]
        split
        · simp
        · exact Res.ofOption_ne_diverge _
      rw [if_neg hc]
      clear hc
      by_cases hc : i.sig.headD 0 = 40
      · rw [if_pos hc]
        split
        · simp
        · rename_i k hk
          have ha := adbus_iter_beginstruct_adv hk
          exact ihf k (by omega)
      rw [if_neg hc]
      clear hc
      by_cases hc : i.sig.headD 0 = 118
      · rw [if_pos hc]
        split
        · simp
        · rename_i v k hk
          have ha := adbus_iter_beginvariant_adv hk
          have hk2 := ihv k (by omega)
          split
          · exact Res.ofOption_ne_diverge _
          · simp
          · rename_i hd
            exact absurd hd hk2
      rw [if_neg hc]
      clear hc
      simp
    · intro i hb
      rw [adbusI_iter_fields]
      by_cases hc : i.sig.headD 0 = 41
      · rw [if_pos hc]
        exact Res.ofOption_ne_diverge _
      · rw [if_neg hc]
        have hv := ihv i (by omega)
        split
        · rename_i k hk
          have ha := ((adbus_iter_value_adv native data n).1 _ _ hk)
          exact ihf k (by omega)
        · simp
        · rename_i hd
          exact absurd hd hv

theorem adbus_iter_value_returns (native : Nat) (data : List Nat) (i : adbus_Iterator) :
    adbus_iter_value (valueFuel i) native data i ≠ Res.diverge :=
  (adbus_iter_value_returns_aux native data (valueFuel i)).1 i (le_refl _)

/-! ## `adbus_parse` and the header fields on the wire -/

theorem ADBUSI_ALIGN_ge (x : Nat) : x ≤ ADBUSI_ALIGN x 4 := by
  unfold ADBUSI_ALIGN
  omega

theorem adbus_iter_value_string (n native : Nat) (data : List Nat) (i : adbus_Iterator)
    (h : i.sig.headD 0 = 115) :
    adbus_iter_value (n + 1) native data i
      = Res.ofOption ((adbus_iter_string native data i).map (fun r => r.2.2)) := by
  rw [adbus_iter_value, h]
  rfl

theorem adbus_iter_value_objectpath (n native : Nat) (data : List Nat) (i : adbus_Iterator)
    (h : i.sig.headD 0 = 111) :
    adbus_iter_value (n + 1) native data i
      = Res.ofOption ((adbus_iter_objectpath native data i).map (fun r => r.2.2)) := by
  rw [adbus_iter_value, h]
  rfl

theorem adbus_iter_value_signature (n native : Nat) (data : List Nat) (i : adbus_Iterator)
    (h : i.sig.headD 0 = 103) :
    adbus_iter_value (n + 1) native data i
      = Res.ofOption ((adbus_iter_signature data i).map (fun r => r.2.2)) := by
  rw [adbus_iter_value, h]
  rfl

theorem adbus_iter_value_u32 (n native : Nat) (data : List Nat) (i : adbus_Iterator)
    (h : i.sig.headD 0 = 117) :
    adbus_iter_value (n + 1) native data i
      = Res.ofOption ((adbus_iter_u32 i).map Prod.snd) := by
  rw [adbus_iter_value, h]
  rfl

theorem adbusI_iter_lenstring_value {c native p n : Nat} {data : List Nat}
    {i j : adbus_Iterator} (h : adbusI_iter_lenstring c native data i = some (p, n, j)) :
    p = ADBUSI_ALIGN i.data 4 + 4 ∧ n = Get32 native data (ADBUSI_ALIGN i.data 4) := by
  have hge := ADBUSI_ALIGN_ge i.data
  unfold adbusI_iter_lenstring at h
  split at h
  · cases h
  · split at h
    · cases h
    · split at h
      · cases h
      · rename_i k hk
        unfold adbusI_iter_align at hk
        simp only [] at hk
        split at hk
        · cases hk
        · cases hk
          simp only [] at h
          have he : i.data + (ADBUSI_ALIGN i.data 4 - i.data) = ADBUSI_ALIGN i.data 4 := by omega
          rw [he] at h
          split at h
          · cases h
          · split at h
            · cases h
            · split at h
              · cases h
              · cases h
                exact ⟨rfl, rfl⟩

theorem adbus_iter_objectpath_value {native p n : Nat} {data : List Nat}
    {i j : adbus_Iterator} (h : adbus_iter_objectpath native data i = some (p, n, j)) :
    p = ADBUSI_ALIGN i.data 4 + 4 ∧ n = Get32 native data (ADBUSI_ALIGN i.data 4) := by
  unfold adbus_iter_objectpath at h
  split at h
  · cases h
  · rename_i p1 n1 j1 hs
    split at h
    · cases h
      exact adbusI_iter_lenstring_value hs
    · cases h

theorem adbus_iter_signature_value {p n : Nat} {data : List Nat}
    {i j : adbus_Iterator} (h : adbus_iter_signature data i = some (p, n, j)) :
    p = i.data + 1 ∧ n = byteAt data i.data := by
  unfold adbus_iter_signature at h
  split at h
  · cases h
  · split at h
    · cases h
    · split at h
      · cases h
      · rename_i p1 n1 j1 hs
        cases h
        unfold adbusI_iter_sigstring at hs
        split at hs
        · cases hs
        · simp only [] at hs
          split at hs
          · cases hs
          · split at hs
            · cases hs
            · cases hs
              exact ⟨rfl, rfl⟩

theorem adbus_iter_u32_value {p : Nat} {i j : adbus_Iterator}
    (h : adbus_iter_u32 i = some (p, j)) : p = ADBUSI_ALIGN i.data 4 := by
  have hge := ADBUSI_ALIGN_ge i.data
  unfold adbus_iter_u32 adbusI_iter_fixed at h
  split at h
  · cases h
  · split at h
    · cases h
    · split at h
      · cases h
      · rename_i k hk
        unfold adbusI_iter_align at hk
        simp only [] at hk
        split at hk
        · cases hk
        · cases hk
          simp only [] at h
          split at h
          · cases h
          · cases h
            omega

/-- A signature without a nul in it passes the test `sig[0] == c && sig[1] ==
0` exactly when it is the single character `c`. -/
theorem sig_single (sig : List Nat) (c : Nat) (hc : c ≠ 0) (hz : 0 ∉ sig) :
    (sig.getD 0 0 ≠ c ∨ sig.getD 1 0 ≠ 0) ↔ sig ≠ [c] := by
  match sig, hz with
  | [], _ => simp [Ne.symm hc]
  | [a], _ =>
    simp
  | a :: b :: r, hz =>
    simp only [List.mem_cons, not_or] at hz
    have hb : b ≠ 0 := fun h => hz.2.1 h.symm
    simp [hb]

theorem fieldValue_string (native : Nat) (data : List Nat) (pos : Nat) :
    fieldValue native data [115] pos
      = (ADBUSI_ALIGN pos 4 + 4, Get32 native data (ADBUSI_ALIGN pos 4)) := by
  simp [fieldValue]

theorem fieldValue_objectpath (native : Nat) (data : List Nat) (pos : Nat) :
    fieldValue native data [111] pos
      = (ADBUSI_ALIGN pos 4 + 4, Get32 native data (ADBUSI_ALIGN pos 4)) := by
  simp [fieldValue]

theorem fieldValue_signature (native : Nat) (data : List Nat) (pos : Nat) :
    fieldValue native data [103] pos = (pos + 1, byteAt data pos) := by
  simp [fieldValue]

theorem fieldValue_u32 (native : Nat) (data : List Nat) (pos : Nat) :
    fieldValue native data [117] pos = (ADBUSI_ALIGN pos 4, 4) := by
  simp [fieldValue]

theorem parseStringField_spec (native : Nat) (data : List Nat) (i : adbus_Iterator)
    (store : Nat → Nat → adbus_Message) (hz : 0 ∉ i.sig) :
    parseStringField native data i store
      = match adbus_iter_value (valueFuel i) native data i with
        | Res.ok j =>
          if i.sig = [115] then
            Res.ok (j, store (fieldValue native data i.sig i.data).1
              (fieldValue native data i.sig i.data).2)
          else Res.fail
        | Res.fail => Res.fail
        | Res.diverge => Res.diverge := by
  unfold parseStringField
  by_cases hs : i.sig = [115]
  · rw [if_neg (fun h => (sig_single i.sig 115 (by decide) hz).1 h hs)]
    unfold valueFuel
    rw [adbus_iter_value_string _ _ _ _ (by rw [hs]; rfl)]
    cases hstr : adbus_iter_string native data i with
    | none => rfl
    | some r =>
      obtain ⟨p, n, j⟩ := r
      have hv := adbusI_iter_lenstring_value hstr
      simp only [Option.map_some', Res.ofOption, hs, if_true, fieldValue_string]
      rw [hv.1, hv.2]
  · rw [if_pos ((sig_single i.sig 115 (by decide) hz).2 hs)]
    cases hv : adbus_iter_value (valueFuel i) native data i with
    | ok j => simp only [hs, if_false]
    | fail => rfl
    | diverge => exact absurd hv (adbus_iter_value_returns native data i)

/-- The switch of `adbus_parse` on the field code does what the wire format
says: the value is stepped over along the signature of the variant, and the
field is stored when it is one that is taken. -/
theorem parseFieldValue_spec (native : Nat) (data : List Nat) (c : Nat) (i : adbus_Iterator)
    (m : adbus_Message) (hz : 0 ∉ i.sig) :
    parseFieldValue native data c i m
      = match adbus_iter_value (valueFuel i) native data i with
        | Res.ok j =>
          (match storeAccepted m (fieldAt native data c i) with
           | some m1 => Res.ok (j, m1)
           | none => Res.fail)
        | Res.fail => Res.fail
        | Res.diverge => Res.diverge := by
  unfold parseFieldValue HEADER_INVALID HEADER_INTERFACE HEADER_MEMBER HEADER_ERROR_NAME
    HEADER_DESTINATION HEADER_SENDER HEADER_OBJECT_PATH HEADER_SIGNATURE HEADER_REPLY_SERIAL
  have hret := adbus_iter_value_returns native data i
  by_cases h0 : c = 0
  · subst h0
    rw [if_pos rfl]
    cases hv : adbus_iter_value (valueFuel i) native data i with
    | ok j => simp [storeAccepted, fieldAccepted, fieldAt]
    | fail => rfl
    | diverge => exact absurd hv hret
  rw [if_neg h0]
  by_cases h2 : c = 2
  · subst h2
    rw [if_pos rfl, parseStringField_spec _ _ _ _ hz]
    cases hv : adbus_iter_value (valueFuel i) native data i with
    | ok j =>
      by_cases hs : i.sig = [115] <;>
        simp [storeAccepted, fieldAccepted, fieldAt, expectedSignature, storeField, hs]
    | fail => rfl
    | diverge => rfl
  rw [if_neg h2]
  by_cases h3 : c = 3
  · subst h3
    rw [if_pos rfl, parseStringField_spec _ _ _ _ hz]
    cases hv : adbus_iter_value (valueFuel i) native data i with
    | ok j =>
      by_cases hs : i.sig = [115] <;>
        simp [storeAccepted, fieldAccepted, fieldAt, expectedSignature, storeField, hs]
    | fail => rfl
    | diverge => rfl
  rw [if_neg h3]
  by_cases h4 : c = 4
  · subst h4
    rw [if_pos rfl, parseStringField_spec _ _ _ _ hz]
    cases hv : adbus_iter_value (valueFuel i) native data i with
    | ok j =>
      by_cases hs : i.sig = [115] <;>
        simp [storeAccepted, fieldAccepted, fieldAt, expectedSignature, storeField, hs]
    | fail => rfl
    | diverge => rfl
  rw [if_neg h4]
  by_cases h6 : c = 6
  · subst h6
    rw [if_pos rfl, parseStringField_spec _ _ _ _ hz]
    cases hv : adbus_iter_value (valueFuel i) native data i with
    | ok j =>
      by_cases hs : i.sig = [115] <;>
        simp [storeAccepted, fieldAccepted, fieldAt, expectedSignature, storeField, hs]
    | fail => rfl
    | diverge => rfl
  rw [if_neg h6]
  by_cases h7 : c = 7
  · subst h7
    rw [if_pos rfl, parseStringField_spec _ _ _ _ hz]
    cases hv : adbus_iter_value (valueFuel i) native data i with
    | ok j =>
      by_cases hs : i.sig = [115] <;>
        simp [storeAccepted, fieldAccepted, fieldAt, expectedSignature, storeField, hs]
    | fail => rfl
    | diverge => rfl
  rw [if_neg h7]
  by_cases h1 : c = 1
  · subst h1
    rw [if_pos rfl]
    by_cases hs : i.sig = [111]
    · rw [if_neg (fun h => (sig_single i.sig 111 (by decide) hz).1 h hs)]
      unfold valueFuel
      rw [adbus_iter_value_objectpath _ _ _ _ (by rw [hs]; rfl)]
      cases hstr : adbus_iter_objectpath native data i with
      | none => rfl
      | some r =>
        obtain ⟨p, n, j⟩ := r
        have hv := adbus_iter_objectpath_value hstr
        simp [Res.ofOption, storeAccepted, fieldAccepted, fieldAt, expectedSignature,
          storeField, hs, fieldValue_objectpath, hv.1, hv.2]
    · rw [if_pos ((sig_single i.sig 111 (by decide) hz).2 hs)]
      cases hv : adbus_iter_value (valueFuel i) native data i with
      | ok j => simp [storeAccepted, fieldAccepted, fieldAt, expectedSignature, hs]
      | fail => rfl
      | diverge => exact absurd hv hret
  rw [if_neg h1]
  by_cases h8 : c = 8
  · subst h8
    rw [if_pos rfl]
    by_cases hs : i.sig = [103]
    · rw [if_neg (fun h => (sig_single i.sig 103 (by decide) hz).1 h hs)]
      unfold valueFuel
      rw [adbus_iter_value_signature _ _ _ _ (by rw [hs]; rfl)]
      cases hstr : adbus_iter_signature data i with
      | none => rfl
      | some r =>
        obtain ⟨p, n, j⟩ := r
        have hv := adbus_iter_signature_value hstr
        simp [Res.ofOption, storeAccepted, fieldAccepted, fieldAt, expectedSignature,
          storeField, hs, fieldValue_signature, hv.1]
    · rw [if_pos ((sig_single i.sig 103 (by decide) hz).2 hs)]
      cases hv : adbus_iter_value (valueFuel i) native data i with
      | ok j => simp [storeAccepted, fieldAccepted, fieldAt, expectedSignature, hs]
      | fail => rfl
      | diverge => exact absurd hv hret
  rw [if_neg h8]
  by_cases h5 : c = 5
  · subst h5
    rw [if_pos rfl]
    by_cases hs : i.sig = [117]
    · rw [if_neg (fun h => (sig_single i.sig 117 (by decide) hz).1 h hs)]
      unfold valueFuel
      rw [adbus_iter_value_u32 _ _ _ _ (by rw [hs]; rfl)]
      cases hstr : adbus_iter_u32 i with
      | none => rfl
      | some r =>
        obtain ⟨p, j⟩ := r
        have hv := adbus_iter_u32_value hstr
        simp [Res.ofOption, storeAccepted, fieldAccepted, fieldAt, expectedSignature,
          storeField, hs, fieldValue_u32, hv]
    · rw [if_pos ((sig_single i.sig 117 (by decide) hz).2 hs)]
      cases hv : adbus_iter_value (valueFuel i) native data i with
      | ok j => simp [storeAccepted, fieldAccepted, fieldAt, expectedSignature, hs]
      | fail => rfl
      | diverge => exact absurd hv hret
  rw [if_neg h5]
  cases hv : adbus_iter_value (valueFuel i) native data i with
  | ok j =>
    simp [storeAccepted, fieldAccepted, fieldAt, expectedSignature, storeField, h0, h1, h2, h3,
      h4, h5, h6, h7, h8]
  | fail => rfl
  | diverge => rfl

theorem adbus_iter_beginvariant_sig {data : List Nat} {i j : adbus_Iterator}
    {v : adbus_IterVariant} (h : adbus_iter_beginvariant data i = some (v, j)) :
    0 ∉ j.sig := by
  unfold adbus_iter_beginvariant at h
  split at h
  · cases h
  · split at h
    · cases h
    · split at h
      · cases h
      · cases h
        intro hmem
        unfold cstringAt at hmem
        have := List.mem_takeWhile_imp hmem
        simp at this

/-- One turn of the loop of `adbus_parse` reads one header field off the wire
and stores it, or fails. -/
theorem parseField_spec (native : Nat) (data : List Nat) (i : adbus_Iterator)
    (m : adbus_Message) :
    parseField native data i m
      = match readField native data i with
        | Res.ok (f, j) =>
          (match storeAccepted m f with
           | some m1 => Res.ok (j, m1)
           | none => Res.fail)
        | Res.fail => Res.fail
        | Res.diverge => Res.diverge := by
  unfold parseField readField
  cases hb : adbus_iter_beginstruct i with
  | none => rfl
  | some i1 =>
    simp only []
    cases hu : adbus_iter_u8 i1 with
    | none => rfl
    | some r =>
      obtain ⟨code, i2⟩ := r
      simp only []
      cases hbv : adbus_iter_beginvariant data i2 with
      | none => rfl
      | some r =>
        obtain ⟨v, i3⟩ := r
        simp only []
        rw [parseFieldValue_spec _ _ _ _ _ (adbus_iter_beginvariant_sig hbv)]
        cases hval : adbus_iter_value (valueFuel i3) native data i3 with
        | fail => rfl
        | diverge => rfl
        | ok i4 =>
          simp only []
          cases hacc : storeAccepted m (fieldAt native data (byteAt data code) i3) with
          | none =>
            simp only []
            cases adbus_iter_endvariant i4 v with
            | none => rfl
            | some i5 =>
              simp only []
              cases adbus_iter_endstruct i5 with
              | none => rfl
              | some i6 => simp only [hacc]
          | some m1 =>
            simp only []
            cases adbus_iter_endvariant i4 v with
            | none => rfl
            | some i5 =>
              simp only []
              cases adbus_iter_endstruct i5 with
              | none => rfl
              | some i6 => simp only [hacc]

theorem readField_adv {native : Nat} {data : List Nat} {i j : adbus_Iterator}
    {f : HeaderField} (h : readField native data i = Res.ok (f, j)) : i.data < j.data := by
  unfold readField at h
  split at h
  · cases h
  · rename_i i1 h1
    have a1 := adbus_iter_beginstruct_adv h1
    split at h
    · cases h
    · rename_i code i2 h2
      have a2 := adbusI_iter_fixed_adv h2 (le_refl 1)
      split at h
      · cases h
      · rename_i v i3 h3
        have a3 := adbus_iter_beginvariant_adv h3
        split at h
        · rename_i i4 h4
          have a4 := (adbus_iter_value_adv native data _).1 _ _ h4
          split at h
          · cases h
          · rename_i i5 h5
            have a5 := adbus_iter_endvariant_adv h5
            split at h
            · cases h
            · rename_i i6 h6
              have a6 := adbus_iter_endstruct_adv h6
              cases h
              omega
        · cases h
        · cases h

theorem readField_returns (native : Nat) (data : List Nat) (i : adbus_Iterator) :
    readField native data i ≠ Res.diverge := by
  unfold readField
  split
  · simp
  · split
    · simp
    · split
      · simp
      · rename_i v i3 h3
        have hr := adbus_iter_value_returns native data i3
        split
        · split
          · simp
          · split
            · simp
            · simp
        · simp
        · rename_i hd
          exact absurd hd hr

theorem adbus_iter_inarray_true {i j : adbus_Iterator} {a : adbus_IterArray}
    (h : adbus_iter_inarray i a = (true, j)) : j.data = i.data ∧ i.data < a.data + a.size := by
  unfold adbus_iter_inarray at h
  split at h
  · cases h
    exact ⟨rfl, by assumption⟩
  · cases h

/-- The loop over the header fields returns: with fuel above the number of
bytes that are left of the array the model does not run out of fuel. -/
theorem readFields_returns (native : Nat) (data : List Nat) (a : adbus_IterArray) :
    ∀ (fuel : Nat) (i : adbus_Iterator), a.data + a.size - i.data < fuel →
      readFields fuel native data a i ≠ Res.diverge := by
  intro fuel
  induction fuel with
  | zero => intro i h; omega
  | succ n ih =>
    intro i h
    rw [readFields]
    split
    · simp
    · rename_i i0 hin
      have hi := adbus_iter_inarray_true hin
      split
      · rename_i f i1 h1
        have hadv := readField_adv h1
        have hn := ih i1 (by omega)
        split
        · simp
        · simp
        · rename_i hd
          exact absurd hd hn
      · simp
      · rename_i hd
        exact absurd hd (readField_returns native data i0)

/-- The loop of `adbus_parse` reads the header fields off the wire, one after
the other, and stores them. -/
theorem parseFields_spec (native : Nat) (data : List Nat) (a : adbus_IterArray) :
    ∀ (fuel : Nat) (i : adbus_Iterator) (m : adbus_Message),
      a.data + a.size - i.data < fuel →
      parseFields fuel native data a i m
        = match readFields fuel native data a i with
          | Res.ok (fs, j) =>
            (match storeFields m fs with
             | some m1 => Res.ok (j, m1)
             | none => Res.fail)
          | Res.fail => Res.fail
          | Res.diverge => Res.diverge := by
  intro fuel
  induction fuel with
  | zero => intro i m h; omega
  | succ n ih =>
    intro i m h
    rw [parseFields, readFields]
    cases hin : adbus_iter_inarray i a with
    | mk b i0 =>
      cases b with
      | false => rfl
      | true =>
        have hi := adbus_iter_inarray_true hin
        simp only []
        rw [parseField_spec]
        cases h1 : readField native data i0 with
        | fail => rfl
        | diverge => rfl
        | ok r =>
          obtain ⟨f, i1⟩ := r
          have hadv := readField_adv h1
          have hret := readFields_returns native data a n i1 (by omega)
          simp only []
          cases hacc : storeAccepted m f with
          | none =>
            simp only []
            cases h2 : readFields n native data a i1 with
            | fail => rfl
            | diverge => exact absurd h2 hret
            | ok r2 =>
              obtain ⟨fs, i2⟩ := r2
              simp only [storeFields, hacc]
          | some m1 =>
            simp only []
            rw [ih i1 m1 (by omega)]
            cases h2 : readFields n native data a i1 with
            | fail => rfl
            | diverge => rfl
            | ok r2 =>
              obtain ⟨fs, i2⟩ := r2
              simp only [storeFields, hacc]

/-- The function `adbus_parse` on a message of known type: it returns, and its
outcome is
the one that the header fields on the wire give. -/
theorem adbus_parse_spec (flip : List Nat → Nat → Nat → List Nat → Option (List Nat))
    (native : Nat) (m : adbus_Message) (data : List Nat) (size : Nat)
    (h0 : byteAt data 1 ≠ 0) (h4 : byteAt data 1 ≤ 4) :
    adbus_parse flip native m data size = parseOutcome flip native data size := by
  unfold adbus_parse parseOutcome nativeHeader headerFields ADBUS_MSG_INVALID ADBUS_MSG_SIGNAL
  rw [if_neg h0, if_neg (by omega)]
  cases hf : (if byteAt data 0 = native then some data else flip data 0 size headerSignature) with
  | none => rfl
  | some flipped =>
    simp only [Option.map_some']
    cases hb : adbus_iter_beginarray native (flipped.set 0 native)
        { data := sizeof_adbusI_Header, size := size - sizeof_adbusI_Header,
          sig := fieldsSignature } with
    | none => rfl
    | some r =>
      obtain ⟨a, i⟩ := r
      have hadv := adbus_iter_beginarray_adv hb
      simp only [] at hadv
      have hfuel : a.data + a.size - i.data < size + 1 := by
        rw [hadv.2.2.2.2.1]
        omega
      simp only []
      rw [parseFields_spec _ _ _ _ _ _ hfuel]
      have hret := readFields_returns native (flipped.set 0 native) a (size + 1) i hfuel
      cases hr : readFields (size + 1) native (flipped.set 0 native) a i with
      | fail => rfl
      | diverge => exact absurd hr hret
      | ok r2 =>
        obtain ⟨fs, j⟩ := r2
        simp only []
        cases hs : storeFields (headerMessage native (flipped.set 0 native)) fs with
        | none =>
          simp only []
          cases adbus_iter_endarray j a with
          | none => rfl
          | some k => simp [hs]
        | some m1 =>
          simp only []
          cases adbus_iter_endarray j a with
          | none => rfl
          | some k => simp [hs]

theorem flipBody_returns (flip : List Nat → Nat → Nat → List Nat → Option (List Nat))
    (native : Nat) (data d : List Nat) (m : adbus_Message) :
    flipBody flip native data d m ≠ Res.diverge := by
  unfold flipBody
  split
  · simp
  · split
    · simp
    · split <;> simp

/-- The function `adbus_parse` returns on every input: the model never runs out
of fuel. -/
theorem adbus_parse_returns (flip : List Nat → Nat → Nat → List Nat → Option (List Nat))
    (native : Nat) (m : adbus_Message) (data : List Nat) (size : Nat) :
    adbus_parse flip native m data size ≠ Res.diverge := by
  by_cases h0 : byteAt data 1 = 0
  · unfold adbus_parse ADBUS_MSG_INVALID
    rw [if_pos h0]
    simp
  · by_cases h4 : byteAt data 1 ≤ 4
    · rw [adbus_parse_spec flip native m data size h0 h4]
      unfold parseOutcome
      split
      · simp
      · split
        · simp
        · split
          · simp
          · split
            · simp
            · exact flipBody_returns _ _ _ _ _
    · unfold adbus_parse ADBUS_MSG_INVALID ADBUS_MSG_SIGNAL
      rw [if_neg h0, if_pos (by omega)]
      simp

/-! ### What the stored fields leave in the message -/

theorem lastField_eq_none {fs : List HeaderField} {c : Nat} :
    lastField fs c = none ↔ ∀ f ∈ fs, f.code ≠ c := by
  induction fs with
  | nil => simp [lastField]
  | cons f fs ih =>
    rw [lastField]
    cases hl : lastField fs c with
    | some g =>
      simp only [List.mem_cons, forall_eq_or_imp]
      constructor
      · intro h; cases h
      · intro h
        rw [hl] at ih
        exact absurd (ih.2 h.2) (by simp)
    | none =>
      rw [hl] at ih
      have hfs := ih.1 rfl
      simp only [List.mem_cons, forall_eq_or_imp]
      by_cases hc : f.code = c
      · simp [hc]
      · simpa [hc] using hfs

theorem lastField_mem {fs : List HeaderField} {c : Nat} {g : HeaderField}
    (h : lastField fs c = some g) : g ∈ fs ∧ g.code = c := by
  induction fs with
  | nil => simp [lastField] at h
  | cons f fs ih =>
    rw [lastField] at h
    cases hl : lastField fs c with
    | some g2 =>
      rw [hl] at h
      simp only [Option.some.injEq] at h
      subst h
      have := ih hl
      exact ⟨List.mem_cons_of_mem _ this.1, this.2⟩
    | none =>
      rw [hl] at h
      simp only [] at h
      split at h
      · cases h
        exact ⟨List.mem_cons_self _ _, by assumption⟩
      · cases h

theorem storeFields_accepted : ∀ (fs : List HeaderField) (m m1 : adbus_Message),
    storeFields m fs = some m1 → ∀ f ∈ fs, fieldAccepted f = true := by
  intro fs
  induction fs with
  | nil => intro m m1 _ f hf; cases hf
  | cons g fs ih =>
    intro m m1 h f hf
    rw [storeFields] at h
    unfold storeAccepted at h
    by_cases hg : fieldAccepted g = true
    · rw [if_pos hg] at h
      simp only [] at h
      rcases List.mem_cons.1 hf with rfl | hmem
      · exact hg
      · exact ih _ _ h f hmem
    · rw [if_neg hg] at h
      cases h

theorem storeFields_of_accepted : ∀ (fs : List HeaderField) (m : adbus_Message),
    (∀ f ∈ fs, fieldAccepted f = true) → ∃ m1, storeFields m fs = some m1 := by
  intro fs
  induction fs with
  | nil => intro m _; exact ⟨m, rfl⟩
  | cons g fs ih =>
    intro m h
    rw [storeFields]
    unfold storeAccepted
    rw [if_pos (h g (List.mem_cons_self _ _))]
    exact ih _ (fun f hf => h f (List.mem_cons_of_mem _ hf))

theorem code_cases (n : Nat) :
    n = 1 ∨ n = 2 ∨ n = 3 ∨ n = 4 ∨ n = 5 ∨ n = 6 ∨ n = 7 ∨ n = 8
    ∨ (n ≠ 1 ∧ n ≠ 2 ∧ n ≠ 3 ∧ n ≠ 4 ∧ n ≠ 5 ∧ n ≠ 6 ∧ n ≠ 7 ∧ n ≠ 8) := by
  omega

theorem storeField_messageAttr (m : adbus_Message) (f : HeaderField) (c : Nat)
    (h1 : 1 ≤ c) (h8 : c ≤ 8) :
    messageAttr (storeField m f) c = if f.code = c then some f.value else messageAttr m c := by
  rcases code_cases f.code with h | h | h | h | h | h | h | h | h <;>
    interval_cases c <;> simp [storeField, messageAttr, h]

theorem storeField_messageAttrSize (m : adbus_Message) (f : HeaderField) (c : Nat)
    (hc : c = 1 ∨ c = 2 ∨ c = 3 ∨ c = 4 ∨ c = 6 ∨ c = 7) :
    messageAttrSize (storeField m f) c
      = if f.code = c then f.size else messageAttrSize m c := by
  rcases code_cases f.code with h | h | h | h | h | h | h | h | h <;>
    rcases hc with rfl | rfl | rfl | rfl | rfl | rfl <;>
    simp [storeField, messageAttrSize, h]

theorem storeField_fixed (m : adbus_Message) (f : HeaderField) :
    (storeField m f).type = m.type ∧ (storeField m f).argsize = m.argsize
    ∧ (storeField m f).size = m.size ∧ (storeField m f).argdata = m.argdata
    ∧ (storeField m f).flags = m.flags ∧ (storeField m f).serial = m.serial
    ∧ (storeField m f).data = m.data := by
  rcases code_cases f.code with h | h | h | h | h | h | h | h | h <;>
    simp [storeField, h]

theorem storeFields_messageAttr : ∀ (fs : List HeaderField) (m m1 : adbus_Message) (c : Nat),
    storeFields m fs = some m1 → 1 ≤ c → c ≤ 8 →
    messageAttr m1 c
      = match lastField fs c with
        | some f => some f.value
        | none => messageAttr m c := by
  intro fs
  induction fs with
  | nil =>
    intro m m1 c h _ _
    simp only [storeFields, Option.some.injEq] at h
    subst h
    rfl
  | cons g fs ih =>
    intro m m1 c h h1 h8
    rw [storeFields] at h
    unfold storeAccepted at h
    by_cases hg : fieldAccepted g = true
    · rw [if_pos hg] at h
      simp only [] at h
      rw [ih _ _ c h h1 h8, lastField, storeField_messageAttr m g c h1 h8]
      cases lastField fs c with
      | some f => rfl
      | none =>
        simp only []
        split <;> rfl
    · rw [if_neg hg] at h
      cases h

theorem storeFields_messageAttrSize : ∀ (fs : List HeaderField) (m m1 : adbus_Message)
    (c : Nat), storeFields m fs = some m1 →
    (c = 1 ∨ c = 2 ∨ c = 3 ∨ c = 4 ∨ c = 6 ∨ c = 7) →
    messageAttrSize m1 c
      = match lastField fs c with
        | some f => f.size
        | none => messageAttrSize m c := by
  intro fs
  induction fs with
  | nil =>
    intro m m1 c h _
    simp only [storeFields, Option.some.injEq] at h
    subst h
    rfl
  | cons g fs ih =>
    intro m m1 c h hc
    rw [storeFields] at h
    unfold storeAccepted at h
    by_cases hg : fieldAccepted g = true
    · rw [if_pos hg] at h
      simp only [] at h
      rw [ih _ _ c h hc, lastField, storeField_messageAttrSize m g c hc]
      cases lastField fs c with
      | some f => rfl
      | none =>
        simp only []
        split <;> rfl
    · rw [if_neg hg] at h
      cases h

theorem storeFields_fixed : ∀ (fs : List HeaderField) (m m1 : adbus_Message),
    storeFields m fs = some m1 →
    m1.type = m.type ∧ m1.argsize = m.argsize ∧ m1.size = m.size ∧ m1.argdata = m.argdata
    ∧ m1.flags = m.flags ∧ m1.serial = m.serial ∧ m1.data = m.data := by
  intro fs
  induction fs with
  | nil =>
    intro m m1 h
    simp only [storeFields, Option.some.injEq] at h
    subst h
    exact ⟨rfl, rfl, rfl, rfl, rfl, rfl, rfl⟩
  | cons g fs ih =>
    intro m m1 h
    rw [storeFields] at h
    unfold storeAccepted at h
    by_cases hg : fieldAccepted g = true
    · rw [if_pos hg] at h
      simp only [] at h
      have h1 := ih _ _ h
      have h2 := storeField_fixed m g
      refine ⟨h1.1.trans h2.1, h1.2.1.trans h2.2.1, h1.2.2.1.trans h2.2.2.1,
        h1.2.2.2.1.trans h2.2.2.2.1, h1.2.2.2.2.1.trans h2.2.2.2.2.1,
        h1.2.2.2.2.2.1.trans h2.2.2.2.2.2.1, h1.2.2.2.2.2.2.trans h2.2.2.2.2.2.2⟩
    · rw [if_neg hg] at h
      cases h

theorem byteAt_set_zero (d : List Nat) (v k : Nat) (hk : k ≠ 0) :
    byteAt (d.set 0 v) k = byteAt d k := by
  unfold byteAt
  cases d with
  | nil => rfl
  | cons a r =>
    cases k with
    | zero => exact absurd rfl hk
    | succ n => rfl

theorem Get32_set_zero (e : Nat) (d : List Nat) (v k : Nat) (hk : k ≠ 0) :
    Get32 e (d.set 0 v) k = Get32 e d k := by
  unfold Get32
  rw [byteAt_set_zero d v k hk, byteAt_set_zero d v (k + 1) (by omega),
    byteAt_set_zero d v (k + 2) (by omega), byteAt_set_zero d v (k + 3) (by omega)]

/-- The type byte of the header in native order is the type byte of the
message, when `flip` leaves that byte alone. -/
theorem nativeHeader_type (flip : List Nat → Nat → Nat → List Nat → Option (List Nat))
    (native : Nat) (data : List Nat) (size : Nat) (d : List Nat)
    (hkeep : ∀ d1, flip data 0 size headerSignature = some d1 → byteAt d1 1 = byteAt data 1)
    (h : nativeHeader flip native data size = some d) : byteAt d 1 = byteAt data 1 := by
  unfold nativeHeader at h
  rw [Option.map_eq_some'] at h
  obtain ⟨d0, hd0, rfl⟩ := h
  rw [byteAt_set_zero _ _ _ (by decide)]
  split at hd0
  · cases hd0
    rfl
  · exact hkeep _ hd0

theorem messageFields_eq (flip : List Nat → Nat → Nat → List Nat → Option (List Nat))
    (native : Nat) (data : List Nat) (size : Nat) (d : List Nat) (fs : List HeaderField)
    (hd : nativeHeader flip native data size = some d)
    (hf : headerFields native d size = some fs) :
    messageFields flip native data size = fs := by
  unfold messageFields
  rw [hd]
  simp only [hf, Option.getD_some]

theorem headerMessage_messageAttr (native : Nat) (d : List Nat) (c : Nat) :
    messageAttr (headerMessage native d) c = none := by
  unfold messageAttr headerMessage adbus_Message.zero
  simp

theorem headerMessage_messageAttrSize (native : Nat) (d : List Nat) (c : Nat) :
    messageAttrSize (headerMessage native d) c = 0 := by
  unfold messageAttrSize headerMessage adbus_Message.zero
  simp

/-- What `adbus_parse` leaves in the message when it succeeds on a message
of known type: the fixed header, and for every code the last field with
that code. -/
theorem adbus_parse_ok (flip : List Nat → Nat → Nat → List Nat → Option (List Nat))
    (native : Nat) (m : adbus_Message) (data : List Nat) (size : Nat)
    (h0 : byteAt data 1 ≠ 0) (h4 : byteAt data 1 ≤ 4) (d1 : List Nat) (m1 : adbus_Message)
    (h : adbus_parse flip native m data size = Res.ok (d1, m1)) :
    ∃ d fs, nativeHeader flip native data size = some d
      ∧ headerFields native d size = some fs
      ∧ storeFields (headerMessage native d) fs = some m1
      ∧ missingRequiredFields m1 = false
      ∧ flipBody flip native data d m1 = Res.ok (d1, m1) := by
  rw [adbus_parse_spec flip native m data size h0 h4] at h
  unfold parseOutcome at h
  split at h
  · cases h
  · rename_i d hd
    split at h
    · cases h
    · rename_i fs hfs
      split at h
      · cases h
      · rename_i m2 hm2
        split at h
        · cases h
        · rename_i hmiss
          have hm : m2 = m1 := by
            unfold flipBody at h
            split at h
            · cases h; rfl
            · split at h
              · cases h; rfl
              · split at h
                · cases h
                · cases h; rfl
          subst hm
          exact ⟨d, fs, hd, hfs, hm2, by simpa using hmiss, h⟩

/-- The function `adbus_parse` returns `-1` on a message of known type whenever the
required-fields check fails for the message that the header fields give. -/
theorem adbus_parse_fail_of_missing
    (flip : List Nat → Nat → Nat → List Nat → Option (List Nat))
    (native : Nat) (m : adbus_Message) (data : List Nat) (size : Nat)
    (h0 : byteAt data 1 ≠ 0) (h4 : byteAt data 1 ≤ 4)
    (hmiss : ∀ d fs m1, nativeHeader flip native data size = some d →
      headerFields native d size = some fs →
      storeFields (headerMessage native d) fs = some m1 → missingRequiredFields m1 = true) :
    adbus_parse flip native m data size = Res.fail := by
  rw [adbus_parse_spec flip native m data size h0 h4]
  unfold parseOutcome
  split
  · rfl
  · rename_i d hd
    split
    · rfl
    · rename_i fs hfs
      split
      · rfl
      · rename_i m2 hm2
        rw [if_pos (hmiss d fs m2 hd hfs hm2)]

/-! ## The required fields -/

theorem lastField_of_not_lacks {fs : List HeaderField} {c : Nat}
    (h : ¬ ∀ f ∈ fs, f.code ≠ c) : ∃ f, lastField fs c = some f := by
  cases hl : lastField fs c with
  | some f => exact ⟨f, rfl⟩
  | none => exact absurd (lastField_eq_none.1 hl) h

/-- The message that `adbus_parse` checks for its required fields, told from
the header fields on the wire. -/
theorem stored_message (flip : List Nat → Nat → Nat → List Nat → Option (List Nat))
    (native : Nat) (data : List Nat) (size : Nat) (d : List Nat) (fs : List HeaderField)
    (m1 : adbus_Message)
    (hd : nativeHeader flip native data size = some d)
    (hfs : headerFields native d size = some fs)
    (hm : storeFields (headerMessage native d) fs = some m1) :
    m1.type = byteAt d 1
    ∧ m1.argsize = bodyLength flip native data size
    ∧ (∀ c, 1 ≤ c → c ≤ 8 → lacksField flip native data size c → messageAttr m1 c = none)
    ∧ (∀ c, 1 ≤ c → c ≤ 8 → ¬ lacksField flip native data size c → messageAttr m1 c ≠ none) := by
  have hfix := storeFields_fixed fs _ _ hm
  have hmf := messageFields_eq flip native data size d fs hd hfs
  refine ⟨hfix.1, ?_, ?_, ?_⟩
  · rw [hfix.2.1]
    unfold bodyLength
    rw [hd]
    rfl
  · intro c h1 h8 hl
    unfold lacksField at hl
    rw [hmf] at hl
    rw [storeFields_messageAttr fs _ _ c hm h1 h8, lastField_eq_none.2 hl]
    exact headerMessage_messageAttr native d c
  · intro c h1 h8 hl
    unfold lacksField at hl
    rw [hmf] at hl
    obtain ⟨f, hf⟩ := lastField_of_not_lacks hl
    rw [storeFields_messageAttr fs _ _ c hm h1 h8, hf]
    simp

/-- C5: `adbus_parse` returns `-1` for a method call whose header fields lack
the path or the member, and for a method return whose header fields lack the
reply serial; a method call with path and member, or a method return with a
reply serial, whose header fields are all ones that are taken and whose body
is empty is accepted (`flip`, the absent `adbus_flip_data`, is taken to leave
the type byte alone; the body needs no turning, or `flip` takes an empty
body). -/
theorem adbus_parse_call_return_fields
    (flip : List Nat → Nat → Nat → List Nat → Option (List Nat))
    (native : Nat) (m : adbus_Message) (data : List Nat) (size : Nat)
    (hkeep : ∀ d1, flip data 0 size headerSignature = some d1 → byteAt d1 1 = byteAt data 1) :
    (byteAt data 1 = ADBUS_MSG_METHOD →
      (lacksField flip native data size 1 ∨ lacksField flip native data size 3) →
      adbus_parse flip native m data size = Res.fail)
    ∧ (byteAt data 1 = ADBUS_MSG_RETURN → lacksField flip native data size 5 →
      adbus_parse flip native m data size = Res.fail)
    ∧ (((byteAt data 1 = ADBUS_MSG_METHOD ∧ ¬ lacksField flip native data size 1
          ∧ ¬ lacksField flip native data size 3)
        ∨ (byteAt data 1 = ADBUS_MSG_RETURN ∧ ¬ lacksField flip native data size 5)) →
      (∀ f ∈ messageFields flip native data size, fieldAccepted f = true) →
      bodyLength flip native data size = 0 →
      (byteAt data 0 = native ∨ lacksField flip native data size 8
        ∨ ∀ buf off sig, (flip buf off 0 sig).isSome = true) →
      ∃ d1 m1, adbus_parse flip native m data size = Res.ok (d1, m1)) := by
  unfold ADBUS_MSG_METHOD ADBUS_MSG_RETURN
  refine ⟨?_, ?_, ?_⟩
  · intro ht hl
    apply adbus_parse_fail_of_missing flip native m data size (by omega) (by omega)
    intro d fs m1 hd hfs hm
    have hs := stored_message flip native data size d fs m1 hd hfs hm
    have htype : m1.type = 1 := by
      rw [hs.1, nativeHeader_type flip native data size d hkeep hd, ht]
    have hp : m1.path = none ∨ m1.member = none := by
      rcases hl with h | h
      · exact Or.inl (hs.2.2.1 1 (by omega) (by omega) h)
      · exact Or.inr (hs.2.2.1 3 (by omega) (by omega) h)
    unfold missingRequiredFields ADBUS_MSG_METHOD
    rw [if_pos ⟨htype, hp⟩]
  · intro ht hl
    apply adbus_parse_fail_of_missing flip native m data size (by omega) (by omega)
    intro d fs m1 hd hfs hm
    have hs := stored_message flip native data size d fs m1 hd hfs hm
    have htype : m1.type = 2 := by
      rw [hs.1, nativeHeader_type flip native data size d hkeep hd, ht]
    have hp : m1.replySerial = none := hs.2.2.1 5 (by omega) (by omega) hl
    unfold missingRequiredFields ADBUS_MSG_METHOD ADBUS_MSG_RETURN
    rw [if_neg (by rw [htype]; simp), if_pos ⟨htype, hp⟩]
  · intro hreq hacc hbody hflip
    have hne : ¬ lacksField flip native data size 1 ∨ ¬ lacksField flip native data size 5 := by
      rcases hreq with h | h
      · exact Or.inl h.2.1
      · exact Or.inr h.2
    have h04 : byteAt data 1 ≠ 0 ∧ byteAt data 1 ≤ 4 := by
      rcases hreq with h | h <;> omega
    rw [adbus_parse_spec flip native m data size h04.1 h04.2]
    unfold parseOutcome
    cases hd : nativeHeader flip native data size with
    | none =>
      exfalso
      have hl : ∀ c, lacksField flip native data size c := by
        intro c f hf
        unfold messageFields at hf
        rw [hd] at hf
        cases hf
      rcases hne with h | h
      · exact h (hl 1)
      · exact h (hl 5)
    | some d =>
      cases hfs : headerFields native d size with
      | none =>
        exfalso
        have hl : ∀ c, lacksField flip native data size c := by
          intro c f hf
          unfold messageFields at hf
          rw [hd] at hf
          simp only [hfs, Option.getD_none] at hf
          cases hf
        rcases hne with h | h
        · exact h (hl 1)
        · exact h (hl 5)
      | some fs =>
        rw [messageFields_eq flip native data size d fs hd hfs] at hacc
        obtain ⟨m1, hm⟩ := storeFields_of_accepted fs (headerMessage native d) hacc
        have hs := stored_message flip native data size d fs m1 hd hfs hm
        have htype : m1.type = byteAt data 1 := by
          rw [hs.1, nativeHeader_type flip native data size d hkeep hd]
        have hargs : m1.argsize = 0 := by rw [hs.2.1, hbody]
        have hmiss : missingRequiredFields m1 = false := by
          unfold missingRequiredFields ADBUS_MSG_METHOD ADBUS_MSG_RETURN ADBUS_MSG_ERROR
            ADBUS_MSG_SIGNAL
          rcases hreq with h | h
          · have hp : m1.path ≠ none := hs.2.2.2 1 (by omega) (by omega) h.2.1
            have hmem : m1.member ≠ none := hs.2.2.2 3 (by omega) (by omega) h.2.2
            rw [if_neg (by simp [hp, hmem]), if_neg (by rw [htype, h.1]; simp),
              if_neg (by rw [htype, h.1]; simp), if_neg (by rw [htype, h.1]; simp),
              if_neg (by rw [hargs]; simp)]
          · have hp : m1.replySerial ≠ none := hs.2.2.2 5 (by omega) (by omega) h.2
            rw [if_neg (by rw [htype, h.1]; simp), if_neg (by simp [hp]),
              if_neg (by rw [htype, h.1]; simp), if_neg (by rw [htype, h.1]; simp),
              if_neg (by rw [hargs]; simp)]
        simp only [hfs, hm, hmiss, Bool.false_eq_true, if_false]
        unfold flipBody
        rcases hflip with h | h | h
        · rw [if_pos h]
          exact ⟨_, _, rfl⟩
        · have hsig : m1.signature = none := hs.2.2.1 8 (by omega) (by omega) h
          rw [hsig]
          split <;> exact ⟨_, _, rfl⟩
        · split
          · exact ⟨_, _, rfl⟩
          · split
            · exact ⟨_, _, rfl⟩
            · rename_i s hsig
              rw [hargs]
              have hsome := h d (m1.size - 0) (cstringAt d s 255)
              cases hfl : flip d (m1.size - 0) 0 (cstringAt d s 255) with
              | none => rw [hfl] at hsome; cases hsome
              | some d2 => exact ⟨_, _, rfl⟩

/-- C5, at two method calls in native order: the call without a path is an
error, the call with path and member is accepted. -/
theorem adbus_parse_call_return_fields_witness :
    (byteAt sampleCallNoPath 1 = ADBUS_MSG_METHOD ∧ lacksField flipNone 108 sampleCallNoPath 32 1
      ∧ adbus_parse flipNone 108 adbus_Message.zero sampleCallNoPath 32 = Res.fail)
    ∧ (byteAt sampleCall 1 = ADBUS_MSG_METHOD ∧ ¬ lacksField flipNone 108 sampleCall 48 1
      ∧ ¬ lacksField flipNone 108 sampleCall 48 3
      ∧ ∃ d1 m1, adbus_parse flipNone 108 adbus_Message.zero sampleCall 48 = Res.ok (d1, m1)) :=
  ⟨⟨by decide, by unfold lacksField; decide,
    (adbus_parse_call_return_fields flipNone 108 adbus_Message.zero sampleCallNoPath 32
      (fun _ h => by simp [flipNone] at h)).1 (by decide)
      (Or.inl (by unfold lacksField; decide))⟩,
   ⟨by decide, by unfold lacksField; decide, by unfold lacksField; decide,
    (adbus_parse_call_return_fields flipNone 108 adbus_Message.zero sampleCall 48
      (fun _ h => by simp [flipNone] at h)).2.2
      (Or.inl ⟨by decide, by unfold lacksField; decide, by unfold lacksField; decide⟩)
      (by decide) (by decide) (Or.inl (by decide))⟩⟩

/-- The part of the required-fields check for errors and signals that the
code has: an error needs its error name, a signal its interface and its
member. -/
theorem adbus_parse_error_signal_fields
    (flip : List Nat → Nat → Nat → List Nat → Option (List Nat))
    (native : Nat) (m : adbus_Message) (data : List Nat) (size : Nat)
    (hkeep : ∀ d1, flip data 0 size headerSignature = some d1 → byteAt d1 1 = byteAt data 1) :
    (byteAt data 1 = ADBUS_MSG_ERROR → lacksField flip native data size 4 →
      adbus_parse flip native m data size = Res.fail)
    ∧ (byteAt data 1 = ADBUS_MSG_SIGNAL →
      (lacksField flip native data size 2 ∨ lacksField flip native data size 3) →
      adbus_parse flip native m data size = Res.fail) := by
  unfold ADBUS_MSG_ERROR ADBUS_MSG_SIGNAL
  refine ⟨?_, ?_⟩
  · intro ht hl
    apply adbus_parse_fail_of_missing flip native m data size (by omega) (by omega)
    intro d fs m1 hd hfs hm
    have hs := stored_message flip native data size d fs m1 hd hfs hm
    have htype : m1.type = 3 := by
      rw [hs.1, nativeHeader_type flip native data size d hkeep hd, ht]
    have hp : m1.error = none := hs.2.2.1 4 (by omega) (by omega) hl
    unfold missingRequiredFields ADBUS_MSG_METHOD ADBUS_MSG_RETURN ADBUS_MSG_ERROR
    rw [if_neg (by rw [htype]; simp), if_neg (by rw [htype]; simp), if_pos ⟨htype, hp⟩]
  · intro ht hl
    apply adbus_parse_fail_of_missing flip native m data size (by omega) (by omega)
    intro d fs m1 hd hfs hm
    have hs := stored_message flip native data size d fs m1 hd hfs hm
    have htype : m1.type = 4 := by
      rw [hs.1, nativeHeader_type flip native data size d hkeep hd, ht]
    have hp : m1.interface = none ∨ m1.member = none := by
      rcases hl with h | h
      · exact Or.inl (hs.2.2.1 2 (by omega) (by omega) h)
      · exact Or.inr (hs.2.2.1 3 (by omega) (by omega) h)
    unfold missingRequiredFields ADBUS_MSG_METHOD ADBUS_MSG_RETURN ADBUS_MSG_ERROR
      ADBUS_MSG_SIGNAL
    rw [if_neg (by rw [htype]; simp), if_neg (by rw [htype]; simp),
      if_neg (by rw [htype]; simp), if_pos ⟨htype, hp⟩]

/-- C6: the sample error message has an error name and no reply serial, and
`adbus_parse` returns `0` for it, with a null `replySerial`: an error that
lacks the reply serial is not refused. -/
theorem adbus_parse_error_without_reply_serial :
    ∀ (flip : List Nat → Nat → Nat → List Nat → Option (List Nat)) (m : adbus_Message),
      byteAt sampleError 1 = ADBUS_MSG_ERROR
      ∧ adbus_parse_size sampleError sampleError.length = sampleError.length
      ∧ messageFields flip 108 sampleError 32 = [{ code := 4, sig := [115], value := 24, size := 4 }]
      ∧ ∃ r, adbus_parse flip 108 m sampleError 32 = Res.ok (sampleError, r)
          ∧ r.type = ADBUS_MSG_ERROR ∧ r.error = some 24 ∧ r.replySerial = none :=
  fun _ _ => ⟨by decide, by decide, rfl, _, rfl, rfl, rfl, rfl⟩

/-- C7: the sample signal has an interface and a member and no path, and
`adbus_parse` returns `0` for it, with a null `path`: a signal that lacks the
path is not refused. -/
theorem adbus_parse_signal_without_path :
    ∀ (flip : List Nat → Nat → Nat → List Nat → Option (List Nat)) (m : adbus_Message),
      byteAt sampleSignal 1 = ADBUS_MSG_SIGNAL
      ∧ adbus_parse_size sampleSignal sampleSignal.length = sampleSignal.length
      ∧ messageFields flip 108 sampleSignal 48
          = [{ code := 2, sig := [115], value := 24, size := 3 },
             { code := 3, sig := [115], value := 40, size := 4 }]
      ∧ ∃ r, adbus_parse flip 108 m sampleSignal 48 = Res.ok (sampleSignal, r)
          ∧ r.type = ADBUS_MSG_SIGNAL ∧ r.interface = some 24 ∧ r.member = some 40
          ∧ r.path = none :=
  fun _ _ => ⟨by decide, by decide, rfl, _, rfl, rfl, rfl, rfl, rfl⟩

/-- C8: `adbus_parse` returns `-1` for every message of known type whose body
length is not 0 and whose header fields hold no signature, whatever the
other fields are. -/
theorem adbus_parse_body_without_signature
    (flip : List Nat → Nat → Nat → List Nat → Option (List Nat))
    (native : Nat) (m : adbus_Message) (data : List Nat) (size : Nat)
    (h1 : 1 ≤ byteAt data 1) (h4 : byteAt data 1 ≤ 4)
    (hbody : bodyLength flip native data size ≠ 0)
    (hl : lacksField flip native data size 8) :
    adbus_parse flip native m data size = Res.fail := by
  apply adbus_parse_fail_of_missing flip native m data size (by omega) h4
  intro d fs m1 hd hfs hm
  have hs := stored_message flip native data size d fs m1 hd hfs hm
  have hargs : m1.argsize > 0 := by
    rw [hs.2.1]
    omega
  have hsig : m1.signature = none := hs.2.2.1 8 (by omega) (by omega) hl
  unfold missingRequiredFields
  split
  · rfl
  · split
    · rfl
    · split
      · rfl
      · split
        · rfl
        · rw [if_pos ⟨hargs, hsig⟩]

/-- C8, at a method call in native order with path and member, a body of one
byte and no signature field. -/
theorem adbus_parse_body_without_signature_witness :
    (1 ≤ byteAt sampleCallBody 1 ∧ byteAt sampleCallBody 1 ≤ 4)
    ∧ bodyLength flipNone 108 sampleCallBody 49 ≠ 0
    ∧ lacksField flipNone 108 sampleCallBody 49 8
    ∧ adbus_parse flipNone 108 adbus_Message.zero sampleCallBody 49 = Res.fail :=
  ⟨by decide, by decide, by unfold lacksField; decide,
    adbus_parse_body_without_signature flipNone 108 adbus_Message.zero sampleCallBody 49
      (by decide) (by decide) (by decide) (by unfold lacksField; decide)⟩

/-! ## The stored header fields -/

theorem expectedSignature_of_accepted {f : HeaderField} (h : fieldAccepted f = true)
    (h1 : 1 ≤ f.code) (h8 : f.code ≤ 8) : expectedSignature f.code = some f.sig := by
  unfold fieldAccepted at h
  rw [Bool.and_eq_true] at h
  have h2 := h.2
  have hc : f.code = 1 ∨ f.code = 2 ∨ f.code = 3 ∨ f.code = 4 ∨ f.code = 5 ∨ f.code = 6
      ∨ f.code = 7 ∨ f.code = 8 := by omega
  rcases hc with hc | hc | hc | hc | hc | hc | hc | hc <;>
    simp [expectedSignature, hc] at h2 ⊢ <;> exact h2.symm

/-- C9, as stated, fails: in the sample method call with two member fields,
which `adbus_parse` accepts, the first member field has the expected
signature `s` and is not what the `member` attribute holds. -/
theorem adbus_parse_first_member_not_stored :
    ∃ r, adbus_parse flipNone 108 adbus_Message.zero sampleTwoMembers 64
        = Res.ok (sampleTwoMembers, r)
      ∧ ∃ f ∈ messageFields flipNone 108 sampleTwoMembers 64,
          f.code = 3 ∧ expectedSignature f.code = some f.sig
          ∧ messageAttr r 3 ≠ some f.value :=
  ⟨_, rfl, { code := 3, sig := [115], value := 40, size := 1 }, by decide, rfl, rfl, by decide⟩

/-- C9, amended: when `adbus_parse` accepts a message of known type, its
header can be read field by field, every field is one that is taken (a field
with a code from 1 to 8 has the signature assigned to its code), and for
every code from 1 to 8 the attribute of that code holds the value of the
last field with that code (and, for the six string attributes, its length),
and is null when no field has that code. -/
theorem adbus_parse_stores_last_fields
    (flip : List Nat → Nat → Nat → List Nat → Option (List Nat))
    (native : Nat) (m : adbus_Message) (data : List Nat) (size : Nat)
    (h0 : byteAt data 1 ≠ 0) (h4 : byteAt data 1 ≤ 4) (d1 : List Nat) (m1 : adbus_Message)
    (h : adbus_parse flip native m data size = Res.ok (d1, m1)) :
    headerReadable flip native data size = true
    ∧ (∀ f ∈ messageFields flip native data size, fieldAccepted f = true)
    ∧ ∀ c, 1 ≤ c → c ≤ 8 →
        (∀ f, lastField (messageFields flip native data size) c = some f →
          expectedSignature c = some f.sig ∧ messageAttr m1 c = some f.value
          ∧ (c ≠ 5 → c ≠ 8 → messageAttrSize m1 c = f.size))
        ∧ (lacksField flip native data size c → messageAttr m1 c = none) := by
  obtain ⟨d, fs, hd, hfs, hm, _, _⟩ := adbus_parse_ok flip native m data size h0 h4 d1 m1 h
  have hmf := messageFields_eq flip native data size d fs hd hfs
  have hacc := storeFields_accepted fs _ _ hm
  refine ⟨?_, ?_, ?_⟩
  · unfold headerReadable
    rw [hd]
    simp only [hfs, Option.isSome_some]
  · rw [hmf]
    exact hacc
  · intro c h1 h8
    refine ⟨?_, ?_⟩
    · intro f hf
      rw [hmf] at hf
      have hmem := lastField_mem hf
      have hfa := hacc f hmem.1
      have hcode := hmem.2
      refine ⟨?_, ?_, ?_⟩
      · rw [← hcode]
        exact expectedSignature_of_accepted hfa (by omega) (by omega)
      · rw [storeFields_messageAttr fs _ _ c hm h1 h8, hf]
      · intro h5 hn8
        rw [storeFields_messageAttrSize fs _ _ c hm (by omega), hf]
    · intro hl
      exact (stored_message flip native data size d fs m1 hd hfs hm).2.2.1 c h1 h8 hl

/-- C9 amended, at the sample method call with two member fields: the
`member` attribute holds the second one. -/
theorem adbus_parse_stores_last_fields_witness :
    (byteAt sampleTwoMembers 1 ≠ 0 ∧ byteAt sampleTwoMembers 1 ≤ 4)
    ∧ ∃ r, adbus_parse flipNone 108 adbus_Message.zero sampleTwoMembers 64
          = Res.ok (sampleTwoMembers, r)
        ∧ lastField (messageFields flipNone 108 sampleTwoMembers 64) 3
          = some { code := 3, sig := [115], value := 56, size := 4 }
        ∧ messageAttr r 3 = some 56 ∧ messageAttrSize r 3 = 4
        ∧ messageAttr r 2 = none := by
  have hw := (adbus_parse_stores_last_fields flipNone 108 adbus_Message.zero sampleTwoMembers 64
    (by decide) (by decide) _ _ rfl).2.2
  have h3 := (hw 3 (by decide) (by decide)).1
    { code := 3, sig := [115], value := 56, size := 4 } (by decide)
  have h2 := (hw 2 (by decide) (by decide)).2 (by unfold lacksField; decide)
  exact ⟨by decide, _, rfl, by decide, h3.2.1, h3.2.2 (by decide) (by decide), h2⟩

/-! ## Header fields with other codes -/

theorem storeFields_filter : ∀ (fs : List HeaderField) (m : adbus_Message),
    storeFields m (fs.filter (fun f => decide (f.code ≤ 8))) = storeFields m fs := by
  intro fs
  induction fs with
  | nil => intro m; rfl
  | cons g fs ih =>
    intro m
    by_cases hg : g.code ≤ 8
    · rw [List.filter_cons_of_pos (by simpa using hg), storeFields, storeFields]
      cases storeAccepted m g with
      | none => rfl
      | some m1 => exact ih m1
    · rw [List.filter_cons_of_neg (by simpa using hg), storeFields, ih]
      have h9 : 9 ≤ g.code := by omega
      have hacc : storeAccepted m g = some m := by
        unfold storeAccepted fieldAccepted expectedSignature storeField
        have e0 : g.code ≠ 0 := by omega
        have e1 : g.code ≠ 1 := by omega
        have e2 : g.code ≠ 2 := by omega
        have e3 : g.code ≠ 3 := by omega
        have e4 : g.code ≠ 4 := by omega
        have e5 : g.code ≠ 5 := by omega
        have e6 : g.code ≠ 6 := by omega
        have e7 : g.code ≠ 7 := by omega
        have e8 : g.code ≠ 8 := by omega
        simp [e0, e1, e2, e3, e4, e5, e6, e7, e8]
      rw [hacc]

/-- C10, as stated, fails for the code 0: the sample method call is accepted,
and the same call with one more header field, of code 0, is an error. -/
theorem adbus_parse_code0_not_discarded :
    (∃ r, adbus_parse flipNone 108 adbus_Message.zero sampleCall 48 = Res.ok (sampleCall, r))
    ∧ messageFields flipNone 108 sampleCallCode0 56
        = messageFields flipNone 108 sampleCall 48
          ++ [{ code := 0, sig := [121], value := 52, size := 0 }]
    ∧ adbus_parse flipNone 108 adbus_Message.zero sampleCallCode0 56 = Res.fail :=
  ⟨⟨_, rfl⟩, by decide, by decide⟩

/-- C10, amended: on a message of known type whose header can be read field
by field, the header fields with a code above 8 are stepped over and
dropped: the outcome of `adbus_parse`, success or error, and the message it
leaves are those that the fields with the codes 0 to 8 give by themselves. -/
theorem adbus_parse_drops_unknown_fields
    (flip : List Nat → Nat → Nat → List Nat → Option (List Nat))
    (native : Nat) (m : adbus_Message) (data : List Nat) (size : Nat)
    (h0 : byteAt data 1 ≠ 0) (h4 : byteAt data 1 ≤ 4) :
    adbus_parse flip native m data size
      = match nativeHeader flip native data size with
        | none => Res.fail
        | some d =>
          match headerFields native d size with
          | none => Res.fail
          | some fs =>
            match storeFields (headerMessage native d)
                (fs.filter (fun f => decide (f.code ≤ 8))) with
            | none => Res.fail
            | some m1 =>
              if missingRequiredFields m1 then Res.fail
              else flipBody flip native data d m1 := by
  rw [adbus_parse_spec flip native m data size h0 h4]
  unfold parseOutcome
  cases nativeHeader flip native data size with
  | none => rfl
  | some d =>
    simp only []
    cases headerFields native d size with
    | none => rfl
    | some fs =>
      simp only []
      rw [storeFields_filter]

/-- C10 amended, at the sample method call with a third header field of code
9: the field is read off the wire, and the message that is left has the
attributes of the call without it. -/
theorem adbus_parse_drops_unknown_fields_witness :
    (byteAt sampleCallCode9 1 ≠ 0 ∧ byteAt sampleCallCode9 1 ≤ 4)
    ∧ messageFields flipNone 108 sampleCallCode9 56
        = messageFields flipNone 108 sampleCall 48
          ++ [{ code := 9, sig := [121], value := 52, size := 0 }]
    ∧ (∃ r r9, adbus_parse flipNone 108 adbus_Message.zero sampleCall 48
            = Res.ok (sampleCall, r)
        ∧ adbus_parse flipNone 108 adbus_Message.zero sampleCallCode9 56
            = Res.ok (sampleCallCode9, r9)
        ∧ ∀ c, messageAttr r9 c = messageAttr r c ∧ messageAttrSize r9 c = messageAttrSize r c)
    ∧ adbus_parse flipNone 108 adbus_Message.zero sampleCallCode9 56
      = match nativeHeader flipNone 108 sampleCallCode9 56 with
        | none => Res.fail
        | some d =>
          match headerFields 108 d 56 with
          | none => Res.fail
          | some fs =>
            match storeFields (headerMessage 108 d)
                (fs.filter (fun f => decide (f.code ≤ 8))) with
            | none => Res.fail
            | some m1 =>
              if missingRequiredFields m1 then Res.fail
              else flipBody flipNone 108 sampleCallCode9 d m1 :=
  ⟨by decide, by decide, ⟨_, _, rfl, rfl, fun _ => ⟨rfl, rfl⟩⟩,
    adbus_parse_drops_unknown_fields flipNone 108 adbus_Message.zero sampleCallCode9 56
      (by decide) (by decide)⟩

/-! ## The signature of a header field -/

/-- C11, as stated, fails for a message whose type is above `Signal`: the
sample message of type 5 has a path field with the signature `s`, and
`adbus_parse` returns `0` for it without a look at its header fields. -/
theorem adbus_parse_unknown_type_bad_field :
    (∃ f ∈ messageFields flipNone 108 sampleUnknownType 32,
        f.code = 1 ∧ f.sig = [115] ∧ expectedSignature f.code ≠ some f.sig)
    ∧ adbus_parse flipNone 108 adbus_Message.zero sampleUnknownType 32
        = Res.ok (sampleUnknownType, adbus_Message.zero)
    ∧ messageHeads flipNone 108 sampleUnknownType 32 = [(1, [115])] :=
  ⟨⟨{ code := 1, sig := [115], value := 24, size := 2 }, by decide, rfl, rfl, by decide⟩,
    by decide, by decide⟩

theorem expectedSignature_known {c : Nat} (h1 : 1 ≤ c) (h8 : c ≤ 8) :
    ∃ s, expectedSignature c = some s := by
  have hc : c = 1 ∨ c = 2 ∨ c = 3 ∨ c = 4 ∨ c = 5 ∨ c = 6 ∨ c = 7 ∨ c = 8 := by omega
  rcases hc with hc | hc | hc | hc | hc | hc | hc | hc <;>
    simp [expectedSignature, hc]

theorem storeAccepted_bad (m : adbus_Message) (f : HeaderField) (h1 : 1 ≤ f.code)
    (h8 : f.code ≤ 8) (hsig : expectedSignature f.code ≠ some f.sig) :
    storeAccepted m f = none := by
  unfold storeAccepted
  by_cases ha : fieldAccepted f = true
  · exact absurd (expectedSignature_of_accepted ha h1 h8) hsig
  · rw [if_neg ha]

/-- A header field with a code from 1 to 8 whose variant does not carry the
signature of the code ends `adbus_parse` with `-1` in the turn of the loop
that reads it, whether its value can be read or not. -/
theorem parseField_bad_head (native : Nat) (data : List Nat) (i : adbus_Iterator)
    (m : adbus_Message) (c : Nat) (sig : List Nat) (h : readHead data i = some (c, sig))
    (h1 : 1 ≤ c) (h8 : c ≤ 8) (hsig : expectedSignature c ≠ some sig) :
    parseField native data i m = Res.fail := by
  unfold readHead at h
  unfold parseField
  cases hb : adbus_iter_beginstruct i with
  | none => rfl
  | some i1 =>
    rw [hb] at h
    simp only [] at h ⊢
    cases hu : adbus_iter_u8 i1 with
    | none => rfl
    | some r =>
      obtain ⟨code, i2⟩ := r
      rw [hu] at h
      simp only [] at h ⊢
      cases hbv : adbus_iter_beginvariant data i2 with
      | none => rfl
      | some r =>
        obtain ⟨v, i3⟩ := r
        rw [hbv] at h
        simp only [Option.some.injEq, Prod.mk.injEq] at h
        obtain ⟨hcode, hs3⟩ := h
        simp only []
        rw [parseFieldValue_spec _ _ _ _ _ (adbus_iter_beginvariant_sig hbv)]
        have hacc : storeAccepted m (fieldAt native data (byteAt data code) i3) = none := by
          apply storeAccepted_bad
          · show 1 ≤ byteAt data code
            rw [hcode]; exact h1
          · show byteAt data code ≤ 8
            rw [hcode]; exact h8
          · show expectedSignature (byteAt data code) ≠ some i3.sig
            rw [hcode, hs3]; exact hsig
        cases hval : adbus_iter_value (valueFuel i3) native data i3 with
        | fail => rfl
        | diverge => exact absurd hval (adbus_iter_value_returns native data i3)
        | ok i4 =>
          simp only [hacc]

theorem readField_head {native : Nat} {data : List Nat} {i j : adbus_Iterator}
    {f : HeaderField} (h : readField native data i = Res.ok (f, j)) :
    readHead data i = some (f.code, f.sig) := by
  unfold readField at h
  unfold readHead
  cases hb : adbus_iter_beginstruct i with
  | none => rw [hb] at h; cases h
  | some i1 =>
    rw [hb] at h
    simp only [] at h ⊢
    cases hu : adbus_iter_u8 i1 with
    | none => rw [hu] at h; cases h
    | some r =>
      obtain ⟨code, i2⟩ := r
      rw [hu] at h
      simp only [] at h ⊢
      cases hbv : adbus_iter_beginvariant data i2 with
      | none => rw [hbv] at h; cases h
      | some r =>
        obtain ⟨v, i3⟩ := r
        rw [hbv] at h
        simp only [] at h ⊢
        split at h
        · split at h
          · cases h
          · split at h
            · cases h
            · cases h
              rfl
        · cases h
        · cases h

/-- A header field with a code from 1 to 8 whose variant does not carry the
signature of the code, anywhere among the heads of the fields, ends the loop
of `adbus_parse` with `-1`. -/
theorem parseFields_bad_head (native : Nat) (data : List Nat) (a : adbus_IterArray) :
    ∀ (fuel : Nat) (i : adbus_Iterator) (m : adbus_Message),
      (∃ h ∈ fieldHeads fuel native data a i,
        1 ≤ h.1 ∧ h.1 ≤ 8 ∧ expectedSignature h.1 ≠ some h.2) →
      parseFields fuel native data a i m = Res.fail := by
  intro fuel
  induction fuel with
  | zero =>
    intro i m hbad
    obtain ⟨h, hmem, _⟩ := hbad
    simp [fieldHeads] at hmem
  | succ n ih =>
    intro i m hbad
    obtain ⟨h, hmem, h1, h8, hsig⟩ := hbad
    rw [fieldHeads] at hmem
    rw [parseFields]
    cases hin : adbus_iter_inarray i a with
    | mk b i0 =>
      rw [hin] at hmem
      cases b with
      | false => simp at hmem
      | true =>
        simp only [] at hmem ⊢
        cases hh : readHead data i0 with
        | none =>
          rw [hh] at hmem
          simp at hmem
        | some h0 =>
          rw [hh] at hmem
          simp only [List.mem_cons] at hmem
          rcases hmem with hm | hm
          · rw [parseField_bad_head native data i0 m h0.1 h0.2 hh (hm ▸ h1) (hm ▸ h8)
              (hm ▸ hsig)]
          · rw [parseField_spec]
            cases hr : readField native data i0 with
            | fail => rfl
            | diverge =>
              rw [hr] at hm
              simp at hm
            | ok r =>
              obtain ⟨f, i1⟩ := r
              rw [hr] at hm
              simp only [] at hm ⊢
              cases hacc : storeAccepted m f with
              | none => rfl
              | some m1 =>
                simp only []
                exact ih i1 m1 ⟨h, hm, h1, h8, hsig⟩

theorem readFields_heads (native : Nat) (data : List Nat) (a : adbus_IterArray) :
    ∀ (fuel : Nat) (i j : adbus_Iterator) (fs : List HeaderField),
      readFields fuel native data a i = Res.ok (fs, j) →
      fieldHeads fuel native data a i = fs.map (fun f => (f.code, f.sig)) := by
  intro fuel
  induction fuel with
  | zero => intro i j fs h; simp [readFields] at h
  | succ n ih =>
    intro i j fs h
    rw [readFields] at h
    rw [fieldHeads]
    cases hin : adbus_iter_inarray i a with
    | mk b i0 =>
      rw [hin] at h
      cases b with
      | false =>
        simp only [] at h ⊢
        cases h
        rfl
      | true =>
        simp only [] at h ⊢
        cases hr : readField native data i0 with
        | fail => rw [hr] at h; cases h
        | diverge => rw [hr] at h; cases h
        | ok r =>
          obtain ⟨f, i1⟩ := r
          rw [hr] at h
          simp only [] at h
          rw [readField_head hr]
          simp only []
          cases hrest : readFields n native data a i1 with
          | fail => rw [hrest] at h; cases h
          | diverge => rw [hrest] at h; cases h
          | ok r2 =>
            obtain ⟨fs1, j1⟩ := r2
            rw [hrest] at h
            simp only [] at h
            cases h
            rw [ih i1 _ _ hrest]
            rfl

/-- Every header field that can be read off the wire as a whole is among the
heads of the header fields. -/
theorem messageFields_heads (flip : List Nat → Nat → Nat → List Nat → Option (List Nat))
    (native : Nat) (data : List Nat) (size : Nat) :
    ∀ f ∈ messageFields flip native data size,
      (f.code, f.sig) ∈ messageHeads flip native data size := by
  intro f hf
  unfold messageFields at hf
  unfold messageHeads
  cases hd : nativeHeader flip native data size with
  | none => rw [hd] at hf; cases hf
  | some d =>
    rw [hd] at hf
    simp only [] at hf ⊢
    unfold headerFields at hf
    unfold headerHeads
    cases hb : adbus_iter_beginarray native d
        { data := sizeof_adbusI_Header, size := size - sizeof_adbusI_Header,
          sig := fieldsSignature } with
    | none => rw [hb] at hf; cases hf
    | some r =>
      obtain ⟨a, i⟩ := r
      rw [hb] at hf
      simp only [] at hf ⊢
      cases hr : readFields (size + 1) native d a i with
      | fail => rw [hr] at hf; cases hf
      | diverge => rw [hr] at hf; cases hf
      | ok r2 =>
        obtain ⟨fs, j⟩ := r2
        rw [hr] at hf
        simp only [] at hf
        rw [readFields_heads native d a _ _ _ _ hr]
        by_cases he : (adbus_iter_endarray j a).isSome = true
        · rw [if_pos he] at hf
          exact List.mem_map_of_mem (fun f => (f.code, f.sig)) hf
        · rw [if_neg he] at hf
          cases hf

/-- C11, amended: on a message whose type is not above `Signal`, `adbus_parse`
returns `-1` whenever a header field with a code from 1 to 8 carries a
variant whose signature is not the single type assigned to the code (1 `o`,
2, 3, 4, 6 and 7 `s`, 5 `u`, 8 `g`). The header fields are those that the
message carries on the wire, each with its code and the signature of its
variant, whether its value can be read along this signature or not: a
signature of two types, such as `ss`, and the empty signature are among
them. -/
theorem adbus_parse_field_signature
    (flip : List Nat → Nat → Nat → List Nat → Option (List Nat))
    (native : Nat) (m : adbus_Message) (data : List Nat) (size : Nat)
    (h4 : byteAt data 1 ≤ 4)
    (hbad : ∃ h ∈ messageHeads flip native data size,
      1 ≤ h.1 ∧ h.1 ≤ 8 ∧ expectedSignature h.1 ≠ some h.2) :
    adbus_parse flip native m data size = Res.fail := by
  by_cases h0 : byteAt data 1 = 0
  · unfold adbus_parse ADBUS_MSG_INVALID
    rw [if_pos h0]
  · unfold messageHeads nativeHeader headerHeads at hbad
    unfold adbus_parse ADBUS_MSG_INVALID ADBUS_MSG_SIGNAL
    rw [if_neg h0, if_neg (by omega)]
    cases hf : (if byteAt data 0 = native then some data
        else flip data 0 size headerSignature) with
    | none => rfl
    | some flipped =>
      rw [hf] at hbad
      simp only [Option.map_some'] at hbad ⊢
      cases hb : adbus_iter_beginarray native (flipped.set 0 native)
          { data := sizeof_adbusI_Header, size := size - sizeof_adbusI_Header,
            sig := fieldsSignature } with
      | none => rfl
      | some r =>
        obtain ⟨a, i⟩ := r
        rw [hb] at hbad
        simp only [] at hbad ⊢
        rw [parseFields_bad_head native (flipped.set 0 native) a (size + 1) i _ hbad]

/-- C11 amended, at three method calls: the path field, of the code 1, carries
the signature `s`; the interface field, of the code 2, carries the signature
`ss` with two strings; the member field, of the code 3, carries the empty
signature. Each is parsed with the result `-1`; the fields with `ss` and with
the empty signature cannot be read as a whole, so that they are heads
without being among the fields that are read off the wire. -/
theorem adbus_parse_field_signature_witness :
    (messageHeads flipNone 108 sampleCallPathString 48 = [(1, [115]), (3, [115])]
      ∧ adbus_parse flipNone 108 adbus_Message.zero sampleCallPathString 48 = Res.fail)
    ∧ (messageHeads flipNone 108 sampleCallInterfaceTwoStrings 72 = [(1, [111]), (2, [115, 115])]
      ∧ messageFields flipNone 108 sampleCallInterfaceTwoStrings 72 = []
      ∧ adbus_parse flipNone 108 adbus_Message.zero sampleCallInterfaceTwoStrings 72 = Res.fail)
    ∧ (messageHeads flipNone 108 sampleCallEmptySignature 40 = [(1, [111]), (3, [])]
      ∧ messageFields flipNone 108 sampleCallEmptySignature 40 = []
      ∧ adbus_parse flipNone 108 adbus_Message.zero sampleCallEmptySignature 40 = Res.fail) :=
  ⟨⟨by decide,
      adbus_parse_field_signature flipNone 108 adbus_Message.zero sampleCallPathString 48
        (by decide) ⟨(1, [115]), by decide, by decide, by decide, by decide⟩⟩,
   ⟨by decide, by decide,
      adbus_parse_field_signature flipNone 108 adbus_Message.zero sampleCallInterfaceTwoStrings 72
        (by decide) ⟨(2, [115, 115]), by decide, by decide, by decide, by decide⟩⟩,
   ⟨by decide, by decide,
      adbus_parse_field_signature flipNone 108 adbus_Message.zero sampleCallEmptySignature 40
        (by decide) ⟨(3, []), by decide, by decide, by decide, by decide⟩⟩⟩

/-! ## The registrations of the C++ binding -/

theorem mapFind_mapSet {κ α : Type} [DecidableEq κ] (lt : κ → κ → Bool) (l : List (κ × α))
    (k : κ) (v : α) : mapFind (mapSet lt l k v) k = some v := by
  induction l with
  | nil => simp [mapSet, mapFind]
  | cons e rest ih =>
    obtain ⟨k1, v1⟩ := e
    unfold mapSet
    by_cases h1 : k1 = k
    · rw [if_pos h1]; simp [mapFind]
    · rw [if_neg h1]
      by_cases h2 : lt k k1 = true
      · rw [if_pos h2]; simp [mapFind]
      · rw [if_neg h2]; unfold mapFind; rw [if_neg h1]; exact ih

theorem mapSet_append {α : Type} (l : List (Nat × α)) (k : Nat) (v : α)
    (h : ∀ e ∈ l, e.1 < k) : mapSet serialLt l k v = l ++ [(k, v)] := by
  induction l with
  | nil => rfl
  | cons e rest ih =>
    obtain ⟨k1, v1⟩ := e
    have h1 : k1 < k := h (k1, v1) (List.mem_cons_self _ _)
    unfold mapSet
    rw [if_neg (Nat.ne_of_lt h1)]
    have h2 : ¬ serialLt k k1 = true := by
      unfold serialLt
      simp only [decide_eq_true_eq]
      omega
    rw [if_neg h2, ih (fun e he => h e (List.mem_cons_of_mem _ he))]
    rfl

theorem storedCopy_type (r : MessageRegistration) : (storedCopy r).type = r.type := by
  unfold storedCopy
  by_cases h1 : r.slot.isSome = true <;> by_cases h2 : r.errorSlot.isSome = true <;>
    simp [h1, h2]

theorem storedCopy_both (r : MessageRegistration) (s e : Slot) (hs : r.slot = some s)
    (he : r.errorSlot = some e) :
    (storedCopy r).slot = some e.clone ∧ (storedCopy r).errorSlot = some e := by
  unfold storedCopy
  simp [hs, he]

/-- C17 fails: for a return registration with a slot for the reply and a slot
for the error, a method return with the serial of the registration as reply
serial triggers a clone of the error slot, and no other slot. -/
theorem addRegistration_return_triggers_error_slot (c : Connection) (r : MessageRegistration)
    (s e : Slot) (message : DBusMessage)
    (ht : r.type = DBusMethodReturnMessage) (hs : r.slot = some s) (he : r.errorSlot = some e)
    (hm : message.type = DBusMethodReturnMessage)
    (hr : message.replySerial = (c.addRegistration r).2) :
    ((c.addRegistration r).1.dispatchMethodReturn message).2 = [e.clone] := by
  have hty : (storedCopy r).type = DBusMethodReturnMessage := by rw [storedCopy_type, ht]
  have hadd : c.addRegistration r
      = ({ c with m_NextSerial := (c.m_NextSerial + 1) % 2 ^ 32,
                  m_Returns := mapSet serialLt c.m_Returns c.m_NextSerial (storedCopy r) },
         c.m_NextSerial) := by
    unfold Connection.addRegistration
    simp only [hty, if_true]
  rw [hadd] at hr ⊢
  simp only at hr
  unfold Connection.dispatchMethodReturn
  simp only [hr, mapFind_mapSet, hty, hm, ne_eq, not_true_eq_false, if_false, if_true,
    (storedCopy_both r s e hs he).1]

/-- C17 at the sample registration, which has the slot of the handler 10 for the
reply and the slot of the handler 20 for the error: the method return with
the reply serial 1 triggers the handler 20. -/
theorem addRegistration_return_triggers_error_slot_witness :
    (Connection.new.addRegistration sampleReturnRegistration).2 = 1
    ∧ ((Connection.new.addRegistration sampleReturnRegistration).1.dispatchMethodReturn
        (sampleReturnMessage 1)).2 = [{ handler := 20 }] :=
  ⟨by decide,
    addRegistration_return_triggers_error_slot Connection.new sampleReturnRegistration
      { handler := 10 } { handler := 20 } (sampleReturnMessage 1) rfl rfl rfl rfl rfl⟩

/-! ## Introspection of an object -/

theorem introspectChildren_stuck (behind : List Nat) (path name : String) (o : Option Object)
    (rest : List (String × Option Object)) (h1 : ¬ name.length < path.length)
    (h2 : name.data.take path.length = path.data) :
    ∀ (fuel : Nat) (out : String),
      introspectChildren behind path fuel ((name, o) :: rest) out = Run.diverge := by
  intro fuel
  induction fuel with
  | zero => intro out; rfl
  | succ n ih =>
    intro out
    rw [introspectChildren, if_neg h1, if_neg (not_not.mpr h2)]
    by_cases h3 : (memchr (c_str (name.data.drop path.length) behind)
        (name.length - path.length) 47).isSome = true
    · rw [if_pos h3]; exact ih out
    · rw [if_neg h3]; exact ih _

/-- C18 fails: with `/a`, `/a/b`, `/a/b/c` and `/a/d` bound, `introspectObject`
does not return for `/a`, however often the test of its loop is made and
whatever the bytes behind the names are: the loop stays at `/a/b`. -/
theorem introspectObject_never_returns (behind : List Nat) (fuel : Nat) :
    sampleTree.introspectObject behind fuel "/a" = Run.diverge := by
  have hfind : mapFindFrom sampleTree.m_Objects "/a"
      = some (some (newObject "/a"),
              [("/a/b", some (newObject "/a/b")), ("/a/b/c", some (newObject "/a/b/c")),
               ("/a/d", some (newObject "/a/d"))]) := by
    decide
  unfold Connection.introspectObject
  rw [hfind]
  simp only []
  have he : ("/a" : String).isEmpty = false := by decide
  have hl : (("/a" : String).data.getLast? ≠ some '/') := by decide
  rw [he]
  simp only [Bool.false_eq_true, if_false, if_pos hl]
  rw [introspectChildren_stuck behind ("/a" ++ "/") "/a/b" _ _ (by decide) (by decide)]

/-! ## The filter of a signal registration -/

theorem fieldDiffers_eq_false (spec : String) (field : Option String) :
    fieldDiffers spec field = false ↔ fieldAgrees spec field := by
  unfold fieldDiffers fieldAgrees
  cases field with
  | none => simp
  | some s =>
    by_cases h1 : spec = ""
    · simp [h1, String.isEmpty]
    · have h2 : spec.isEmpty = false := by
        cases hh : spec.isEmpty with
        | false => rfl
        | true =>
          exfalso
          apply h1
          unfold String.isEmpty at hh
          have h3 : spec.endPos = 0 := by simpa using hh
          have h4 : spec.utf8ByteSize = 0 := by
            have := congrArg String.Pos.byteIdx h3
            simpa using this
          obtain ⟨l⟩ := spec
          cases l with
          | nil => rfl
          | cons a t =>
            simp only [String.utf8ByteSize, String.utf8ByteSize.go] at h4
            have := Char.utf8Size_pos a
            omega
      simp only [h2, Bool.not_false, Bool.true_and, bne_eq_false_iff_eq, h1, false_or,
        Option.some.injEq, reduceCtorEq]
      exact eq_comm

/-- C19, as stated, fails: a registration that gives the sender `:1.5` accepts
a signal without a sender, and a registration that gives the path `/p`
accepts a signal without a path, though the field that the registration
gives is not equal to the field of the message. -/
theorem dispatchSignal_accepts_absent_field :
    (Connection.signalAccepts (signalRegistration ":1.5" "" "" "" 1)
        (signalMessage none (some "/p") (some "a.b") (some "X")) = true
      ∧ ¬ specMatches (signalRegistration ":1.5" "" "" "" 1)
        (signalMessage none (some "/p") (some "a.b") (some "X")))
    ∧ (Connection.signalAccepts (signalRegistration "" "/p" "" "" 1)
        (signalMessage (some ":1.5") none (some "a.b") (some "X")) = true
      ∧ ¬ specMatches (signalRegistration "" "/p" "" "" 1)
        (signalMessage (some ":1.5") none (some "a.b") (some "X"))) := by
  refine ⟨⟨by decide, ?_⟩, ⟨by decide, ?_⟩⟩
  · intro h
    exact absurd (h.2.1 (by decide)) (by decide)
  · intro h
    exact absurd (h.2.2.1 (by decide)) (by decide)

/-- C19, amended: a registration accepts a message in `dispatchSignal` exactly
when the types are equal and every field that the registration gives and
the message carries is equal in the two. -/
theorem dispatchSignal_accepts_iff (r : MessageRegistration) (message : DBusMessage) :
    Connection.signalAccepts r message = true
      ↔ r.type = message.type
        ∧ fieldAgrees r.service message.sender
        ∧ fieldAgrees r.path message.path
        ∧ fieldAgrees r.interface message.interface
        ∧ fieldAgrees r.member message.member := by
  rw [← fieldDiffers_eq_false, ← fieldDiffers_eq_false, ← fieldDiffers_eq_false,
    ← fieldDiffers_eq_false]
  unfold Connection.signalAccepts
  by_cases h0 : r.type = message.type
  · cases h1 : fieldDiffers r.service message.sender <;>
      cases h2 : fieldDiffers r.path message.path <;>
      cases h3 : fieldDiffers r.interface message.interface <;>
      cases h4 : fieldDiffers r.member message.member <;>
      simp [h0]
  · simp [h0]

/-! ## The order of the signal registrations -/

theorem storedCopy_accepts (r : MessageRegistration) (message : DBusMessage) :
    Connection.signalAccepts (storedCopy r) message = Connection.signalAccepts r message := by
  unfold storedCopy Connection.signalAccepts
  by_cases h1 : r.slot.isSome = true <;> by_cases h2 : r.errorSlot.isSome = true <;>
    simp [h1, h2]

theorem dispatchSignalLoop_eq (l : List (Nat × MessageRegistration)) (message : DBusMessage)
    (h : ∀ e ∈ l, Connection.signalAccepts e.2 message = true → e.2.slot ≠ none) :
    dispatchSignalLoop l message
      = some (((l.map Prod.snd).filter
          (fun r => Connection.signalAccepts r message)).filterMap (fun r => r.slot)) := by
  induction l with
  | nil => rfl
  | cons e rest ih =>
    obtain ⟨k, r⟩ := e
    have ih1 := ih (fun e he => h e (List.mem_cons_of_mem _ he))
    unfold dispatchSignalLoop
    by_cases ha : Connection.signalAccepts r message = true
    · rw [if_pos ha]
      have hs := h (k, r) (List.mem_cons_self _ _) ha
      cases hslot : r.slot with
      | none => exact absurd hslot hs
      | some s =>
        simp only [ih1, List.map_cons, List.filter_cons, ha, if_true, List.filterMap_cons, hslot]
    · rw [if_neg ha, ih1]
      simp only [List.map_cons, List.filter_cons, ha, Bool.false_eq_true, if_false]

theorem addRegistrations_signals (regs : List MessageRegistration) :
    ∀ (c : Connection), (∀ e ∈ c.m_Signals, e.1 < c.m_NextSerial)
      → c.m_NextSerial + regs.length < 2 ^ 32
      → ((addRegistrations c regs).m_Signals).map Prod.snd
          = c.m_Signals.map Prod.snd
            ++ (regs.filter (fun r => r.type = DBusSignalMessage)).map storedCopy := by
  induction regs with
  | nil => intro c _ _; simp [addRegistrations]
  | cons r rest ih =>
    intro c hk hw
    simp only [List.length_cons] at hw
    have hmod : (c.m_NextSerial + 1) % 2 ^ 32 = c.m_NextSerial + 1 := Nat.mod_eq_of_lt (by omega)
    unfold addRegistrations
    have hne : DBusSignalMessage ≠ DBusMethodReturnMessage := by decide
    by_cases h2 : r.type = DBusMethodReturnMessage
    · have hadd : c.addRegistration r
          = ({ c with m_NextSerial := (c.m_NextSerial + 1) % 2 ^ 32,
                      m_Returns := mapSet serialLt c.m_Returns c.m_NextSerial (storedCopy r) },
             c.m_NextSerial) := by
        unfold Connection.addRegistration
        simp only [storedCopy_type, h2, if_true]
      have h4 : ¬ r.type = DBusSignalMessage := by rw [h2]; decide
      rw [hadd, ih _ (by simp only [hmod]; intro e he; have := hk e he; omega)
        (by simp only [hmod]; omega)]
      simp [List.filter_cons, h4]
    · by_cases h4 : r.type = DBusSignalMessage
      · have hadd : c.addRegistration r
            = ({ c with m_NextSerial := (c.m_NextSerial + 1) % 2 ^ 32,
                        m_Signals := mapSet serialLt c.m_Signals c.m_NextSerial (storedCopy r) },
               c.m_NextSerial) := by
          unfold Connection.addRegistration
          simp only [storedCopy_type, h4, hne, if_true, if_false]
        rw [hadd, ih _
          (by
            simp only [hmod, mapSet_append c.m_Signals c.m_NextSerial (storedCopy r) hk]
            intro e he
            rcases List.mem_append.mp he with h | h
            · have := hk e h; omega
            · simp only [List.mem_singleton] at h
              rw [h]; simp)
          (by simp only [hmod]; omega)]
        simp [List.filter_cons, h4, mapSet_append c.m_Signals c.m_NextSerial (storedCopy r) hk]
      · have hadd : c.addRegistration r
            = ({ c with m_NextSerial := (c.m_NextSerial + 1) % 2 ^ 32 }, c.m_NextSerial) := by
          unfold Connection.addRegistration
          simp only [storedCopy_type, h2, h4, if_false]
        rw [hadd, ih _ (by simp only [hmod]; intro e he; have := hk e he; omega)
          (by simp only [hmod]; omega)]
        simp [List.filter_cons, h4]

theorem storedCopy_slot (r : MessageRegistration) :
    (storedCopy r).slot = (if r.errorSlot.isSome then r.errorSlot else r.slot).map Slot.clone := by
  unfold storedCopy
  by_cases h1 : r.slot.isSome = true <;> by_cases h2 : r.errorSlot.isSome = true <;>
    simp [h1, h2]
  simp only [Bool.not_eq_true, Option.not_isSome, Option.isNone_iff_eq_none] at h1
  rw [h1]
  rfl

/-- C20 fails for a signal registration that has a slot and an error slot:
after the registrations `regs` have been added, one after the other, to a
connection without signal registrations, and as long as the serial counter
does not wrap, `dispatchSignal` goes through the signal registrations in the
order of registration and triggers one slot, once, for each whose filter
accepts the message, and none for the others; but the slot that it triggers
is the clone of the error slot when the registration has an error slot, and
the clone of the slot of the registration only when it has no error slot. -/
theorem dispatchSignal_triggers_error_slot (c : Connection) (regs : List MessageRegistration)
    (message : DBusMessage)
    (hnone : c.m_Signals = [])
    (hwrap : c.m_NextSerial + regs.length < 2 ^ 32)
    (hslot : ∀ r ∈ regs, r.slot ≠ none ∨ r.errorSlot ≠ none) :
    (addRegistrations c regs).dispatchSignal message
      = some (((regs.filter (fun r => r.type = DBusSignalMessage)).filter
          (fun r => Connection.signalAccepts r message)).filterMap
            (fun r => (if r.errorSlot.isSome then r.errorSlot else r.slot).map Slot.clone)) := by
  have hsig := addRegistrations_signals regs c (by rw [hnone]; intro e he; cases he) hwrap
  rw [hnone] at hsig
  simp only [List.map_nil, List.nil_append] at hsig
  unfold Connection.dispatchSignal
  rw [dispatchSignalLoop_eq, hsig]
  · rw [List.filter_map, List.filterMap_map]
    have hacc : ((fun r => Connection.signalAccepts r message) ∘ storedCopy)
        = (fun r => Connection.signalAccepts r message) := by
      funext r
      simp only [Function.comp, storedCopy_accepts]
    have hfun : ((fun r : MessageRegistration => r.slot) ∘ storedCopy)
        = (fun r => (if r.errorSlot.isSome then r.errorSlot else r.slot).map Slot.clone) := by
      funext r
      simp only [Function.comp, storedCopy_slot]
    rw [hacc, hfun]
  · intro e he _
    have hmem : e.2 ∈ ((addRegistrations c regs).m_Signals).map Prod.snd :=
      List.mem_map_of_mem _ he
    rw [hsig] at hmem
    obtain ⟨r, hr, hre⟩ := List.mem_map.mp hmem
    rw [← hre, storedCopy_slot]
    rcases hslot r (List.mem_of_mem_filter hr) with h | h
    · cases hs : r.slot with
      | none => exact absurd hs h
      | some s => cases r.errorSlot <;> simp
    · cases he2 : r.errorSlot with
      | none => exact absurd he2 h
      | some s => simp

/-- C20 at a signal registration for the interface `a.b` with the slot of the
handler 1 and the error slot of the handler 99, added to a new connection:
the signal `a.b.X` triggers the handler 99, and the handler 1 is not
triggered. With the two rules of the scenario, which have no error slot, the
signal `a.b.X` triggers the handlers 1 and 2 in this order, and the signal
`a.b.Y` the handler 1 alone. -/
theorem dispatchSignal_triggers_error_slot_witness :
    (signalRegistrationBoth "" "" "a.b" "" 1 99).slot = some { handler := 1 }
    ∧ Connection.signalAccepts (signalRegistrationBoth "" "" "a.b" "" 1 99)
        (signalMessage (some ":1.5") (some "/p") (some "a.b") (some "X")) = true
    ∧ (addRegistrations Connection.new [signalRegistrationBoth "" "" "a.b" "" 1 99]).dispatchSignal
        (signalMessage (some ":1.5") (some "/p") (some "a.b") (some "X"))
      = some [{ handler := 99 }]
    ∧ (addRegistrations Connection.new
        [signalRegistration "" "" "a.b" "" 1, signalRegistration "" "" "" "X" 2]).dispatchSignal
        (signalMessage (some ":1.5") (some "/p") (some "a.b") (some "X"))
      = some [{ handler := 1 }, { handler := 2 }]
    ∧ (addRegistrations Connection.new
        [signalRegistration "" "" "a.b" "" 1, signalRegistration "" "" "" "X" 2]).dispatchSignal
        (signalMessage (some ":1.5") (some "/p") (some "a.b") (some "Y"))
      = some [{ handler := 1 }] :=
  ⟨rfl, by decide,
   (dispatchSignal_triggers_error_slot Connection.new [signalRegistrationBoth "" "" "a.b" "" 1 99]
      (signalMessage (some ":1.5") (some "/p") (some "a.b") (some "X")) rfl (by decide)
      (by decide)).trans (by decide),
   (dispatchSignal_triggers_error_slot Connection.new
      [signalRegistration "" "" "a.b" "" 1, signalRegistration "" "" "" "X" 2]
      (signalMessage (some ":1.5") (some "/p") (some "a.b") (some "X")) rfl (by decide)
      (by decide)).trans (by decide),
   (dispatchSignal_triggers_error_slot Connection.new
      [signalRegistration "" "" "a.b" "" 1, signalRegistration "" "" "" "X" 2]
      (signalMessage (some ":1.5") (some "/p") (some "a.b") (some "Y")) rfl (by decide)
      (by decide)).trans (by decide)⟩

/-- When the serial counter wraps between two registrations, the order of
`m_Signals`, a map with the serial as key, is not the order of registration:
on a connection whose counter stands at `2^32 - 1` the first rule gets the
serial `2^32 - 1` and the second the serial 0, and the signal `a.b.X`
triggers the handler 2 of the second rule before the handler 1 of the
first. -/
theorem dispatchSignal_order_after_wrap :
    (sampleLastSerial.addRegistration (signalRegistration "" "" "a.b" "" 1)).2 = 2 ^ 32 - 1
    ∧ ((sampleLastSerial.addRegistration (signalRegistration "" "" "a.b" "" 1)).1.addRegistration
        (signalRegistration "" "" "" "X" 2)).2 = 0
    ∧ (addRegistrations sampleLastSerial
        [signalRegistration "" "" "a.b" "" 1, signalRegistration "" "" "" "X" 2]).dispatchSignal
        (signalMessage (some ":1.5") (some "/p") (some "a.b") (some "X"))
      = some [{ handler := 2 }, { handler := 1 }] := by
  refine ⟨by decide, by decide, by decide⟩

/-! ## Tables and heaps -/

theorem mapFind_mapErase_self {κ α : Type} [DecidableEq κ] (l : List (κ × α)) (k : κ) :
    mapFind (mapErase l k) k = none := by
  induction l with
  | nil => rfl
  | cons e rest ih =>
    obtain ⟨k1, v1⟩ := e
    unfold mapErase
    by_cases h : k1 = k
    · rw [if_pos h]; exact ih
    · rw [if_neg h]; unfold mapFind; rw [if_neg h]; exact ih

theorem mapFind_mapErase_ne {κ α : Type} [DecidableEq κ] (l : List (κ × α)) (k q : κ)
    (hq : q ≠ k) : mapFind (mapErase l k) q = mapFind l q := by
  induction l with
  | nil => rfl
  | cons e rest ih =>
    obtain ⟨k1, v1⟩ := e
    unfold mapErase
    by_cases h : k1 = k
    · rw [if_pos h, ih]
      have : ¬ k1 = q := fun h1 => hq (h1 ▸ h)
      conv_rhs => unfold mapFind
      rw [if_neg this]
    · rw [if_neg h]
      unfold mapFind
      by_cases h1 : k1 = q
      · rw [if_pos h1, if_pos h1]
      · rw [if_neg h1, if_neg h1]; exact ih

theorem mapFind_append {κ α : Type} [DecidableEq κ] (l1 l2 : List (κ × α)) (k : κ) :
    mapFind (l1 ++ l2) k
      = match mapFind l1 k with
        | some v => some v
        | none => mapFind l2 k := by
  induction l1 with
  | nil => rfl
  | cons e rest ih =>
    obtain ⟨k1, v1⟩ := e
    have e1 : ∀ l : List (κ × α),
        mapFind ((k1, v1) :: l) k = if k1 = k then some v1 else mapFind l k := fun _ => rfl
    rw [List.cons_append, e1, e1]
    by_cases h : k1 = k
    · rw [if_pos h, if_pos h]
    · rw [if_neg h, if_neg h]; exact ih

theorem mapFind_mapPut_self {κ α : Type} [DecidableEq κ] (l : List (κ × α)) (k : κ) (v : α) :
    mapFind (mapPut l k v) k = some v := by
  unfold mapPut
  rw [mapFind_append, mapFind_mapErase_self]
  simp [mapFind]

theorem mapFind_mapPut_ne {κ α : Type} [DecidableEq κ] (l : List (κ × α)) (k q : κ) (v : α)
    (hq : q ≠ k) : mapFind (mapPut l k v) q = mapFind l q := by
  unfold mapPut
  rw [mapFind_append, mapFind_mapErase_ne l k q hq]
  cases h : mapFind l q with
  | some w => rfl
  | none =>
    have : ¬ k = q := fun h1 => hq h1.symm
    simp [mapFind, this]

/-! ## Replies: the steps of the functions -/

theorem connection_calls_eta (c : adbus_Connection) : { c with calls := c.calls ++ [] } = c := by
  cases c
  simp

theorem releaseInert_inertUser (ret : Call → Int) : releaseInert (inertUser ret) :=
  ⟨fun _ _ _ => ⟨_, rfl⟩, fun _ _ _ _ _ => ⟨_, rfl⟩⟩

theorem releaseInert_removingUser (ret : Call → Int) (h : Nat) :
    releaseInert (removingUser ret h) :=
  ⟨fun _ _ _ => ⟨_, rfl⟩, fun _ _ _ _ _ => ⟨_, rfl⟩⟩

theorem releaseInert_registeringUser (reg : adbus_Reply) : releaseInert (registeringUser reg) :=
  ⟨fun _ _ _ => ⟨_, rfl⟩, fun _ _ _ _ _ => ⟨_, rfl⟩⟩

theorem releaseHook_inert (user : UserCode) (hrel : releaseInert user) (r : Nat) (second : Bool)
    (c : adbus_Connection) (reply : adbus_ConnReply) (h : mapFind c.replyHeap r = some reply) :
    releaseHook user r second c
      = some { c with calls := c.calls ++ releaseCall reply second } := by
  unfold releaseHook releaseCall
  rw [h]
  simp only []
  cases hf : (if second = true then reply.release.2 else reply.release.1) with
  | none => simp only [connection_calls_eta]
  | some f =>
    simp only []
    cases hp : reply.relproxy with
    | none =>
      obtain ⟨v, hv⟩ := hrel.1 f (if second = true then reply.ruser.2 else reply.ruser.1)
        { c with calls := c.calls ++ [Call.release f
            (if second = true then reply.ruser.2 else reply.ruser.1)] }
      simp only [callUser, hv, Option.map_some']
    | some p =>
      obtain ⟨v, hv⟩ := hrel.2 p reply.relpuser f
        (if second = true then reply.ruser.2 else reply.ruser.1)
        { c with calls := c.calls ++ [Call.relproxy p reply.relpuser f
            (if second = true then reply.ruser.2 else reply.ruser.1)] }
      simp only [callUser, hv, Option.map_some']

theorem adbusI_freeReply_steps (user : UserCode) (hrel : releaseInert user)
    (c c1 : adbus_Connection) (r : Nat) (reply : adbus_ConnReply)
    (h : mapFind c.replyHeap r = some reply) (hd : disconnectReply c reply = some c1)
    (hheap : c1.replyHeap = c.replyHeap) :
    adbusI_freeReply user c r
      = some { c1 with replies := c1.replies.erase r,
                       repliesIter := if c1.repliesIter = some r then none else c1.repliesIter,
                       replyHeap := mapErase c1.replyHeap r,
                       calls := c1.calls ++ releaseCall reply false ++ releaseCall reply true } := by
  unfold adbusI_freeReply
  rw [h]
  simp only [hd]
  have h1 : mapFind c1.replyHeap r = some reply := by rw [hheap]; exact h
  rw [releaseHook_inert user hrel r false c1 reply h1]
  simp only []
  rw [releaseHook_inert user hrel r true _ reply (by exact h1)]
  simp only [h1, dil_remove]

theorem adbusI_freeReply_detached (user : UserCode) (hrel : releaseInert user)
    (c : adbus_Connection) (r : Nat)
    (reply : adbus_ConnReply) (h : mapFind c.replyHeap r = some reply)
    (hremote : reply.remote = none) :
    adbusI_freeReply user c r
      = some { c with replies := c.replies.erase r,
                      repliesIter := if c.repliesIter = some r then none else c.repliesIter,
                      replyHeap := mapErase c.replyHeap r,
                      calls := c.calls ++ releaseCall reply false ++ releaseCall reply true } := by
  apply adbusI_freeReply_steps user hrel c c r reply h _ rfl
  unfold disconnectReply
  rw [hremote]

theorem deliverReply_inert (ret : Call → Int) (r : adbus_ConnReply) (d : adbus_CbData)
    (c : adbus_Connection) :
    ∃ v, deliverReply (inertUser ret) r d c
      = some ({ c with calls := c.calls ++ deliveryCalls r d }, v) := by
  unfold deliverReply deliveryCalls
  cases hp : r.proxy with
  | some p => exact ⟨_, rfl⟩
  | none =>
    simp only [adbus_dispatch]
    cases hcb : (replyCallback r d).1 with
    | none => exact ⟨0, by simp only [connection_calls_eta]⟩
    | some f => exact ⟨_, rfl⟩

theorem replyMissing_congr (c c1 : adbus_Connection) (name : List Nat) (serial : Nat)
    (h1 : c1.remotes = c.remotes) (h2 : c1.remoteHeap = c.remoteHeap)
    (h : replyMissing c name serial) : replyMissing c1 name serial := by
  unfold replyMissing at h ⊢
  rw [h1, h2]
  exact h

theorem findReply_of_missing (c : adbus_Connection) (name : List Nat) (serial : Nat)
    (h : replyMissing c name serial) : findReply c name serial = none := by
  unfold findReply
  rcases h with h | ⟨rh, remote, h1, h2, h3⟩
  · rw [h]
  · rw [h1]; simp only []; rw [h2]; exact h3

theorem adbusI_dispatchReply_miss (user : UserCode) (c : adbus_Connection) (d : adbus_CbData)
    (sender : List Nat) (serial : Nat) (hs : d.sender = some sender)
    (hr : d.replySerial = some serial) (h : replyMissing c sender serial) :
    adbusI_dispatchReply user c d = some (c, 0) := by
  unfold adbusI_dispatchReply
  by_cases h0 : (d.type ≠ ADBUS_MSG_RETURN ∧ d.type ≠ ADBUS_MSG_ERROR) ∨ d.replySerial = none
      ∨ d.sender = none
  · rw [if_pos h0]
  · rw [if_neg h0, hs, hr]
    simp only []
    rcases h with h | ⟨rh, remote, h1, h2, h3⟩
    · rw [h]
    · rw [h1]; simp only []; rw [h2]; simp only []; rw [h3]

theorem adbusI_dispatchReply_deliver (user : UserCode) (c : adbus_Connection) (d : adbus_CbData)
    (sender : List Nat) (serial h : Nat) (r : adbus_ConnReply) (rh : Nat) (remote : Remote)
    (htype : d.type = ADBUS_MSG_RETURN ∨ d.type = ADBUS_MSG_ERROR)
    (hs : d.sender = some sender) (hr : d.replySerial = some serial)
    (h1 : mapFind c.remotes sender = some rh) (h2 : mapFind c.remoteHeap rh = some remote)
    (h3 : mapFind remote.replies serial = some h) (h4 : mapFind c.replyHeap h = some r) :
    adbusI_dispatchReply user c d
      = match unlinkReply c sender rh remote serial h r with
        | none => none
        | some c1 =>
          match deliverReply user r d c1 with
          | none => none
          | some (c2, ret) => finishReply user h c2 ret := by
  unfold adbusI_dispatchReply
  have h0 : ¬ ((d.type ≠ ADBUS_MSG_RETURN ∧ d.type ≠ ADBUS_MSG_ERROR) ∨ d.replySerial = none
      ∨ d.sender = none) := by
    rw [hs, hr]
    rcases htype with ht | ht <;> simp [ht]
  rw [if_neg h0, hs, hr]
  simp only []
  rw [h1]; simp only []; rw [h2]; simp only []; rw [h3]; simp only []; rw [h4]

theorem unlinkReply_spec (c : adbus_Connection) (sender : List Nat) (rh : Nat) (remote : Remote)
    (serial h : Nat) (r : adbus_ConnReply) (h1 : mapFind c.remotes sender = some rh) :
    ∃ c1, unlinkReply c sender rh remote serial h r = some c1
      ∧ c1.repliesIter = some h
      ∧ c1.replyHeap = mapPut c.replyHeap h { r with remote := none }
      ∧ c1.replies = c.replies ∧ c1.calls = c.calls ∧ c1.nextAlloc = c.nextAlloc
      ∧ c1.services = c.services
      ∧ replyMissing c1 sender serial := by
  unfold unlinkReply
  simp only [dil_setiter]
  by_cases hl : (mapErase remote.replies serial).length = 0
  · rw [if_pos hl]
    unfold adbusI_freeRemote
    simp only [mapFind_mapPut_self, Bool.false_eq_true, if_false]
    have hnil : mapErase remote.replies serial = [] := List.length_eq_zero.mp hl
    simp only [hnil, clearRemote]
    refine ⟨_, rfl, rfl, rfl, rfl, rfl, rfl, rfl, ?_⟩
    left
    exact mapFind_mapErase_self _ _
  · rw [if_neg hl]
    refine ⟨_, rfl, rfl, rfl, rfl, rfl, rfl, rfl, ?_⟩
    right
    exact ⟨rh, _, h1, mapFind_mapPut_self _ _ _, mapFind_mapErase_self _ _⟩

theorem adbus_conn_addreply_pending (c : adbus_Connection) (reg : adbus_Reply)
    (hname : (replyRemoteName reg).length ≠ 0)
    (hmiss : replyMissing c (registeredName c reg) (reg.serial % 2 ^ 32)) :
    ∃ c1 h rh, adbus_conn_addreply c reg = some (c1, some h)
      ∧ replyPending c1 (registeredName c reg) (reg.serial % 2 ^ 32) h (newConnReply reg rh)
      ∧ c.nextAlloc ≤ h ∧ h < c1.nextAlloc
      ∧ c1.calls = c.calls ∧ c1.services = c.services ∧ c1.repliesIter = c.repliesIter
      ∧ (∀ q, q ≠ h → mapFind c1.replyHeap q = mapFind c.replyHeap q) := by
  unfold adbus_conn_addreply
  rw [if_neg hname]
  rcases hmiss with h | ⟨rh, remote, h1, h2, h3⟩
  · simp only [addRemote, h, mapFind_mapPut_self, dil_insert_after]
    have hnil : mapFind ([] : List (Nat × Nat)) (reg.serial % 2 ^ 32) = none := rfl
    simp only [hnil]
    refine ⟨_, _, c.nextAlloc, rfl,
      ⟨c.nextAlloc, Remote.mk true (registeredName c reg)
          (mapPut [] (reg.serial % 2 ^ 32) (c.nextAlloc + 1)), ?_, ?_, ?_, ?_, rfl, rfl⟩,
      ?_, ?_, rfl, rfl, rfl, ?_⟩
    · exact mapFind_mapPut_self _ _ _
    · exact mapFind_mapPut_self _ _ _
    · exact mapFind_mapPut_self _ _ _
    · exact mapFind_mapPut_self _ _ _
    · exact Nat.le_succ _
    · exact Nat.lt_succ_self _
    · intro q hq
      exact mapFind_mapPut_ne _ _ _ _ hq
  · simp only [addRemote, h1, h2, h3, dil_insert_after]
    refine ⟨_, _, rh, rfl,
      ⟨rh, Remote.mk remote.connection remote.name
          (mapPut remote.replies (reg.serial % 2 ^ 32) c.nextAlloc), h1, ?_, ?_, ?_, rfl, rfl⟩,
      ?_, ?_, rfl, rfl, rfl, ?_⟩
    · exact mapFind_mapPut_self _ _ _
    · exact mapFind_mapPut_self _ _ _
    · exact mapFind_mapPut_self _ _ _
    · exact Nat.le_refl _
    · exact Nat.lt_succ_self _
    · intro q hq
      exact mapFind_mapPut_ne _ _ _ _ hq

theorem adbusI_dispatchReply_inert (ret : Call → Int) (c : adbus_Connection) (d : adbus_CbData)
    (sender : List Nat) (serial h : Nat) (r : adbus_ConnReply)
    (htype : d.type = ADBUS_MSG_RETURN ∨ d.type = ADBUS_MSG_ERROR)
    (hs : d.sender = some sender) (hr : d.replySerial = some serial)
    (hp : replyPending c sender serial h r) :
    ∃ c2 v, adbusI_dispatchReply (inertUser ret) c d = some (c2, v)
      ∧ c2.calls = c.calls ++ deliveryCalls r d ++ releaseCall r false ++ releaseCall r true
      ∧ replyMissing c2 sender serial
      ∧ mapFind c2.replyHeap h = none := by
  obtain ⟨rh, remote, h1, h2, h3, h4, _, _⟩ := hp
  rw [adbusI_dispatchReply_deliver (inertUser ret) c d sender serial h r rh remote htype hs hr h1
    h2 h3 h4]
  obtain ⟨c1, hu, hi, hheap, _, hcalls, _, _, hmiss⟩ :=
    unlinkReply_spec c sender rh remote serial h r h1
  rw [hu]
  simp only []
  obtain ⟨v, hd⟩ := deliverReply_inert ret r d c1
  rw [hd]
  simp only [finishReply, dil_getiter, dil_setiter, hi, if_true]
  have hfind : mapFind c1.replyHeap h = some { r with remote := none } := by
    rw [hheap]; exact mapFind_mapPut_self _ _ _
  rw [adbusI_freeReply_detached (inertUser ret) (releaseInert_inertUser ret) _ h
    { r with remote := none } (by exact hfind) rfl]
  refine ⟨_, v, rfl, ?_, ?_, ?_⟩
  · simp only [hcalls, releaseCall, List.append_assoc]
  · exact replyMissing_congr c1 _ sender serial rfl rfl hmiss
  · exact mapFind_mapErase_self _ _

theorem deliveryCalls_length (r : adbus_ConnReply) (d : adbus_CbData) :
    (deliveryCalls r d).length ≤ 1 := by
  unfold deliveryCalls
  cases r.proxy with
  | some p => simp
  | none =>
    simp only []
    cases (replyCallback r d).1 with
    | none => simp
    | some f => simp

theorem replyCallback_return (r : adbus_ConnReply) (d : adbus_CbData) (f : Nat)
    (ht : d.type = ADBUS_MSG_RETURN) (hf : r.callback = some f) :
    replyCallback r d = (some f, r.cuser) := by
  unfold replyCallback
  simp [ht, hf]

/-! ## A reply is delivered once -/

/-- C13: after `adbus_conn_addreply` has registered a reply for a name and a
serial that were not pending, the first method return or error from the name
with the serial makes at most one call to a callback of the user, the
callback of the registration for a method return, and then the calls of the
release hooks; afterwards the registration is gone, and the same message
again returns 0 and leaves the connection, with its record of calls, as it
is. The functions of the user leave the connection alone. -/
theorem adbusI_dispatchReply_once (ret : Call → Int) (c : adbus_Connection) (reg : adbus_Reply)
    (d : adbus_CbData) (f : Nat)
    (hname : (replyRemoteName reg).length ≠ 0)
    (hcb : reg.callback = some f)
    (hmiss : replyMissing c (registeredName c reg) (reg.serial % 2 ^ 32))
    (htype : d.type = ADBUS_MSG_RETURN ∨ d.type = ADBUS_MSG_ERROR)
    (hs : d.sender = some (registeredName c reg))
    (hr : d.replySerial = some (reg.serial % 2 ^ 32)) :
    ∃ c1 h rh c2 v,
      adbus_conn_addreply c reg = some (c1, some h)
      ∧ adbusI_dispatchReply (inertUser ret) c1 d = some (c2, v)
      ∧ c2.calls = c1.calls ++ deliveryCalls (newConnReply reg rh) d
          ++ releaseCall (newConnReply reg rh) false ++ releaseCall (newConnReply reg rh) true
      ∧ (deliveryCalls (newConnReply reg rh) d).length ≤ 1
      ∧ (d.type = ADBUS_MSG_RETURN →
          deliveryCalls (newConnReply reg rh) d
            = match reg.proxy with
              | some p => [Call.proxy p reg.puser (some f) reg.cuser]
              | none => [Call.callback f reg.cuser])
      ∧ findReply c2 (registeredName c reg) (reg.serial % 2 ^ 32) = none
      ∧ mapFind c2.replyHeap h = none
      ∧ adbusI_dispatchReply (inertUser ret) c2 d = some (c2, 0) := by
  obtain ⟨c1, h, rh, hadd, hp, _, _, _, _, _, _⟩ := adbus_conn_addreply_pending c reg hname hmiss
  obtain ⟨c2, v, hdisp, hcalls, hmiss2, hgone⟩ :=
    adbusI_dispatchReply_inert ret c1 d _ _ h _ htype hs hr hp
  refine ⟨c1, h, rh, c2, v, hadd, hdisp, hcalls, deliveryCalls_length _ _, ?_,
    findReply_of_missing _ _ _ hmiss2, hgone,
    adbusI_dispatchReply_miss _ c2 d _ _ hs hr hmiss2⟩
  intro ht
  unfold deliveryCalls
  rw [replyCallback_return (newConnReply reg rh) d f ht hcb]
  rfl

/-- C13 at the scenario: the reply for the serial 100 from `:1.5` is registered
on a connection without replies, and the method return from `:1.5` with the
serial 100 is dispatched. -/
theorem adbusI_dispatchReply_once_witness :
    (replyRemoteName sampleReply).length ≠ 0
    ∧ registeredName (adbus_Connection.empty []) sampleReply = [58, 49, 46, 53]
    ∧ ∃ c1 h rh c2 v,
      adbus_conn_addreply (adbus_Connection.empty []) sampleReply = some (c1, some h)
      ∧ adbusI_dispatchReply (inertUser (fun _ => 0)) c1 (sampleReplyData [58, 49, 46, 53] 100)
          = some (c2, v)
      ∧ c2.calls = c1.calls
          ++ deliveryCalls (newConnReply sampleReply rh) (sampleReplyData [58, 49, 46, 53] 100)
          ++ releaseCall (newConnReply sampleReply rh) false
          ++ releaseCall (newConnReply sampleReply rh) true
      ∧ (deliveryCalls (newConnReply sampleReply rh)
          (sampleReplyData [58, 49, 46, 53] 100)).length ≤ 1
      ∧ ((sampleReplyData [58, 49, 46, 53] 100).type = ADBUS_MSG_RETURN →
          deliveryCalls (newConnReply sampleReply rh) (sampleReplyData [58, 49, 46, 53] 100)
            = match sampleReply.proxy with
              | some p => [Call.proxy p sampleReply.puser (some 1) sampleReply.cuser]
              | none => [Call.callback 1 sampleReply.cuser])
      ∧ findReply c2 (registeredName (adbus_Connection.empty []) sampleReply)
          (sampleReply.serial % 2 ^ 32) = none
      ∧ mapFind c2.replyHeap h = none
      ∧ adbusI_dispatchReply (inertUser (fun _ => 0)) c2 (sampleReplyData [58, 49, 46, 53] 100)
          = some (c2, 0) :=
  ⟨by decide, by decide,
    adbusI_dispatchReply_once (fun _ => 0) (adbus_Connection.empty []) sampleReply
      (sampleReplyData [58, 49, 46, 53] 100) 1 (by decide) rfl (Or.inl rfl) (Or.inl rfl)
      (by decide) (by decide)⟩

/-! ## Messages that are not delivered -/

/-- C14: `adbusI_dispatchReply` returns 0 and leaves the connection, with its
tables and its record of calls, as it is, when the message is neither a
method return nor an error, has no sender, has no reply serial, comes from
a sender without a remote, or has a reply serial that is not in the hash
table of the remote of its sender. -/
theorem adbusI_dispatchReply_not_delivered (user : UserCode) (c : adbus_Connection)
    (d : adbus_CbData)
    (h : (d.type ≠ ADBUS_MSG_RETURN ∧ d.type ≠ ADBUS_MSG_ERROR) ∨ d.sender = none
      ∨ d.replySerial = none
      ∨ ∃ sender serial, d.sender = some sender ∧ d.replySerial = some serial
          ∧ replyMissing c sender serial) :
    adbusI_dispatchReply user c d = some (c, 0) := by
  rcases h with h | h | h | ⟨sender, serial, hs, hr, hm⟩
  · unfold adbusI_dispatchReply
    rw [if_pos (Or.inl h)]
  · unfold adbusI_dispatchReply
    rw [if_pos (Or.inr (Or.inr h))]
  · unfold adbusI_dispatchReply
    rw [if_pos (Or.inr (Or.inl h))]
  · exact adbusI_dispatchReply_miss user c d sender serial hs hr hm

/-- C14 at the scenario: the reply for the serial 100 from `:1.5` is pending, and
a method return with the reply serial 100 comes from `:1.6`; nothing is
called, and the reply stays pending at its address. -/
theorem adbusI_dispatchReply_not_delivered_witness :
    findReply samplePending [58, 49, 46, 53] 100 = some 2
    ∧ replyMissing samplePending [58, 49, 46, 54] 100
    ∧ adbusI_dispatchReply (inertUser (fun _ => 0)) samplePending
          (sampleReplyData [58, 49, 46, 54] 100)
        = some (samplePending, 0) :=
  ⟨by decide, Or.inl (by decide),
    adbusI_dispatchReply_not_delivered (inertUser (fun _ => 0)) samplePending
      (sampleReplyData [58, 49, 46, 54] 100)
      (Or.inr (Or.inr (Or.inr ⟨[58, 49, 46, 54], 100, rfl, rfl, Or.inl (by decide)⟩)))⟩

/-! ## The release hooks of a reply -/

theorem disconnectReply_pending (c : adbus_Connection) (name : List Nat) (serial h : Nat)
    (r : adbus_ConnReply) (hp : replyPending c name serial h r) :
    ∃ c1, disconnectReply c r = some c1 ∧ c1.replyHeap = c.replyHeap ∧ c1.calls = c.calls
      ∧ c1.replies = c.replies ∧ c1.repliesIter = c.repliesIter := by
  obtain ⟨rh, remote, _, h2, _, _, h5, _⟩ := hp
  unfold disconnectReply
  rw [h5]
  simp only [h2]
  by_cases hl : (mapErase remote.replies r.serial).length = 0
  · rw [if_pos hl]
    have hnil : mapErase remote.replies r.serial = [] := List.length_eq_zero.mp hl
    unfold adbusI_freeRemote
    simp only [mapFind_mapPut_self, hnil, clearRemote]
    by_cases hc : remote.connection = true
    · simp only [hc, if_true]
      exact ⟨_, rfl, rfl, rfl, rfl, rfl⟩
    · simp only [hc, if_false]
      exact ⟨_, rfl, rfl, rfl, rfl, rfl⟩
  · rw [if_neg hl]
    exact ⟨_, rfl, rfl, rfl, rfl, rfl⟩

theorem adbus_conn_removereply_pending (ret : Call → Int) (c : adbus_Connection)
    (name : List Nat) (serial h : Nat) (r : adbus_ConnReply)
    (hp : replyPending c name serial h r) :
    ∃ c2, adbus_conn_removereply (inertUser ret) c h = some c2
      ∧ c2.calls = c.calls ++ releaseCall r false ++ releaseCall r true
      ∧ mapFind c2.replyHeap h = none := by
  obtain ⟨c1, hd, hheap, hcalls, _, _⟩ := disconnectReply_pending c name serial h r hp
  obtain ⟨rh, remote, _, _, _, h4, _, _⟩ := hp
  unfold adbus_conn_removereply
  rw [adbusI_freeReply_steps (inertUser ret) (releaseInert_inertUser ret) c c1 h r h4 hd hheap]
  refine ⟨_, rfl, ?_, mapFind_mapErase_self _ _⟩
  simp only [hcalls]

theorem adbusI_dispatchReply_removing (ret : Call → Int) (c : adbus_Connection)
    (d : adbus_CbData) (sender : List Nat) (serial h : Nat) (r : adbus_ConnReply)
    (htype : d.type = ADBUS_MSG_RETURN ∨ d.type = ADBUS_MSG_ERROR)
    (hs : d.sender = some sender) (hr : d.replySerial = some serial)
    (hp : replyPending c sender serial h r) :
    ∃ c2 v, adbusI_dispatchReply (removingUser ret h) c d = some (c2, v)
      ∧ c2.calls = c.calls ++ deliveryCalls r d ++ releaseCall r false ++ releaseCall r true
      ∧ mapFind c2.replyHeap h = none := by
  obtain ⟨rh, remote, h1, h2, h3, h4, _, _⟩ := hp
  rw [adbusI_dispatchReply_deliver (removingUser ret h) c d sender serial h r rh remote htype hs
    hr h1 h2 h3 h4]
  obtain ⟨c1, hu, hi, hheap, _, hcalls, _, _, _⟩ :=
    unlinkReply_spec c sender rh remote serial h r h1
  rw [hu]
  simp only []
  have hfind : mapFind c1.replyHeap h = some { r with remote := none } := by
    rw [hheap]; exact mapFind_mapPut_self _ _ _
  have hrem : ∀ (call : Call),
      (adbus_conn_removereply (inertUser ret) { c1 with calls := c1.calls ++ [call] } h)
        = some { c1 with replies := c1.replies.erase h, repliesIter := none,
                         replyHeap := mapErase c1.replyHeap h,
                         calls := c1.calls ++ [call] ++ releaseCall r false
                           ++ releaseCall r true } := by
    intro call
    unfold adbus_conn_removereply
    rw [adbusI_freeReply_detached (inertUser ret) (releaseInert_inertUser ret) _ h
      { r with remote := none } (by exact hfind) rfl]
    simp only [hi, if_true, releaseCall]
  unfold deliverReply deliveryCalls
  cases hproxy : r.proxy with
  | some p =>
    simp only [callUser, removingUser, hrem, Option.map_some', finishReply, dil_getiter,
      dil_setiter, reduceCtorEq, if_false]
    refine ⟨_, _, rfl, ?_, mapFind_mapErase_self _ _⟩
    simp only [hcalls, List.append_assoc]
  | none =>
    simp only [adbus_dispatch]
    cases hcb : (replyCallback r d).1 with
    | some f =>
      simp only [callUser, removingUser, hrem, Option.map_some', finishReply, dil_getiter,
        dil_setiter, reduceCtorEq, if_false]
      refine ⟨_, _, rfl, ?_, mapFind_mapErase_self _ _⟩
      simp only [hcalls, List.append_assoc]
    | none =>
      simp only [finishReply, dil_getiter, dil_setiter, hi, if_true]
      rw [adbusI_freeReply_detached (removingUser ret h) (releaseInert_removingUser ret h) _ h
        { r with remote := none } (by exact hfind) rfl]
      refine ⟨_, _, rfl, ?_, mapFind_mapErase_self _ _⟩
      simp only [hcalls, releaseCall, List.append_nil]

/-- C16: each release hook of a registration that is not null is called once,
and the reply is freed once: after the callback when a reply is delivered,
in `adbus_conn_removereply` when the reply is removed, and in the
`adbus_conn_removereply` of the callback when the callback of the reply
removes the reply during delivery; in this case `adbusI_dispatchReply` does
not free the reply again. The release hooks leave the connection alone. -/
theorem adbusI_freeReply_release_once (ret : Call → Int) (c : adbus_Connection)
    (reg : adbus_Reply) (d : adbus_CbData)
    (hname : (replyRemoteName reg).length ≠ 0)
    (hmiss : replyMissing c (registeredName c reg) (reg.serial % 2 ^ 32))
    (htype : d.type = ADBUS_MSG_RETURN ∨ d.type = ADBUS_MSG_ERROR)
    (hs : d.sender = some (registeredName c reg))
    (hr : d.replySerial = some (reg.serial % 2 ^ 32)) :
    ∃ c1 h rh,
      adbus_conn_addreply c reg = some (c1, some h)
      ∧ (∃ c2 v, adbusI_dispatchReply (inertUser ret) c1 d = some (c2, v)
          ∧ c2.calls = c1.calls ++ deliveryCalls (newConnReply reg rh) d
              ++ releaseCall (newConnReply reg rh) false ++ releaseCall (newConnReply reg rh) true
          ∧ mapFind c2.replyHeap h = none)
      ∧ (∃ c2, adbus_conn_removereply (inertUser ret) c1 h = some c2
          ∧ c2.calls = c1.calls
              ++ releaseCall (newConnReply reg rh) false ++ releaseCall (newConnReply reg rh) true
          ∧ mapFind c2.replyHeap h = none)
      ∧ (∃ c2 v, adbusI_dispatchReply (removingUser ret h) c1 d = some (c2, v)
          ∧ c2.calls = c1.calls ++ deliveryCalls (newConnReply reg rh) d
              ++ releaseCall (newConnReply reg rh) false ++ releaseCall (newConnReply reg rh) true
          ∧ mapFind c2.replyHeap h = none) := by
  obtain ⟨c1, h, rh, hadd, hp, _, _, _, _, _, _⟩ := adbus_conn_addreply_pending c reg hname hmiss
  refine ⟨c1, h, rh, hadd, ?_, ?_, ?_⟩
  · obtain ⟨c2, v, hdisp, hcalls, _, hgone⟩ :=
      adbusI_dispatchReply_inert ret c1 d _ _ h _ htype hs hr hp
    exact ⟨c2, v, hdisp, hcalls, hgone⟩
  · exact adbus_conn_removereply_pending ret c1 _ _ h _ hp
  · exact adbusI_dispatchReply_removing ret c1 d _ _ h _ htype hs hr hp

/-- C16 at the scenario: the reply for the serial 100 from `:1.5`, with the
release hooks 3 and 4, is registered on a connection without replies; when
the callback removes the reply at the address 2 during delivery, the calls
are the callback, the hook 3 and the hook 4, once each. -/
theorem adbusI_freeReply_release_once_witness :
    (adbusI_dispatchReply (removingUser (fun _ => 0) 2) samplePending
        (sampleReplyData [58, 49, 46, 53] 100)).map (fun x => x.1.calls)
      = some [Call.callback 1 11, Call.release 3 13, Call.release 4 14]
    ∧ ∃ c1 h rh,
      adbus_conn_addreply (adbus_Connection.empty []) sampleReply = some (c1, some h)
      ∧ (∃ c2 v, adbusI_dispatchReply (inertUser (fun _ => 0)) c1
            (sampleReplyData [58, 49, 46, 53] 100) = some (c2, v)
          ∧ c2.calls = c1.calls
              ++ deliveryCalls (newConnReply sampleReply rh) (sampleReplyData [58, 49, 46, 53] 100)
              ++ releaseCall (newConnReply sampleReply rh) false
              ++ releaseCall (newConnReply sampleReply rh) true
          ∧ mapFind c2.replyHeap h = none)
      ∧ (∃ c2, adbus_conn_removereply (inertUser (fun _ => 0)) c1 h = some c2
          ∧ c2.calls = c1.calls
              ++ releaseCall (newConnReply sampleReply rh) false
              ++ releaseCall (newConnReply sampleReply rh) true
          ∧ mapFind c2.replyHeap h = none)
      ∧ (∃ c2 v, adbusI_dispatchReply (removingUser (fun _ => 0) h) c1
            (sampleReplyData [58, 49, 46, 53] 100) = some (c2, v)
          ∧ c2.calls = c1.calls
              ++ deliveryCalls (newConnReply sampleReply rh) (sampleReplyData [58, 49, 46, 53] 100)
              ++ releaseCall (newConnReply sampleReply rh) false
              ++ releaseCall (newConnReply sampleReply rh) true
          ∧ mapFind c2.replyHeap h = none) :=
  ⟨by decide,
    adbusI_freeReply_release_once (fun _ => 0) (adbus_Connection.empty []) sampleReply
      (sampleReplyData [58, 49, 46, 53] 100) (by decide) (Or.inl rfl) (Or.inl rfl) (by decide)
      (by decide)⟩

/-! ## A callback that registers the reply again -/

theorem registeredName_congr (c c1 : adbus_Connection) (reg reg2 : adbus_Reply)
    (hserv : c1.services = c.services) (hremote : replyRemoteName reg2 = replyRemoteName reg) :
    registeredName c1 reg2 = registeredName c reg := by
  unfold registeredName adbusI_lookupService
  rw [hserv, hremote]

theorem adbusI_dispatchReply_registering (c : adbus_Connection) (d : adbus_CbData)
    (sender : List Nat) (serial h : Nat) (r : adbus_ConnReply) (f : Nat) (reg2 : adbus_Reply)
    (htype : d.type = ADBUS_MSG_RETURN) (hf : r.callback = some f)
    (hs : d.sender = some sender) (hr : d.replySerial = some serial)
    (hp : replyPending c sender serial h r) (hlt : h < c.nextAlloc)
    (hname : (replyRemoteName reg2).length ≠ 0)
    (hsender : registeredName c reg2 = sender) (hserial : reg2.serial % 2 ^ 32 = serial) :
    ∃ c2 h2 rh2, adbusI_dispatchReply (registeringUser reg2) c d = some (c2, 1)
      ∧ replyPending c2 sender serial h2 (newConnReply reg2 rh2)
      ∧ h2 ≠ h ∧ mapFind c2.replyHeap h = none := by
  obtain ⟨rh, remote, h1, h2, h3, h4, _, _⟩ := hp
  rw [adbusI_dispatchReply_deliver (registeringUser reg2) c d sender serial h r rh remote
    (Or.inl htype) hs hr h1 h2 h3 h4]
  obtain ⟨c1, hu, hi, hheap, _, _, hnext, hserv, hmiss⟩ :=
    unlinkReply_spec c sender rh remote serial h r h1
  rw [hu]
  simp only []
  have hfind : mapFind c1.replyHeap h = some { r with remote := none } := by
    rw [hheap]; exact mapFind_mapPut_self _ _ _
  have key : ∀ call : Call, ∃ c3 h2 rh2,
      adbus_conn_addreply { c1 with calls := c1.calls ++ [call] } reg2 = some (c3, some h2)
      ∧ replyPending c3 sender serial h2 (newConnReply reg2 rh2)
      ∧ h2 ≠ h ∧ c3.repliesIter = some h
      ∧ mapFind c3.replyHeap h = some { r with remote := none } := by
    intro call
    have hn : registeredName { c1 with calls := c1.calls ++ [call] } reg2 = sender := by
      exact (registeredName_congr c { c1 with calls := c1.calls ++ [call] } reg2 reg2 hserv
        rfl).trans hsender
    obtain ⟨c3, h2, rh2, hadd, hp2, hle, _, _, _, hit, hq⟩ :=
      adbus_conn_addreply_pending { c1 with calls := c1.calls ++ [call] } reg2 hname
        (by rw [hn, hserial]; exact replyMissing_congr c1 _ sender serial rfl rfl hmiss)
    rw [hn, hserial] at hp2
    have hne : h2 ≠ h := by
      have : c1.nextAlloc ≤ h2 := hle
      omega
    exact ⟨c3, h2, rh2, hadd, hp2, hne, hit.trans hi, (hq h (Ne.symm hne)).trans hfind⟩
  have fin : ∀ (c3 : adbus_Connection) (h2 rh2 : Nat),
      replyPending c3 sender serial h2 (newConnReply reg2 rh2) → h2 ≠ h
      → c3.repliesIter = some h → mapFind c3.replyHeap h = some { r with remote := none }
      → ∃ c2 h2 rh2, finishReply (registeringUser reg2) h c3 1 = some (c2, 1)
          ∧ replyPending c2 sender serial h2 (newConnReply reg2 rh2)
          ∧ h2 ≠ h ∧ mapFind c2.replyHeap h = none := by
    intro c3 h2 rh2 hp2 hne hit hh
    simp only [finishReply, dil_getiter, dil_setiter, hit, if_true]
    rw [adbusI_freeReply_detached (registeringUser reg2) (releaseInert_registeringUser reg2) _ h
      { r with remote := none } (by exact hh) rfl]
    obtain ⟨rh3, remote3, g1, g2, g3, g4, g5, g6⟩ := hp2
    refine ⟨_, h2, rh2, rfl, ⟨rh3, remote3, g1, g2, g3, ?_, g5, g6⟩, hne,
      mapFind_mapErase_self _ _⟩
    exact (mapFind_mapErase_ne _ h h2 hne).trans g4
  have hcb : replyCallback r d = (some f, r.cuser) := replyCallback_return r d f htype hf
  unfold deliverReply
  rw [hcb]
  cases hproxy : r.proxy with
  | some p =>
    obtain ⟨c3, h2, rh2, hadd, hp2, hne, hit, hh⟩ := key (Call.proxy p r.puser (some f) r.cuser)
    simp only [callUser, registeringUser, hadd, Option.map_some', reduceCtorEq, if_false]
    exact fin c3 h2 rh2 hp2 hne hit hh
  | none =>
    obtain ⟨c3, h2, rh2, hadd, hp2, hne, hit, hh⟩ := key (Call.callback f r.cuser)
    simp only [adbus_dispatch, callUser, registeringUser, hadd, Option.map_some', reduceCtorEq,
      if_false]
    exact fin c3 h2 rh2 hp2 hne hit hh

/-- C15: when the callback of a reply, during the delivery of a method
return, calls `adbus_conn_addreply` with the same remote and the same
serial, the call returns a reply (the callback returns 1), the new reply is
pending for the name and the serial when `adbusI_dispatchReply` has returned,
at another address than the reply that was delivered, and the reply that
was delivered is freed. -/
theorem adbusI_dispatchReply_register_again (c : adbus_Connection) (reg reg2 : adbus_Reply)
    (d : adbus_CbData) (f : Nat)
    (hname : (replyRemoteName reg).length ≠ 0)
    (hcb : reg.callback = some f)
    (hmiss : replyMissing c (registeredName c reg) (reg.serial % 2 ^ 32))
    (hremote : replyRemoteName reg2 = replyRemoteName reg)
    (hserial : reg2.serial % 2 ^ 32 = reg.serial % 2 ^ 32)
    (htype : d.type = ADBUS_MSG_RETURN)
    (hs : d.sender = some (registeredName c reg))
    (hr : d.replySerial = some (reg.serial % 2 ^ 32)) :
    ∃ c1 h c2 h2 rh2,
      adbus_conn_addreply c reg = some (c1, some h)
      ∧ adbusI_dispatchReply (registeringUser reg2) c1 d = some (c2, 1)
      ∧ replyPending c2 (registeredName c reg) (reg.serial % 2 ^ 32) h2 (newConnReply reg2 rh2)
      ∧ findReply c2 (registeredName c reg) (reg.serial % 2 ^ 32) = some h2
      ∧ h2 ≠ h ∧ mapFind c2.replyHeap h = none := by
  obtain ⟨c1, h, rh, hadd, hp, _, hlt, _, hserv, _, _⟩ :=
    adbus_conn_addreply_pending c reg hname hmiss
  obtain ⟨c2, h2, rh2, hdisp, hp2, hne, hgone⟩ :=
    adbusI_dispatchReply_registering c1 d _ _ h (newConnReply reg rh) f reg2 htype hcb hs hr hp
      hlt (by rw [hremote]; exact hname) (registeredName_congr c c1 reg reg2 hserv hremote)
      hserial
  refine ⟨c1, h, c2, h2, rh2, hadd, hdisp, hp2, ?_, hne, hgone⟩
  obtain ⟨rh3, remote3, g1, g2, g3, _, _, _⟩ := hp2
  unfold findReply
  rw [g1]; simp only []; rw [g2]; exact g3

/-- C15 at the scenario: the reply for the serial 100 from `:1.5` is registered
on a connection without replies, and its callback registers the same reply
again during the delivery; afterwards a reply is pending at the address 4. -/
theorem adbusI_dispatchReply_register_again_witness :
    (adbusI_dispatchReply (registeringUser sampleReply) samplePending
        (sampleReplyData [58, 49, 46, 53] 100)).map
        (fun x => (x.2, findReply x.1 [58, 49, 46, 53] 100, mapFind x.1.replyHeap 2))
      = some (1, some 4, none)
    ∧ ∃ c1 h c2 h2 rh2,
      adbus_conn_addreply (adbus_Connection.empty []) sampleReply = some (c1, some h)
      ∧ adbusI_dispatchReply (registeringUser sampleReply) c1
          (sampleReplyData [58, 49, 46, 53] 100) = some (c2, 1)
      ∧ replyPending c2 (registeredName (adbus_Connection.empty []) sampleReply)
          (sampleReply.serial % 2 ^ 32) h2 (newConnReply sampleReply rh2)
      ∧ findReply c2 (registeredName (adbus_Connection.empty []) sampleReply)
          (sampleReply.serial % 2 ^ 32) = some h2
      ∧ h2 ≠ h ∧ mapFind c2.replyHeap h = none :=
  ⟨by decide,
    adbusI_dispatchReply_register_again (adbus_Connection.empty []) sampleReply sampleReply
      (sampleReplyData [58, 49, 46, 53] 100) 1 (by decide) rfl (Or.inl rfl) rfl rfl rfl
      (by decide) (by decide)⟩

/-! ## The header fields depend on the header alone -/

theorem agreeBelow_symm {E : Nat} {d1 d2 : List Nat} (h : agreeBelow E d1 d2) :
    agreeBelow E d2 d1 :=
  ⟨h.1.symm, fun p hp => (h.2 p hp).symm⟩

theorem Get32_agree {E : Nat} {d1 d2 : List Nat} (h : agreeBelow E d1 d2) (native off : Nat)
    (hoff : off + 4 ≤ E) : Get32 native d1 off = Get32 native d2 off := by
  unfold Get32
  rw [h.2 off (by omega), h.2 (off + 1) (by omega), h.2 (off + 2) (by omega),
    h.2 (off + 3) (by omega)]

theorem bytesAt_agree {E : Nat} {d1 d2 : List Nat} (h : agreeBelow E d1 d2) (off len : Nat)
    (hoff : off + len ≤ E) : bytesAt d1 off len = bytesAt d2 off len := by
  unfold bytesAt
  apply List.ext_getElem?
  intro k
  simp only [List.getElem?_map, List.getElem?_take, List.getElem?_drop]
  by_cases hk : k < len
  · simp only [hk, if_true]
    have hb := h.2 (off + k) (by omega)
    unfold byteAt at hb
    by_cases hl : off + k < d1.length
    · have hl2 : off + k < d2.length := by rw [← h.1]; exact hl
      rw [List.getD_eq_getElem _ _ hl, List.getD_eq_getElem _ _ hl2] at hb
      rw [List.getElem?_eq_getElem hl, List.getElem?_eq_getElem hl2]
      simp only [Option.map_some', hb]
    · have hl2 : ¬ off + k < d2.length := by rw [← h.1]; exact hl
      rw [List.getElem?_eq_none (by omega), List.getElem?_eq_none (by omega)]
  · simp only [hk, if_false]

theorem cstringAt_agree {E : Nat} {d1 d2 : List Nat} (h : agreeBelow E d1 d2) (off len : Nat)
    (hoff : off + len ≤ E) : cstringAt d1 off len = cstringAt d2 off len := by
  unfold cstringAt
  rw [bytesAt_agree h off len hoff]

theorem adbusI_iter_lenstring_agree {E : Nat} {d1 d2 : List Nat} (hag : agreeBelow E d1 d2)
    {c native p n : Nat} {i j : adbus_Iterator}
    (h : adbusI_iter_lenstring c native d1 i = some (p, n, j)) (hE : j.data ≤ E) :
    adbusI_iter_lenstring c native d2 i = some (p, n, j) := by
  unfold adbusI_iter_lenstring at h ⊢
  split at h
  · cases h
  · rename_i hd rest hsig
    split at h
    · cases h
    · rename_i hc
      rw [if_neg hc]
      split at h
      · cases h
      · rename_i k hk
        try simp only [hk]
        split at h
        · cases h
        · rename_i hsz
          rw [if_neg hsz]
          simp only [] at h ⊢
          split at h
          · cases h
          · rename_i hlen
            split at h
            · cases h
            · rename_i hnul
              cases h
              simp only [] at hE
              have hg : Get32 native d2 k.data = Get32 native d1 k.data :=
                (Get32_agree hag native k.data (by omega)).symm
              rw [hg, if_neg hlen, ← hag.2 _ (by omega), if_neg hnul]

theorem adbusI_iter_lenstring_end {c native p n : Nat} {data : List Nat} {i j : adbus_Iterator}
    (h : adbusI_iter_lenstring c native data i = some (p, n, j)) : p + n + 1 = j.data := by
  unfold adbusI_iter_lenstring at h
  split at h
  · cases h
  · split at h
    · cases h
    · split at h
      · cases h
      · split at h
        · cases h
        · simp only [] at h
          split at h
          · cases h
          · split at h
            · cases h
            · cases h
              rfl

theorem adbus_iter_objectpath_agree {E : Nat} {d1 d2 : List Nat} (hag : agreeBelow E d1 d2)
    {native p n : Nat} {i j : adbus_Iterator}
    (h : adbus_iter_objectpath native d1 i = some (p, n, j)) (hE : j.data ≤ E) :
    adbus_iter_objectpath native d2 i = some (p, n, j) := by
  unfold adbus_iter_objectpath at h ⊢
  split at h
  · cases h
  · rename_i p1 n1 j1 hs
    split at h
    · rename_i hv
      cases h
      have he := adbusI_iter_lenstring_end hs
      rw [adbusI_iter_lenstring_agree hag hs hE]
      simp only []
      rw [← bytesAt_agree hag p n (by omega), if_pos hv]
    · cases h

theorem adbusI_iter_sigstring_end {p n : Nat} {data : List Nat} {i j : adbus_Iterator}
    (h : adbusI_iter_sigstring data i = some (p, n, j)) :
    p + n + 1 = j.data ∧ i.data + 1 = p := by
  unfold adbusI_iter_sigstring at h
  split at h
  · cases h
  · simp only [] at h
    split at h
    · cases h
    · split at h
      · cases h
      · cases h
        exact ⟨rfl, rfl⟩

theorem adbusI_iter_sigstring_agree {E : Nat} {d1 d2 : List Nat} (hag : agreeBelow E d1 d2)
    {p n : Nat} {i j : adbus_Iterator}
    (h : adbusI_iter_sigstring d1 i = some (p, n, j)) (hE : j.data ≤ E) :
    adbusI_iter_sigstring d2 i = some (p, n, j) := by
  unfold adbusI_iter_sigstring at h ⊢
  split at h
  · cases h
  · rename_i hsz
    rw [if_neg hsz]
    simp only [] at h ⊢
    split at h
    · cases h
    · rename_i hlen
      split at h
      · cases h
      · rename_i hnul
        cases h
        simp only [] at hE
        have hb : byteAt d2 i.data = byteAt d1 i.data := (hag.2 _ (by omega)).symm
        rw [hb, if_neg hlen, ← hag.2 _ (by omega), if_neg hnul]

theorem adbus_iter_signature_agree {E : Nat} {d1 d2 : List Nat} (hag : agreeBelow E d1 d2)
    {p n : Nat} {i j : adbus_Iterator}
    (h : adbus_iter_signature d1 i = some (p, n, j)) (hE : j.data ≤ E) :
    adbus_iter_signature d2 i = some (p, n, j) := by
  unfold adbus_iter_signature at h ⊢
  split at h
  · cases h
  · split at h
    · cases h
    · rename_i hc
      rw [if_neg hc]
      split at h
      · cases h
      · rename_i p1 n1 j1 hs
        cases h
        rw [adbusI_iter_sigstring_agree hag hs hE]

theorem adbus_iter_beginvariant_agree {E : Nat} {d1 d2 : List Nat} (hag : agreeBelow E d1 d2)
    {i j : adbus_Iterator} {v : adbus_IterVariant}
    (h : adbus_iter_beginvariant d1 i = some (v, j)) (hE : j.data ≤ E) :
    adbus_iter_beginvariant d2 i = some (v, j) := by
  unfold adbus_iter_beginvariant at h ⊢
  split at h
  · cases h
  · split at h
    · cases h
    · rename_i hc
      rw [if_neg hc]
      split at h
      · cases h
      · rename_i p1 n1 j1 hs
        cases h
        have he := adbusI_iter_sigstring_end hs
        rw [adbusI_iter_sigstring_agree hag hs hE]
        simp only []
        rw [cstringAt_agree hag p1 n1 (by simp only [] at hE; omega)]

theorem adbus_iter_beginarray_agree {E : Nat} {d1 d2 : List Nat} (hag : agreeBelow E d1 d2)
    {native : Nat} {i j : adbus_Iterator} {a : adbus_IterArray}
    (h : adbus_iter_beginarray native d1 i = some (a, j)) (hE : j.data ≤ E) :
    adbus_iter_beginarray native d2 i = some (a, j) := by
  have hadv := adbus_iter_beginarray_adv h
  unfold adbus_iter_beginarray at h ⊢
  split at h
  · cases h
  · split at h
    · cases h
    · rename_i hc
      rw [if_neg hc]
      split at h
      · cases h
      · rename_i k hk
        try simp only [hk]
        have hk4 : k.data + 4 ≤ E := by
          split at h
          · cases h
          · simp only [] at h
            split at h
            · cases h
            · split at h
              · cases h
              · split at h
                · cases h
                · rename_i k2 hk2
                  have hb := adbusI_iter_align_adv hk2
                  simp only [] at hb
                  split at h
                  · cases h
                  · cases h
                    omega
        have hg : Get32 native d2 k.data = Get32 native d1 k.data :=
          (Get32_agree hag native k.data hk4).symm
        rw [hg]
        exact h

theorem adbus_iter_value_agree {E : Nat} {d1 d2 : List Nat} (hag : agreeBelow E d1 d2)
    (native : Nat) : ∀ (fuel : Nat),
    (∀ i j, adbus_iter_value fuel native d1 i = Res.ok j → j.data ≤ E →
        adbus_iter_value fuel native d2 i = Res.ok j)
    ∧ (∀ i j, adbusI_iter_fields fuel native d1 i = Res.ok j → j.data ≤ E →
        adbusI_iter_fields fuel native d2 i = Res.ok j) := by
  intro fuel
  induction fuel with
  | zero =>
    constructor
    · intro i j h
      simp [adbus_iter_value] at h
    · intro i j h
      simp [adbusI_iter_fields] at h
  | succ n ih =>
    obtain ⟨ihv, ihf⟩ := ih
    constructor
    · intro i j h hE
      rw [adbus_iter_value] at h ⊢
      by_cases hc : i.sig.headD 0 = 121
      · rw [if_pos hc] at h ⊢
        exact h
      rw [if_neg hc] at h ⊢
      clear hc
      by_cases hc : i.sig.headD 0 = 98
      · rw [if_pos hc] at h ⊢
        exact h
      rw [if_neg hc] at h ⊢
      clear hc
      by_cases hc : i.sig.headD 0 = 110
      · rw [if_pos hc] at h ⊢
        exact h
      rw [if_neg hc] at h ⊢
      clear hc
      by_cases hc : i.sig.headD 0 = 113
      · rw [if_pos hc] at h ⊢
        exact h
      rw [if_neg hc] at h ⊢
      clear hc
      by_cases hc : i.sig.headD 0 = 105
      · rw [if_pos hc] at h ⊢
        exact h
      rw [if_neg hc] at h ⊢
      clear hc
      by_cases hc : i.sig.headD 0 = 117
      · rw [if_pos hc] at h ⊢
        exact h
      rw [if_neg hc] at h ⊢
      clear hc
      by_cases hc : i.sig.headD 0 = 104
      · rw [if_pos hc] at h ⊢
        exact h
      rw [if_neg hc] at h ⊢
      clear hc
      by_cases hc : i.sig.headD 0 = 120
      · rw [if_pos hc] at h ⊢
        exact h
      rw [if_neg hc] at h ⊢
      clear hc
      by_cases hc : i.sig.headD 0 = 116
      · rw [if_pos hc] at h ⊢
        exact h
      rw [if_neg hc] at h ⊢
      clear hc
      by_cases hc : i.sig.headD 0 = 100
      · rw [if_pos hc] at h ⊢
        exact h
      rw [if_neg hc] at h ⊢
      clear hc
      by_cases hc : i.sig.headD 0 = 115
      · rw [if_pos hc] at h ⊢
        rw [Res.ofOption_eq_ok, Option.map_eq_some'] at h
        obtain ⟨⟨p, k, l⟩, hk, rfl⟩ := h
        unfold adbus_iter_string at hk ⊢
        rw [adbusI_iter_lenstring_agree hag hk hE]
        rfl
      rw [if_neg hc] at h ⊢
      clear hc
      by_cases hc : i.sig.headD 0 = 111
      · rw [if_pos hc] at h ⊢
        rw [Res.ofOption_eq_ok, Option.map_eq_some'] at h
        obtain ⟨⟨p, k, l⟩, hk, rfl⟩ := h
        rw [adbus_iter_objectpath_agree hag hk hE]
        rfl
      rw [if_neg hc] at h ⊢
      clear hc
      by_cases hc : i.sig.headD 0 = 103
      · rw [if_pos hc] at h ⊢
        rw [Res.ofOption_eq_ok, Option.map_eq_some'] at h
        obtain ⟨⟨p, k, l⟩, hk, rfl⟩ := h
        rw [adbus_iter_signature_agree hag hk hE]
        rfl
      rw [if_neg hc] at h ⊢
      clear hc
      by_cases hc : i.sig.headD 0 = 97
      · rw [if_pos hc] at h ⊢
        split at h
        · cases h
        · rename_i a k hk
          have h0 := h
          rw [Res.ofOption_eq_ok] at h0
          have he := adbus_iter_endarray_adv h0
          simp only [] at he
          rw [adbus_iter_beginarray_agree hag hk (by omega)]
          exact h
      rw [if_neg hc] at h ⊢
      clear hc
      by_cases hc : i.sig.headD 0 = 40
      · rw [if_pos hc] at h ⊢
        split at h
        · cases h
        · rename_i k hk
          try simp only [hk]
          exact ihf _ _ h hE
      rw [if_neg hc] at h ⊢
      clear hc
      by_cases hc : i.sig.headD 0 = 118
      · rw [if_pos hc] at h ⊢
        split at h
        · cases h
        · rename_i v k hk
          split at h
          · rename_i l hl
            have hv := ((adbus_iter_value_adv native d1 n).1 _ _ hl).1
            have h0 := h
            rw [Res.ofOption_eq_ok] at h0
            have he := adbus_iter_endvariant_adv h0
            rw [adbus_iter_beginvariant_agree hag hk (by omega)]
            simp only []
            rw [ihv _ _ hl (by omega)]
            exact h
          · cases h
          · cases h
      rw [if_neg hc] at h ⊢
      clear hc
      cases h
    · intro i j h hE
      rw [adbusI_iter_fields] at h ⊢
      by_cases hc : i.sig.headD 0 = 41
      · rw [if_pos hc] at h ⊢
        exact h
      · rw [if_neg hc] at h ⊢
        split at h
        · rename_i k hk
          have hv := ((adbus_iter_value_adv native d1 n).2 _ _ h).1
          rw [ihv _ _ hk (by omega)]
          exact ihf _ _ h hE
        · cases h
        · cases h

theorem adbusI_iter_fixed_end {c w p : Nat} {i j : adbus_Iterator}
    (h : adbusI_iter_fixed c w i = some (p, j)) : p + w = j.data := by
  unfold adbusI_iter_fixed at h
  split at h
  · cases h
  · split at h
    · cases h
    · split at h
      · cases h
      · split at h
        · cases h
        · cases h
          rfl

theorem fieldValue_agree {E : Nat} {d1 d2 : List Nat} (hag : agreeBelow E d1 d2)
    (native n : Nat) (i j : adbus_Iterator)
    (h : adbus_iter_value (n + 1) native d1 i = Res.ok j) (hE : j.data ≤ E) :
    fieldValue native d1 i.sig i.data = fieldValue native d2 i.sig i.data := by
  unfold fieldValue
  by_cases h1 : i.sig = [115]
  · have hh : i.sig.headD 0 = 115 := by rw [h1]; rfl
    rw [adbus_iter_value_string n native d1 i hh, Res.ofOption_eq_ok, Option.map_eq_some'] at h
    obtain ⟨⟨p, k, l⟩, hk, rfl⟩ := h
    unfold adbus_iter_string at hk
    have hv := adbusI_iter_lenstring_value hk
    have he := adbusI_iter_lenstring_end hk
    simp only [] at hE
    rw [if_pos (Or.inl h1), if_pos (Or.inl h1),
      Get32_agree hag native (ADBUSI_ALIGN i.data 4) (by omega)]
  by_cases h2 : i.sig = [111]
  · have hh : i.sig.headD 0 = 111 := by rw [h2]; rfl
    rw [adbus_iter_value_objectpath n native d1 i hh, Res.ofOption_eq_ok,
      Option.map_eq_some'] at h
    obtain ⟨⟨p, k, l⟩, hk, rfl⟩ := h
    have hv := adbus_iter_objectpath_value hk
    have he : p + k + 1 = l.data := by
      unfold adbus_iter_objectpath at hk
      split at hk
      · cases hk
      · rename_i p1 n1 j1 hs
        split at hk
        · cases hk
          exact adbusI_iter_lenstring_end hs
        · cases hk
    simp only [] at hE
    rw [if_pos (Or.inr h2), if_pos (Or.inr h2),
      Get32_agree hag native (ADBUSI_ALIGN i.data 4) (by omega)]
  by_cases h3 : i.sig = [103]
  · have hh : i.sig.headD 0 = 103 := by rw [h3]; rfl
    rw [adbus_iter_value_signature n native d1 i hh, Res.ofOption_eq_ok,
      Option.map_eq_some'] at h
    obtain ⟨⟨p, k, l⟩, hk, rfl⟩ := h
    have ha := adbus_iter_signature_adv hk
    simp only [] at hE
    rw [if_neg (not_or.mpr ⟨h1, h2⟩), if_neg (not_or.mpr ⟨h1, h2⟩), if_pos h3, if_pos h3,
      hag.2 i.data (by omega)]
  · simp only [h1, h2, h3, or_self, if_false]

theorem readField_agree {E : Nat} {d1 d2 : List Nat} (hag : agreeBelow E d1 d2)
    {native : Nat} {i j : adbus_Iterator} {f : HeaderField}
    (h : readField native d1 i = Res.ok (f, j)) (hE : j.data ≤ E) :
    readField native d2 i = Res.ok (f, j) := by
  unfold readField at h ⊢
  split at h
  · cases h
  · rename_i i1 h1
    try simp only [h1]
    split at h
    · cases h
    · rename_i code i2 h2
      try simp only [h2]
      have e2 := adbusI_iter_fixed_end h2
      split at h
      · cases h
      · rename_i v i3 h3
        have a3 := adbus_iter_beginvariant_adv h3
        split at h
        · rename_i i4 h4
          have a4 := ((adbus_iter_value_adv native d1 _).1 _ _ h4).1
          split at h
          · cases h
          · rename_i i5 h5
            have a5 := adbus_iter_endvariant_adv h5
            split at h
            · cases h
            · rename_i i6 h6
              have a6 := adbus_iter_endstruct_adv h6
              cases h
              rw [adbus_iter_beginvariant_agree hag h3 (by omega)]
              simp only []
              unfold valueFuel at h4 ⊢
              rw [(adbus_iter_value_agree hag native _).1 _ _ h4 (by omega)]
              simp only [h5, h6]
              have hfv := fieldValue_agree hag native _ i3 i4 h4 (by omega)
              unfold fieldAt
              rw [hfv, hag.2 code (by omega)]
        · cases h
        · cases h

theorem readFields_mono (native : Nat) (data : List Nat) (a : adbus_IterArray) :
    ∀ (fuel : Nat) (i j : adbus_Iterator) (fs : List HeaderField),
      readFields fuel native data a i = Res.ok (fs, j) → i.data ≤ j.data := by
  intro fuel
  induction fuel with
  | zero => intro i j fs h; simp [readFields] at h
  | succ n ih =>
    intro i j fs h
    rw [readFields] at h
    unfold adbus_iter_inarray at h
    by_cases hin : i.data < a.data + a.size
    · rw [if_pos hin] at h
      simp only [] at h
      split at h
      · rename_i f i1 h1
        have a1 := readField_adv h1
        simp only [] at a1
        split at h
        · rename_i fs1 i2 h2
          have a2 := ih _ _ _ h2
          cases h
          omega
        · cases h
        · cases h
      · cases h
      · cases h
    · rw [if_neg hin] at h
      simp only [] at h
      cases h
      exact Nat.le_refl _

theorem readFields_agree {E : Nat} {d1 d2 : List Nat} (hag : agreeBelow E d1 d2)
    (native : Nat) (a : adbus_IterArray) :
    ∀ (fuel : Nat) (i j : adbus_Iterator) (fs : List HeaderField),
      readFields fuel native d1 a i = Res.ok (fs, j) → j.data ≤ E →
      readFields fuel native d2 a i = Res.ok (fs, j) := by
  intro fuel
  induction fuel with
  | zero => intro i j fs h; simp [readFields] at h
  | succ n ih =>
    intro i j fs h hE
    rw [readFields] at h ⊢
    unfold adbus_iter_inarray at h ⊢
    by_cases hin : i.data < a.data + a.size
    · rw [if_pos hin] at h ⊢
      simp only [] at h ⊢
      split at h
      · rename_i f i1 h1
        split at h
        · rename_i fs1 i2 h2
          have a2 := readFields_mono native d1 a _ _ _ _ h2
          cases h
          rw [readField_agree hag h1 (by omega)]
          simp only []
          rw [ih _ _ _ h2 hE]
        · cases h
        · cases h
      · cases h
      · cases h
    · rw [if_neg hin] at h ⊢
      exact h

theorem headerFields_end {native : Nat} {data : List Nat} {size : Nat}
    {a : adbus_IterArray} {i : adbus_Iterator}
    (h : adbus_iter_beginarray native data
      { data := sizeof_adbusI_Header, size := size - sizeof_adbusI_Header,
        sig := fieldsSignature } = some (a, i)) :
    i.data = 16 ∧ a.data = 16 ∧ a.size = Get32 native data 12 := by
  unfold adbus_iter_beginarray at h
  simp only [fieldsSignature, sizeof_adbusI_Header, adbusI_iter_align, ADBUSI_ALIGN,
    adbusI_alignment] at h
  norm_num at h
  obtain ⟨_, _, _, ha, hi⟩ := h
  rw [← ha, ← hi]
  exact ⟨rfl, rfl, rfl⟩

theorem adbus_iter_endarray_at {i j : adbus_Iterator} {a : adbus_IterArray}
    (h : adbus_iter_endarray i a = some j) : i.data = a.data + a.size := by
  unfold adbus_iter_endarray at h
  split at h
  · cases h
  · rename_i hne
    exact not_not.mp hne

theorem headerFields_transfer {E : Nat} {d1 d2 : List Nat} (hag : agreeBelow E d1 d2)
    (native size : Nat) (fs : List HeaderField) (hE : 16 + Get32 native d1 12 ≤ E)
    (h : headerFields native d1 size = some fs) : headerFields native d2 size = some fs := by
  unfold headerFields at h ⊢
  split at h
  · cases h
  · rename_i a i hba
    obtain ⟨hi, ha, hs⟩ := headerFields_end hba
    rw [adbus_iter_beginarray_agree hag hba (by omega)]
    simp only []
    split at h
    · rename_i fs1 j hrf
      split at h
      · rename_i hend
        obtain ⟨k, hk⟩ := Option.isSome_iff_exists.mp hend
        have hat := adbus_iter_endarray_at hk
        rw [readFields_agree hag native a _ _ _ _ hrf (by omega)]
        simp only [hend, if_true]
        exact h
      · cases h
    · cases h
    · cases h

theorem headerFields_agree {d1 d2 : List Nat} (native size : Nat)
    (hag : agreeBelow (16 + Get32 native d2 12) d1 d2) :
    headerFields native d1 size = headerFields native d2 size := by
  have hg : Get32 native d1 12 = Get32 native d2 12 := Get32_agree hag native 12 (by omega)
  cases h1 : headerFields native d1 size with
  | some fs => exact (headerFields_transfer hag native size fs (by omega) h1).symm
  | none =>
    cases h2 : headerFields native d2 size with
    | none => rfl
    | some fs =>
      have := headerFields_transfer (agreeBelow_symm hag) native size fs (by omega) h2
      rw [h1] at this
      cases this

theorem headerMessage_agree {E : Nat} {d1 d2 : List Nat} (native : Nat)
    (hag : agreeBelow E d1 d2) (hE : 16 ≤ E) :
    headerMessage native d1 = headerMessage native d2 := by
  unfold headerMessage offsetof_headerFieldLength offsetof_length offsetof_serial
  rw [Get32_agree hag native 12 (by omega), Get32_agree hag native 4 (by omega),
    Get32_agree hag native 8 (by omega), hag.2 1 (by omega), hag.2 2 (by omega)]

/-! ## The byte order of a message -/

/-- C12, as stated, fails for a message whose type is above `Signal`: the
sample message of type 5 in big-endian order and in little-endian order is
the same message, `adbus_parse` returns 0 for both, and the two buffers are
left as they were, the first not in native order. -/
theorem adbus_parse_unknown_type_not_flipped :
    (adbus_flip_data 108 sampleUnknownTypeBig 0 32 headerSignature).map (fun d => d.set 0 108)
      = some sampleUnknownType
    ∧ adbus_parse (adbus_flip_data 108) 108 adbus_Message.zero sampleUnknownTypeBig 32
      = Res.ok (sampleUnknownTypeBig, adbus_Message.zero)
    ∧ adbus_parse (adbus_flip_data 108) 108 adbus_Message.zero sampleUnknownType 32
      = Res.ok (sampleUnknownType, adbus_Message.zero)
    ∧ sampleUnknownTypeBig ≠ sampleUnknownType
    ∧ byteAt sampleUnknownTypeBig 0 ≠ 108 := by
  refine ⟨by decide, by decide, by decide, by decide, by decide⟩

/-- C12, amended: for a message whose type is not above `Signal`, `adbus_parse`
gives the same result, the same message and the same buffer for the encoding
`dF` in the other byte order and for the encoding `dN` in native order,
when `adbus_flip_data` turns the header of `dF` into the header of `dN` and,
along the signature of the message, the body of `dF` into the body of `dN`. -/
theorem adbus_parse_endian
    (flip : List Nat → Nat → Nat → List Nat → Option (List Nat))
    (native : Nat) (m : adbus_Message) (dF dN dH : List Nat) (size : Nat)
    (h4 : byteAt dN 1 ≤ 4)
    (htype : byteAt dF 1 = byteAt dN 1)
    (hN : byteAt dN 0 = native) (hN0 : dN.set 0 native = dN)
    (hF : byteAt dF 0 ≠ native)
    (hH : flip dF 0 size headerSignature = some dH)
    (hagree : agreeBelow (16 + Get32 native dN 12) (dH.set 0 native) dN)
    (hbody : ∀ m1, adbus_parse flip native m dN size = Res.ok (dN, m1) →
      match m1.signature with
      | none => dH.set 0 native = dN
      | some s =>
        flip (dH.set 0 native) (m1.size - m1.argsize) m1.argsize
          (cstringAt (dH.set 0 native) s 255) = some dN) :
    adbus_parse flip native m dF size = adbus_parse flip native m dN size := by
  by_cases h0 : byteAt dN 1 = 0
  · unfold adbus_parse ADBUS_MSG_INVALID
    rw [if_pos h0, if_pos (htype.trans h0)]
  · have hspecN := adbus_parse_spec flip native m dN size h0 h4
    have hnF : nativeHeader flip native dF size = some (dH.set 0 native) := by
      unfold nativeHeader
      rw [if_neg hF, hH]
      rfl
    have hnN : nativeHeader flip native dN size = some dN := by
      unfold nativeHeader
      rw [if_pos hN]
      simp only [Option.map_some', hN0]
    rw [hspecN,
      adbus_parse_spec flip native m dF size (by rw [htype]; exact h0) (by rw [htype]; exact h4)]
    unfold parseOutcome at hspecN ⊢
    rw [hnN] at hspecN
    rw [hnF, hnN]
    simp only [] at hspecN ⊢
    rw [headerFields_agree native size hagree,
      headerMessage_agree native hagree (by omega)]
    cases hfs : headerFields native dN size with
    | none => rfl
    | some fs =>
      simp only [hfs] at hspecN ⊢
      cases hst : storeFields (headerMessage native dN) fs with
      | none => rfl
      | some m1 =>
        simp only [hst] at hspecN ⊢
        by_cases hmiss : missingRequiredFields m1 = true
        · rw [if_pos hmiss, if_pos hmiss]
        · rw [if_neg hmiss] at hspecN ⊢
          rw [if_neg hmiss]
          have hfN : flipBody flip native dN dN m1 = Res.ok (dN, m1) := by
            unfold flipBody
            rw [if_pos hN]
          rw [hfN] at hspecN ⊢
          have hb := hbody m1 hspecN
          unfold flipBody
          rw [if_neg hF]
          cases hsig : m1.signature with
          | none =>
            rw [hsig] at hb
            simp only [] at hb ⊢
            rw [hb]
          | some s =>
            rw [hsig] at hb
            simp only [] at hb ⊢
            rw [hb]

/-- C12 amended, at the sample method return with the signature `uuy`: the
message in big-endian order and the message in little-endian order give the
same result on a little-endian machine, with `adbus_flip_data` as modelled
from the spec. -/
theorem adbus_parse_endian_witness :
    byteAt sampleReturn 1 ≤ 4
    ∧ byteAt sampleReturnBig 0 ≠ 108
    ∧ adbus_flip_data 108 sampleReturnBig 0 49 headerSignature = some sampleReturnHeaderFlipped
    ∧ adbus_flip_data 108 (sampleReturnHeaderFlipped.set 0 108) 40 9 [117, 117, 121]
        = some sampleReturn
    ∧ adbus_parse (adbus_flip_data 108) 108 adbus_Message.zero sampleReturnBig 49
        = adbus_parse (adbus_flip_data 108) 108 adbus_Message.zero sampleReturn 49 :=
  ⟨by decide, by decide, by decide, by decide,
    adbus_parse_endian (adbus_flip_data 108) 108 adbus_Message.zero sampleReturnBig sampleReturn
      sampleReturnHeaderFlipped 49 (by decide) (by decide) (by decide) (by decide) (by decide)
      (by decide) ⟨by decide, by decide⟩
      (fun m1 h => by
        have e : (match adbus_parse (adbus_flip_data 108) 108 adbus_Message.zero sampleReturn 49
            with
            | Res.ok (_, m2) => (m2.signature, m2.size, m2.argsize)
            | _ => (none, 0, 0)) = (some 29, 49, 9) := by decide
        rw [h] at e
        simp only [Prod.mk.injEq] at e
        obtain ⟨e1, e2, e3⟩ := e
        rw [e1, e2, e3]
        decide)⟩

/-! ## The length of the signature -/

theorem storeFields_signatureSize : ∀ (fs : List HeaderField) (m m1 : adbus_Message),
    storeFields m fs = some m1 → m1.signatureSize = m.signatureSize := by
  intro fs
  induction fs with
  | nil =>
    intro m m1 h
    simp only [storeFields, Option.some.injEq] at h
    rw [h]
  | cons f rest ih =>
    intro m m1 h
    unfold storeFields storeAccepted at h
    by_cases ha : fieldAccepted f = true
    · rw [if_pos ha] at h
      simp only [] at h
      rw [ih _ _ h]
      unfold storeField
      by_cases h1 : f.code = 1
      · rw [if_pos h1]
      rw [if_neg h1]
      by_cases h2 : f.code = 2
      · rw [if_pos h2]
      rw [if_neg h2]
      by_cases h3 : f.code = 3
      · rw [if_pos h3]
      rw [if_neg h3]
      by_cases h4 : f.code = 4
      · rw [if_pos h4]
      rw [if_neg h4]
      by_cases h5 : f.code = 5
      · rw [if_pos h5]
      rw [if_neg h5]
      by_cases h6 : f.code = 6
      · rw [if_pos h6]
      rw [if_neg h6]
      by_cases h7 : f.code = 7
      · rw [if_pos h7]
      rw [if_neg h7]
      by_cases h8 : f.code = 8
      · rw [if_pos h8]
      rw [if_neg h8]
    · rw [if_neg ha] at h
      cases h

/-- C25 fails: after `adbus_parse` has returned 0 on a message of known type,
`signatureSize` is 0, whatever the signature of the message is. -/
theorem adbus_parse_signatureSize_zero
    (flip : List Nat → Nat → Nat → List Nat → Option (List Nat))
    (native : Nat) (m : adbus_Message) (data : List Nat) (size : Nat)
    (h0 : byteAt data 1 ≠ 0) (h4 : byteAt data 1 ≤ 4) (d1 : List Nat) (m1 : adbus_Message)
    (h : adbus_parse flip native m data size = Res.ok (d1, m1)) :
    m1.signatureSize = 0 := by
  obtain ⟨d, fs, _, _, hst, _, _⟩ := adbus_parse_ok flip native m data size h0 h4 d1 m1 h
  rw [storeFields_signatureSize fs _ _ hst]
  rfl

/-- C25 at the sample method return, whose signature `uuy` has the length 3:
the signature is stored at the offset 29, the byte before it holds the
length 3, and `signatureSize` is 0. -/
theorem adbus_parse_signatureSize_zero_witness :
    byteAt sampleReturn 1 ≠ 0 ∧ byteAt sampleReturn 1 ≤ 4
    ∧ ∃ m1, adbus_parse flipNone 108 adbus_Message.zero sampleReturn 49
          = Res.ok (sampleReturn, m1)
        ∧ m1.signature = some 29
        ∧ cstringAt sampleReturn 29 255 = [117, 117, 121]
        ∧ byteAt sampleReturn 28 = 3
        ∧ m1.signatureSize = 0 :=
  ⟨by decide, by decide, _, rfl, rfl, by decide, by decide,
    adbus_parse_signatureSize_zero flipNone 108 adbus_Message.zero sampleReturn 49 (by decide)
      (by decide) sampleReturn _ rfl⟩

/-! ## The fixed header after the parse -/

theorem byteAt_set_zero_self (d : List Nat) (v : Nat) (hd : d ≠ []) (hv : v < 256) :
    byteAt (d.set 0 v) 0 = v := by
  cases d with
  | nil => exact absurd rfl hd
  | cons a t =>
    unfold byteAt
    simp only [List.set_cons_zero, List.getD_cons_zero]
    exact Nat.mod_eq_of_lt hv

theorem ne_nil_of_byteAt_ne_zero (d : List Nat) (k : Nat) (h : byteAt d k ≠ 0) : d ≠ [] := by
  intro hd
  apply h
  rw [hd]
  unfold byteAt
  simp

theorem headerMessage_fixed (native : Nat) (d : List Nat) :
    (headerMessage native d).type = byteAt d 1
    ∧ (headerMessage native d).flags = byteAt d 2
    ∧ (headerMessage native d).serial = Get32 native d 8
    ∧ (headerMessage native d).argsize = Get32 native d 4 :=
  ⟨rfl, rfl, rfl, rfl⟩

/-- C26: after `adbus_parse` has returned 0 on a message of known type, byte 0
of the buffer is the native marker, the type byte is as it was, and the
type, the flags, the serial and the size of the arguments of the message are
those of the fixed header, read in the byte order of the wire. For a
message in the other byte order this holds when `adbus_flip_data` turns the
two words of the fixed header and leaves its bytes alone, and leaves the
first two bytes alone when it turns the body. -/
theorem adbus_parse_fixed_header
    (flip : List Nat → Nat → Nat → List Nat → Option (List Nat))
    (native : Nat) (m : adbus_Message) (data : List Nat) (size : Nat)
    (d1 : List Nat) (m1 : adbus_Message)
    (hnat : native < 256)
    (h0 : byteAt data 1 ≠ 0) (h4 : byteAt data 1 ≤ 4)
    (hhead : ∀ dH, flip data 0 size headerSignature = some dH →
      dH ≠ [] ∧ byteAt dH 1 = byteAt data 1 ∧ byteAt dH 2 = byteAt data 2
      ∧ Get32 native dH 4 = Get32 (byteAt data 0) data 4
      ∧ Get32 native dH 8 = Get32 (byteAt data 0) data 8)
    (hbody : ∀ dH s, flip data 0 size headerSignature = some dH → m1.signature = some s →
      flip (dH.set 0 native) (m1.size - m1.argsize) m1.argsize
          (cstringAt (dH.set 0 native) s 255) = some d1 →
      byteAt d1 0 = byteAt (dH.set 0 native) 0 ∧ byteAt d1 1 = byteAt (dH.set 0 native) 1)
    (h : adbus_parse flip native m data size = Res.ok (d1, m1)) :
    byteAt d1 0 = native ∧ byteAt d1 1 = byteAt data 1
    ∧ m1.type = byteAt data 1 ∧ m1.flags = byteAt data 2
    ∧ m1.serial = Get32 (byteAt data 0) data 8
    ∧ m1.argsize = Get32 (byteAt data 0) data 4 := by
  obtain ⟨d, fs, hd, _, hst, _, hfb⟩ := adbus_parse_ok flip native m data size h0 h4 d1 m1 h
  obtain ⟨e1, e2, _, _, e5, e6, _⟩ := storeFields_fixed fs _ _ hst
  obtain ⟨g1, g2, g3, g4⟩ := headerMessage_fixed native d
  rw [e1, e2, e5, e6, g1, g2, g3, g4]
  unfold nativeHeader at hd
  by_cases hN : byteAt data 0 = native
  · rw [if_pos hN] at hd
    simp only [Option.map_some', Option.some.injEq] at hd
    unfold flipBody at hfb
    rw [if_pos hN] at hfb
    cases hfb
    rw [← hd, hN]
    have hne := ne_nil_of_byteAt_ne_zero data 1 h0
    exact ⟨byteAt_set_zero_self data native hne hnat, byteAt_set_zero data native 1 (by decide),
      byteAt_set_zero data native 1 (by decide), byteAt_set_zero data native 2 (by decide),
      Get32_set_zero native data native 8 (by decide),
      Get32_set_zero native data native 4 (by decide)⟩
  · rw [if_neg hN] at hd
    cases hH : flip data 0 size headerSignature with
    | none => rw [hH] at hd; cases hd
    | some dH =>
      rw [hH] at hd
      simp only [Option.map_some', Option.some.injEq] at hd
      obtain ⟨k0, k1, k2, k3, k4⟩ := hhead dH hH
      have hd0 : byteAt d 0 = native := by
        rw [← hd]; exact byteAt_set_zero_self dH native k0 hnat
      have hd1 : byteAt d 1 = byteAt data 1 := by
        rw [← hd, byteAt_set_zero dH native 1 (by decide)]; exact k1
      have hd2 : byteAt d 2 = byteAt data 2 := by
        rw [← hd, byteAt_set_zero dH native 2 (by decide)]; exact k2
      have hd4 : Get32 native d 4 = Get32 (byteAt data 0) data 4 := by
        rw [← hd, Get32_set_zero native dH native 4 (by decide)]; exact k3
      have hd8 : Get32 native d 8 = Get32 (byteAt data 0) data 8 := by
        rw [← hd, Get32_set_zero native dH native 8 (by decide)]; exact k4
      refine ⟨?_, ?_, hd1, hd2, hd8, hd4⟩
      · unfold flipBody at hfb
        rw [if_neg hN] at hfb
        cases hs : m1.signature with
        | none =>
          rw [hs] at hfb
          simp only [Res.ok.injEq, Prod.mk.injEq, and_true] at hfb
          rw [← hfb]; exact hd0
        | some s =>
          rw [hs] at hfb
          simp only [] at hfb
          cases hf : flip d (m1.size - m1.argsize) m1.argsize (cstringAt d s 255) with
          | none => rw [hf] at hfb; cases hfb
          | some d2 =>
            rw [hf] at hfb
            simp only [Res.ok.injEq, Prod.mk.injEq, and_true] at hfb
            rw [hfb] at hf
            rw [← hd] at hf
            rw [(hbody dH s hH hs hf).1, hd]; exact hd0
      · unfold flipBody at hfb
        rw [if_neg hN] at hfb
        cases hs : m1.signature with
        | none =>
          rw [hs] at hfb
          simp only [Res.ok.injEq, Prod.mk.injEq, and_true] at hfb
          rw [← hfb]; exact hd1
        | some s =>
          rw [hs] at hfb
          simp only [] at hfb
          cases hf : flip d (m1.size - m1.argsize) m1.argsize (cstringAt d s 255) with
          | none => rw [hf] at hfb; cases hfb
          | some d2 =>
            rw [hf] at hfb
            simp only [Res.ok.injEq, Prod.mk.injEq, and_true] at hfb
            rw [hfb] at hf
            rw [← hd] at hf
            rw [(hbody dH s hH hs hf).2, hd]; exact hd1

/-- C26 at the sample method return in big-endian order on a little-endian
machine, with `adbus_flip_data` as modelled from the spec: the buffer begins
with `l`, the type is 2, the flags are 0, the serial is 1 and the body has 9
bytes. -/
theorem adbus_parse_fixed_header_witness :
    byteAt sampleReturnBig 0 = 66 ∧ Get32 66 sampleReturnBig 8 = 1
    ∧ Get32 66 sampleReturnBig 4 = 9
    ∧ ∃ m1, adbus_parse (adbus_flip_data 108) 108 adbus_Message.zero sampleReturnBig 49
          = Res.ok (sampleReturn, m1)
        ∧ byteAt sampleReturn 0 = 108 ∧ byteAt sampleReturn 1 = byteAt sampleReturnBig 1
        ∧ m1.type = byteAt sampleReturnBig 1 ∧ m1.flags = byteAt sampleReturnBig 2
        ∧ m1.serial = Get32 (byteAt sampleReturnBig 0) sampleReturnBig 8
        ∧ m1.argsize = Get32 (byteAt sampleReturnBig 0) sampleReturnBig 4 :=
  ⟨by decide, by decide, by decide, _, rfl,
    adbus_parse_fixed_header (adbus_flip_data 108) 108 adbus_Message.zero sampleReturnBig 49
      sampleReturn _ (by decide) (by decide) (by decide)
      (fun dH h => by
        have e : adbus_flip_data 108 sampleReturnBig 0 49 headerSignature
            = some sampleReturnHeaderFlipped := by decide
        rw [e] at h
        cases h
        decide)
      (fun dH s h1 _ _ => by
        have e : adbus_flip_data 108 sampleReturnBig 0 49 headerSignature
            = some sampleReturnHeaderFlipped := by decide
        rw [e] at h1
        cases h1
        decide)
      rfl⟩

/-! ## The clone of a message -/

theorem ptrAddr_ptrOf (a : Nat) : ptrAddr (ptrOf a) = a % SIZE_MOD := by
  unfold ptrOf
  by_cases h : a % SIZE_MOD = 0
  · rw [if_pos h, h]; rfl
  · rw [if_neg h]; rfl

/-- C24 fails: `adbus_clonedata` copies the bytes, but it moves the pointers by
the difference from the new block to the old one. For a message at the
address `A` that is cloned to another address `B`, a signature that is
absent is not absent in the clone, and a path that is present does not lie
at the same offset from the data in the clone, unless `2 * A` and `2 * B`
are the same 64-bit word. -/
theorem adbus_clonedata_offsets (from_ : adbus_Message) (blob : List Nat) (A B P : Nat)
    (junk : List adbus_Argument)
    (hA : from_.data = some A) (hP : from_.path = some P) (hS : from_.signature = none)
    (hA64 : A < 2 ^ 64) (hB64 : B < 2 ^ 64) (hAP : A ≤ P)
    (hB : 0 < B) (hAB : (2 * A) % 2 ^ 64 ≠ (2 * B) % 2 ^ 64) :
    (adbus_clonedata from_ blob B junk).2 = blob.take from_.size
    ∧ (adbus_clonedata from_ blob B junk).1.data = some B
    ∧ (adbus_clonedata from_ blob B junk).1.signature ≠ none
    ∧ fieldOffset (adbus_clonedata from_ blob B junk).1
        (adbus_clonedata from_ blob B junk).1.path ≠ fieldOffset from_ from_.path := by
  have hdata : ∀ m : adbus_Message × List Nat, m = adbus_clonedata from_ blob B junk →
      m.1.data = ptrOf B ∧ m.1.signature = ptrAdd from_.signature (ptrDiff from_.data (ptrOf B)) 1
      ∧ m.1.path = ptrAdd from_.path (ptrDiff from_.data (ptrOf B)) 1 := by
    intro m hm
    rw [hm]
    unfold adbus_clonedata
    cases from_.arguments <;> exact ⟨rfl, rfl, rfl⟩
  obtain ⟨e1, e2, e3⟩ := hdata _ rfl
  have hB' : ptrOf B = some B := by
    unfold ptrOf SIZE_MOD
    have : B % 2 ^ 64 = B := Nat.mod_eq_of_lt hB64
    rw [this, if_neg (by omega)]
  have hoff : ptrDiff from_.data (ptrOf B) = (A + 2 ^ 64 - B) % 2 ^ 64 := by
    rw [hB', hA]
    unfold ptrDiff ptrAddr SIZE_MOD
    simp only []
    rw [Nat.mod_eq_of_lt hB64]
  refine ⟨rfl, e1.trans hB', ?_, ?_⟩
  · rw [e2, hS, hoff]
    unfold ptrAdd ptrOf ptrAddr SIZE_MOD
    simp only [Nat.zero_add, Nat.mul_one, Nat.mod_mod]
    rw [if_neg (by omega)]
    exact Option.some_ne_none _
  · rw [hA, hB'] at hoff
    unfold fieldOffset
    rw [e3, e1, hB', hP, hA, hoff]
    unfold ptrDiff ptrAdd
    rw [ptrAddr_ptrOf]
    unfold ptrAddr SIZE_MOD
    simp only [Nat.mul_one]
    omega

/-- C24 at the sample method call, parsed at the address 1000 and cloned to the
address 2000: the path, at the offset 24 of the message, gets the address 24
in the clone where 2024 is its place, and the signature, which is absent,
gets an address. -/
theorem adbus_clonedata_offsets_witness :
    (adbus_clonedata sampleCallAt1000 sampleCall 2000 []).1.path = some 24
    ∧ fieldOffset sampleCallAt1000 sampleCallAt1000.path = 24
    ∧ (adbus_clonedata sampleCallAt1000 sampleCall 2000 []).2
        = sampleCall.take sampleCallAt1000.size
    ∧ (adbus_clonedata sampleCallAt1000 sampleCall 2000 []).1.data = some 2000
    ∧ (adbus_clonedata sampleCallAt1000 sampleCall 2000 []).1.signature ≠ none
    ∧ fieldOffset (adbus_clonedata sampleCallAt1000 sampleCall 2000 []).1
        (adbus_clonedata sampleCallAt1000 sampleCall 2000 []).1.path
        ≠ fieldOffset sampleCallAt1000 sampleCallAt1000.path :=
  ⟨by decide, by decide,
    adbus_clonedata_offsets sampleCallAt1000 sampleCall 1000 2000 1024 [] rfl rfl rfl (by decide)
      (by decide) (by decide) (by decide) (by decide)⟩

/-! ## The order of a map with strings as keys -/

theorem char_eq_of_toNat {a b : Char} (h : a.toNat = b.toNat) : a = b := by
  rw [← Char.ofNat_toNat a, ← Char.ofNat_toNat b, h]

theorem charsLt_trans : ∀ (a b c : List Char),
    charsLt a b = true → charsLt b c = true → charsLt a c = true := by
  intro a
  induction a with
  | nil =>
    intro b c h1 h2
    cases c with
    | nil => cases b <;> simp [charsLt] at h2
    | cons z u => rfl
  | cons x s ih =>
    intro b c h1 h2
    cases b with
    | nil => simp [charsLt] at h1
    | cons y t =>
      cases c with
      | nil => simp [charsLt] at h2
      | cons z u =>
        unfold charsLt at h1 h2 ⊢
        by_cases hxy : x.toNat < y.toNat
        · by_cases hyz : y.toNat < z.toNat
          · rw [if_pos (by omega)]
          · rw [if_neg hyz] at h2
            by_cases e : y = z
            · rw [← e, if_pos hxy]
            · rw [if_neg e] at h2; cases h2
        · rw [if_neg hxy] at h1
          by_cases e1 : x = y
          · rw [if_pos e1] at h1
            rw [e1]
            by_cases hyz : y.toNat < z.toNat
            · rw [if_pos hyz]
            · rw [if_neg hyz] at h2 ⊢
              by_cases e : y = z
              · rw [if_pos e] at h2 ⊢
                exact ih t u h1 h2
              · rw [if_neg e] at h2; cases h2
          · rw [if_neg e1] at h1; cases h1

theorem charsLt_total : ∀ (a b : List Char),
    a ≠ b → charsLt a b = false → charsLt b a = true := by
  intro a
  induction a with
  | nil =>
    intro b h1 h2
    cases b with
    | nil => exact absurd rfl h1
    | cons y t => simp [charsLt] at h2
  | cons x s ih =>
    intro b h1 h2
    cases b with
    | nil => rfl
    | cons y t =>
      unfold charsLt at h2 ⊢
      by_cases hxy : x.toNat < y.toNat
      · rw [if_pos hxy] at h2; cases h2
      · rw [if_neg hxy] at h2
        by_cases e : x = y
        · rw [if_pos e] at h2
          rw [e, if_neg (Nat.lt_irrefl _), if_pos rfl]
          apply ih t _ h2
          intro hst
          apply h1
          rw [e, hst]
        · have hne : x.toNat ≠ y.toNat := fun h => e (char_eq_of_toNat h)
          rw [if_pos (by omega)]

theorem stringLt_trans {a b c : String} (h1 : stringLt a b = true) (h2 : stringLt b c = true) :
    stringLt a c = true :=
  charsLt_trans a.data b.data c.data h1 h2

theorem stringLt_total {a b : String} (h1 : a ≠ b) (h2 : stringLt a b = false) :
    stringLt b a = true := by
  apply charsLt_total a.data b.data _ h2
  intro h
  apply h1
  cases a
  cases b
  simp only at h
  rw [h]

theorem mapSet_mem {α : Type} (k : String) (v : α) :
    ∀ (l : List (String × α)) (e : String × α),
      e ∈ mapSet stringLt l k v → e = (k, v) ∨ e ∈ l := by
  intro l
  induction l with
  | nil =>
    intro e he
    simp only [mapSet, List.mem_singleton] at he
    exact Or.inl he
  | cons x rest ih =>
    obtain ⟨k1, v1⟩ := x
    intro e he
    unfold mapSet at he
    by_cases h1 : k1 = k
    · rw [if_pos h1] at he
      rcases List.mem_cons.mp he with h | h
      · exact Or.inl h
      · exact Or.inr (List.mem_cons_of_mem _ h)
    · rw [if_neg h1] at he
      by_cases h2 : stringLt k k1 = true
      · rw [if_pos h2] at he
        rcases List.mem_cons.mp he with h | h
        · exact Or.inl h
        · exact Or.inr h
      · rw [if_neg h2] at he
        rcases List.mem_cons.mp he with h | h
        · exact Or.inr (h ▸ List.mem_cons_self _ _)
        · rcases ih e h with h3 | h3
          · exact Or.inl h3
          · exact Or.inr (List.mem_cons_of_mem _ h3)

theorem mapSet_keysSorted {α : Type} (k : String) (v : α) :
    ∀ (l : List (String × α)), keysSorted l → keysSorted (mapSet stringLt l k v) := by
  intro l
  induction l with
  | nil =>
    intro _
    simp [keysSorted, mapSet]
  | cons x rest ih =>
    obtain ⟨k1, v1⟩ := x
    intro hs
    unfold keysSorted at hs ⊢
    simp only [List.map_cons, List.pairwise_cons] at hs
    obtain ⟨hhead, htail⟩ := hs
    unfold mapSet
    by_cases h1 : k1 = k
    · rw [if_pos h1]
      simp only [List.map_cons, List.pairwise_cons]
      exact ⟨fun a ha => h1 ▸ hhead a ha, htail⟩
    · rw [if_neg h1]
      by_cases h2 : stringLt k k1 = true
      · rw [if_pos h2]
        simp only [List.map_cons, List.pairwise_cons]
        refine ⟨?_, hhead, htail⟩
        intro a ha
        rcases List.mem_cons.mp ha with h | h
        · rw [h]; exact h2
        · exact stringLt_trans h2 (hhead a h)
      · rw [if_neg h2]
        simp only [List.map_cons, List.pairwise_cons]
        refine ⟨?_, ih htail⟩
        intro a ha
        obtain ⟨e, he, hea⟩ := List.mem_map.mp ha
        rcases mapSet_mem k v rest e he with h | h
        · rw [← hea, h]
          exact stringLt_total (fun hh => h1 hh.symm) (by simpa using h2)
        · exact hhead a (hea ▸ List.mem_map_of_mem _ h)

/-! ## Method calls to a path that is not bound -/

theorem sendError_invalid (c : Connection) (message : DBusMessage) (name text : String)
    (ht : text ≠ "") :
    c.sendError { errorName := name, errorMessage := some text } message
      = (c.serialTaken, errorReply c.m_NextSerial name text message.serial) := by
  unfold Connection.sendError Connection.setupMarshaller
  simp only [if_true, ht, ne_eq, not_false_eq_true]
  rfl

/-- C21: for a method call without a path, with a path that is not in the map
of the objects, or with a path that is bound to a null pointer,
`dispatchMethodCall` calls no handler and sends one message: an error with
the name `nz.co.foobar.DBus.InvalidPath`, the one string argument
`Path not found`, and the serial of the call as reply serial. -/
theorem dispatchMethodCall_invalid_path (user : Nat → DBusMessage → Option DBusError)
    (c : Connection) (message : DBusMessage)
    (h : message.path = none
      ∨ ∃ p, message.path = some p
          ∧ (mapFind c.m_Objects p = none ∨ mapFind c.m_Objects p = some none)) :
    c.dispatchMethodCall user message
      = (c.serialTaken,
         [errorReply c.m_NextSerial "nz.co.foobar.DBus.InvalidPath" "Path not found"
            message.serial],
         []) := by
  have hf : c.findAndCall user message = ([], Except.error InvalidPathError) := by
    unfold Connection.findAndCall
    rcases h with h | ⟨p, hp, h | h⟩
    · rw [h]
    · rw [hp]; simp only [FindUsingKey, h]
    · rw [hp]; simp only [FindUsingKey, h]
  unfold Connection.dispatchMethodCall
  rw [hf]
  simp only []
  unfold InvalidPathError
  rw [sendError_invalid c message _ _ (by decide)]

/-- C21 at the scenario: `/a`, `/a/b`, `/a/b/c` and `/a/d` are bound, and a method
call with the serial 7 goes to `/nope`. -/
theorem dispatchMethodCall_invalid_path_witness :
    mapFind sampleTree.m_Objects "/nope" = none
    ∧ sampleTree.dispatchMethodCall quietHandlers (methodCall (some "/nope") none (some "M"))
      = (sampleTree.serialTaken,
         [errorReply 1 "nz.co.foobar.DBus.InvalidPath" "Path not found" 7],
         []) :=
  ⟨by decide,
    dispatchMethodCall_invalid_path quietHandlers sampleTree
      (methodCall (some "/nope") none (some "M")) (Or.inr ⟨"/nope", rfl, Or.inl (by decide)⟩)⟩

/-! ## Method calls without an interface -/

theorem ObjectInterface.callMethod_found (user : Nat → DBusMessage → Option DBusError)
    (i : ObjectInterface) (message : DBusMessage) (name : String) (method : MethodBase)
    (hm : message.member = some name) (hf : mapFind i.m_Methods name = some method) :
    i.callMethod user message
      = ([method.handler],
         match user method.handler message with
         | some e => Except.error e
         | none => Except.ok true) := by
  unfold ObjectInterface.callMethod FindUsingKey
  rw [hm]
  simp only [hf]
  cases user method.handler message <;> rfl

theorem ObjectInterface.callMethod_missing (user : Nat → DBusMessage → Option DBusError)
    (i : ObjectInterface) (message : DBusMessage) (name : String)
    (hm : message.member = some name) (hf : mapFind i.m_Methods name = none) :
    i.callMethod user message = ([], Except.ok false) := by
  unfold ObjectInterface.callMethod FindUsingKey
  rw [hm]
  simp only [hf]

/-- C23: for a method call to a bound object with an interface and a member,
`Object::callMethod` looks for the method in the named interface alone. When
the object has no interface of the name, or the interface has no method of
the name, no handler is called, whatever the other interfaces have, and
`dispatchMethodCall` sends one error with the name
`nz.co.foobar.DBus.InvalidMethod` and the serial of the call as reply
serial; otherwise the method of the named interface is called once, and no
other handler. -/
theorem callMethod_named_interface (user : Nat → DBusMessage → Option DBusError)
    (c : Connection) (o : Object) (message : DBusMessage) (p iname mname : String)
    (hp : message.path = some p) (ho : mapFind c.m_Objects p = some (some o))
    (hi : message.interface = some iname) (hm : message.member = some mname) :
    ((mapFind o.m_Interfaces iname = none
        ∨ ∃ i, mapFind o.m_Interfaces iname = some i ∧ mapFind i.m_Methods mname = none) →
      o.callMethod user message = ([], Except.error InvalidMethodError)
      ∧ c.dispatchMethodCall user message
        = (c.serialTaken,
           [errorReply c.m_NextSerial "nz.co.foobar.DBus.InvalidMethod" "No method found"
              message.serial],
           []))
    ∧ (∀ i method, mapFind o.m_Interfaces iname = some i →
        mapFind i.m_Methods mname = some method →
        o.callMethod user message = handlerCalled user method message
        ∧ (c.dispatchMethodCall user message).2.2 = [method.handler]) := by
  have hfc : c.findAndCall user message = o.callMethod user message := by
    unfold Connection.findAndCall
    rw [hp]
    simp only [FindUsingKey, ho]
  constructor
  · intro h
    have hcall : o.callMethod user message = ([], Except.error InvalidMethodError) := by
      unfold Object.callMethod
      rw [hi]
      rcases h with h | ⟨i, h1, h2⟩
      · simp only [FindUsingKey, h]
      · simp only [FindUsingKey, h1]
        rw [ObjectInterface.callMethod_missing user i message mname hm h2]
    refine ⟨hcall, ?_⟩
    unfold Connection.dispatchMethodCall
    rw [hfc, hcall]
    simp only []
    unfold InvalidMethodError
    rw [sendError_invalid c message _ _ (by decide)]
  · intro i method h1 h2
    have hcall : o.callMethod user message = handlerCalled user method message := by
      unfold Object.callMethod handlerCalled
      rw [hi]
      simp only [FindUsingKey, h1]
      rw [ObjectInterface.callMethod_found user i message mname method hm h2]
      cases user method.handler message <;> rfl
    refine ⟨hcall, ?_⟩
    unfold Connection.dispatchMethodCall
    rw [hfc, hcall]
    unfold handlerCalled
    cases user method.handler message <;> rfl

/-- C23 at the object with the interfaces `a.I` and `b.I`, both with the method
`M`, bound to `/o`: the call of `c.I.M` and the call of `b.I.N` call no
handler and are answered with the error, though `a.I` and `b.I` have a method
`M`; the call of `b.I.M` calls the handler 1 of `b.I` alone. -/
theorem callMethod_named_interface_witness :
    (sampleTwoInterfaces.callMethod quietHandlers
          (methodCall (some "/o") (some "c.I") (some "M"))
        = ([], Except.error InvalidMethodError)
      ∧ sampleBound.dispatchMethodCall quietHandlers
          (methodCall (some "/o") (some "c.I") (some "M"))
        = (sampleBound.serialTaken,
           [errorReply 1 "nz.co.foobar.DBus.InvalidMethod" "No method found" 7],
           []))
    ∧ (sampleBound.dispatchMethodCall quietHandlers
          (methodCall (some "/o") (some "b.I") (some "N"))).2
        = ([errorReply 1 "nz.co.foobar.DBus.InvalidMethod" "No method found" 7], [])
    ∧ (sampleBound.dispatchMethodCall quietHandlers
          (methodCall (some "/o") (some "b.I") (some "M"))).2.2 = [1] :=
  ⟨(callMethod_named_interface quietHandlers sampleBound sampleTwoInterfaces
      (methodCall (some "/o") (some "c.I") (some "M")) "/o" "c.I" "M" rfl (by decide) rfl
      rfl).1 (Or.inl (by decide)),
    by decide, by decide⟩

/-! ## The tables of the replies fit together -/

theorem mapFind_mapPut {κ α : Type} [DecidableEq κ] (l : List (κ × α)) (k q : κ) (v : α) :
    mapFind (mapPut l k v) q = if q = k then some v else mapFind l q := by
  by_cases h : q = k
  · rw [if_pos h, h]; exact mapFind_mapPut_self l k v
  · rw [if_neg h]; exact mapFind_mapPut_ne l k q v h

theorem mapFind_mapErase {κ α : Type} [DecidableEq κ] (l : List (κ × α)) (k q : κ) :
    mapFind (mapErase l k) q = if q = k then none else mapFind l q := by
  by_cases h : q = k
  · rw [if_pos h, h]; exact mapFind_mapErase_self l k
  · rw [if_neg h]; exact mapFind_mapErase_ne l k q h

theorem consistent_empty (services : List (List Nat × Option (List Nat))) :
    (adbus_Connection.empty services).consistent := by
  unfold adbus_Connection.consistent adbus_Connection.empty
  refine ⟨?_, ?_, ?_, ?_, ?_⟩
  · intro n rh h; simp [mapFind] at h
  · intro rh remote h; simp [mapFind] at h
  · intro rh remote s h h1; simp [mapFind] at h1
  · intro h r h1; simp [mapFind] at h1
  · intro q _; exact ⟨rfl, rfl⟩

theorem consistent_removed (c c2 : adbus_Connection) (h rh : Nat) (r : adbus_ConnReply)
    (remote : Remote) (hinv : c.consistent)
    (hr : mapFind c.replyHeap h = some r) (hrem : r.remote = some rh)
    (hremote : mapFind c.remoteHeap rh = some remote)
    (hna : c2.nextAlloc = c.nextAlloc)
    (hreply : ∀ q, mapFind c2.replyHeap q = if q = h then none else mapFind c.replyHeap q)
    (hcase :
      (mapErase remote.replies r.serial ≠ []
        ∧ (∀ n, mapFind c2.remotes n = mapFind c.remotes n)
        ∧ (∀ q, mapFind c2.remoteHeap q
            = if q = rh then some { remote with replies := mapErase remote.replies r.serial }
              else mapFind c.remoteHeap q))
      ∨ (mapErase remote.replies r.serial = []
        ∧ (∀ n, mapFind c2.remotes n = if n = remote.name then none else mapFind c.remotes n)
        ∧ (∀ q, mapFind c2.remoteHeap q = if q = rh then none else mapFind c.remoteHeap q))) :
    c2.consistent := by
  obtain ⟨i1, i3, i4, i5, i6⟩ := hinv
  have hlink : mapFind remote.replies r.serial = some h := by
    obtain ⟨rh1, remote1, e1, e2, e3⟩ := i5 h r hr
    rw [hrem] at e1
    cases e1
    rw [hremote] at e2
    cases e2
    exact e3
  have herase : ∀ s, mapFind (mapErase remote.replies r.serial) s
      = if s = r.serial then none else mapFind remote.replies s :=
    fun s => mapFind_mapErase _ _ _
  refine ⟨?_, ?_, ?_, ?_, ?_⟩
  · intro n rh1 hn
    rcases hcase with ⟨hne, hrm, hhp⟩ | ⟨hnil, hrm, hhp⟩
    · rw [hrm] at hn
      obtain ⟨remote1, e1, e2, e3, e4⟩ := i1 n rh1 hn
      by_cases hq : rh1 = rh
      · rw [hq] at e1
        rw [hremote] at e1
        cases e1
        refine ⟨{ remote with replies := mapErase remote.replies r.serial }, ?_, e2, e3, hne⟩
        rw [hhp, if_pos hq]
      · exact ⟨remote1, by rw [hhp, if_neg hq]; exact e1, e2, e3, e4⟩
    · rw [hrm] at hn
      by_cases hnn : n = remote.name
      · rw [if_pos hnn] at hn; cases hn
      · rw [if_neg hnn] at hn
        obtain ⟨remote1, e1, e2, e3, e4⟩ := i1 n rh1 hn
        have hq : rh1 ≠ rh := by
          intro hq
          rw [hq, hremote] at e1
          cases e1
          exact hnn e2.symm
        exact ⟨remote1, by rw [hhp, if_neg hq]; exact e1, e2, e3, e4⟩
  · intro rh1 remote1 h1
    rcases hcase with ⟨hne, hrm, hhp⟩ | ⟨hnil, hrm, hhp⟩
    · rw [hhp] at h1
      rw [hrm]
      by_cases hq : rh1 = rh
      · rw [if_pos hq] at h1
        cases h1
        rw [hq]
        exact i3 rh remote hremote
      · rw [if_neg hq] at h1
        exact i3 rh1 remote1 h1
    · rw [hhp] at h1
      by_cases hq : rh1 = rh
      · rw [if_pos hq] at h1; cases h1
      · rw [if_neg hq] at h1
        have e := i3 rh1 remote1 h1
        rw [hrm]
        have hnn : remote1.name ≠ remote.name := by
          intro hnn
          rw [hnn, i3 rh remote hremote] at e
          cases e
          exact hq rfl
        rw [if_neg hnn]
        exact e
  · intro rh1 remote1 s h1 g1 g2
    have hother : rh1 ≠ rh → mapFind c.remoteHeap rh1 = some remote1 →
        ∃ r1, mapFind c2.replyHeap h1 = some r1 ∧ r1.remote = some rh1 ∧ r1.serial = s := by
      intro hq g
      obtain ⟨r1, e1, e2, e3⟩ := i4 rh1 remote1 s h1 g g2
      have hh : h1 ≠ h := by
        intro hh
        rw [hh, hr] at e1
        cases e1
        rw [hrem] at e2
        cases e2
        exact hq rfl
      exact ⟨r1, by rw [hreply, if_neg hh]; exact e1, e2, e3⟩
    rcases hcase with ⟨hne, hrm, hhp⟩ | ⟨hnil, hrm, hhp⟩
    · rw [hhp] at g1
      by_cases hq : rh1 = rh
      · rw [if_pos hq] at g1
        cases g1
        simp only [] at g2
        rw [herase] at g2
        by_cases hs : s = r.serial
        · rw [if_pos hs] at g2; cases g2
        · rw [if_neg hs] at g2
          obtain ⟨r1, e1, e2, e3⟩ := i4 rh remote s h1 hremote g2
          have hh : h1 ≠ h := by
            intro hh
            rw [hh, hr] at e1
            cases e1
            exact hs e3.symm
          exact ⟨r1, by rw [hreply, if_neg hh]; exact e1, hq ▸ e2, e3⟩
      · rw [if_neg hq] at g1
        exact hother hq g1
    · rw [hhp] at g1
      by_cases hq : rh1 = rh
      · rw [if_pos hq] at g1; cases g1
      · rw [if_neg hq] at g1
        exact hother hq g1
  · intro h1 r1 g1
    rw [hreply] at g1
    by_cases hh : h1 = h
    · rw [if_pos hh] at g1; cases g1
    · rw [if_neg hh] at g1
      obtain ⟨rh1, remote1, e1, e2, e3⟩ := i5 h1 r1 g1
      by_cases hq : rh1 = rh
      · rw [hq, hremote] at e2
        cases e2
        have hs : r1.serial ≠ r.serial := by
          intro hs
          rw [hs, hlink] at e3
          cases e3
          exact hh rfl
        have e4 : mapFind (mapErase remote.replies r.serial) r1.serial = some h1 := by
          rw [herase, if_neg hs]; exact e3
        rcases hcase with ⟨hne, hrm, hhp⟩ | ⟨hnil, hrm, hhp⟩
        · refine ⟨rh, { remote with replies := mapErase remote.replies r.serial },
            hq ▸ e1, ?_, e4⟩
          rw [hhp, if_pos rfl]
        · rw [hnil] at e4
          simp [mapFind] at e4
      · refine ⟨rh1, remote1, e1, ?_, e3⟩
        rcases hcase with ⟨hne, hrm, hhp⟩ | ⟨hnil, hrm, hhp⟩
        · rw [hhp, if_neg hq]; exact e2
        · rw [hhp, if_neg hq]; exact e2
  · intro q hq
    rw [hna] at hq
    obtain ⟨f1, f2⟩ := i6 q hq
    constructor
    · rw [hreply]
      by_cases hh : q = h
      · rw [if_pos hh]
      · rw [if_neg hh]; exact f1
    · rcases hcase with ⟨hne, hrm, hhp⟩ | ⟨hnil, hrm, hhp⟩
      · rw [hhp]
        by_cases hh : q = rh
        · rw [hh, hremote] at f2; cases f2
        · rw [if_neg hh]; exact f2
      · rw [hhp]
        by_cases hh : q = rh
        · rw [if_pos hh]
        · rw [if_neg hh]; exact f2

theorem consistent_added (c c1 : adbus_Connection) (name : List Nat) (serial rh h : Nat)
    (old : List (Nat × Nat)) (r : adbus_ConnReply) (hinv : c.consistent)
    (hcase : (∃ remote, mapFind c.remotes name = some rh ∧ mapFind c.remoteHeap rh = some remote
                ∧ remote.replies = old)
              ∨ (mapFind c.remotes name = none ∧ mapFind c.remoteHeap rh = none ∧ old = []))
    (hold : mapFind old serial = none)
    (hrr : r.remote = some rh) (hrs : r.serial = serial)
    (hh : c.nextAlloc ≤ h) (hh1 : h < c1.nextAlloc) (hrh1 : rh < c1.nextAlloc)
    (hna : c.nextAlloc ≤ c1.nextAlloc)
    (hremotes : ∀ n, mapFind c1.remotes n = if n = name then some rh else mapFind c.remotes n)
    (hheap : ∀ q, mapFind c1.remoteHeap q
        = if q = rh then some (Remote.mk true name (mapPut old serial h))
          else mapFind c.remoteHeap q)
    (hreply : ∀ q, mapFind c1.replyHeap q = if q = h then some r else mapFind c.replyHeap q) :
    c1.consistent := by
  obtain ⟨i1, i3, i4, i5, i6⟩ := hinv
  have hfresh : mapFind c.replyHeap h = none := (i6 h hh).1
  have hput : ∀ s, mapFind (mapPut old serial h) s
      = if s = serial then some h else mapFind old s := fun s => mapFind_mapPut _ _ _ _
  have hA : ∀ rh1 remote1, mapFind c.remoteHeap rh1 = some remote1 → rh1 ≠ rh →
      remote1.name ≠ name := by
    intro rh1 remote1 g hq hn
    have e := i3 rh1 remote1 g
    rw [hn] at e
    rcases hcase with ⟨remote, c1, _, _⟩ | ⟨c1, _, _⟩
    · rw [c1] at e
      exact hq (Option.some.inj e).symm
    · rw [c1] at e
      cases e
  have hB : ∀ s h1, mapFind old s = some h1 →
      ∃ r1, mapFind c.replyHeap h1 = some r1 ∧ r1.remote = some rh ∧ r1.serial = s := by
    intro s h1 g
    rcases hcase with ⟨remote, _, c2, c3⟩ | ⟨_, _, c3⟩
    · rw [← c3] at g
      exact i4 rh remote s h1 c2 g
    · rw [c3] at g
      simp [mapFind] at g
  have hC : ∀ h1 r1, mapFind c.replyHeap h1 = some r1 → r1.remote = some rh →
      mapFind old r1.serial = some h1 := by
    intro h1 r1 g1 g2
    obtain ⟨rh1, remote1, e1, e2, e3⟩ := i5 h1 r1 g1
    rw [g2] at e1
    have hq : rh1 = rh := (Option.some.inj e1).symm
    rw [hq] at e2
    rcases hcase with ⟨remote, _, c2, c3⟩ | ⟨_, c2, _⟩
    · rw [c2] at e2
      have hrem : remote1 = remote := (Option.some.inj e2).symm
      rw [hrem, c3] at e3
      exact e3
    · rw [c2] at e2
      cases e2
  refine ⟨?_, ?_, ?_, ?_, ?_⟩
  · intro n rh1 hn
    rw [hremotes] at hn
    by_cases hnn : n = name
    · rw [if_pos hnn] at hn
      have hq : rh1 = rh := (Option.some.inj hn).symm
      refine ⟨Remote.mk true name (mapPut old serial h), ?_, hnn.symm, rfl, ?_⟩
      · rw [hheap, if_pos hq]
      · unfold mapPut
        simp
    · rw [if_neg hnn] at hn
      obtain ⟨remote1, e1, e2, e3, e4⟩ := i1 n rh1 hn
      have hq : rh1 ≠ rh := by
        intro hq
        rw [hq] at e1
        rcases hcase with ⟨remote, c0, _, _⟩ | ⟨_, c2, _⟩
        · obtain ⟨remote2, f1, f2, _, _⟩ := i1 name rh c0
          rw [e1] at f1
          have hrem2 : remote2 = remote1 := (Option.some.inj f1).symm
          rw [hrem2, e2] at f2
          exact hnn f2
        · rw [c2] at e1
          cases e1
      exact ⟨remote1, by rw [hheap, if_neg hq]; exact e1, e2, e3, e4⟩
  · intro rh1 remote1 g
    rw [hheap] at g
    by_cases hq : rh1 = rh
    · rw [if_pos hq] at g
      have hrem : remote1 = Remote.mk true name (mapPut old serial h) := (Option.some.inj g).symm
      rw [hrem, hremotes]
      simp only [if_true]
      rw [hq]
    · rw [if_neg hq] at g
      rw [hremotes, if_neg (hA rh1 remote1 g hq)]
      exact i3 rh1 remote1 g
  · intro rh1 remote1 s h1 g1 g2
    rw [hheap] at g1
    by_cases hq : rh1 = rh
    · rw [if_pos hq] at g1
      have hrem : remote1 = Remote.mk true name (mapPut old serial h) := (Option.some.inj g1).symm
      rw [hrem] at g2
      simp only [] at g2
      rw [hput] at g2
      by_cases hs : s = serial
      · rw [if_pos hs] at g2
        have hh2 : h1 = h := (Option.some.inj g2).symm
        exact ⟨r, by rw [hreply, if_pos hh2], by rw [hrr, hq], by rw [hrs, hs]⟩
      · rw [if_neg hs] at g2
        obtain ⟨r1, e1, e2, e3⟩ := hB s h1 g2
        have hh2 : h1 ≠ h := by
          intro hh2
          rw [hh2, hfresh] at e1
          cases e1
        exact ⟨r1, by rw [hreply, if_neg hh2]; exact e1, by rw [e2, hq], e3⟩
    · rw [if_neg hq] at g1
      obtain ⟨r1, e1, e2, e3⟩ := i4 rh1 remote1 s h1 g1 g2
      have hh2 : h1 ≠ h := by
        intro hh2
        rw [hh2, hfresh] at e1
        cases e1
      exact ⟨r1, by rw [hreply, if_neg hh2]; exact e1, e2, e3⟩
  · intro h1 r1 g
    rw [hreply] at g
    by_cases hh2 : h1 = h
    · rw [if_pos hh2] at g
      have hr1 : r1 = r := (Option.some.inj g).symm
      refine ⟨rh, Remote.mk true name (mapPut old serial h), by rw [hr1, hrr], ?_, ?_⟩
      · rw [hheap, if_pos rfl]
      · simp only []
        rw [hput, hr1, hrs, if_pos rfl, hh2]
    · rw [if_neg hh2] at g
      obtain ⟨rh1, remote1, e1, e2, e3⟩ := i5 h1 r1 g
      by_cases hq : rh1 = rh
      · have e4 := hC h1 r1 g (by rw [e1, hq])
        have hs : r1.serial ≠ serial := by
          intro hs
          rw [hs, hold] at e4
          cases e4
        refine ⟨rh, Remote.mk true name (mapPut old serial h), by rw [e1, hq], ?_, ?_⟩
        · rw [hheap, if_pos rfl]
        · simp only []
          rw [hput, if_neg hs]
          exact e4
      · exact ⟨rh1, remote1, e1, by rw [hheap, if_neg hq]; exact e2, e3⟩
  · intro q hq
    have hq0 : c.nextAlloc ≤ q := Nat.le_trans hna hq
    obtain ⟨f1, f2⟩ := i6 q hq0
    constructor
    · rw [hreply, if_neg (by omega)]
      exact f1
    · rw [hheap, if_neg (by omega)]
      exact f2

theorem consistent_pending_or_missing (c : adbus_Connection) (hinv : c.consistent)
    (name : List Nat) (serial : Nat) :
    replyMissing c name serial ∨ ∃ h r, replyPending c name serial h r := by
  obtain ⟨i1, _, i4, _, _⟩ := hinv
  cases h1 : mapFind c.remotes name with
  | none => exact Or.inl (Or.inl h1)
  | some rh =>
    obtain ⟨remote, h2, _, _, _⟩ := i1 name rh h1
    cases h3 : mapFind remote.replies serial with
    | none => exact Or.inl (Or.inr ⟨rh, remote, h1, h2, h3⟩)
    | some h =>
      obtain ⟨r, e1, e2, e3⟩ := i4 rh remote serial h h2 h3
      exact Or.inr ⟨h, r, rh, remote, h1, h2, h3, e1, e2, e3⟩

theorem adbus_conn_addreply_duplicate (c : adbus_Connection) (reg : adbus_Reply) (h : Nat)
    (r : adbus_ConnReply)
    (hp : replyPending c (registeredName c reg) (reg.serial % 2 ^ 32) h r) :
    adbus_conn_addreply c reg = some (c, none) := by
  obtain ⟨rh, remote, h1, h2, h3, _, _, _⟩ := hp
  unfold adbus_conn_addreply
  by_cases hname : (replyRemoteName reg).length = 0
  · rw [if_pos hname]
  · rw [if_neg hname]
    simp only [addRemote, h1, h2, h3]

theorem adbus_conn_addreply_state (c : adbus_Connection) (reg : adbus_Reply)
    (hinv : c.consistent) (hname : (replyRemoteName reg).length ≠ 0)
    (hmiss : replyMissing c (registeredName c reg) (reg.serial % 2 ^ 32)) :
    ∃ c1 h rh, adbus_conn_addreply c reg = some (c1, some h)
      ∧ c1.consistent
      ∧ replyPending c1 (registeredName c reg) (reg.serial % 2 ^ 32) h (newConnReply reg rh)
      ∧ c1.calls = c.calls ∧ c1.services = c.services
      ∧ (∀ n, mapFind c1.remotes n
          = if n = registeredName c reg then some rh else mapFind c.remotes n)
      ∧ (∀ q, q ≠ rh → mapFind c1.remoteHeap q = mapFind c.remoteHeap q)
      ∧ (mapFind c.remotes (registeredName c reg) = some rh
          ∨ (mapFind c.remotes (registeredName c reg) = none ∧ mapFind c.remoteHeap rh = none
              ∧ rh = c.nextAlloc)) := by
  have hinv0 := hinv
  obtain ⟨i1, i3, i4, i5, i6⟩ := hinv
  unfold adbus_conn_addreply
  rw [if_neg hname]
  rcases hmiss with h | ⟨rh, remote, h1, h2, h3⟩
  · simp only [addRemote, h, mapFind_mapPut_self, dil_insert_after]
    have hnil : mapFind ([] : List (Nat × Nat)) (reg.serial % 2 ^ 32) = none := rfl
    simp only [hnil]
    have hremotes : ∀ n, mapFind (mapPut c.remotes (registeredName c reg) c.nextAlloc) n
        = if n = registeredName c reg then some c.nextAlloc else mapFind c.remotes n :=
      fun n => mapFind_mapPut _ _ _ _
    have hheap : ∀ q, mapFind (mapPut (mapPut c.remoteHeap c.nextAlloc
          (Remote.mk true (registeredName c reg) [])) c.nextAlloc
          (Remote.mk true (registeredName c reg)
            (mapPut [] (reg.serial % 2 ^ 32) (c.nextAlloc + 1)))) q
        = if q = c.nextAlloc then some (Remote.mk true (registeredName c reg)
            (mapPut [] (reg.serial % 2 ^ 32) (c.nextAlloc + 1)))
          else mapFind c.remoteHeap q := by
      intro q
      rw [mapFind_mapPut]
      by_cases hq : q = c.nextAlloc
      · rw [if_pos hq, if_pos hq]
      · rw [if_neg hq, if_neg hq, mapFind_mapPut, if_neg hq]
    have hfree : mapFind c.remoteHeap c.nextAlloc = none := (i6 c.nextAlloc (Nat.le_refl _)).2
    refine ⟨_, _, c.nextAlloc, rfl, ?_,
      ⟨c.nextAlloc, Remote.mk true (registeredName c reg)
          (mapPut [] (reg.serial % 2 ^ 32) (c.nextAlloc + 1)), ?_, ?_, ?_, ?_, rfl, rfl⟩,
      rfl, rfl, hremotes, ?_, Or.inr ⟨trivial, hfree, rfl⟩⟩
    · apply consistent_added c _ (registeredName c reg) (reg.serial % 2 ^ 32) c.nextAlloc
        (c.nextAlloc + 1) [] (newConnReply reg c.nextAlloc) hinv0
        (Or.inr ⟨h, hfree, rfl⟩) rfl rfl rfl (Nat.le_succ _)
      · show c.nextAlloc + 1 < c.nextAlloc + 1 + 1
        omega
      · show c.nextAlloc < c.nextAlloc + 1 + 1
        omega
      · show c.nextAlloc ≤ c.nextAlloc + 1 + 1
        omega
      · exact hremotes
      · exact hheap
      · intro q
        exact mapFind_mapPut _ _ _ _
    · exact mapFind_mapPut_self _ _ _
    · exact mapFind_mapPut_self _ _ _
    · exact mapFind_mapPut_self _ _ _
    · exact mapFind_mapPut_self _ _ _
    · intro q hq
      rw [hheap, if_neg hq]
  · simp only [addRemote, h1, h2, h3, dil_insert_after]
    obtain ⟨remote2, f1, f2, f3, _⟩ := i1 _ rh h1
    rw [h2] at f1
    have hrem : remote2 = remote := (Option.some.inj f1).symm
    rw [hrem] at f2 f3
    have hremotes : ∀ n, mapFind c.remotes n
        = if n = registeredName c reg then some rh else mapFind c.remotes n := by
      intro n
      by_cases hn : n = registeredName c reg
      · rw [if_pos hn, hn, h1]
      · rw [if_neg hn]
    have hmk : Remote.mk remote.connection remote.name
          (mapPut remote.replies (reg.serial % 2 ^ 32) c.nextAlloc)
        = Remote.mk true (registeredName c reg)
          (mapPut remote.replies (reg.serial % 2 ^ 32) c.nextAlloc) := by
      rw [f2, f3]
    have hrhlt : rh < c.nextAlloc := by
      by_contra hge
      have e := (i6 rh (Nat.le_of_not_lt hge)).2
      rw [h2] at e
      cases e
    refine ⟨_, _, rh, rfl, ?_,
      ⟨rh, Remote.mk remote.connection remote.name
          (mapPut remote.replies (reg.serial % 2 ^ 32) c.nextAlloc), h1, ?_, ?_, ?_, rfl, rfl⟩,
      rfl, rfl, hremotes, ?_, Or.inl rfl⟩
    · apply consistent_added c _ (registeredName c reg) (reg.serial % 2 ^ 32) rh
        c.nextAlloc remote.replies (newConnReply reg rh) hinv0
        (Or.inl ⟨remote, h1, h2, rfl⟩) h3 rfl rfl (Nat.le_refl _)
      · show c.nextAlloc < c.nextAlloc + 1
        omega
      · show rh < c.nextAlloc + 1
        omega
      · show c.nextAlloc ≤ c.nextAlloc + 1
        omega
      · exact hremotes
      · intro q
        show mapFind (mapPut c.remoteHeap rh _) q = _
        rw [mapFind_mapPut, hmk]
      · intro q
        exact mapFind_mapPut _ _ _ _
    · exact mapFind_mapPut_self _ _ _
    · exact mapFind_mapPut_self _ _ _
    · exact mapFind_mapPut_self _ _ _
    · intro q hq
      exact mapFind_mapPut_ne _ _ _ _ hq

theorem adbus_conn_addreply_consistent (c c1 : adbus_Connection) (reg : adbus_Reply)
    (res : Option Nat) (hinv : c.consistent) (h : adbus_conn_addreply c reg = some (c1, res)) :
    c1.consistent := by
  by_cases hname : (replyRemoteName reg).length = 0
  · unfold adbus_conn_addreply at h
    rw [if_pos hname] at h
    cases h
    exact hinv
  · rcases consistent_pending_or_missing c hinv (registeredName c reg) (reg.serial % 2 ^ 32)
      with hm | ⟨h1, r, hp⟩
    · obtain ⟨c2, h2, rh, e, hc, _⟩ := adbus_conn_addreply_state c reg hinv hname hm
      rw [e] at h
      cases h
      exact hc
    · rw [adbus_conn_addreply_duplicate c reg h1 r hp] at h
      cases h
      exact hinv

theorem mapFind_mapErase_mapPut {κ α : Type} [DecidableEq κ] (l : List (κ × α)) (k q : κ)
    (v : α) :
    mapFind (mapErase (mapPut l k v) k) q = if q = k then none else mapFind l q := by
  rw [mapFind_mapErase]
  by_cases h : q = k
  · rw [if_pos h, if_pos h]
  · rw [if_neg h, if_neg h, mapFind_mapPut, if_neg h]

theorem disconnectReply_state (c : adbus_Connection) (r : adbus_ConnReply) (rh : Nat)
    (remote : Remote) (hrem : r.remote = some rh)
    (hremote : mapFind c.remoteHeap rh = some remote) (hconn : remote.connection = true) :
    ∃ c1, disconnectReply c r = some c1 ∧ c1.replyHeap = c.replyHeap ∧ c1.calls = c.calls
      ∧ c1.nextAlloc = c.nextAlloc ∧ c1.services = c.services
      ∧ ((mapErase remote.replies r.serial ≠ []
          ∧ (∀ n, mapFind c1.remotes n = mapFind c.remotes n)
          ∧ (∀ q, mapFind c1.remoteHeap q
              = if q = rh then some { remote with replies := mapErase remote.replies r.serial }
                else mapFind c.remoteHeap q))
        ∨ (mapErase remote.replies r.serial = []
          ∧ (∀ n, mapFind c1.remotes n = if n = remote.name then none else mapFind c.remotes n)
          ∧ (∀ q, mapFind c1.remoteHeap q = if q = rh then none else mapFind c.remoteHeap q))) := by
  unfold disconnectReply
  rw [hrem]
  simp only [hremote]
  by_cases hl : (mapErase remote.replies r.serial).length = 0
  · rw [if_pos hl]
    have hnil : mapErase remote.replies r.serial = [] := List.length_eq_zero.mp hl
    unfold adbusI_freeRemote
    simp only [mapFind_mapPut_self, hnil, clearRemote, hconn, if_true]
    refine ⟨_, rfl, rfl, rfl, rfl, rfl, Or.inr ⟨trivial, ?_, ?_⟩⟩
    · intro n
      exact mapFind_mapErase _ _ _
    · intro q
      exact mapFind_mapErase_mapPut _ _ _ _
  · rw [if_neg hl]
    have hne : mapErase remote.replies r.serial ≠ [] := fun e => hl (by rw [e]; rfl)
    refine ⟨_, rfl, rfl, rfl, rfl, rfl, Or.inl ⟨hne, fun n => rfl, ?_⟩⟩
    intro q
    exact mapFind_mapPut _ _ _ _

theorem adbus_conn_removereply_state (ret : Call → Int) (c : adbus_Connection) (h : Nat)
    (r : adbus_ConnReply) (hinv : c.consistent) (hr : mapFind c.replyHeap h = some r) :
    ∃ c2, adbus_conn_removereply (inertUser ret) c h = some c2 ∧ c2.consistent
      ∧ c2.calls = c.calls ++ releaseCall r false ++ releaseCall r true
      ∧ c2.services = c.services ∧ mapFind c2.replyHeap h = none
      ∧ ∃ rh remote, r.remote = some rh ∧ mapFind c.remoteHeap rh = some remote
        ∧ ((mapErase remote.replies r.serial ≠ []
              ∧ ∀ n, mapFind c2.remotes n = mapFind c.remotes n)
          ∨ (mapErase remote.replies r.serial = []
              ∧ ∀ n, mapFind c2.remotes n
                  = if n = remote.name then none else mapFind c.remotes n)) := by
  have hinv0 := hinv
  obtain ⟨i1, i3, i4, i5, i6⟩ := hinv
  obtain ⟨rh, remote, e1, e2, e3⟩ := i5 h r hr
  obtain ⟨remote2, f1, _, f3, _⟩ := i1 _ rh (i3 rh remote e2)
  rw [e2] at f1
  have hrem : remote2 = remote := (Option.some.inj f1).symm
  rw [hrem] at f3
  obtain ⟨c1, hd, hheap, hcalls, hna, hserv, hcase⟩ := disconnectReply_state c r rh remote e1 e2 f3
  unfold adbus_conn_removereply
  rw [adbusI_freeReply_steps (inertUser ret) (releaseInert_inertUser ret) c c1 h r hr hd hheap]
  refine ⟨_, rfl, ?_, ?_, hserv, ?_, rh, remote, e1, e2, ?_⟩
  · refine consistent_removed c _ h rh r remote hinv0 hr e1 e2 ?_ ?_ ?_
    · exact hna
    · intro q
      show mapFind (mapErase c1.replyHeap h) q = _
      rw [hheap]
      exact mapFind_mapErase _ _ _
    · exact hcase
  · show c1.calls ++ releaseCall r false ++ releaseCall r true = _
    rw [hcalls]
  · exact mapFind_mapErase_self _ _
  · exact hcase.imp (fun x => ⟨x.1, x.2.1⟩) (fun x => ⟨x.1, x.2.1⟩)

theorem adbus_conn_removereply_none (user : UserCode) (c : adbus_Connection) (h : Nat)
    (hr : mapFind c.replyHeap h = none) : adbus_conn_removereply user c h = none := by
  unfold adbus_conn_removereply adbusI_freeReply
  rw [hr]

theorem adbus_conn_removereply_consistent (ret : Call → Int) (c c2 : adbus_Connection) (h : Nat)
    (hinv : c.consistent) (hstep : adbus_conn_removereply (inertUser ret) c h = some c2) :
    c2.consistent := by
  cases hr : mapFind c.replyHeap h with
  | none =>
    rw [adbus_conn_removereply_none _ c h hr] at hstep
    cases hstep
  | some r =>
    obtain ⟨c3, e, hc, _⟩ := adbus_conn_removereply_state ret c h r hinv hr
    rw [e] at hstep
    cases hstep
    exact hc

theorem unlinkReply_state (c : adbus_Connection) (sender : List Nat) (rh : Nat) (remote : Remote)
    (serial h : Nat) (r : adbus_ConnReply) :
    ∃ c1, unlinkReply c sender rh remote serial h r = some c1
      ∧ c1.repliesIter = some h
      ∧ c1.replyHeap = mapPut c.replyHeap h { r with remote := none }
      ∧ c1.calls = c.calls ∧ c1.nextAlloc = c.nextAlloc ∧ c1.services = c.services
      ∧ ((mapErase remote.replies serial ≠ []
          ∧ (∀ n, mapFind c1.remotes n = mapFind c.remotes n)
          ∧ (∀ q, mapFind c1.remoteHeap q
              = if q = rh then some { remote with replies := mapErase remote.replies serial }
                else mapFind c.remoteHeap q))
        ∨ (mapErase remote.replies serial = []
          ∧ (∀ n, mapFind c1.remotes n = if n = sender then none else mapFind c.remotes n)
          ∧ (∀ q, mapFind c1.remoteHeap q = if q = rh then none else mapFind c.remoteHeap q))) := by
  unfold unlinkReply
  simp only [dil_setiter]
  by_cases hl : (mapErase remote.replies serial).length = 0
  · rw [if_pos hl]
    unfold adbusI_freeRemote
    simp only [mapFind_mapPut_self, Bool.false_eq_true, if_false]
    have hnil : mapErase remote.replies serial = [] := List.length_eq_zero.mp hl
    simp only [hnil, clearRemote]
    refine ⟨_, rfl, rfl, rfl, rfl, rfl, rfl, Or.inr ⟨trivial, ?_, ?_⟩⟩
    · intro n
      exact mapFind_mapErase _ _ _
    · intro q
      show mapFind (mapErase (mapPut (mapPut c.remoteHeap rh _) rh _) rh) q = _
      rw [mapFind_mapErase_mapPut]
      by_cases hq : q = rh
      · rw [if_pos hq, if_pos hq]
      · rw [if_neg hq, if_neg hq, mapFind_mapPut, if_neg hq]
  · rw [if_neg hl]
    have hne : mapErase remote.replies serial ≠ [] := fun e => hl (by rw [e]; rfl)
    refine ⟨_, rfl, rfl, rfl, rfl, rfl, rfl, Or.inl ⟨hne, fun n => rfl, ?_⟩⟩
    intro q
    exact mapFind_mapPut _ _ _ _

theorem deliverReply_value (ret : Call → Int) (r : adbus_ConnReply) (d : adbus_CbData)
    (c : adbus_Connection) :
    deliverReply (inertUser ret) r d c
      = some ({ c with calls := c.calls ++ deliveryCalls r d }, deliveryValue ret r d) := by
  unfold deliverReply deliveryValue deliveryCalls
  cases hp : r.proxy with
  | some p => rfl
  | none =>
    simp only [adbus_dispatch]
    cases hcb : (replyCallback r d).1 with
    | none => simp only [connection_calls_eta]
    | some f => rfl

theorem adbusI_dispatchReply_state (ret : Call → Int) (c : adbus_Connection) (d : adbus_CbData)
    (sender : List Nat) (serial h : Nat) (r : adbus_ConnReply) (hinv : c.consistent)
    (htype : d.type = ADBUS_MSG_RETURN ∨ d.type = ADBUS_MSG_ERROR)
    (hs : d.sender = some sender) (hr : d.replySerial = some serial)
    (hp : replyPending c sender serial h r) :
    ∃ c2, adbusI_dispatchReply (inertUser ret) c d = some (c2, deliveryValue ret r d)
      ∧ c2.consistent
      ∧ c2.calls = c.calls ++ deliveryCalls r d ++ releaseCall r false ++ releaseCall r true
      ∧ c2.services = c.services
      ∧ mapFind c2.replyHeap h = none
      ∧ ∃ rh remote, mapFind c.remotes sender = some rh
        ∧ mapFind c.remoteHeap rh = some remote
        ∧ ((mapErase remote.replies serial ≠ []
              ∧ ∀ n, mapFind c2.remotes n = mapFind c.remotes n)
          ∨ (mapErase remote.replies serial = []
              ∧ ∀ n, mapFind c2.remotes n = if n = sender then none else mapFind c.remotes n)) := by
  have hinv0 := hinv
  obtain ⟨i1, i3, i4, i5, i6⟩ := hinv
  obtain ⟨rh, remote, h1, h2, h3, h4, h5, h6⟩ := hp
  obtain ⟨remote2, f1, f2, _, _⟩ := i1 sender rh h1
  rw [h2] at f1
  have hrem : remote2 = remote := (Option.some.inj f1).symm
  rw [hrem] at f2
  rw [adbusI_dispatchReply_deliver (inertUser ret) c d sender serial h r rh remote htype hs hr h1
    h2 h3 h4]
  obtain ⟨c1, hu, hi, hheap, hcalls, hna, hserv, hcase⟩ :=
    unlinkReply_state c sender rh remote serial h r
  rw [hu]
  simp only []
  rw [deliverReply_value]
  simp only [finishReply, dil_getiter, dil_setiter, hi, if_true]
  have hfind : mapFind c1.replyHeap h = some { r with remote := none } := by
    rw [hheap]; exact mapFind_mapPut_self _ _ _
  rw [adbusI_freeReply_detached (inertUser ret) (releaseInert_inertUser ret) _ h
    { r with remote := none } (by exact hfind) rfl]
  subst h6
  subst f2
  refine ⟨_, rfl, ?_, ?_, hserv, ?_, rh, remote, h1, h2, ?_⟩
  · refine consistent_removed c _ h rh r remote hinv0 h4 h5 h2 ?_ ?_ ?_
    · exact hna
    · intro q
      show mapFind (mapErase c1.replyHeap h) q = _
      rw [hheap]
      exact mapFind_mapErase_mapPut _ _ _ _
    · exact hcase
  · simp only [hcalls, releaseCall, List.append_assoc]
  · exact mapFind_mapErase_self _ _
  · exact hcase.imp (fun x => ⟨x.1, x.2.1⟩) (fun x => ⟨x.1, x.2.1⟩)

theorem adbusI_dispatchReply_total (ret : Call → Int) (c : adbus_Connection) (d : adbus_CbData)
    (hinv : c.consistent) :
    ∃ c2 v, adbusI_dispatchReply (inertUser ret) c d = some (c2, v) ∧ c2.consistent := by
  by_cases h0 : (d.type ≠ ADBUS_MSG_RETURN ∧ d.type ≠ ADBUS_MSG_ERROR) ∨ d.replySerial = none
      ∨ d.sender = none
  · refine ⟨c, 0, ?_, hinv⟩
    unfold adbusI_dispatchReply
    rw [if_pos h0]
  · have htype : d.type = ADBUS_MSG_RETURN ∨ d.type = ADBUS_MSG_ERROR := by
      by_contra hn
      exact h0 (Or.inl ⟨fun e => hn (Or.inl e), fun e => hn (Or.inr e)⟩)
    cases hs : d.sender with
    | none => exact absurd (Or.inr (Or.inr hs)) h0
    | some sender =>
      cases hr : d.replySerial with
      | none => exact absurd (Or.inr (Or.inl hr)) h0
      | some serial =>
        rcases consistent_pending_or_missing c hinv sender serial with hm | ⟨h, r, hp⟩
        · exact ⟨c, 0, adbusI_dispatchReply_miss _ c d sender serial hs hr hm, hinv⟩
        · obtain ⟨c2, e, hc, _⟩ :=
            adbusI_dispatchReply_state ret c d sender serial h r hinv htype hs hr hp
          exact ⟨c2, _, e, hc⟩

theorem adbusI_dispatchReply_consistent (ret : Call → Int) (c c2 : adbus_Connection)
    (d : adbus_CbData) (v : Int) (hinv : c.consistent)
    (hstep : adbusI_dispatchReply (inertUser ret) c d = some (c2, v)) : c2.consistent := by
  obtain ⟨c3, v3, e, hc⟩ := adbusI_dispatchReply_total ret c d hinv
  rw [e] at hstep
  cases hstep
  exact hc

theorem adbus_conn_addreply_total (c : adbus_Connection) (reg : adbus_Reply)
    (hinv : c.consistent) :
    ∃ c1 res, adbus_conn_addreply c reg = some (c1, res) ∧ c1.consistent := by
  by_cases hname : (replyRemoteName reg).length = 0
  · refine ⟨c, none, ?_, hinv⟩
    unfold adbus_conn_addreply
    rw [if_pos hname]
  · rcases consistent_pending_or_missing c hinv (registeredName c reg) (reg.serial % 2 ^ 32)
      with hm | ⟨h1, r, hp⟩
    · obtain ⟨c2, h2, rh, e, hc, _⟩ := adbus_conn_addreply_state c reg hinv hname hm
      exact ⟨c2, some h2, e, hc⟩
    · exact ⟨c, none, adbus_conn_addreply_duplicate c reg h1 r hp, hinv⟩

theorem replyReachable_consistent (c : adbus_Connection) (h : replyReachable c) :
    c.consistent := by
  induction h with
  | empty services => exact consistent_empty services
  | addreply c c1 reg r _ hstep ih => exact adbus_conn_addreply_consistent c c1 reg r ih hstep
  | removereply ret c c1 h _ hstep ih =>
    exact adbus_conn_removereply_consistent ret c c1 h ih hstep
  | dispatchReply ret c c1 d v _ hstep ih =>
    exact adbusI_dispatchReply_consistent ret c c1 d v ih hstep

/-! ## The callback of a delivery -/

theorem replyCallback_error (r : adbus_ConnReply) (d : adbus_CbData) (e : Nat)
    (ht : d.type = ADBUS_MSG_ERROR) (he : r.error = some e) :
    replyCallback r d = (some e, r.euser) := by
  unfold replyCallback
  simp [ht, he, ADBUS_MSG_ERROR, ADBUS_MSG_RETURN]

theorem replyCallback_null (r : adbus_ConnReply) (d : adbus_CbData)
    (h : (d.type = ADBUS_MSG_RETURN ∧ r.callback = none)
      ∨ (d.type = ADBUS_MSG_ERROR ∧ r.error = none)) :
    replyCallback r d = (none, d.user1) := by
  unfold replyCallback
  rcases h with ⟨ht, hn⟩ | ⟨ht, hn⟩
  · simp [ht, hn, ADBUS_MSG_ERROR, ADBUS_MSG_RETURN]
  · simp [ht, hn, ADBUS_MSG_ERROR, ADBUS_MSG_RETURN]

theorem delivery_of_callback (ret : Call → Int) (r : adbus_ConnReply) (d : adbus_CbData)
    (cb : Option Nat) (u : Nat) (h : replyCallback r d = (cb, u)) :
    (r.proxy = none →
        deliveryCalls r d = cb.toList.map (fun f => Call.callback f u)
        ∧ deliveryValue ret r d = (cb.map (fun f => ret (Call.callback f u))).getD 0)
    ∧ (∀ p, r.proxy = some p →
        deliveryCalls r d = [Call.proxy p r.puser cb u]
        ∧ deliveryValue ret r d = ret (Call.proxy p r.puser cb u)) := by
  constructor
  · intro hp
    unfold deliveryValue deliveryCalls
    rw [hp, h]
    cases cb with
    | none => exact ⟨rfl, rfl⟩
    | some f => exact ⟨rfl, rfl⟩
  · intro p hp
    unfold deliveryValue deliveryCalls
    rw [hp, h]
    exact ⟨rfl, rfl⟩

theorem adbusI_dispatchReply_value (ret : Call → Int) (c : adbus_Connection) (d : adbus_CbData)
    (sender : List Nat) (serial h : Nat) (r : adbus_ConnReply)
    (htype : d.type = ADBUS_MSG_RETURN ∨ d.type = ADBUS_MSG_ERROR)
    (hs : d.sender = some sender) (hr : d.replySerial = some serial)
    (hp : replyPending c sender serial h r) :
    ∃ c2, adbusI_dispatchReply (inertUser ret) c d = some (c2, deliveryValue ret r d)
      ∧ c2.calls = c.calls ++ deliveryCalls r d ++ releaseCall r false ++ releaseCall r true := by
  obtain ⟨rh, remote, h1, h2, h3, h4, _, _⟩ := hp
  rw [adbusI_dispatchReply_deliver (inertUser ret) c d sender serial h r rh remote htype hs hr h1
    h2 h3 h4]
  obtain ⟨c1, hu, hi, hheap, hcalls, _⟩ := unlinkReply_state c sender rh remote serial h r
  rw [hu]
  simp only []
  rw [deliverReply_value]
  simp only [finishReply, dil_getiter, dil_setiter, hi, if_true]
  have hfind : mapFind c1.replyHeap h = some { r with remote := none } := by
    rw [hheap]; exact mapFind_mapPut_self _ _ _
  rw [adbusI_freeReply_detached (inertUser ret) (releaseInert_inertUser ret) _ h
    { r with remote := none } (by exact hfind) rfl]
  refine ⟨_, rfl, ?_⟩
  simp only [hcalls, releaseCall, List.append_assoc]

/-- C27: when `adbusI_dispatchReply` delivers a method return or an error to the
reply that is pending for its sender and its reply serial, it returns the
value of the call of the delivery, and the calls to the user are that call
and then the release hooks of this reply, nothing else. For a method return
with a callback the call is the callback with `cuser`, for an error with an
error callback it is the error callback with `euser`; the call goes to the
proxy of the reply with the callback and its user data when the reply has a
proxy, and to the callback itself otherwise. When the callback for the type
of the message is null, the other callback is not called: the proxy gets a
null callback, and without a proxy nothing is called and 0 is returned. The
functions of the user leave the connection alone. -/
theorem adbusI_dispatchReply_callback (ret : Call → Int) (c : adbus_Connection)
    (d : adbus_CbData) (sender : List Nat) (serial h : Nat) (r : adbus_ConnReply)
    (htype : d.type = ADBUS_MSG_RETURN ∨ d.type = ADBUS_MSG_ERROR)
    (hs : d.sender = some sender) (hr : d.replySerial = some serial)
    (hp : replyPending c sender serial h r) :
    ∃ c2, adbusI_dispatchReply (inertUser ret) c d = some (c2, deliveryValue ret r d)
      ∧ c2.calls = c.calls ++ deliveryCalls r d ++ releaseCall r false ++ releaseCall r true
      ∧ (∀ f, d.type = ADBUS_MSG_RETURN → r.callback = some f →
          (r.proxy = none → deliveryCalls r d = [Call.callback f r.cuser]
            ∧ deliveryValue ret r d = ret (Call.callback f r.cuser))
          ∧ (∀ p, r.proxy = some p →
            deliveryCalls r d = [Call.proxy p r.puser (some f) r.cuser]
            ∧ deliveryValue ret r d = ret (Call.proxy p r.puser (some f) r.cuser)))
      ∧ (∀ e, d.type = ADBUS_MSG_ERROR → r.error = some e →
          (r.proxy = none → deliveryCalls r d = [Call.callback e r.euser]
            ∧ deliveryValue ret r d = ret (Call.callback e r.euser))
          ∧ (∀ p, r.proxy = some p →
            deliveryCalls r d = [Call.proxy p r.puser (some e) r.euser]
            ∧ deliveryValue ret r d = ret (Call.proxy p r.puser (some e) r.euser)))
      ∧ ((d.type = ADBUS_MSG_RETURN ∧ r.callback = none)
            ∨ (d.type = ADBUS_MSG_ERROR ∧ r.error = none) →
          (r.proxy = none → deliveryCalls r d = [] ∧ deliveryValue ret r d = 0)
          ∧ (∀ p, r.proxy = some p →
            deliveryCalls r d = [Call.proxy p r.puser none d.user1]
            ∧ deliveryValue ret r d = ret (Call.proxy p r.puser none d.user1))) := by
  obtain ⟨c2, e1, e2⟩ := adbusI_dispatchReply_value ret c d sender serial h r htype hs hr hp
  refine ⟨c2, e1, e2, ?_, ?_, ?_⟩
  · intro f ht hf
    exact delivery_of_callback ret r d (some f) r.cuser (replyCallback_return r d f ht hf)
  · intro e ht he
    exact delivery_of_callback ret r d (some e) r.euser (replyCallback_error r d e ht he)
  · intro hn
    exact delivery_of_callback ret r d none d.user1 (replyCallback_null r d hn)

/-- C27 at the scenario: the replies for the serials 100 and 101 from `:1.5` are
pending, the first with the callbacks 1 and 2 and the second with the
callbacks 5 and 6, and an error from `:1.5` with the reply serial 100 is
dispatched: the error callback 2 is called with 12, then the release hooks
3 and 4, and the value of the callback is returned. -/
theorem adbusI_dispatchReply_callback_witness :
    replyPending sampleTwoPending [58, 49, 46, 53] 101 3 (newConnReply sampleSecondReply 1)
    ∧ (adbusI_dispatchReply (inertUser (fun _ => 7)) sampleTwoPending
          (sampleErrorData [58, 49, 46, 53] 100)).map (fun x => (x.1.calls, x.2))
        = some ([Call.callback 2 12, Call.release 3 13, Call.release 4 14], 7)
    ∧ ∃ c2, adbusI_dispatchReply (inertUser (fun _ => 7)) sampleTwoPending
          (sampleErrorData [58, 49, 46, 53] 100)
        = some (c2, deliveryValue (fun _ => 7) (newConnReply sampleReply 1)
            (sampleErrorData [58, 49, 46, 53] 100))
      ∧ c2.calls = sampleTwoPending.calls
          ++ deliveryCalls (newConnReply sampleReply 1) (sampleErrorData [58, 49, 46, 53] 100)
          ++ releaseCall (newConnReply sampleReply 1) false
          ++ releaseCall (newConnReply sampleReply 1) true
      ∧ deliveryCalls (newConnReply sampleReply 1) (sampleErrorData [58, 49, 46, 53] 100)
          = [Call.callback 2 12]
      ∧ deliveryValue (fun _ => 7) (newConnReply sampleReply 1)
          (sampleErrorData [58, 49, 46, 53] 100) = 7 :=
  ⟨⟨1, Remote.mk true [58, 49, 46, 53] [(100, 2), (101, 3)], by decide, by decide, by decide,
      by decide, rfl, rfl⟩,
    by decide,
    (adbusI_dispatchReply_callback (fun _ => 7) sampleTwoPending
      (sampleErrorData [58, 49, 46, 53] 100) [58, 49, 46, 53] 100 2 (newConnReply sampleReply 1)
      (Or.inr rfl) rfl rfl
      ⟨1, Remote.mk true [58, 49, 46, 53] [(100, 2), (101, 3)], by decide, by decide, by decide,
        by decide, rfl, rfl⟩).imp
      (fun _ hc => ⟨hc.1, hc.2.1, ((hc.2.2.2.1 2 rfl rfl).1 rfl).1,
        ((hc.2.2.2.1 2 rfl rfl).1 rfl).2⟩)⟩

/-! ## A remote is in the table as long as it has a reply -/

theorem mapFind_of_ne_nil {κ α : Type} [DecidableEq κ] (l : List (κ × α)) (h : l ≠ []) :
    ∃ k v, mapFind l k = some v := by
  cases l with
  | nil => exact absurd rfl h
  | cons x rest =>
    refine ⟨x.1, x.2, ?_⟩
    show (if x.1 = x.1 then some x.2 else mapFind rest x.1) = some x.2
    rw [if_pos rfl]

theorem findReply_bucket (c : adbus_Connection) (name : List Nat) (rh : Nat) (remote : Remote)
    (h1 : mapFind c.remotes name = some rh) (h2 : mapFind c.remoteHeap rh = some remote)
    (s : Nat) : findReply c name s = mapFind remote.replies s := by
  unfold findReply
  rw [h1]
  simp only []
  rw [h2]

theorem bucket_after_removal (c c2 : adbus_Connection) (name : List Nat) (serial rh : Nat)
    (remote : Remote) (h1 : mapFind c.remotes name = some rh)
    (h2 : mapFind c.remoteHeap rh = some remote)
    (hcase : (mapErase remote.replies serial ≠ []
                ∧ ∀ n, mapFind c2.remotes n = mapFind c.remotes n)
              ∨ (mapErase remote.replies serial = []
                ∧ ∀ n, mapFind c2.remotes n = if n = name then none else mapFind c.remotes n)) :
    ((∀ s, s ≠ serial → findReply c name s = none) → mapFind c2.remotes name = none)
    ∧ ((∃ s, s ≠ serial ∧ findReply c name s ≠ none) →
        mapFind c2.remotes name = mapFind c.remotes name) := by
  constructor
  · intro hall
    rcases hcase with ⟨hne, _⟩ | ⟨_, hrm⟩
    · obtain ⟨k, v, hk⟩ := mapFind_of_ne_nil _ hne
      rw [mapFind_mapErase] at hk
      by_cases hs : k = serial
      · rw [if_pos hs] at hk; cases hk
      · rw [if_neg hs] at hk
        have e := hall k hs
        rw [findReply_bucket c name rh remote h1 h2, hk] at e
        cases e
    · rw [hrm, if_pos rfl]
  · intro hex
    obtain ⟨s, hs, hf⟩ := hex
    rcases hcase with ⟨_, hrm⟩ | ⟨hnil, _⟩
    · exact hrm name
    · exfalso
      apply hf
      rw [findReply_bucket c name rh remote h1 h2]
      have e := mapFind_mapErase remote.replies serial s
      rw [if_neg hs, hnil] at e
      exact e.symm

/-- C28: in every state that is reached from a connection without replies by
calls of `adbus_conn_addreply`, `adbus_conn_removereply` and
`adbusI_dispatchReply`, the table of the remotes has an entry for a name if
and only if a reply is pending for the name; the entry leads to a remote
with this name of which the table of the replies is not empty, and every
remote that exists is in the table under its name. A registration for a name
without an entry makes the entry. When `adbus_conn_removereply` removes a
pending reply or `adbusI_dispatchReply` delivers it, the entry of its name is
gone afterwards if no reply for another serial was pending for the name, and
stays as it is otherwise. The functions of the user leave the connection
alone. -/
theorem replyReachable_remote_iff (c : adbus_Connection) (hreach : replyReachable c) :
    (∀ name, (∃ rh, mapFind c.remotes name = some rh)
        ↔ ∃ serial h r, replyPending c name serial h r)
    ∧ (∀ name rh, mapFind c.remotes name = some rh →
        ∃ remote, mapFind c.remoteHeap rh = some remote ∧ remote.name = name
          ∧ remote.replies ≠ [])
    ∧ (∀ rh remote, mapFind c.remoteHeap rh = some remote →
        mapFind c.remotes remote.name = some rh ∧ remote.replies ≠ [])
    ∧ (∀ reg, (replyRemoteName reg).length ≠ 0 →
        mapFind c.remotes (registeredName c reg) = none →
        ∃ c1 h rh, adbus_conn_addreply c reg = some (c1, some h)
          ∧ mapFind c1.remotes (registeredName c reg) = some rh
          ∧ findReply c1 (registeredName c reg) (reg.serial % 2 ^ 32) = some h)
    ∧ (∀ ret name serial h r, replyPending c name serial h r →
        ∃ c2, adbus_conn_removereply (inertUser ret) c h = some c2
          ∧ ((∀ s, s ≠ serial → findReply c name s = none) → mapFind c2.remotes name = none)
          ∧ ((∃ s, s ≠ serial ∧ findReply c name s ≠ none) →
              mapFind c2.remotes name = mapFind c.remotes name))
    ∧ (∀ ret d name serial h r,
        d.type = ADBUS_MSG_RETURN ∨ d.type = ADBUS_MSG_ERROR →
        d.sender = some name → d.replySerial = some serial →
        replyPending c name serial h r →
        ∃ c2 v, adbusI_dispatchReply (inertUser ret) c d = some (c2, v)
          ∧ ((∀ s, s ≠ serial → findReply c name s = none) → mapFind c2.remotes name = none)
          ∧ ((∃ s, s ≠ serial ∧ findReply c name s ≠ none) →
              mapFind c2.remotes name = mapFind c.remotes name)) := by
  have hinv := replyReachable_consistent c hreach
  have hinv0 := hinv
  obtain ⟨i1, i3, i4, i5, i6⟩ := hinv
  refine ⟨?_, ?_, ?_, ?_, ?_, ?_⟩
  · intro name
    constructor
    · intro hex
      obtain ⟨rh, h1⟩ := hex
      obtain ⟨remote, h2, _, _, hne⟩ := i1 name rh h1
      obtain ⟨s, h, h3⟩ := mapFind_of_ne_nil _ hne
      obtain ⟨r, e1, e2, e3⟩ := i4 rh remote s h h2 h3
      exact ⟨s, h, r, rh, remote, h1, h2, h3, e1, e2, e3⟩
    · intro hex
      obtain ⟨s, h, r, rh, remote, h1, _⟩ := hex
      exact ⟨rh, h1⟩
  · intro name rh h1
    obtain ⟨remote, h2, h3, _, hne⟩ := i1 name rh h1
    exact ⟨remote, h2, h3, hne⟩
  · intro rh remote h2
    have h1 := i3 rh remote h2
    obtain ⟨remote2, f1, _, _, hne⟩ := i1 _ rh h1
    rw [h2] at f1
    have hrem : remote2 = remote := (Option.some.inj f1).symm
    rw [hrem] at hne
    exact ⟨h1, hne⟩
  · intro reg hname hnone
    obtain ⟨c1, h, rh, e, _, hp, _⟩ :=
      adbus_conn_addreply_state c reg hinv0 hname (Or.inl hnone)
    obtain ⟨rh1, remote1, p1, p2, p3, _⟩ := hp
    refine ⟨c1, h, rh1, e, p1, ?_⟩
    rw [findReply_bucket c1 _ rh1 remote1 p1 p2]
    exact p3
  · intro ret name serial h r hp
    obtain ⟨rh, remote, h1, h2, h3, h4, h5, h6⟩ := hp
    obtain ⟨c2, e, _, _, _, _, rh2, remote2, g1, g2, hcase⟩ :=
      adbus_conn_removereply_state ret c h r hinv0 h4
    rw [h5] at g1
    have hrh : rh2 = rh := (Option.some.inj g1).symm
    rw [hrh, h2] at g2
    have hrem : remote2 = remote := (Option.some.inj g2).symm
    obtain ⟨remote3, f1, f2, _, _⟩ := i1 name rh h1
    rw [h2] at f1
    have hrem3 : remote3 = remote := (Option.some.inj f1).symm
    rw [hrem3] at f2
    rw [hrem, h6, f2] at hcase
    exact ⟨c2, e, bucket_after_removal c c2 name serial rh remote h1 h2 hcase⟩
  · intro ret d name serial h r htype hs hr hp
    obtain ⟨c2, e, _, _, _, _, rh, remote, h1, h2, hcase⟩ :=
      adbusI_dispatchReply_state ret c d name serial h r hinv0 htype hs hr hp
    exact ⟨c2, _, e, bucket_after_removal c c2 name serial rh remote h1 h2 hcase⟩

/-- C28 at the scenario: the replies for the serials 100 and 101 from `:1.5` are
registered on a connection without replies. The table of the remotes has the
entry of `:1.5` and no entry of `:1.6`; the delivery of the reply 100 leaves
the entry, as the reply 101 is pending, and the delivery of the reply 101
after it takes the entry away. -/
theorem replyReachable_remote_iff_witness :
    replyReachable sampleTwoPending
    ∧ mapFind sampleTwoPending.remotes [58, 49, 46, 53] = some 1
    ∧ mapFind sampleTwoPending.remotes [58, 49, 46, 54] = none
    ∧ ((∃ rh, mapFind sampleTwoPending.remotes [58, 49, 46, 53] = some rh)
        ↔ ∃ serial h r, replyPending sampleTwoPending [58, 49, 46, 53] serial h r)
    ∧ ((∃ rh, mapFind sampleTwoPending.remotes [58, 49, 46, 54] = some rh)
        ↔ ∃ serial h r, replyPending sampleTwoPending [58, 49, 46, 54] serial h r)
    ∧ (∃ c2 v, adbusI_dispatchReply (inertUser (fun _ => 0)) sampleTwoPending
          (sampleReplyData [58, 49, 46, 53] 100) = some (c2, v)
        ∧ mapFind c2.remotes [58, 49, 46, 53]
            = mapFind sampleTwoPending.remotes [58, 49, 46, 53])
    ∧ ((adbusI_dispatchReply (inertUser (fun _ => 0)) sampleTwoPending
          (sampleReplyData [58, 49, 46, 53] 100)).bind
        (fun x => adbusI_dispatchReply (inertUser (fun _ => 0)) x.1
          (sampleReplyData [58, 49, 46, 53] 101))).map (fun x => (x.1.remotes, x.1.remoteHeap))
        = some ([], []) :=
  have hreach : replyReachable sampleTwoPending :=
    replyReachable.addreply samplePending sampleTwoPending sampleSecondReply (some 3)
      (replyReachable.addreply (adbus_Connection.empty []) samplePending sampleReply (some 2)
        (replyReachable.empty []) (by decide))
      (by decide)
  ⟨hreach, by decide, by decide,
    (replyReachable_remote_iff sampleTwoPending hreach).1 [58, 49, 46, 53],
    (replyReachable_remote_iff sampleTwoPending hreach).1 [58, 49, 46, 54],
    ((replyReachable_remote_iff sampleTwoPending hreach).2.2.2.2.2 (fun _ => 0)
      (sampleReplyData [58, 49, 46, 53] 100) [58, 49, 46, 53] 100 2 (newConnReply sampleReply 1)
      (Or.inl rfl) rfl rfl
      ⟨1, Remote.mk true [58, 49, 46, 53] [(100, 2), (101, 3)], by decide, by decide, by decide,
        by decide, rfl, rfl⟩).imp
      (fun _ hv => hv.imp (fun _ hc => ⟨hc.1, hc.2.2 ⟨101, by decide, by decide⟩⟩)),
    by decide⟩

/-! ## A registration needs a pair that is not pending -/

/-- C29: `adbus_conn_addreply` on a connection whose tables fit together. A
registration with an empty name of the remote returns `NULL` and leaves the
connection as it is. A registration of which the name, as it is stored
(the unique name that the name tracker has for it, or the name itself), and
the serial are those of a pending reply returns `NULL` and leaves the
connection, with the pending reply, as it is. Every other registration
returns the address of a reply; the lookup of the name and the serial finds
this address, and the reply there has the callbacks, user data, proxy and
release hooks of the registration. The assertions are those of a build
without assertions. -/
theorem adbus_conn_addreply_fresh (c : adbus_Connection) (reg : adbus_Reply)
    (hinv : c.consistent) :
    ((replyRemoteName reg).length = 0 → adbus_conn_addreply c reg = some (c, none))
    ∧ (∀ h r, replyPending c (registeredName c reg) (reg.serial % 2 ^ 32) h r →
        adbus_conn_addreply c reg = some (c, none))
    ∧ ((replyRemoteName reg).length ≠ 0 →
        (¬ ∃ h r, replyPending c (registeredName c reg) (reg.serial % 2 ^ 32) h r) →
        ∃ c1 h rh, adbus_conn_addreply c reg = some (c1, some h)
          ∧ findReply c1 (registeredName c reg) (reg.serial % 2 ^ 32) = some h
          ∧ mapFind c1.replyHeap h = some (newConnReply reg rh)
          ∧ (newConnReply reg rh).callback = reg.callback
          ∧ (newConnReply reg rh).cuser = reg.cuser
          ∧ (newConnReply reg rh).error = reg.error
          ∧ (newConnReply reg rh).euser = reg.euser
          ∧ (newConnReply reg rh).proxy = reg.proxy
          ∧ (newConnReply reg rh).puser = reg.puser
          ∧ (newConnReply reg rh).release = reg.release
          ∧ (newConnReply reg rh).ruser = reg.ruser
          ∧ (newConnReply reg rh).relproxy = reg.relproxy
          ∧ (newConnReply reg rh).relpuser = reg.relpuser
          ∧ c1.consistent) := by
  refine ⟨?_, ?_, ?_⟩
  · intro hname
    unfold adbus_conn_addreply
    rw [if_pos hname]
  · intro h r hp
    exact adbus_conn_addreply_duplicate c reg h r hp
  · intro hname hnot
    rcases consistent_pending_or_missing c hinv (registeredName c reg) (reg.serial % 2 ^ 32)
      with hm | hp
    · obtain ⟨c1, h, rh, e, hc, hp, _⟩ := adbus_conn_addreply_state c reg hinv hname hm
      obtain ⟨rh1, remote1, p1, p2, p3, p4, _, _⟩ := hp
      refine ⟨c1, h, rh, e, ?_, p4, rfl, rfl, rfl, rfl, rfl, rfl, rfl, rfl, rfl, rfl, hc⟩
      rw [findReply_bucket c1 _ rh1 remote1 p1 p2]
      exact p3
    · exact absurd hp hnot

/-- C29 at the scenario: the reply for the serial 100 from `:1.5` is pending at
the address 2. The same registration again returns `NULL` and leaves the
connection as it is; the registration for the serial 101 returns an address
under which the lookup of `:1.5` and 101 finds its callbacks. -/
theorem adbus_conn_addreply_fresh_witness :
    samplePending.consistent
    ∧ findReply samplePending [58, 49, 46, 53] 100 = some 2
    ∧ adbus_conn_addreply samplePending sampleReply = some (samplePending, none)
    ∧ ∃ c1 h rh, adbus_conn_addreply samplePending sampleSecondReply = some (c1, some h)
        ∧ findReply c1 [58, 49, 46, 53] 101 = some h
        ∧ mapFind c1.replyHeap h = some (newConnReply sampleSecondReply rh)
        ∧ (newConnReply sampleSecondReply rh).callback = some 5 :=
  have hinv : samplePending.consistent :=
    adbus_conn_addreply_consistent (adbus_Connection.empty []) samplePending sampleReply (some 2)
      (consistent_empty []) (by decide)
  ⟨hinv, by decide,
    (adbus_conn_addreply_fresh samplePending sampleReply hinv).2.1 2 (newConnReply sampleReply 1)
      ⟨1, Remote.mk true [58, 49, 46, 53] [(100, 2)], by decide, by decide, by decide,
        by decide, rfl, rfl⟩,
    ((adbus_conn_addreply_fresh samplePending sampleSecondReply hinv).2.2 (by decide)
      (fun hex => by
        obtain ⟨h, r, rh, remote, h1, h2, h3, _⟩ := hex
        have e1 : mapFind samplePending.remotes
            (registeredName samplePending sampleSecondReply) = some 1 := by decide
        rw [e1] at h1
        have hrh : rh = 1 := (Option.some.inj h1).symm
        rw [hrh] at h2
        have e2 : mapFind samplePending.remoteHeap 1
            = some (Remote.mk true [58, 49, 46, 53] [(100, 2)]) := by decide
        rw [e2] at h2
        have hrem : remote = Remote.mk true [58, 49, 46, 53] [(100, 2)] :=
          (Option.some.inj h2).symm
        rw [hrem] at h3
        have e3 : mapFind (Remote.mk true [58, 49, 46, 53] [(100, 2)]).replies
            (sampleSecondReply.serial % 2 ^ 32) = none := by decide
        rw [e3] at h3
        cases h3)).imp
      (fun _ h1 => h1.imp (fun _ h2 => h2.imp (fun _ h3 => ⟨h3.1, h3.2.1, h3.2.2.1, h3.2.2.2.1⟩)))⟩

/-! ## A reply is stored under the unique name of its remote -/

theorem registeredName_unique (c : adbus_Connection) (reg : adbus_Reply) (U : List Nat)
    (hU : adbusI_lookupService c (replyRemoteName reg) = some (some U)) :
    registeredName c reg = U := by
  unfold registeredName
  rw [hU]

/-- C30: when the name tracker has the unique name `U` for the name of the
remote of a registration, and no reply is pending for `U` and the serial,
`adbus_conn_addreply` on a connection whose tables fit together returns the
address of a reply that is pending for `U` and the serial. If the name of
the remote is not `U`, the lookups for that name find what they found before
the registration. A method return with the sender `U` and the serial as
reply serial is then delivered: `adbusI_dispatchReply` calls the callback of
the registration with `cuser`, through the proxy if the registration has
one, then the release hooks, and returns the value of the call. The
functions of the user leave the connection alone. -/
theorem adbus_conn_addreply_unique_name (ret : Call → Int) (c : adbus_Connection)
    (reg : adbus_Reply) (d : adbus_CbData) (U : List Nat) (f : Nat)
    (hinv : c.consistent)
    (hname : (replyRemoteName reg).length ≠ 0)
    (hU : adbusI_lookupService c (replyRemoteName reg) = some (some U))
    (hcb : reg.callback = some f)
    (hfresh : replyMissing c U (reg.serial % 2 ^ 32))
    (htype : d.type = ADBUS_MSG_RETURN) (hs : d.sender = some U)
    (hr : d.replySerial = some (reg.serial % 2 ^ 32)) :
    ∃ c1 h rh c2,
      adbus_conn_addreply c reg = some (c1, some h)
      ∧ replyPending c1 U (reg.serial % 2 ^ 32) h (newConnReply reg rh)
      ∧ findReply c1 U (reg.serial % 2 ^ 32) = some h
      ∧ (replyRemoteName reg ≠ U →
          ∀ s, findReply c1 (replyRemoteName reg) s = findReply c (replyRemoteName reg) s)
      ∧ adbusI_dispatchReply (inertUser ret) c1 d
          = some (c2, ret (match reg.proxy with
              | some p => Call.proxy p reg.puser (some f) reg.cuser
              | none => Call.callback f reg.cuser))
      ∧ c2.calls = c1.calls
          ++ [match reg.proxy with
              | some p => Call.proxy p reg.puser (some f) reg.cuser
              | none => Call.callback f reg.cuser]
          ++ releaseCall (newConnReply reg rh) false ++ releaseCall (newConnReply reg rh) true
      ∧ findReply c2 U (reg.serial % 2 ^ 32) = none := by
  have hreg := registeredName_unique c reg U hU
  have hinv0 := hinv
  obtain ⟨i1, i3, i4, i5, i6⟩ := hinv
  obtain ⟨c1, h, rh, e, hc, hp, _, _, hremotes, hheap, hrh⟩ :=
    adbus_conn_addreply_state c reg hinv0 hname (by rw [hreg]; exact hfresh)
  rw [hreg] at hp hremotes hrh
  obtain ⟨c2, e2, _, hcalls, _, _, _⟩ :=
    adbusI_dispatchReply_state ret c1 d U (reg.serial % 2 ^ 32) h (newConnReply reg rh) hc
      (Or.inl htype) hs hr hp
  have hdel := delivery_of_callback ret (newConnReply reg rh) d (some f) reg.cuser
    (replyCallback_return (newConnReply reg rh) d f htype hcb)
  have hcall : deliveryCalls (newConnReply reg rh) d
        = [match reg.proxy with
            | some p => Call.proxy p reg.puser (some f) reg.cuser
            | none => Call.callback f reg.cuser]
      ∧ deliveryValue ret (newConnReply reg rh) d
        = ret (match reg.proxy with
            | some p => Call.proxy p reg.puser (some f) reg.cuser
            | none => Call.callback f reg.cuser) := by
    cases hpx : reg.proxy with
    | none => exact hdel.1 hpx
    | some p => exact hdel.2 p hpx
  have hfind : findReply c1 U (reg.serial % 2 ^ 32) = some h := by
    obtain ⟨rh1, remote1, p1, p2, p3, _⟩ := hp
    rw [findReply_bucket c1 _ rh1 remote1 p1 p2]
    exact p3
  refine ⟨c1, h, rh, c2, e, hp, hfind, ?_, ?_, ?_, ?_⟩
  · intro hN s
    unfold findReply
    rw [hremotes, if_neg hN]
    cases hn : mapFind c.remotes (replyRemoteName reg) with
    | none => rfl
    | some rh1 =>
      simp only []
      obtain ⟨remote1, f1, f2, _, _⟩ := i1 _ rh1 hn
      have hq : rh1 ≠ rh := by
        intro hq
        rw [hq] at f1
        rcases hrh with g | ⟨_, g, _⟩
        · obtain ⟨remote2, g1, g2, _, _⟩ := i1 U rh g
          rw [f1] at g1
          have hrem : remote2 = remote1 := (Option.some.inj g1).symm
          rw [hrem, f2] at g2
          exact hN g2
        · rw [g] at f1
          cases f1
      rw [hheap rh1 hq]
  · rw [e2, hcall.2]
  · rw [hcalls, hcall.1]
  · obtain ⟨c3, v3, e3, _, hmiss, _⟩ :=
      adbusI_dispatchReply_inert ret c1 d U (reg.serial % 2 ^ 32) h (newConnReply reg rh)
        (Or.inl htype) hs hr hp
    rw [e2] at e3
    have hc : c2 = c3 := congrArg Prod.fst (Option.some.inj e3)
    rw [hc]
    exact findReply_of_missing c3 _ _ hmiss

/-- C30 at the scenario: the name tracker has the unique name `:1.5` for
`org.a`, and the reply for the serial 100 from `org.a` is registered on a
connection without replies. The reply is pending for `:1.5` and not for
`org.a`, and the method return from `:1.5` with the reply serial 100 calls
the callback 1 with 11. -/
theorem adbus_conn_addreply_unique_name_witness :
    replyRemoteName sampleNamedReply = [111, 114, 103, 46, 97]
    ∧ ∃ c1 h rh c2,
      adbus_conn_addreply (adbus_Connection.empty sampleTracker) sampleNamedReply
        = some (c1, some h)
      ∧ findReply c1 [58, 49, 46, 53] 100 = some h
      ∧ findReply c1 [111, 114, 103, 46, 97] 100 = none
      ∧ adbusI_dispatchReply (inertUser (fun _ => 7)) c1 (sampleReplyData [58, 49, 46, 53] 100)
          = some (c2, 7)
      ∧ c2.calls = c1.calls ++ [Call.callback 1 11]
          ++ releaseCall (newConnReply sampleNamedReply rh) false
          ++ releaseCall (newConnReply sampleNamedReply rh) true :=
  ⟨by decide,
    (adbus_conn_addreply_unique_name (fun _ => 7) (adbus_Connection.empty sampleTracker)
      sampleNamedReply (sampleReplyData [58, 49, 46, 53] 100) [58, 49, 46, 53] 1
      (consistent_empty sampleTracker) (by decide) (by decide) rfl (Or.inl (by decide)) rfl rfl
      rfl).imp
      (fun _ h1 => h1.imp (fun _ h2 => h2.imp (fun _ h3 => h3.imp (fun _ h4 =>
        ⟨h4.1, h4.2.2.1, (h4.2.2.2.1 (by decide) 100).trans (by decide), h4.2.2.2.2.1,
          h4.2.2.2.2.2.1⟩))))⟩

/-! ## The serial counter of a connection -/

theorem addRegistration_serial (c : Connection) (registration : MessageRegistration) :
    (c.addRegistration registration).2 = c.m_NextSerial
    ∧ (c.addRegistration registration).1.m_NextSerial = (c.m_NextSerial + 1) % 2 ^ 32 := by
  unfold Connection.addRegistration
  simp only []
  by_cases h1 : (storedCopy registration).type = DBusMethodReturnMessage
  · rw [if_pos h1]
    exact ⟨rfl, rfl⟩
  · rw [if_neg h1]
    by_cases h2 : (storedCopy registration).type = DBusSignalMessage
    · rw [if_pos h2]
      exact ⟨rfl, rfl⟩
    · rw [if_neg h2]
      exact ⟨rfl, rfl⟩

theorem setupMarshaller_zero (c : Connection) (flags : Nat) :
    (c.setupMarshaller 0 flags).2.serial = c.m_NextSerial
    ∧ (c.setupMarshaller 0 flags).1.m_NextSerial = (c.m_NextSerial + 1) % 2 ^ 32 := by
  unfold Connection.setupMarshaller
  rw [if_pos rfl]
  exact ⟨rfl, rfl⟩

theorem setupMarshaller_given (c : Connection) (serial flags : Nat) (h : serial ≠ 0) :
    (c.setupMarshaller serial flags).2.serial = serial
    ∧ (c.setupMarshaller serial flags).1 = c := by
  unfold Connection.setupMarshaller
  rw [if_neg h]
  exact ⟨rfl, rfl⟩

theorem SerialOp.run_fresh (c : Connection) (op : SerialOp) (h : op.fresh = true) :
    (op.run c).2 = c.m_NextSerial
    ∧ (op.run c).1.m_NextSerial = (c.m_NextSerial + 1) % 2 ^ 32 := by
  cases op with
  | setupMarshaller serial flags =>
    have hs : serial = 0 := by simpa [SerialOp.fresh] using h
    rw [hs]
    exact setupMarshaller_zero c flags
  | addRegistration registration => exact addRegistration_serial c registration

theorem SerialOp.run_given (c : Connection) (op : SerialOp) (h : ¬ op.fresh = true) :
    (op.run c).1 = c := by
  cases op with
  | setupMarshaller serial flags =>
    have hs : serial ≠ 0 := by simpa [SerialOp.fresh] using h
    exact (setupMarshaller_given c serial flags hs).2
  | addRegistration registration => exact absurd rfl h

theorem freshSerials_get (ops : List SerialOp) :
    ∀ (c : Connection) (k : Nat), c.m_NextSerial < 2 ^ 32 →
      k < (freshSerials c ops).length →
      (freshSerials c ops)[k]? = some ((c.m_NextSerial + k) % 2 ^ 32) := by
  induction ops with
  | nil =>
    intro c k _ hk
    simp [freshSerials] at hk
  | cons op rest ih =>
    intro c k hc hk
    unfold freshSerials at hk ⊢
    by_cases hf : op.fresh = true
    · rw [if_pos hf] at hk ⊢
      obtain ⟨h1, h2⟩ := SerialOp.run_fresh c op hf
      cases k with
      | zero =>
        simp only [List.getElem?_cons_zero, h1, Nat.add_zero]
        rw [Nat.mod_eq_of_lt hc]
      | succ k1 =>
        simp only [List.getElem?_cons_succ]
        simp only [List.length_cons] at hk
        rw [ih (op.run c).1 k1 (by rw [h2]; exact Nat.mod_lt _ (by norm_num)) (by omega), h2]
        congr 1
        rw [Nat.add_mod, Nat.mod_mod, ← Nat.add_mod]
        congr 1
        omega
    · rw [if_neg hf] at hk ⊢
      have h1 := SerialOp.run_given c op hf
      rw [h1] at hk ⊢
      exact ih c k hc hk

/-- C31: the serial counter of a new connection is 1. `addRegistration` and
`setupMarshaller` with the serial 0 use the value of the counter as serial
and leave the counter one higher, modulo 2^32; `setupMarshaller` with another
serial uses that serial and leaves the connection as it is. In every
sequence of such calls on a new connection the fresh serial number `k`,
counted from 0, is `k + 1` as long as `k` is below 2^32 - 1: these serials
are not 0, and a later one is greater than an earlier one. -/
theorem freshSerials_count :
    Connection.new.m_NextSerial = 1
    ∧ (∀ (c : Connection) (registration : MessageRegistration),
        (c.addRegistration registration).2 = c.m_NextSerial
        ∧ (c.addRegistration registration).1.m_NextSerial = (c.m_NextSerial + 1) % 2 ^ 32)
    ∧ (∀ (c : Connection) (flags : Nat),
        (c.setupMarshaller 0 flags).2.serial = c.m_NextSerial
        ∧ (c.setupMarshaller 0 flags).1.m_NextSerial = (c.m_NextSerial + 1) % 2 ^ 32)
    ∧ (∀ (c : Connection) (serial flags : Nat), serial ≠ 0 →
        (c.setupMarshaller serial flags).2.serial = serial
        ∧ (c.setupMarshaller serial flags).1 = c)
    ∧ (∀ (ops : List SerialOp) (k : Nat), k < (freshSerials Connection.new ops).length →
        k < 2 ^ 32 - 1 → (freshSerials Connection.new ops)[k]? = some (k + 1))
    ∧ (∀ (ops : List SerialOp) (j k a b : Nat), j < k → k < 2 ^ 32 - 1 →
        (freshSerials Connection.new ops)[j]? = some a →
        (freshSerials Connection.new ops)[k]? = some b → a ≠ 0 ∧ b ≠ 0 ∧ a < b) := by
  have hget : ∀ (ops : List SerialOp) (k : Nat), k < (freshSerials Connection.new ops).length →
      k < 2 ^ 32 - 1 → (freshSerials Connection.new ops)[k]? = some (k + 1) := by
    intro ops k hk hb
    rw [freshSerials_get ops Connection.new k (by decide) hk]
    congr 1
    have h1 : Connection.new.m_NextSerial = 1 := rfl
    rw [h1, Nat.mod_eq_of_lt (by omega)]
    omega
  refine ⟨rfl, addRegistration_serial, setupMarshaller_zero, setupMarshaller_given, hget, ?_⟩
  intro ops j k a b hjk hk ha hb
  have hkl : k < (freshSerials Connection.new ops).length := by
    by_contra hn
    rw [List.getElem?_eq_none (Nat.le_of_not_lt hn)] at hb
    cases hb
  rw [hget ops j (by omega) (by omega)] at ha
  rw [hget ops k hkl hk] at hb
  cases ha
  cases hb
  omega

/-- C31 at the scenario: two registrations, a marshaller with the serial 77 of
the caller and a marshaller with a fresh serial, on a new connection; the
fresh serials are 1, 2 and 3. -/
theorem freshSerials_count_witness :
    freshSerials Connection.new sampleSerialOps = [1, 2, 3]
    ∧ (freshSerials Connection.new sampleSerialOps)[2]? = some (2 + 1)
    ∧ (Connection.new.setupMarshaller 77 0).2.serial = 77
    ∧ (Connection.new.setupMarshaller 77 0).1 = Connection.new :=
  ⟨by decide, freshSerials_count.2.2.2.2.1 sampleSerialOps 2 (by decide) (by norm_num),
    freshSerials_count.2.2.2.1 Connection.new 77 0 (by decide)⟩

/-! ## Objects are bound once -/

theorem mapFind_mapSet_ne {κ α : Type} [DecidableEq κ] (lt : κ → κ → Bool) (l : List (κ × α))
    (k q : κ) (v : α) (h : q ≠ k) : mapFind (mapSet lt l k v) q = mapFind l q := by
  induction l with
  | nil =>
    unfold mapSet mapFind
    rw [if_neg (fun e => h e.symm)]
    rfl
  | cons e rest ih =>
    obtain ⟨k1, v1⟩ := e
    unfold mapSet
    by_cases h1 : k1 = k
    · rw [if_pos h1]
      unfold mapFind
      rw [if_neg (fun e => h e.symm), if_neg (fun e => h (e.symm.trans h1))]
    · rw [if_neg h1]
      by_cases h2 : lt k k1 = true
      · rw [if_pos h2]
        show (if k = q then some v else mapFind ((k1, v1) :: rest) q) = _
        rw [if_neg (fun e => h e.symm)]
      · rw [if_neg h2]
        unfold mapFind
        rw [ih]

theorem mapSet_length_new {κ α : Type} [DecidableEq κ] (lt : κ → κ → Bool) (l : List (κ × α))
    (k : κ) (v : α) (h : mapFind l k = none) : (mapSet lt l k v).length = l.length + 1 := by
  induction l with
  | nil => rfl
  | cons e rest ih =>
    obtain ⟨k1, v1⟩ := e
    unfold mapFind at h
    by_cases h1 : k1 = k
    · rw [if_pos h1] at h
      cases h
    · rw [if_neg h1] at h
      unfold mapSet
      rw [if_neg h1]
      by_cases h2 : lt k k1 = true
      · rw [if_pos h2]
        rfl
      · rw [if_neg h2]
        simp only [List.length_cons, ih h]

theorem newObject_built (name : String) :
    newObject name
      = { m_Name := name,
          m_Interfaces := mapSet stringLt
            (({ m_Name := name, m_Interfaces := [] } : Object).addInterface
              "org.freedesktop.DBus.Introspectable").m_Interfaces
            "org.freedesktop.DBus.Introspectable"
            { name := "org.freedesktop.DBus.Introspectable",
              m_Methods := [("Introspect",
                (MethodBase.mk { name := "Introspect", inArguments := [], outArguments := [],
                                 annotations := [] } 0).addReturn "data" "s")],
              m_Properties := [], m_Signals := [] } } := by
  rfl

theorem addObject_bound (c : Connection) (name : String) (o : Option Object)
    (h : mapFind c.m_Objects name = some o) : c.addObject name = c := by
  unfold Connection.addObject
  rw [h]

/-- C32: `Connection::addObject` for a path that is bound returns the entry of
the path and leaves the connection, with the map and the object, as it is;
for a path that is not bound it returns a new object with the name of the
path, which is then the entry of the path, while the entries of the other
paths stay and the map has one entry more. The new object has the interface
`org.freedesktop.DBus.Introspectable` with the method `Introspect`, which has
no argument and returns the one string `data`. A second `addObject` for the
path changes nothing. `Connection::removeObject` for a path that is not
bound leaves the connection as it is. -/
theorem addObject_idempotent (c : Connection) (name : String) :
    (∀ o, mapFind c.m_Objects name = some o →
        c.addObject name = c ∧ c.addObjectReturned name = o)
    ∧ (mapFind c.m_Objects name = none →
        c.addObjectReturned name = some (newObject name)
        ∧ mapFind (c.addObject name).m_Objects name = some (some (newObject name))
        ∧ (∀ other, other ≠ name →
            mapFind (c.addObject name).m_Objects other = mapFind c.m_Objects other)
        ∧ (c.addObject name).m_Objects.length = c.m_Objects.length + 1
        ∧ (c.addObject name).m_Returns = c.m_Returns
        ∧ (c.addObject name).m_Signals = c.m_Signals
        ∧ (c.addObject name).m_NextSerial = c.m_NextSerial)
    ∧ ((newObject name).m_Name = name
        ∧ (newObject name).m_Interfaces.length = 1
        ∧ ∃ i method,
            mapFind (newObject name).m_Interfaces "org.freedesktop.DBus.Introspectable" = some i
            ∧ i.name = "org.freedesktop.DBus.Introspectable"
            ∧ i.m_Methods = [("Introspect", method)]
            ∧ method.component.name = "Introspect"
            ∧ method.component.inArguments = []
            ∧ method.component.outArguments = [("data", "s")])
    ∧ (c.addObject name).addObject name = c.addObject name
    ∧ (c.addObject name).addObjectReturned name = c.addObjectReturned name
    ∧ (mapFind c.m_Objects name = none → c.removeObject name = c) := by
  have hbound : ∀ o, mapFind c.m_Objects name = some o →
      c.addObject name = c ∧ c.addObjectReturned name = o := by
    intro o h
    unfold Connection.addObject Connection.addObjectReturned
    rw [h]
    exact ⟨rfl, rfl⟩
  have hnew : mapFind c.m_Objects name = none →
      c.addObject name
        = { c with m_Objects := mapSet stringLt c.m_Objects name (some (newObject name)) } := by
    intro h
    unfold Connection.addObject
    rw [h]
  have hfound : mapFind c.m_Objects name = none →
      mapFind (c.addObject name).m_Objects name = some (some (newObject name)) := by
    intro h
    rw [hnew h]
    exact mapFind_mapSet _ _ _ _
  have hret : mapFind c.m_Objects name = none →
      c.addObjectReturned name = some (newObject name) := by
    intro h
    unfold Connection.addObjectReturned
    rw [h]
  refine ⟨hbound, ?_, ⟨rfl, rfl, _, _, rfl, rfl, rfl, rfl, rfl, rfl⟩, ?_, ?_, ?_⟩
  · intro h
    refine ⟨hret h, hfound h, ?_, ?_, ?_, ?_, ?_⟩
    · intro other ho
      rw [hnew h]
      exact mapFind_mapSet_ne _ _ _ _ _ ho
    · rw [hnew h]
      exact mapSet_length_new _ _ _ _ h
    · rw [hnew h]
    · rw [hnew h]
    · rw [hnew h]
  · cases h : mapFind c.m_Objects name with
    | some o =>
      rw [(hbound o h).1]
      exact (hbound o h).1
    | none => exact addObject_bound _ name _ (hfound h)
  · cases h : mapFind c.m_Objects name with
    | some o => rw [(hbound o h).1]
    | none =>
      rw [hret h]
      unfold Connection.addObjectReturned
      rw [hfound h]
  · intro h
    unfold Connection.removeObject FindUsingKey
    simp only [h]

/-- C32 at the scenario: `/a`, `/a/b`, `/a/b/c` and `/a/d` are bound. `addObject`
for `/a/b` returns the object that is bound and changes nothing; `addObject`
for `/a/c` binds a new object; `removeObject` for `/x` changes nothing. -/
theorem addObject_idempotent_witness :
    mapFind sampleTree.m_Objects "/a/b" = some (some (newObject "/a/b"))
    ∧ sampleTree.addObject "/a/b" = sampleTree
    ∧ sampleTree.addObjectReturned "/a/b" = some (newObject "/a/b")
    ∧ mapFind sampleTree.m_Objects "/a/c" = none
    ∧ (sampleTree.addObject "/a/c").m_Objects.length = sampleTree.m_Objects.length + 1
    ∧ (sampleTree.addObject "/a/c").m_Objects.map Prod.fst
        = ["/a", "/a/b", "/a/b/c", "/a/c", "/a/d"]
    ∧ sampleTree.removeObject "/x" = sampleTree :=
  ⟨by decide,
    ((addObject_idempotent sampleTree "/a/b").1 (some (newObject "/a/b")) (by decide)).1,
    ((addObject_idempotent sampleTree "/a/b").1 (some (newObject "/a/b")) (by decide)).2,
    by decide,
    ((addObject_idempotent sampleTree "/a/c").2.1 (by decide)).2.2.2.1,
    by decide,
    (addObject_idempotent sampleTree "/x").2.2.2.2.2 (by decide)⟩

/-! ## The reply to a method call -/

/-- C33: `ObjectInterface::returnMessage` gives a marshaller of the type of a
method return with the serial of the request as reply serial, with the sender
of the request as destination, and without destination when the request has
no sender. The serial of the marshaller is the value of the serial counter
of the connection, which is one higher afterwards, modulo 2^32. The
marshaller has no path, interface, member or error name and no arguments. -/
theorem returnMessage_fields (c : Connection) (request : DBusMessage) :
    (ObjectInterface.returnMessage c request).2.type = DBusMethodReturnMessage
    ∧ (ObjectInterface.returnMessage c request).2.replySerial = some request.serial
    ∧ (ObjectInterface.returnMessage c request).2.destination = request.sender
    ∧ (ObjectInterface.returnMessage c request).2.serial = c.m_NextSerial
    ∧ (ObjectInterface.returnMessage c request).1.m_NextSerial = (c.m_NextSerial + 1) % 2 ^ 32
    ∧ (ObjectInterface.returnMessage c request).1.m_Objects = c.m_Objects
    ∧ (ObjectInterface.returnMessage c request).2.path = none
    ∧ (ObjectInterface.returnMessage c request).2.interface = none
    ∧ (ObjectInterface.returnMessage c request).2.member = none
    ∧ (ObjectInterface.returnMessage c request).2.errorName = none
    ∧ (ObjectInterface.returnMessage c request).2.arguments = [] := by
  unfold ObjectInterface.returnMessage Object.marshaller Connection.setupMarshaller
  rw [if_pos rfl]
  cases hs : request.sender with
  | none => exact ⟨rfl, rfl, rfl, rfl, rfl, rfl, rfl, rfl, rfl, rfl, rfl⟩
  | some remote => exact ⟨rfl, rfl, rfl, rfl, rfl, rfl, rfl, rfl, rfl, rfl, rfl⟩

/-- C33 at the scenario: the method call with the serial 7 from `:1.5` on a new
connection; the return has the reply serial 7, the destination `:1.5` and
the serial 1. -/
theorem returnMessage_fields_witness :
    (ObjectInterface.returnMessage Connection.new
        (methodCall (some "/a") none (some "Ping"))).2
      = { DBusClearMarshaller with
          type := DBusMethodReturnMessage, serial := 1, replySerial := some 7,
          destination := some ":1.5" }
    ∧ (ObjectInterface.returnMessage Connection.new
        (methodCall (some "/a") none (some "Ping"))).2.replySerial = some 7 :=
  ⟨by decide,
    (returnMessage_fields Connection.new (methodCall (some "/a") none (some "Ping"))).2.1⟩

/-! ## The element of a property -/

theorem introspectAnnotations_data (annotations : List (String × String)) :
    ∀ out : String, ∃ tail : List Char,
      (annotations.foldl
        (fun o kv => o ++ ("   <annotation name=\"" ++ kv.1 ++ "\" value=\"" ++ kv.2 ++ "\"/>\n"))
        out).data = out.data ++ tail := by
  induction annotations with
  | nil =>
    intro out
    exact ⟨[], by simp⟩
  | cons kv rest ih =>
    intro out
    obtain ⟨tail, ht⟩ := ih
      (out ++ ("   <annotation name=\"" ++ kv.1 ++ "\" value=\"" ++ kv.2 ++ "\"/>\n"))
    refine ⟨("   <annotation name=\"" ++ kv.1 ++ "\" value=\"" ++ kv.2 ++ "\"/>\n").data
      ++ tail, ?_⟩
    rw [List.foldl_cons, ht, String.data_append, List.append_assoc]

theorem introspectProperty_data (p : PropertyBase) (out : String) :
    ∃ tail : List Char,
      (p.introspectProperty out).data
        = out.data ++ (("  <property name\"" ++ p.component.name ++ "\" type=\""
            ++ p.typeString ++ "\">\n").data ++ tail) := by
  unfold PropertyBase.introspectProperty InterfaceComponent.introspectAnnotations
  obtain ⟨tail, ht⟩ := introspectAnnotations_data p.component.annotations
    (out ++ ("  <property name\"" ++ p.component.name ++ "\" type=\"" ++ p.typeString ++ "\">\n"))
  refine ⟨tail ++ "  </property>\n".data, ?_⟩
  simp only []
  rw [String.data_append, ht, String.data_append]
  simp only [List.append_assoc]

/-- C35 fails: the element that `PropertyBase::introspectProperty` appends for a
property begins with the text `  <property name"`, the name and `" type="`,
the type and `">`: there is no `=` between `name` and the quote. For no
property and no text before it does the output go on with the tag
`  <property name="NAME"` of the specification. -/
theorem introspectProperty_name_without_equals (p : PropertyBase) (out : String) :
    (∃ tail : List Char,
      (p.introspectProperty out).data
        = out.data ++ (("  <property name\"" ++ p.component.name ++ "\" type=\""
            ++ p.typeString ++ "\">\n").data ++ tail))
    ∧ ∀ rest : List Char,
        (p.introspectProperty out).data
          ≠ out.data ++ ((specPropertyTag p.component.name).data ++ rest) := by
  refine ⟨introspectProperty_data p out, ?_⟩
  intro rest heq
  obtain ⟨tail, ht⟩ := introspectProperty_data p out
  rw [ht] at heq
  have h1 := List.append_cancel_left heq
  have h2 := congrArg (List.take 17) h1
  unfold specPropertyTag at h2
  simp only [String.data_append, List.append_assoc] at h2
  simp at h2

/-- C35 at the scenario: the interface `x.Y` with the property `Volume` of the
type `u`, which has one annotation; the text of the introspection. -/
theorem introspectProperty_name_without_equals_witness :
    samplePropertyInterface.introspect ""
      = " <interface name=\"x.Y\">\n"
        ++ "  <property name\"Volume\" type=\"u\">\n"
        ++ "   <annotation name=\"a.b\" value=\"c\"/>\n"
        ++ "  </property>\n"
        ++ " </interface>\n"
    ∧ ∀ rest : List Char,
        (PropertyBase.introspectProperty
          { component := { name := "Volume", inArguments := [], outArguments := [],
                           annotations := [("a.b", "c")] },
            typeString := "u" } "").data
          ≠ "".data ++ ((specPropertyTag "Volume").data ++ rest) :=
  ⟨by decide,
    (introspectProperty_name_without_equals
      { component := { name := "Volume", inArguments := [], outArguments := [],
                       annotations := [("a.b", "c")] },
        typeString := "u" } "").2⟩

/-! ## The loop of the introspection -/

/-- C36 fails: when the entry that follows a bound, non-empty path in the map
of the objects has a name that begins with the path and a `/`, that is when
a descendant of the object is bound, `Connection::introspectObject` does not
return, however often the test of its loop is made and whatever the bytes
behind the names are: the body of the loop never moves the iterator, so the
loop stays at this entry. -/
theorem introspectObject_loops_at_descendant (c : Connection) (behind : List Nat)
    (objectName name : String) (o : Object) (o2 : Option Object)
    (rest : List (String × Option Object))
    (hfind : mapFindFrom c.m_Objects objectName = some (some o, (name, o2) :: rest))
    (hne : objectName.isEmpty = false)
    (hlen : ¬ name.length < (childPath objectName).length)
    (hpre : name.data.take (childPath objectName).length = (childPath objectName).data) :
    ∀ fuel : Nat, c.introspectObject behind fuel objectName = Run.diverge := by
  intro fuel
  unfold Connection.introspectObject
  rw [hfind]
  simp only []
  rw [hne]
  simp only [Bool.false_eq_true, if_false]
  unfold childPath at hlen hpre
  rw [introspectChildren_stuck behind _ name o2 rest hlen hpre]

/-- C36 at the scenario: `/a`, `/a/b`, `/a/b/c` and `/a/d` are bound, and `/a/b`
is introspected: the loop stays at `/a/b/c`. -/
theorem introspectObject_loops_at_descendant_witness :
    mapFind sampleTree.m_Objects "/a/b" = some (some (newObject "/a/b"))
    ∧ childPath "/a/b" = "/a/b/"
    ∧ ∀ fuel : Nat, sampleTree.introspectObject [] fuel "/a/b" = Run.diverge :=
  ⟨by decide, by decide,
    introspectObject_loops_at_descendant sampleTree [] "/a/b" "/a/b/c" (newObject "/a/b")
      (some (newObject "/a/b/c")) [("/a/d", some (newObject "/a/d"))] (by decide) (by decide)
      (by decide) (by decide)⟩

/-! ## The keys of a table of fields -/

theorem strncmp_of_begins (key : List Nat) :
    ∀ v : List Nat, key <+: v → strncmp key v key.length = 0 := by
  induction key with
  | nil => intro v _; rfl
  | cons a rest ih =>
    intro v h
    obtain ⟨t, ht⟩ := h
    rw [← ht]
    show strncmp (a :: rest) (a :: (rest ++ t)) (rest.length + 1) = 0
    unfold strncmp
    simp only [List.headD_cons, ne_eq, not_true_eq_false, if_false, List.tail_cons]
    by_cases h0 : a % 256 = 0
    · rw [if_pos h0]
    · rw [if_neg h0]
      exact ih (rest ++ t) ⟨t, rfl⟩

theorem prefix_of_strncmp (key : List Nat) (hk : cBytes key) :
    ∀ v : List Nat, cBytes v → strncmp key v key.length = 0 → key <+: v := by
  induction key with
  | nil => intro v _ _; exact List.nil_prefix
  | cons a rest ih =>
    intro v hv h
    have ha : 0 < a ∧ a < 256 := hk a (List.mem_cons_self _ _)
    have ha1 : a % 256 = a := Nat.mod_eq_of_lt ha.2
    have hrest : cBytes rest := fun b hb => hk b (List.mem_cons_of_mem _ hb)
    cases v with
    | nil =>
      exfalso
      have h1 : strncmp (a :: rest) [] (rest.length + 1)
          = ((a % 256 : Nat) : Int) - ((0 % 256 : Nat) : Int) := by
        unfold strncmp
        simp only [List.headD_cons, List.headD_nil]
        rw [if_pos (by rw [ha1]; omega)]
      rw [List.length_cons, h1, ha1] at h
      omega
    | cons b t =>
      have hb : 0 < b ∧ b < 256 := hv b (List.mem_cons_self _ _)
      have hb1 : b % 256 = b := Nat.mod_eq_of_lt hb.2
      have ht : cBytes t := fun x hx => hv x (List.mem_cons_of_mem _ hx)
      rw [List.length_cons] at h
      unfold strncmp at h
      simp only [List.headD_cons, List.tail_cons, ha1, hb1] at h
      by_cases hab : a = b
      · rw [if_neg (not_not.mpr hab), if_neg (by omega)] at h
        rw [hab]
        exact (List.prefix_cons_inj b).mpr (ih hrest t ht h)
      · rw [if_pos hab] at h
        omega

theorem findValid_iff (key : List Nat) (hk : cBytes key) (valid : List (List Nat))
    (hvalid : ∀ v ∈ valid, cBytes v) :
    findValid key key.length valid = true ↔ ∃ v ∈ valid, key <+: v := by
  induction valid with
  | nil => simp [findValid]
  | cons v rest ih =>
    have ihr := ih (fun x hx => hvalid x (List.mem_cons_of_mem _ hx))
    unfold findValid
    by_cases h : strncmp key v key.length = 0
    · rw [if_pos h]
      simp only [true_iff]
      exact ⟨v, List.mem_cons_self _ _,
        prefix_of_strncmp key hk v (hvalid v (List.mem_cons_self _ _)) h⟩
    · rw [if_neg h, ihr]
      constructor
      · intro hex
        obtain ⟨x, hx, hp⟩ := hex
        exact ⟨x, List.mem_cons_of_mem _ hx, hp⟩
      · intro hex
        obtain ⟨x, hx, hp⟩ := hex
        rcases List.mem_cons.mp hx with he | hm
        · exact absurd (strncmp_of_begins key x hp) (by rw [he]; exact h)
        · exact ⟨x, hm, hp⟩

theorem CheckFields_iff (allowNumbers : Nat) (valid : List (List Nat))
    (hvalid : ∀ v ∈ valid, cBytes v) (table : List LuaKey)
    (hkeys : ∀ key, LuaKey.string key ∈ table → cBytes key) :
    (CheckFields table allowNumbers valid = 0
      ↔ ∀ k ∈ table, (allowNumbers ≠ 0 ∧ ∃ n, k = LuaKey.number n)
          ∨ ∃ key, k = LuaKey.string key ∧ ∃ v ∈ valid, key <+: v)
    ∧ (CheckFields table allowNumbers valid = 0 ∨ CheckFields table allowNumbers valid = -1) := by
  induction table with
  | nil =>
    refine ⟨?_, Or.inl rfl⟩
    simp [CheckFields]
  | cons k rest ih =>
    have ihr := ih (fun key hkey => hkeys key (List.mem_cons_of_mem _ hkey))
    cases k with
    | number n =>
      unfold CheckFields
      simp only []
      by_cases ha : allowNumbers ≠ 0
      · rw [if_pos ha]
        refine ⟨?_, ihr.2⟩
        rw [ihr.1]
        constructor
        · intro hall k hk
          rcases List.mem_cons.mp hk with he | hm
          · exact Or.inl ⟨ha, n, he⟩
          · exact hall k hm
        · intro hall k hk
          exact hall k (List.mem_cons_of_mem _ hk)
      · rw [if_neg ha]
        refine ⟨?_, Or.inr rfl⟩
        constructor
        · intro h
          exact absurd h (by decide)
        · intro hall
          exfalso
          rcases hall (LuaKey.number n) (List.mem_cons_self _ _) with ⟨h1, _⟩ | ⟨key, hkey, _⟩
          · exact ha h1
          · cases hkey
    | other t =>
      show ((-1 : Int) = 0 ↔ _) ∧ ((-1 : Int) = 0 ∨ (-1 : Int) = -1)
      refine ⟨?_, Or.inr rfl⟩
      constructor
      · intro h
        exact absurd h (by decide)
      · intro hall
        exfalso
        rcases hall (LuaKey.other t) (List.mem_cons_self _ _) with ⟨_, n, hn⟩ | ⟨key, hkey, _⟩
        · cases hn
        · cases hkey
    | string key =>
      have hk : cBytes key := hkeys key (List.mem_cons_self _ _)
      have hfind := findValid_iff key hk valid hvalid
      unfold CheckFields
      simp only []
      by_cases hf : findValid key key.length valid = false
      · rw [if_pos hf]
        refine ⟨?_, Or.inr rfl⟩
        constructor
        · intro h
          exact absurd h (by decide)
        · intro hall
          exfalso
          rcases hall (LuaKey.string key) (List.mem_cons_self _ _)
            with ⟨_, n, hn⟩ | ⟨key2, hkey, hex⟩
          · cases hn
          · cases hkey
            rw [hfind.mpr hex] at hf
            cases hf
      · rw [if_neg hf]
        have hft : findValid key key.length valid = true := by
          cases hb : findValid key key.length valid with
          | true => rfl
          | false => exact absurd hb hf
        refine ⟨?_, ihr.2⟩
        rw [ihr.1]
        constructor
        · intro hall k hk2
          rcases List.mem_cons.mp hk2 with he | hm
          · exact Or.inr ⟨key, he, hfind.mp hft⟩
          · exact hall k hm
        · intro hall k hk2
          exact hall k (List.mem_cons_of_mem _ hk2)

/-- C38 fails: for keys and names that are C strings, `LADBusCheckFields` returns 0
if and only if every key of the table is a string that is a prefix of one
of the valid names, and `LADBusCheckFieldsAllowNumbers` if and only if every
key is a number or such a string; they return -1 otherwise. The inner loop
compares the first `keySize` characters only, so a key that is a proper
prefix of a valid name, and the empty string when there is a valid name, is
accepted. -/
theorem LADBusCheckFields_accepts_prefixes (table : List LuaKey) (valid : List (List Nat))
    (hvalid : ∀ v ∈ valid, cBytes v)
    (hkeys : ∀ key, LuaKey.string key ∈ table → cBytes key) :
    (LADBusCheckFields table valid = 0
      ↔ ∀ k ∈ table, ∃ key, k = LuaKey.string key ∧ ∃ v ∈ valid, key <+: v)
    ∧ (LADBusCheckFieldsAllowNumbers table valid = 0
      ↔ ∀ k ∈ table, (∃ n, k = LuaKey.number n)
          ∨ ∃ key, k = LuaKey.string key ∧ ∃ v ∈ valid, key <+: v)
    ∧ (LADBusCheckFields table valid = 0 ∨ LADBusCheckFields table valid = -1)
    ∧ (LADBusCheckFieldsAllowNumbers table valid = 0
        ∨ LADBusCheckFieldsAllowNumbers table valid = -1) := by
  have h0 := CheckFields_iff 0 valid hvalid table hkeys
  have h1 := CheckFields_iff 1 valid hvalid table hkeys
  unfold LADBusCheckFields LADBusCheckFieldsAllowNumbers
  refine ⟨?_, ?_, h0.2, h1.2⟩
  · rw [h0.1]
    constructor
    · intro hall k hk
      rcases hall k hk with ⟨hn, _⟩ | hs
      · exact absurd rfl hn
      · exact hs
    · intro hall k hk
      exact Or.inr (hall k hk)
  · rw [h1.1]
    constructor
    · intro hall k hk
      rcases hall k hk with ⟨_, hn⟩ | hs
      · exact Or.inl hn
      · exact Or.inr hs
    · intro hall k hk
      rcases hall k hk with hn | hs
      · exact Or.inl ⟨by decide, hn⟩
      · exact Or.inr hs

/-- C38 at the scenario: the valid names are `name` and `path`, and the table
has the keys `nam` and the empty string; `LADBusCheckFields` returns 0,
although neither key is a valid name. -/
theorem LADBusCheckFields_accepts_prefixes_witness :
    LADBusCheckFields [LuaKey.string [110, 97, 109], LuaKey.string []]
        [[110, 97, 109, 101], [112, 97, 116, 104]] = 0
    ∧ ¬ specKeyValid 0 [[110, 97, 109, 101], [112, 97, 116, 104]] (LuaKey.string [110, 97, 109])
    ∧ ¬ specKeyValid 0 [[110, 97, 109, 101], [112, 97, 116, 104]] (LuaKey.string [])
    ∧ LADBusCheckFields [LuaKey.string [110, 97, 109, 101, 115]]
        [[110, 97, 109, 101], [112, 97, 116, 104]] = -1 :=
  ⟨(LADBusCheckFields_accepts_prefixes [LuaKey.string [110, 97, 109], LuaKey.string []]
      [[110, 97, 109, 101], [112, 97, 116, 104]]
      (by unfold cBytes; decide) (by
        intro key hkey
        simp only [List.mem_cons, LuaKey.string.injEq, List.mem_singleton, List.not_mem_nil,
          or_false] at hkey
        rcases hkey with h | h <;> rw [h] <;> unfold cBytes <;> decide)).1.mpr
      (by
        intro k hk
        simp only [List.mem_cons, List.mem_singleton, List.not_mem_nil, or_false] at hk
        rcases hk with h | h
        · exact ⟨[110, 97, 109], h, [110, 97, 109, 101], by decide, by decide⟩
        · exact ⟨[], h, [110, 97, 109, 101], by decide, by decide⟩),
    by
      unfold specKeyValid
      intro h
      rcases h with ⟨h0, _⟩ | ⟨key, hk, hm⟩
      · exact h0 rfl
      · cases hk
        revert hm
        decide,
    by
      unfold specKeyValid
      intro h
      rcases h with ⟨h0, _⟩ | ⟨key, hk, hm⟩
      · exact h0 rfl
      · cases hk
        revert hm
        decide,
    by decide⟩

/-! ## A value takes one complete type off the signature -/

theorem adbusI_nextarg_basic (c : Nat) (rest : List Nat)
    (hc : c ≠ 97 ∧ c ≠ 40 ∧ c ≠ 123 ∧ c ≠ 41 ∧ c ≠ 125) :
    adbusI_nextarg 0 (c :: rest) = some rest := by
  unfold adbusI_nextarg
  rw [if_neg hc.1, if_neg (by omega), if_neg (by omega), if_pos rfl]

theorem adbusI_nextarg_shift : ∀ (s : List Nat) (k : Nat) (r : List Nat),
    adbusI_nextarg k s = some r → ∀ d, 1 ≤ d → adbusI_nextarg (k + d) s = adbusI_nextarg d r := by
  intro s
  induction s with
  | nil => intro k r h; simp [adbusI_nextarg] at h
  | cons c rest ih =>
    intro k r h d hd
    unfold adbusI_nextarg at h
    conv_lhs => unfold adbusI_nextarg
    by_cases h1 : c = 97
    · rw [if_pos h1] at h ⊢
      exact ih k r h d hd
    rw [if_neg h1] at h ⊢
    by_cases h2 : c = 40 ∨ c = 123
    · rw [if_pos h2] at h ⊢
      have e := ih (k + 1) r h d hd
      rw [show k + d + 1 = k + 1 + d from by omega]
      exact e
    rw [if_neg h2] at h ⊢
    by_cases h3 : c = 41 ∨ c = 125
    · rw [if_pos h3] at h ⊢
      cases k with
      | zero => cases h
      | succ k1 =>
        cases k1 with
        | zero =>
          simp only [] at h
          have hr : rest = r := Option.some.inj h
          obtain ⟨d1, hd1⟩ : ∃ d1, d = d1 + 1 := ⟨d - 1, by omega⟩
          rw [hd1, show 0 + 1 + (d1 + 1) = d1 + 2 from by omega, hr]
        | succ k2 =>
          simp only [] at h
          have e := ih (k2 + 1) r h d hd
          rw [show k2 + 1 + 1 + d = (k2 + d) + 2 from by omega]
          simp only []
          rw [show k2 + d + 1 = k2 + 1 + d from by omega]
          exact e
    rw [if_neg h3] at h ⊢
    by_cases h4 : k = 0
    · rw [if_pos h4] at h
      have hr : rest = r := Option.some.inj h
      rw [if_neg (by omega), h4, Nat.zero_add, hr]
    · rw [if_neg h4] at h
      rw [if_neg (by omega)]
      exact ih k r h d hd

theorem adbusI_iter_fixed_sig {c w p : Nat} {i j : adbus_Iterator}
    (h : adbusI_iter_fixed c w i = some (p, j)) : i.sig = c :: j.sig := by
  unfold adbusI_iter_fixed at h
  split at h
  · cases h
  · rename_i hd rest hsig
    split at h
    · cases h
    · rename_i hne
      split at h
      · cases h
      · split at h
        · cases h
        · cases h
          rw [hsig, not_not.mp hne]

theorem adbusI_iter_lenstring_sig {c native p n : Nat} {data : List Nat} {i j : adbus_Iterator}
    (h : adbusI_iter_lenstring c native data i = some (p, n, j)) : i.sig = c :: j.sig := by
  unfold adbusI_iter_lenstring at h
  split at h
  · cases h
  · rename_i hd rest hsig
    split at h
    · cases h
    · rename_i hne
      split at h
      · cases h
      · split at h
        · cases h
        · simp only [] at h
          split at h
          · cases h
          · split at h
            · cases h
            · cases h
              rw [hsig, not_not.mp hne]

theorem adbus_iter_objectpath_sig {native p n : Nat} {data : List Nat} {i j : adbus_Iterator}
    (h : adbus_iter_objectpath native data i = some (p, n, j)) : i.sig = 111 :: j.sig := by
  unfold adbus_iter_objectpath at h
  split at h
  · cases h
  · rename_i p1 n1 j1 hs
    split at h
    · cases h
      exact adbusI_iter_lenstring_sig hs
    · cases h

theorem adbus_iter_signature_sig {p n : Nat} {data : List Nat} {i j : adbus_Iterator}
    (h : adbus_iter_signature data i = some (p, n, j)) : i.sig = 103 :: j.sig := by
  unfold adbus_iter_signature at h
  split at h
  · cases h
  · rename_i hd rest hsig
    split at h
    · cases h
    · rename_i hne
      split at h
      · cases h
      · cases h
        rw [hsig, not_not.mp hne]

theorem adbus_iter_beginarray_sig {native : Nat} {data : List Nat} {i j : adbus_Iterator}
    {a : adbus_IterArray} (h : adbus_iter_beginarray native data i = some (a, j)) :
    i.sig = 97 :: a.sig := by
  unfold adbus_iter_beginarray at h
  split at h
  · cases h
  · rename_i hd rest hsig
    split at h
    · cases h
    · rename_i hne
      split at h
      · cases h
      · split at h
        · cases h
        · simp only [] at h
          split at h
          · cases h
          · split at h
            · cases h
            · split at h
              · cases h
              · split at h
                · cases h
                · cases h
                  rw [hsig, not_not.mp hne]

theorem adbus_iter_beginstruct_sig {i j : adbus_Iterator}
    (h : adbus_iter_beginstruct i = some j) : i.sig = 40 :: j.sig := by
  unfold adbus_iter_beginstruct at h
  split at h
  · cases h
  · rename_i hd rest hsig
    split at h
    · cases h
    · rename_i hne
      split at h
      · cases h
      · cases h
        rw [hsig, not_not.mp hne]

theorem adbus_iter_endstruct_sig {i j : adbus_Iterator}
    (h : adbus_iter_endstruct i = some j) : i.sig = 41 :: j.sig := by
  unfold adbus_iter_endstruct at h
  split at h
  · cases h
  · rename_i hd rest hsig
    split at h
    · cases h
    · rename_i hne
      cases h
      rw [hsig, not_not.mp hne]

theorem adbus_iter_beginvariant_head {data : List Nat} {i j : adbus_Iterator}
    {v : adbus_IterVariant} (h : adbus_iter_beginvariant data i = some (v, j)) :
    i.sig = 118 :: i.sig.tail ∧ v.origsig = i.sig := by
  unfold adbus_iter_beginvariant at h
  split at h
  · cases h
  · rename_i hd rest hsig
    split at h
    · cases h
    · rename_i hne
      split at h
      · cases h
      · cases h
        rw [hsig, not_not.mp hne]
        exact ⟨rfl, rfl⟩

theorem adbusI_iter_fixed_nextarg {c w : Nat} {i j : adbus_Iterator}
    (h : Res.ofOption ((adbusI_iter_fixed c w i).map Prod.snd) = Res.ok j)
    (hc : c ≠ 97 ∧ c ≠ 40 ∧ c ≠ 123 ∧ c ≠ 41 ∧ c ≠ 125) :
    adbusI_nextarg 0 i.sig = some j.sig := by
  rw [Res.ofOption_eq_ok, Option.map_eq_some'] at h
  obtain ⟨⟨p, k⟩, hk, rfl⟩ := h
  rw [adbusI_iter_fixed_sig hk]
  exact adbusI_nextarg_basic c _ hc

theorem adbus_iter_value_nextarg (native : Nat) (data : List Nat) : ∀ (fuel : Nat),
    (∀ i j, adbus_iter_value fuel native data i = Res.ok j →
        adbusI_nextarg 0 i.sig = some j.sig)
    ∧ (∀ i j, adbusI_iter_fields fuel native data i = Res.ok j →
        adbusI_nextarg 1 i.sig = some j.sig) := by
  intro fuel
  induction fuel with
  | zero =>
    constructor
    · intro i j h
      simp [adbus_iter_value] at h
    · intro i j h
      simp [adbusI_iter_fields] at h
  | succ n ih =>
    obtain ⟨ihv, ihf⟩ := ih
    constructor
    · intro i j h
      rw [adbus_iter_value] at h
      by_cases hc : i.sig.headD 0 = 121
      · rw [if_pos hc] at h
        exact adbusI_iter_fixed_nextarg h (by omega)
      rw [if_neg hc] at h
      clear hc
      by_cases hc : i.sig.headD 0 = 98
      · rw [if_pos hc] at h
        exact adbusI_iter_fixed_nextarg h (by omega)
      rw [if_neg hc] at h
      clear hc
      by_cases hc : i.sig.headD 0 = 110
      · rw [if_pos hc] at h
        exact adbusI_iter_fixed_nextarg h (by omega)
      rw [if_neg hc] at h
      clear hc
      by_cases hc : i.sig.headD 0 = 113
      · rw [if_pos hc] at h
        exact adbusI_iter_fixed_nextarg h (by omega)
      rw [if_neg hc] at h
      clear hc
      by_cases hc : i.sig.headD 0 = 105
      · rw [if_pos hc] at h
        exact adbusI_iter_fixed_nextarg h (by omega)
      rw [if_neg hc] at h
      clear hc
      by_cases hc : i.sig.headD 0 = 117
      · rw [if_pos hc] at h
        exact adbusI_iter_fixed_nextarg h (by omega)
      rw [if_neg hc] at h
      clear hc
      by_cases hc : i.sig.headD 0 = 104
      · rw [if_pos hc] at h
        exact adbusI_iter_fixed_nextarg h (by omega)
      rw [if_neg hc] at h
      clear hc
      by_cases hc : i.sig.headD 0 = 120
      · rw [if_pos hc] at h
        exact adbusI_iter_fixed_nextarg h (by omega)
      rw [if_neg hc] at h
      clear hc
      by_cases hc : i.sig.headD 0 = 116
      · rw [if_pos hc] at h
        exact adbusI_iter_fixed_nextarg h (by omega)
      rw [if_neg hc] at h
      clear hc
      by_cases hc : i.sig.headD 0 = 100
      · rw [if_pos hc] at h
        exact adbusI_iter_fixed_nextarg h (by omega)
      rw [if_neg hc] at h
      clear hc
      by_cases hc : i.sig.headD 0 = 115
      · rw [if_pos hc] at h
        rw [Res.ofOption_eq_ok, Option.map_eq_some'] at h
        obtain ⟨⟨p, k, l⟩, hk, rfl⟩ := h
        unfold adbus_iter_string at hk
        rw [adbusI_iter_lenstring_sig hk]
        exact adbusI_nextarg_basic 115 _ (by omega)
      rw [if_neg hc] at h
      clear hc
      by_cases hc : i.sig.headD 0 = 111
      · rw [if_pos hc] at h
        rw [Res.ofOption_eq_ok, Option.map_eq_some'] at h
        obtain ⟨⟨p, k, l⟩, hk, rfl⟩ := h
        rw [adbus_iter_objectpath_sig hk]
        exact adbusI_nextarg_basic 111 _ (by omega)
      rw [if_neg hc] at h
      clear hc
      by_cases hc : i.sig.headD 0 = 103
      · rw [if_pos hc] at h
        rw [Res.ofOption_eq_ok, Option.map_eq_some'] at h
        obtain ⟨⟨p, k, l⟩, hk, rfl⟩ := h
        rw [adbus_iter_signature_sig hk]
        exact adbusI_nextarg_basic 103 _ (by omega)
      rw [if_neg hc] at h
      clear hc
      by_cases hc : i.sig.headD 0 = 97
      · rw [if_pos hc] at h
        split at h
        · cases h
        · rename_i a k hk
          rw [Res.ofOption_eq_ok] at h
          rw [adbus_iter_beginarray_sig hk]
          unfold adbus_iter_endarray at h
          split at h
          · cases h
          · split at h
            · cases h
            · rename_i r hr
              cases h
              rw [adbusI_nextarg, if_pos rfl]
              exact hr
      rw [if_neg hc] at h
      clear hc
      by_cases hc : i.sig.headD 0 = 40
      · rw [if_pos hc] at h
        split at h
        · cases h
        · rename_i k hk
          have hf := ihf _ _ h
          rw [adbus_iter_beginstruct_sig hk, adbusI_nextarg, if_neg (by omega),
            if_pos (Or.inl rfl)]
          exact hf
      rw [if_neg hc] at h
      clear hc
      by_cases hc : i.sig.headD 0 = 118
      · rw [if_pos hc] at h
        split at h
        · cases h
        · rename_i v k hk
          have ha := adbus_iter_beginvariant_head hk
          split at h
          · rename_i l hl
            rw [Res.ofOption_eq_ok] at h
            have he := adbus_iter_endvariant_adv h
            rw [he.2.2.1, ha.2, ha.1]
            exact adbusI_nextarg_basic 118 _ (by omega)
          · cases h
          · cases h
      rw [if_neg hc] at h
      clear hc
      cases h
    · intro i j h
      rw [adbusI_iter_fields] at h
      by_cases hc : i.sig.headD 0 = 41
      · rw [if_pos hc] at h
        rw [Res.ofOption_eq_ok] at h
        rw [adbus_iter_endstruct_sig h, adbusI_nextarg, if_neg (by omega), if_neg (by omega),
          if_pos (Or.inl rfl)]
      · rw [if_neg hc] at h
        split at h
        · rename_i k hk
          have hv := ihv _ _ hk
          have hf := ihf _ _ h
          have e := adbusI_nextarg_shift i.sig 0 k.sig hv 1 (le_refl _)
          rw [Nat.zero_add] at e
          rw [e]
          exact hf
        · cases h
        · cases h

/-! ## The argument vector of a message -/

theorem parseargsLoop_returns (native : Nat) (data : List Nat) : ∀ (fuel : Nat)
    (i : adbus_Iterator) (args : List adbus_Argument), i.sig.length + 1 ≤ fuel →
    parseargsLoop fuel native data i args ≠ Res.diverge := by
  intro fuel
  induction fuel with
  | zero => intro i args h; omega
  | succ n ih =>
    intro i args h
    rw [parseargsLoop]
    cases hs : i.sig with
    | nil => simp
    | cons c rest =>
      simp only []
      by_cases hc : c = 115
      · rw [if_pos hc]
        cases hstr : adbus_iter_string native data i with
        | none => simp
        | some r =>
          obtain ⟨p, n1, j⟩ := r
          simp only []
          have hlen := (adbusI_iter_lenstring_adv hstr).2.2
          exact ih j _ (by omega)
      · rw [if_neg hc]
        have hret := adbus_iter_value_returns native data i
        cases hv : adbus_iter_value (valueFuel i) native data i with
        | diverge => exact absurd hv hret
        | fail => simp
        | ok j =>
          simp only []
          have hlen := ((adbus_iter_value_adv native data (valueFuel i)).1 i j hv).2.2
          exact ih j _ (by omega)

theorem adbusI_nextarg_suffix : ∀ (s : List Nat) (k : Nat) (r : List Nat),
    adbusI_nextarg k s = some r → s.take (s.length - r.length) ++ r = s := by
  intro s
  induction s with
  | nil => intro k r h; simp [adbusI_nextarg] at h
  | cons c rest ih =>
    intro k r h
    have hlt := adbusI_nextarg_length _ _ _ h
    have hstep : ∀ k1, adbusI_nextarg k1 rest = some r →
        (c :: rest).take ((c :: rest).length - r.length) ++ r = c :: rest := by
      intro k1 h1
      have hl := adbusI_nextarg_length _ _ _ h1
      have e := ih k1 r h1
      simp only [List.length_cons]
      rw [show rest.length + 1 - r.length = (rest.length - r.length) + 1 from by omega,
        List.take_succ_cons, List.cons_append, e]
    have hdone : rest = r → (c :: rest).take ((c :: rest).length - r.length) ++ r = c :: rest := by
      intro e
      rw [← e]
      simp
    unfold adbusI_nextarg at h
    split at h
    · exact hstep _ h
    · split at h
      · exact hstep _ h
      · split at h
        · split at h
          · cases h
          · exact hdone (Option.some.inj h)
          · exact hstep _ h
        · split at h
          · exact hdone (Option.some.inj h)
          · exact hstep _ h

theorem completeTypes_flatten : ∀ (fuel : Nat) (sig : List Nat) (types : List (List Nat)),
    completeTypes fuel sig = some types → types.flatten = sig ∧ ∀ t ∈ types, t ≠ [] := by
  intro fuel
  induction fuel with
  | zero => intro sig types h; simp [completeTypes] at h
  | succ n ih =>
    intro sig types h
    cases hs : sig with
    | nil =>
      rw [hs, completeTypes] at h
      cases h
      exact ⟨rfl, fun t ht => by cases ht⟩
    | cons c rest =>
      rw [hs, completeTypes] at h
      cases hn : adbusI_nextarg 0 (c :: rest) with
      | none =>
        rw [hn] at h
        cases h
      | some r =>
        rw [hn] at h
        simp only [] at h
        cases hr : completeTypes n r with
        | none =>
          rw [hr] at h
          cases h
        | some l =>
          rw [hr] at h
          cases h
          obtain ⟨e1, e2⟩ := ih r l hr
          have hlt := adbusI_nextarg_length _ _ _ hn
          constructor
          · rw [List.flatten_cons, e1]
            exact adbusI_nextarg_suffix _ _ _ hn
          · intro t ht
            rcases List.mem_cons.mp ht with he | hm
            · rw [he]
              intro hnil
              have hl := congrArg List.length hnil
              simp only [List.length_take, List.length_cons, List.length_nil] at hl hlt
              omega
            · exact e2 t hm

/-! ## The end of the bytes that an iterator has before it

The iterator functions move the cursor and take what they have stepped over
off the number of the bytes that are left: the end, `data + size`, stays. -/

theorem adbusI_iter_align_fin {i j : adbus_Iterator} {al : Nat}
    (h : adbusI_iter_align i al = some j) : j.data + j.size = i.data + i.size := by
  unfold adbusI_iter_align at h
  simp only [] at h
  split at h
  · cases h
  · cases h
    simp only []
    omega

theorem adbusI_iter_fixed_fin {c w p : Nat} {i j : adbus_Iterator}
    (h : adbusI_iter_fixed c w i = some (p, j)) : j.data + j.size = i.data + i.size := by
  unfold adbusI_iter_fixed at h
  split at h
  · cases h
  · split at h
    · cases h
    · split at h
      · cases h
      · rename_i k hk
        have ha := adbusI_iter_align_fin hk
        split at h
        · cases h
        · cases h
          simp only []
          omega

theorem adbusI_iter_lenstring_fin {c native p n : Nat} {data : List Nat} {i j : adbus_Iterator}
    (h : adbusI_iter_lenstring c native data i = some (p, n, j)) :
    j.data + j.size = i.data + i.size := by
  unfold adbusI_iter_lenstring at h
  split at h
  · cases h
  · split at h
    · cases h
    · split at h
      · cases h
      · rename_i k hk
        have ha := adbusI_iter_align_fin hk
        split at h
        · cases h
        · simp only [] at h
          split at h
          · cases h
          · split at h
            · cases h
            · cases h
              simp only []
              omega

theorem adbus_iter_objectpath_fin {native p n : Nat} {data : List Nat} {i j : adbus_Iterator}
    (h : adbus_iter_objectpath native data i = some (p, n, j)) :
    j.data + j.size = i.data + i.size := by
  unfold adbus_iter_objectpath at h
  split at h
  · cases h
  · rename_i p1 n1 j1 hs
    split at h
    · cases h
      exact adbusI_iter_lenstring_fin hs
    · cases h

theorem adbusI_iter_sigstring_fin {p n : Nat} {data : List Nat} {i j : adbus_Iterator}
    (h : adbusI_iter_sigstring data i = some (p, n, j)) :
    j.data + j.size = i.data + i.size := by
  unfold adbusI_iter_sigstring at h
  split at h
  · cases h
  · simp only [] at h
    split at h
    · cases h
    · split at h
      · cases h
      · cases h
        simp only []
        omega

theorem adbus_iter_signature_fin {p n : Nat} {data : List Nat} {i j : adbus_Iterator}
    (h : adbus_iter_signature data i = some (p, n, j)) :
    j.data + j.size = i.data + i.size := by
  unfold adbus_iter_signature at h
  split at h
  · cases h
  · split at h
    · cases h
    · split at h
      · cases h
      · rename_i p1 n1 j1 hs
        have ha := adbusI_iter_sigstring_fin hs
        cases h
        exact ha

theorem adbus_iter_beginarray_fin {native : Nat} {data : List Nat} {i j : adbus_Iterator}
    {a : adbus_IterArray} (h : adbus_iter_beginarray native data i = some (a, j)) :
    j.data + j.size = i.data + i.size := by
  unfold adbus_iter_beginarray at h
  split at h
  · cases h
  · split at h
    · cases h
    · split at h
      · cases h
      · rename_i k hk
        have ha := adbusI_iter_align_fin hk
        split at h
        · cases h
        · simp only [] at h
          split at h
          · cases h
          · split at h
            · cases h
            · split at h
              · cases h
              · rename_i l hl
                have hb := adbusI_iter_align_fin hl
                simp only [] at hb
                split at h
                · cases h
                · cases h
                  omega

theorem adbus_iter_beginstruct_fin {i j : adbus_Iterator}
    (h : adbus_iter_beginstruct i = some j) : j.data + j.size = i.data + i.size := by
  unfold adbus_iter_beginstruct at h
  split at h
  · cases h
  · split at h
    · cases h
    · split at h
      · cases h
      · rename_i k hk
        have ha := adbusI_iter_align_fin hk
        cases h
        exact ha

theorem adbus_iter_beginvariant_fin {data : List Nat} {i j : adbus_Iterator}
    {v : adbus_IterVariant} (h : adbus_iter_beginvariant data i = some (v, j)) :
    j.data + j.size = i.data + i.size := by
  unfold adbus_iter_beginvariant at h
  split at h
  · cases h
  · split at h
    · cases h
    · split at h
      · cases h
      · rename_i p n j1 hs
        have ha := adbusI_iter_sigstring_fin hs
        cases h
        exact ha

theorem adbusI_iter_fixed_value_fin {c w : Nat} {i j : adbus_Iterator}
    (h : Res.ofOption ((adbusI_iter_fixed c w i).map Prod.snd) = Res.ok j) :
    j.data + j.size = i.data + i.size := by
  rw [Res.ofOption_eq_ok, Option.map_eq_some'] at h
  obtain ⟨⟨p, k⟩, hk, rfl⟩ := h
  exact adbusI_iter_fixed_fin hk

/-- The function `adbus_iter_value` leaves the end of the bytes, `data + size`, where it
was. -/
theorem adbus_iter_value_fin (native : Nat) (data : List Nat) : ∀ (fuel : Nat),
    (∀ i j, adbus_iter_value fuel native data i = Res.ok j → j.data + j.size = i.data + i.size)
    ∧ (∀ i j, adbusI_iter_fields fuel native data i = Res.ok j →
        j.data + j.size = i.data + i.size) := by
  intro fuel
  induction fuel with
  | zero =>
    constructor
    · intro i j h
      simp [adbus_iter_value] at h
    · intro i j h
      simp [adbusI_iter_fields] at h
  | succ n ih =>
    obtain ⟨ihv, ihf⟩ := ih
    constructor
    · intro i j h
      rw [adbus_iter_value] at h
      by_cases hc : i.sig.headD 0 = 121
      · rw [if_pos hc] at h
        exact adbusI_iter_fixed_value_fin h
      rw [if_neg hc] at h
      clear hc
      by_cases hc : i.sig.headD 0 = 98
      · rw [if_pos hc] at h
        exact adbusI_iter_fixed_value_fin h
      rw [if_neg hc] at h
      clear hc
      by_cases hc : i.sig.headD 0 = 110
      · rw [if_pos hc] at h
        exact adbusI_iter_fixed_value_fin h
      rw [if_neg hc] at h
      clear hc
      by_cases hc : i.sig.headD 0 = 113
      · rw [if_pos hc] at h
        exact adbusI_iter_fixed_value_fin h
      rw [if_neg hc] at h
      clear hc
      by_cases hc : i.sig.headD 0 = 105
      · rw [if_pos hc] at h
        exact adbusI_iter_fixed_value_fin h
      rw [if_neg hc] at h
      clear hc
      by_cases hc : i.sig.headD 0 = 117
      · rw [if_pos hc] at h
        exact adbusI_iter_fixed_value_fin h
      rw [if_neg hc] at h
      clear hc
      by_cases hc : i.sig.headD 0 = 104
      · rw [if_pos hc] at h
        exact adbusI_iter_fixed_value_fin h
      rw [if_neg hc] at h
      clear hc
      by_cases hc : i.sig.headD 0 = 120
      · rw [if_pos hc] at h
        exact adbusI_iter_fixed_value_fin h
      rw [if_neg hc] at h
      clear hc
      by_cases hc : i.sig.headD 0 = 116
      · rw [if_pos hc] at h
        exact adbusI_iter_fixed_value_fin h
      rw [if_neg hc] at h
      clear hc
      by_cases hc : i.sig.headD 0 = 100
      · rw [if_pos hc] at h
        exact adbusI_iter_fixed_value_fin h
      rw [if_neg hc] at h
      clear hc
      by_cases hc : i.sig.headD 0 = 115
      · rw [if_pos hc] at h
        rw [Res.ofOption_eq_ok, Option.map_eq_some'] at h
        obtain ⟨⟨p, k, l⟩, hk, rfl⟩ := h
        exact adbusI_iter_lenstring_fin hk
      rw [if_neg hc] at h
      clear hc
      by_cases hc : i.sig.headD 0 = 111
      · rw [if_pos hc] at h
        rw [Res.ofOption_eq_ok, Option.map_eq_some'] at h
        obtain ⟨⟨p, k, l⟩, hk, rfl⟩ := h
        exact adbus_iter_objectpath_fin hk
      rw [if_neg hc] at h
      clear hc
      by_cases hc : i.sig.headD 0 = 103
      · rw [if_pos hc] at h
        rw [Res.ofOption_eq_ok, Option.map_eq_some'] at h
        obtain ⟨⟨p, k, l⟩, hk, rfl⟩ := h
        exact adbus_iter_signature_fin hk
      rw [if_neg hc] at h
      clear hc
      by_cases hc : i.sig.headD 0 = 97
      · rw [if_pos hc] at h
        split at h
        · cases h
        · rename_i a k hk
          have ha := adbus_iter_beginarray_adv hk
          have hb := adbus_iter_beginarray_fin hk
          rw [Res.ofOption_eq_ok] at h
          have he := adbus_iter_endarray_adv h
          simp only [] at he
          omega
      rw [if_neg hc] at h
      clear hc
      by_cases hc : i.sig.headD 0 = 40
      · rw [if_pos hc] at h
        split at h
        · cases h
        · rename_i k hk
          have ha := adbus_iter_beginstruct_fin hk
          have hf := ihf _ _ h
          omega
      rw [if_neg hc] at h
      clear hc
      by_cases hc : i.sig.headD 0 = 118
      · rw [if_pos hc] at h
        split at h
        · cases h
        · rename_i v k hk
          have ha := adbus_iter_beginvariant_fin hk
          split at h
          · rename_i l hl
            have hv := ihv _ _ hl
            rw [Res.ofOption_eq_ok] at h
            have he := adbus_iter_endvariant_adv h
            omega
          · cases h
          · cases h
      rw [if_neg hc] at h
      clear hc
      cases h
    · intro i j h
      rw [adbusI_iter_fields] at h
      by_cases hc : i.sig.headD 0 = 41
      · rw [if_pos hc] at h
        rw [Res.ofOption_eq_ok] at h
        have := adbus_iter_endstruct_adv h
        omega
      · rw [if_neg hc] at h
        split at h
        · rename_i k hk
          have hv := ihv _ _ hk
          have hf := ihf _ _ h
          omega
        · cases h
        · cases h

theorem specArguments_length (native : Nat) (data : List Nat) (fin : Nat) :
    ∀ (types : List (List Nat)) (pos : Nat) (args : List adbus_Argument),
      specArguments native data fin pos types = some args → args.length = types.length := by
  intro types
  induction types with
  | nil =>
    intro pos args h
    rw [specArguments] at h
    cases h
    rfl
  | cons t ts ih =>
    intro pos args h
    rw [specArguments] at h
    split at h
    · simp only [] at h
      split at h
      · cases h
      · rw [Option.map_eq_some'] at h
        obtain ⟨l, hl, rfl⟩ := h
        simp only [List.length_cons, ih _ _ hl]
    · split at h
      · rw [Option.map_eq_some'] at h
        obtain ⟨l, hl, rfl⟩ := h
        simp only [List.length_cons, ih _ _ hl]
      · cases h
      · cases h

theorem adbus_iter_string_place {native p n : Nat} {data : List Nat} {i j : adbus_Iterator}
    (h : adbus_iter_string native data i = some (p, n, j)) :
    p = ADBUSI_ALIGN i.data 4 + 4
    ∧ n = Get32 native data (ADBUSI_ALIGN i.data 4)
    ∧ ADBUSI_ALIGN i.data 4 + 4 + n + 1 ≤ i.data + i.size
    ∧ byteAt data (ADBUSI_ALIGN i.data 4 + 4 + n) = 0
    ∧ j.data = ADBUSI_ALIGN i.data 4 + 4 + n + 1 := by
  have hge := ADBUSI_ALIGN_ge i.data
  unfold adbus_iter_string adbusI_iter_lenstring at h
  split at h
  · cases h
  · split at h
    · cases h
    · split at h
      · cases h
      · rename_i k hk
        unfold adbusI_iter_align at hk
        simp only [] at hk
        split at hk
        · cases hk
        · rename_i hpad
          cases hk
          simp only [] at h
          have e : i.data + (ADBUSI_ALIGN i.data 4 - i.data) = ADBUSI_ALIGN i.data 4 := by omega
          rw [e] at h
          split at h
          · cases h
          · split at h
            · cases h
            · split at h
              · cases h
              · rename_i h4 hlen hz
                cases h
                refine ⟨rfl, rfl, ?_, not_not.mp hz, rfl⟩
                omega

theorem parseargsLoop_spec (native : Nat) (data : List Nat) : ∀ (fuel : Nat)
    (i : adbus_Iterator) (args out : List adbus_Argument),
    parseargsLoop fuel native data i args = Res.ok out →
    ∀ F, i.sig.length + 1 ≤ F →
      ∃ types new, completeTypes F i.sig = some types ∧ out = args ++ new
        ∧ specArguments native data (i.data + i.size) i.data types = some new := by
  intro fuel
  induction fuel with
  | zero => intro i args out h; simp [parseargsLoop] at h
  | succ n ih =>
    intro i args out h F hF
    obtain ⟨F1, hF1⟩ : ∃ F1, F = F1 + 1 := ⟨F - 1, by omega⟩
    rw [hF1]
    rw [parseargsLoop] at h
    cases hs : i.sig with
    | nil =>
      rw [hs] at h
      simp only [] at h
      cases h
      exact ⟨[], [], rfl, by simp, rfl⟩
    | cons c rest =>
      rw [hs] at h
      simp only [] at h
      by_cases hc : c = 115
      · rw [if_pos hc] at h
        cases hstr : adbus_iter_string native data i with
        | none =>
          rw [hstr] at h
          cases h
        | some r =>
          obtain ⟨p, n1, j⟩ := r
          rw [hstr] at h
          simp only [] at h
          have hsig := adbusI_iter_lenstring_sig hstr
          rw [hs] at hsig
          have hrest : rest = j.sig := (List.cons.inj hsig).2
          have hfin := adbusI_iter_lenstring_fin hstr
          obtain ⟨hp, hn1, hin, hz, hj⟩ := adbus_iter_string_place hstr
          have hnext : adbusI_nextarg 0 (c :: rest) = some j.sig := by
            rw [← hrest]
            exact adbusI_nextarg_basic c rest (by omega)
          have hlen : (c :: rest).length = rest.length + 1 := rfl
          rw [hs] at hF
          obtain ⟨types, new, e1, e2, e3⟩ := ih j _ out h F1 (by rw [← hrest]; omega)
          refine ⟨(c :: rest).take ((c :: rest).length - j.sig.length) :: types,
            { value := some p, size := n1 } :: new, ?_, ?_, ?_⟩
          · rw [completeTypes]
            simp only [hnext, e1, Option.map_some']
          · rw [e2, List.append_assoc]
            rfl
          · have ht : (c :: rest).take ((c :: rest).length - j.sig.length) = [115] := by
              rw [← hrest, hc]
              simp
            rw [ht, specArguments, if_pos rfl]
            simp only []
            rw [← hn1, if_neg (by
              intro hbad
              rcases hbad with hb | hb
              · omega
              · exact hb hz)]
            rw [hfin, hj] at e3
            rw [e3, hp]
            rfl
      · rw [if_neg hc] at h
        cases hv : adbus_iter_value (valueFuel i) native data i with
        | diverge =>
          rw [hv] at h
          cases h
        | fail =>
          rw [hv] at h
          cases h
        | ok j =>
          rw [hv] at h
          simp only [] at h
          have hn := (adbus_iter_value_nextarg native data (valueFuel i)).1 i j hv
          rw [hs] at hn
          have hlt := adbusI_nextarg_length _ _ _ hn
          have hfin := (adbus_iter_value_fin native data (valueFuel i)).1 i j hv
          rw [hs] at hF
          simp only [List.length_cons] at hF hlt
          obtain ⟨types, new, e1, e2, e3⟩ := ih j _ out h F1 (by omega)
          refine ⟨(c :: rest).take ((c :: rest).length - j.sig.length) :: types,
            { value := none, size := 0 } :: new, ?_, ?_, ?_⟩
          · rw [completeTypes]
            simp only [hn, e1, Option.map_some']
          · rw [e2, List.append_assoc]
            rfl
          · have ht : (c :: rest).take ((c :: rest).length - j.sig.length) ≠ [115] := by
              intro ht
              simp only [List.length_cons] at ht
              rw [show rest.length + 1 - j.sig.length = (rest.length - j.sig.length) + 1
                from by omega, List.take_succ_cons] at ht
              exact hc (List.cons.inj ht).1
            have hflat : ((c :: rest).take ((c :: rest).length - j.sig.length) :: types).flatten
                = i.sig := by
              rw [List.flatten_cons, (completeTypes_flatten _ _ _ e1).1, hs]
              exact adbusI_nextarg_suffix _ _ _ hn
            have hi : adbus_Iterator.mk i.data (i.data + i.size - i.data)
                ((c :: rest).take ((c :: rest).length - j.sig.length) :: types).flatten = i := by
              rw [hflat, Nat.add_sub_cancel_left]
            rw [specArguments, if_neg ht, hi, hv]
            simp only []
            rw [hfin] at e3
            rw [e3]
            rfl

/-- C34, amended: when the field `arguments` of the message is not null,
`adbus_parseargs` returns 0 at once and leaves the message as it is. When it
is null, and the message has a signature and a body, `adbus_parseargs`
returns, with 0 or with -1. With 0 the signature is a sequence of complete
types, the vector has one entry for each of them, in their order, and
`argumentsSize` is their number; the entries are those of the
specification for the body, which lies from `argdata` up to
`argdata + argsize`: the entry of a type `s` points to the bytes of this
string in the body, behind the length word of the string at the 4-byte
boundary where the argument lies, and has the number of the bytes as size,
and the entry of every other type has a null value and the size 0. With -1
the message is left as it was. -/
theorem adbus_parseargs_entries (native : Nat) (data : List Nat) (m : adbus_Message) :
    (∀ old, m.arguments = some old → adbus_parseargs native data m = some (m, 0))
    ∧ (∀ s, m.arguments = none → m.signature = some s → (m.argdata ≠ none ∨ m.argsize = 0) →
        (∃ types args,
            adbus_parseargs native data m = some (withArguments m args, 0)
            ∧ completeTypes ((cstringAt data s 255).length + 1) (cstringAt data s 255)
                = some types
            ∧ types.flatten = cstringAt data s 255
            ∧ specArguments native data (m.argdata.getD 0 + m.argsize) (m.argdata.getD 0) types
                = some args
            ∧ (withArguments m args).argumentsSize = types.length
            ∧ (withArguments m args).arguments.getD [] = args)
        ∨ adbus_parseargs native data m = some (m, -1)) := by
  constructor
  · intro old h
    unfold adbus_parseargs
    rw [h]
  · intro s hargs hsig hdata
    have hnot : ¬ (m.argdata = none ∧ m.argsize ≠ 0) := by
      intro hn
      rcases hdata with h1 | h1
      · exact h1 hn.1
      · exact hn.2 h1
    unfold adbus_parseargs
    rw [hargs]
    simp only [hsig]
    rw [if_neg hnot]
    have hret := parseargsLoop_returns native data ((cstringAt data s 255).length + 1)
      { data := m.argdata.getD 0, size := m.argsize, sig := cstringAt data s 255 } []
      (le_refl _)
    cases hl : parseargsLoop ((cstringAt data s 255).length + 1) native data
        { data := m.argdata.getD 0, size := m.argsize, sig := cstringAt data s 255 } [] with
    | diverge => exact absurd hl hret
    | fail => exact Or.inr rfl
    | ok args =>
      left
      obtain ⟨types, new, e1, e2, e3⟩ := parseargsLoop_spec native data _ _ _ _ hl
        ((cstringAt data s 255).length + 1) (le_refl _)
      have hnew : args = new := by rw [e2]; rfl
      rw [← hnew] at e3
      refine ⟨types, args, rfl, e1, (completeTypes_flatten _ _ _ e1).1, e3, ?_, ?_⟩
      · exact specArguments_length native data _ types _ args e3
      · unfold withArguments dv_release
        by_cases hnil : args = []
        · simp only [hnil, if_true]
          rfl
        · simp only [hnil, if_false]
          rfl

/-- C34 as it stands fails: the message has a vector of one entry in its field
`arguments`, and a body with the signature `su`. `adbus_parseargs` returns 0
and leaves the vector as it is, where the signature has two complete types,
the first of them a string. -/
theorem adbus_parseargs_keeps_vector :
    adbus_parseargs 108 sampleArgsData sampleArgsStale = some (sampleArgsStale, 0)
    ∧ sampleArgsStale.arguments = some [{ value := none, size := 0 }]
    ∧ sampleArgsStale.argumentsSize = 1
    ∧ completeTypes 3 (cstringAt sampleArgsData 0 255) = some [[115], [117]] := by
  decide

/-- C34 at two bodies. The body with the signature `su` holds the string `hi`
and the number 5: the vector gets the entry of the string, which points to
the offset 12 and has the size 2, and a null entry for the number. The body
with the signature `ss` holds the strings `hi` and `yo`: the first entry
points to the offset 12 and the second to the offset 20, where the bytes of
`yo` lie, each with the size 2. -/
theorem adbus_parseargs_entries_witness :
    adbus_parseargs 108 sampleArgsData sampleArgsMessage
      = some (withArguments sampleArgsMessage
          [{ value := some 12, size := 2 }, { value := none, size := 0 }], 0)
    ∧ bytesAt sampleArgsData 12 2 = [104, 105]
    ∧ specArguments 108 sampleArgsData 20 8 [[115], [117]]
      = some [{ value := some 12, size := 2 }, { value := none, size := 0 }]
    ∧ adbus_parseargs 108 sampleTwoStrings sampleTwoStringsMessage
      = some (withArguments sampleTwoStringsMessage
          [{ value := some 12, size := 2 }, { value := some 20, size := 2 }], 0)
    ∧ bytesAt sampleTwoStrings 12 2 = [104, 105]
    ∧ bytesAt sampleTwoStrings 20 2 = [121, 111]
    ∧ specArguments 108 sampleTwoStrings 23 8 [[115], [115]]
      = some [{ value := some 12, size := 2 }, { value := some 20, size := 2 }]
    ∧ specArguments 108 sampleTwoStrings 23 8 [[115], [115]]
      ≠ some [{ value := some 12, size := 2 }, { value := some 12, size := 2 }]
    ∧ ((∃ types args,
          adbus_parseargs 108 sampleTwoStrings sampleTwoStringsMessage
            = some (withArguments sampleTwoStringsMessage args, 0)
          ∧ completeTypes ((cstringAt sampleTwoStrings 0 255).length + 1)
              (cstringAt sampleTwoStrings 0 255) = some types
          ∧ types.flatten = cstringAt sampleTwoStrings 0 255
          ∧ specArguments 108 sampleTwoStrings
              (sampleTwoStringsMessage.argdata.getD 0 + sampleTwoStringsMessage.argsize)
              (sampleTwoStringsMessage.argdata.getD 0) types = some args
          ∧ (withArguments sampleTwoStringsMessage args).argumentsSize = types.length
          ∧ (withArguments sampleTwoStringsMessage args).arguments.getD [] = args)
        ∨ adbus_parseargs 108 sampleTwoStrings sampleTwoStringsMessage
            = some (sampleTwoStringsMessage, -1)) :=
  ⟨by decide, by decide, by decide, by decide, by decide, by decide, by decide, by decide,
    (adbus_parseargs_entries 108 sampleTwoStrings sampleTwoStringsMessage).2 0 rfl rfl
      (Or.inl (by decide))⟩

/-! ## The argument vector after `adbus_freeargs` -/

/-- C37 fails: for a message with an argument vector, `adbus_freeargs` sets
`argumentsSize` to 0 and leaves the field `arguments` as it is, the address
of the block that it has freed, and not null. A following `adbus_parseargs`
finds the field set, returns 0 at once and leaves the message as
`adbus_freeargs` left it: the body is not decoded again, and
`argumentsSize` stays 0. -/
theorem adbus_freeargs_keeps_pointer (native : Nat) (data : List Nat) (m : adbus_Message)
    (args : List adbus_Argument) (h : m.arguments = some args) :
    ∃ m1, adbus_freeargs (some m) = some m1
      ∧ m1.arguments = some args
      ∧ m1.argumentsSize = 0
      ∧ adbus_parseargs native data m1 = some (m1, 0) := by
  refine ⟨{ m with argumentsSize := 0 }, rfl, h, rfl, ?_⟩
  unfold adbus_parseargs
  simp only [h]

/-- C37 at the scenario: the message with the signature `su` after
`adbus_parseargs` has a vector of two entries; after `adbus_freeargs` the
field `arguments` is as before, and `adbus_parseargs` leaves `argumentsSize`
at 0, where the message before the first `adbus_parseargs` had no vector. -/
theorem adbus_freeargs_keeps_pointer_witness :
    sampleArgsMessage.arguments = none
    ∧ sampleArgsParsed.argumentsSize = 2
    ∧ sampleArgsParsed.arguments
        = some [{ value := some 12, size := 2 }, { value := none, size := 0 }]
    ∧ ∃ m1, adbus_freeargs (some sampleArgsParsed) = some m1
      ∧ m1.arguments = some [{ value := some 12, size := 2 }, { value := none, size := 0 }]
      ∧ m1.argumentsSize = 0
      ∧ adbus_parseargs 108 sampleArgsData m1 = some (m1, 0) :=
  ⟨by decide, by decide, by decide,
    adbus_freeargs_keeps_pointer 108 sampleArgsData sampleArgsParsed
      [{ value := some 12, size := 2 }, { value := none, size := 0 }] (by decide)⟩

end Adbus
